import Mathlib

/-!
KataGo (hzyhhzy fork): search results, symmetry helpers, NN outputs.

A shallow embedding of parts of `cpp/neuralnet/nninputs.cpp` and
`cpp/search/searchresults.cpp`.

Conventions of the embedding:
* `int` values are `Int` (or `Nat` for symmetry identifiers, which are the
  non-negative ints `0..7`). The one place where a value can leave the range of
  `int`, the conversion of a `double` in `expectedWhiteScoreValue`, is checked in
  `ScoreValue.expectedWhiteScoreValueChecked`.
* `double` / `float` values are rationals `ℚ`. The embedding follows the control
  flow and the arithmetic of the code in exact arithmetic; where a statement
  depends on the rounding of `double` operations, a second definition rounds the
  result of every operation by a function `fl` (`Binary64.round` for the machine,
  the identity for exact arithmetic): `Search.normalizeValuesRounded`,
  `ScoreValue.tableEntryRounded`. A quotient with the divisor 0.0 is not a
  rational: the ownership traversal has no result there.
* A failed `assert` aborts the program; functions that contain one return
  `Option`, with `none` for the abort.
* Functions of the repository that are called by the embedded code but whose
  bodies are in other files are taken as parameters.
-/

namespace KataGo

/-! ## Definitions -/

/-! ### Board locations (`Location`, `Board::NULL_LOC`, `Board::PASS_LOC`) -/

/-- The encoding of board locations (`Location::getLoc`, `Location::getX`,
`Location::getY`, `Board::NULL_LOC`, `Board::PASS_LOC`). These live in the board
module; the code embedded here only calls them, so they are parameters. -/
structure LocEncoding where
  getLoc : Int → Int → Int → Int
  getX : Int → Int → Int
  getY : Int → Int → Int
  NULL_LOC : Int
  PASS_LOC : Int

/-- What the embedded code relies on from the board module: for a cell on a board
of width `xSize`, `getX` and `getY` recover the coordinates from `getLoc`, and the
location of a cell is neither `NULL_LOC` nor `PASS_LOC`. -/
structure LocEncoding.Valid (L : LocEncoding) : Prop where
  getX_getLoc : ∀ x y xSize : Int, 0 ≤ x → x < xSize → 0 ≤ y → L.getX (L.getLoc x y xSize) xSize = x
  getY_getLoc : ∀ x y xSize : Int, 0 ≤ x → x < xSize → 0 ≤ y → L.getY (L.getLoc x y xSize) xSize = y
  ne_null : ∀ x y xSize : Int, 0 ≤ x → x < xSize → 0 ≤ y → L.getLoc x y xSize ≠ L.NULL_LOC
  ne_pass : ∀ x y xSize : Int, 0 ≤ x → x < xSize → 0 ≤ y → L.getLoc x y xSize ≠ L.PASS_LOC

/-- The usual concrete encoding, a board with a one-cell border:
`loc = (x+1) + (y+1)*(xSize+1)`, `NULL_LOC = 0`, `PASS_LOC = 1`. Used to instantiate
the parameter on concrete inputs. -/
def borderedLoc : LocEncoding where
  getLoc := fun x y xSize => (x + 1) + (y + 1) * (xSize + 1)
  getX := fun loc xSize => loc % (xSize + 1) - 1
  getY := fun loc xSize => loc / (xSize + 1) - 1
  NULL_LOC := 0
  PASS_LOC := 1

/-! ### `SymmetryHelpers` (nninputs.cpp) -/

namespace SymmetryHelpers

/-- Modelled from the spec: `SymmetryHelpers::isTranspose` is declared in the header
`nninputs.h`; a symmetry "includes a transpose" when its `0x4` bit is set, the same
test `getSymLoc` performs inline. -/
def isTranspose (symmetry : Nat) : Bool :=
  (symmetry &&& 0x4) != 0

/-- `int SymmetryHelpers::invert(int symmetry)`. -/
def invert (symmetry : Nat) : Nat :=
  if symmetry = 5 then 6
  else if symmetry = 6 then 5
  else symmetry

/-- `int SymmetryHelpers::compose(int firstSymmetry, int nextSymmetry)`. -/
def compose (firstSymmetry nextSymmetry : Nat) : Nat :=
  let nextSymmetry :=
    if isTranspose firstSymmetry then
      (nextSymmetry &&& 0x4) ||| ((nextSymmetry &&& 0x2) >>> 1) ||| ((nextSymmetry &&& 0x1) <<< 1)
    else nextSymmetry
  firstSymmetry ^^^ nextSymmetry

/-- `int SymmetryHelpers::compose(int firstSymmetry, int nextSymmetry, int nextNextSymmetry)`. -/
def compose3 (firstSymmetry nextSymmetry nextNextSymmetry : Nat) : Nat :=
  compose (compose firstSymmetry nextSymmetry) nextNextSymmetry

/-- `Loc SymmetryHelpers::getSymLoc(int x, int y, int xSize, int ySize, int symmetry)`. -/
def getSymLoc (L : LocEncoding) (x y xSize ySize : Int) (symmetry : Nat) : Int :=
  let transpose : Bool := (symmetry &&& 0x4) != 0
  let flipX : Bool := (symmetry &&& 0x2) != 0
  let flipY : Bool := (symmetry &&& 0x1) != 0
  let x := if flipX then xSize - x - 1 else x
  let y := if flipY then ySize - y - 1 else y
  let xy : Int × Int := if transpose then (y, x) else (x, y)
  L.getLoc xy.1 xy.2 (if transpose then ySize else xSize)

/-- `Loc SymmetryHelpers::getSymLoc(Loc loc, int xSize, int ySize, int symmetry)`. -/
def getSymLocOfLoc (L : LocEncoding) (loc xSize ySize : Int) (symmetry : Nat) : Int :=
  if loc = L.NULL_LOC ∨ loc = L.PASS_LOC then loc
  else getSymLoc L (L.getX loc xSize) (L.getY loc xSize) xSize ySize symmetry

end SymmetryHelpers

/-- The part of a `Board` that the symmetry helpers read. -/
structure BoardDims where
  x_size : Int
  y_size : Int

namespace SymmetryHelpers

/-- `Loc SymmetryHelpers::getSymLoc(int x, int y, const Board& board, int symmetry)`. -/
def getSymLocBoard (L : LocEncoding) (x y : Int) (board : BoardDims) (symmetry : Nat) : Int :=
  getSymLoc L x y board.x_size board.y_size symmetry

/-- `Loc SymmetryHelpers::getSymLoc(Loc loc, const Board& board, int symmetry)`. -/
def getSymLocOfLocBoard (L : LocEncoding) (loc : Int) (board : BoardDims) (symmetry : Nat) : Int :=
  if loc = L.NULL_LOC ∨ loc = L.PASS_LOC then loc
  else getSymLocBoard L (L.getX loc board.x_size) (L.getY loc board.x_size) board symmetry

end SymmetryHelpers

/-! ### Data model of the search tree (declared in headers outside this file) -/

/-- `Player` / `Color` values that the embedded code compares against. -/
inductive Player where
  | C_EMPTY
  | P_BLACK
  | P_WHITE
  deriving DecidableEq, Repr

/-- `NodeStats`: the per-node running aggregates, read as one snapshot. -/
structure NodeStats where
  visits : Int
  weightSum : ℚ
  weightSqSum : ℚ
  winLossValueAvg : ℚ
  noResultValueAvg : ℚ
  scoreMeanAvg : ℚ
  scoreMeanSqAvg : ℚ
  leadAvg : ℚ
  utilityAvg : ℚ
  utilitySqAvg : ℚ

/-- `NNOutput`: a cached neural-net evaluation. Arrays (`float*`, `float[]`) are index
functions; an absent (`NULL`) array is `none`. `policyProbs` has
`NNPos::MAX_NN_POLICY_SIZE` entries, `whiteOwnerMap` has `nnXLen * nnYLen`. -/
structure NNOutput where
  nnHash : Nat
  whiteWinProb : ℚ
  whiteLossProb : ℚ
  whiteNoResultProb : ℚ
  whiteScoreMean : ℚ
  whiteScoreMeanSq : ℚ
  whiteLead : ℚ
  varTimeLeft : ℚ
  shorttermWinlossError : ℚ
  shorttermScoreError : ℚ
  policyProbs : Nat → ℚ
  policyOptimismUsed : ℚ
  nnXLen : Nat
  nnYLen : Nat
  whiteOwnerMap : Option (Nat → ℚ)
  noisedPolicyProbs : Option (Nat → ℚ)

/-- Modelled from the spec: `NNOutput::getPolicyProbsMaybeNoised` is defined in the
header; the NN output has "an optional noised policy variant used for noise-injected
selection", so the noised array is returned when present and the plain one otherwise. -/
def NNOutput.getPolicyProbsMaybeNoised (o : NNOutput) : Nat → ℚ :=
  match o.noisedPolicyProbs with
  | some noised => noised
  | none => o.policyProbs

/-- `SearchNode`: `children` is the allocated prefix of the child-slot array (the
loops over `children[i].getIfAllocated()` all stop at the first empty slot). -/
inductive SearchNode where
  | mk (nextPla : Player) (prevMoveLoc : Int) (stats : NodeStats)
      (nnOutput : Option NNOutput) (children : List SearchNode) : SearchNode

namespace SearchNode

/-- Field `nextPla`. -/
def nextPla : SearchNode → Player
  | .mk p _ _ _ _ => p

/-- Field `prevMoveLoc`. -/
def prevMoveLoc : SearchNode → Int
  | .mk _ l _ _ _ => l

/-- Field `stats`. -/
def stats : SearchNode → NodeStats
  | .mk _ _ s _ _ => s

/-- `SearchNode::getNNOutput()`. -/
def getNNOutput : SearchNode → Option NNOutput
  | .mk _ _ _ o _ => o

/-- `SearchNode::getChildren(...)`, up to the first empty slot. -/
def getChildren : SearchNode → List SearchNode
  | .mk _ _ _ _ cs => cs

end SearchNode

/-- The fields of `SearchParams` read by the embedded code. -/
structure SearchParams where
  winLossUtilityFactor : ℚ
  staticScoreUtilityFactor : ℚ
  dynamicScoreUtilityFactor : ℚ
  useLcbForSelection : Bool
  useNonBuggyLcb : Bool
  lcbStdevs : ℚ
  minVisitPropForLCB : ℚ
  chosenMoveSubtract : ℚ
  chosenMovePrune : ℚ
  dynamicScoreCenterScale : ℚ := 1
  /-- Modelled from the spec: section 6 lists `minVisitsForLCB` among the search
  parameters; no code under `src/` reads a field of that name (the LCB stage compares with
  the constant `MIN_VISITS_FOR_LCB`). -/
  minVisitsForLCB : ℚ := 3
  rootSymmetryPruning : Bool := false

/-- Functions of the repository (and of libm) that the embedded code calls and whose
bodies are in files other than the embedded ones. Each is a parameter. -/
structure Externs where
  /-- `Search::shouldSuppressPass(const SearchNode*)`. -/
  shouldSuppressPass : SearchNode → Bool
  /-- `Search::getFpuValueForChildrenAssumeVisited(node, pla, isRoot, policyProbMassVisited, ...)`;
  returns `(fpuValue, parentUtility, parentWeightPerVisit, parentUtilityStdevFactor)`. -/
  getFpuValueForChildrenAssumeVisited : SearchNode → Player → Bool → ℚ → ℚ × ℚ × ℚ × ℚ
  /-- `Search::getExploreSelectionValue(parent, policyProbs, child, totalChildWeight, fpuValue,
  parentUtility, parentWeightPerVisit, parentUtilityStdevFactor, isDuringSearch,
  antiMirror, maxChildWeight, thread)`. -/
  getExploreSelectionValue :
    SearchNode → (Nat → ℚ) → SearchNode → ℚ → ℚ → ℚ → ℚ → ℚ → Bool → Bool → ℚ → ℚ
  /-- `Search::getReducedPlaySelectionWeight(parent, policyProbs, child, totalChildWeight,
  parentUtilityStdevFactor, bestChildExploreSelectionValue)`. -/
  getReducedPlaySelectionWeight : SearchNode → (Nat → ℚ) → SearchNode → ℚ → ℚ → ℚ → ℚ
  /-- `Search::getEndingWhiteScoreBonus(parent, child)`. -/
  getEndingWhiteScoreBonus : SearchNode → SearchNode → ℚ
  /-- `Search::getScoreUtilityDiff(scoreMeanAvg, scoreMeanSqAvg, delta)`. -/
  getScoreUtilityDiff : ℚ → ℚ → ℚ → ℚ
  /-- `Search::computeWeightFromNNOutput(nnOutput)`. -/
  computeWeightFromNNOutput : NNOutput → ℚ
  /-- `rootHistory.isLegal(rootBoard, moveLoc, rootPla)`. -/
  isLegal : Int → Player → Bool
  /-- `Search::isAllowedRootMove(moveLoc)`. -/
  isAllowedRootMove : Int → Bool
  /-- `sqrt` of libm. -/
  sqrt : ℚ → ℚ

/-- The fields of the `Search` object read by the embedded code. -/
structure Search where
  searchParams : SearchParams
  rootNode : Option SearchNode
  rootPla : Player
  rootBoard : BoardDims
  nnXLen : Nat
  nnYLen : Nat
  policySize : Nat
  alwaysIncludeOwnerMap : Bool
  avoidMoveUntilByLocBlack : List Int
  avoidMoveUntilByLocWhite : List Int
  normToTApproxTable : List ℚ
  /-- `Board::MAX_ARR_SIZE`. -/
  MAX_ARR_SIZE : Nat
  recentScoreCenter : ℚ := 0
  /-- `rootSymmetries`: the symmetries of the root position found by
  `markDuplicateMoveLocs`. -/
  rootSymmetries : List Nat := [0]

/-- `round` of libm on a `double`: to the nearest integer, halves away from zero. -/
def cround (x : ℚ) : Int :=
  if 0 ≤ x then Int.floor (x + 1 / 2) else Int.ceil (x - 1 / 2)

/-- `static const int64_t MIN_VISITS_FOR_LCB = 3;` -/
def MIN_VISITS_FOR_LCB : Int := 3

/-! ### `NNPos` (nninputs.cpp) -/

namespace NNPos

/-- `int NNPos::xyToPos(int x, int y, int nnXLen)`. -/
def xyToPos (x y nnXLen : Int) : Int :=
  y * nnXLen + x

/-- `Loc NNPos::posToLoc(int pos, int boardXSize, int boardYSize, int nnXLen, int nnYLen)`.
`%` and `/` of C truncate towards zero. -/
def posToLoc (L : LocEncoding) (pos boardXSize boardYSize nnXLen nnYLen : Int) : Int :=
  if pos = nnXLen * nnYLen then L.PASS_LOC
  else
    let x := Int.tmod pos nnXLen
    let y := Int.tdiv pos nnXLen
    if x < 0 ∨ x ≥ boardXSize ∨ y < 0 ∨ y ≥ boardYSize then L.NULL_LOC
    else L.getLoc x y boardXSize

end NNPos

/-! ### Averaging NN outputs (nninputs.cpp) -/

namespace NNOutput

/-- Lines 315-335: the average of the ownership maps that are present. The inner `none` is
a `NULL` map; the outer `none` is the failed `assert(whiteOwnerMapCount > 0)`. -/
def averageOwnerMap (others : List NNOutput) (nnXLen nnYLen : Nat) : Option (Option (Nat → ℚ)) :=
  let summed : Option (Nat → ℚ) × ℚ :=
    others.foldl
      (fun acc other =>
        match other.whiteOwnerMap with
        | none => acc
        | some otherMap =>
          let whiteOwnerMap : Nat → ℚ :=
            match acc.1 with
            | none => fun _ => 0
            | some m => m
          (some (fun pos =>
              if pos < nnXLen * nnYLen then whiteOwnerMap pos + otherMap pos
              else whiteOwnerMap pos),
            acc.2 + 1))
      (none, 0)
  match summed.1 with
  | none => some none
  | some m =>
    if summed.2 > 0 then
      some (some (fun pos => if pos < nnXLen * nnYLen then m pos / summed.2 else m pos))
    else none

/-- Lines 347-349: the body of the loop over `pos` for the `i`-th input `other`. The state
is `(mismatch, policyProbs)`. -/
def policySumStep (i : Nat) (other : NNOutput) (acc : Bool × (Nat → ℚ)) (pos : Nat) :
    Bool × (Nat → ℚ) :=
  let mismatch := acc.1
  let policyProbs := acc.2
  let mismatch :=
    if i > 0 ∧ (decide (policyProbs pos < 0) != decide (other.policyProbs pos < 0)) then true
    else mismatch
  (mismatch, fun p => if p = pos then policyProbs pos + other.policyProbs pos else policyProbs p)

/-- Lines 342-351: `policyProbs` filled with zeros, then the two nested loops. -/
def policySum (MAX_NN_POLICY_SIZE : Nat) (others : List NNOutput) : Bool × (Nat → ℚ) :=
  others.enum.foldl
    (fun acc io => (List.range MAX_NN_POLICY_SIZE).foldl (policySumStep io.1 io.2) acc)
    (false, fun _ => 0)

/-- Lines 339-362: the policy of the averaged output. -/
def averagePolicy (MAX_NN_POLICY_SIZE : Nat) (others : List NNOutput) (first : NNOutput)
    (floatLen : ℚ) : Nat → ℚ :=
  let summed := policySum MAX_NN_POLICY_SIZE others
  let mismatch := summed.1
  let policyProbs := summed.2
  if mismatch then
    fun pos => if pos < MAX_NN_POLICY_SIZE then first.policyProbs pos else policyProbs pos
  else
    fun pos => if pos < MAX_NN_POLICY_SIZE then policyProbs pos / floatLen else policyProbs pos

/-- `NNOutput::NNOutput(const vector<shared_ptr<NNOutput>>& others)`, lines 271-381.
`MAX_NN_POLICY_SIZE` is `NNPos::MAX_NN_POLICY_SIZE`, a constant of the header. `none` when
an `assert` fails. -/
def ofOthers (MAX_NN_POLICY_SIZE : Nat) (others : List NNOutput) : Option NNOutput :=
  if ¬ (others.length < 1000000) then none
  else
    match others with
    | [] => none
    | first :: rest =>
      if rest.all (fun o => o.nnHash == first.nnHash) = false then none
      else
        let floatLen : ℚ := (others.length : ℚ)
        let total (f : NNOutput → ℚ) : ℚ := others.foldl (fun a o => a + f o) 0
        match averageOwnerMap others first.nnXLen first.nnYLen with
        | none => none
        | some whiteOwnerMap =>
          let allOptimismsMatch :=
            rest.all (fun o => decide (o.policyOptimismUsed = first.policyOptimismUsed))
          some
            { nnHash := first.nnHash
              whiteWinProb := total (fun o => o.whiteWinProb) / floatLen
              whiteLossProb := total (fun o => o.whiteLossProb) / floatLen
              whiteNoResultProb := total (fun o => o.whiteNoResultProb) / floatLen
              whiteScoreMean := total (fun o => o.whiteScoreMean) / floatLen
              whiteScoreMeanSq := total (fun o => o.whiteScoreMeanSq) / floatLen
              whiteLead := total (fun o => o.whiteLead) / floatLen
              varTimeLeft := total (fun o => o.varTimeLeft) / floatLen
              shorttermWinlossError := total (fun o => o.shorttermWinlossError) / floatLen
              shorttermScoreError := total (fun o => o.shorttermScoreError) / floatLen
              nnXLen := first.nnXLen
              nnYLen := first.nnYLen
              whiteOwnerMap := whiteOwnerMap
              noisedPolicyProbs := none
              policyProbs := averagePolicy MAX_NN_POLICY_SIZE others first floatLen
              policyOptimismUsed :=
                if allOptimismsMatch then first.policyOptimismUsed
                else others.foldl (fun a o => a + o.policyOptimismUsed / floatLen) 0 }

end NNOutput

/-! ### Play selection (searchresults.cpp) -/

namespace Search

/-- `double Search::getNormToTApproxForLCB(int64_t numVisits) const`. The table is filled
by `maybeRecomputeNormToTApproxTable` from `FancyMath::normToTApprox`; its contents are
the field `normToTApproxTable`. `none` when the `assert` fails or the table is empty. -/
def getNormToTApproxForLCB (s : Search) (numVisits : Int) : Option ℚ :=
  let idx : Int := numVisits - MIN_VISITS_FOR_LCB
  if idx < 0 then none
  else
    let idx : Int :=
      if idx ≥ (s.normToTApproxTable.length : Int) then (s.normToTApproxTable.length : Int) - 1
      else idx
    if idx < 0 then none else s.normToTApproxTable.get? idx.toNat

/-- `void Search::getSelfUtilityLCBAndRadius(parent, child, double& lcbBuf, double& radiusBuf)`;
returns `(lcbBuf, radiusBuf)` as written. -/
def getSelfUtilityLCBAndRadius (E : Externs) (s : Search) (parent child : SearchNode) :
    Option (ℚ × ℚ) :=
  let weightSum := child.stats.weightSum
  let weightSqSum := child.stats.weightSqSum
  let scoreMeanAvg := child.stats.scoreMeanAvg
  let scoreMeanSqAvg := child.stats.scoreMeanSqAvg
  let utilityAvg := child.stats.utilityAvg
  let utilitySqAvg := child.stats.utilitySqAvg
  let radiusBuf : ℚ :=
    2 * (s.searchParams.winLossUtilityFactor + s.searchParams.staticScoreUtilityFactor
          + s.searchParams.dynamicScoreUtilityFactor)
  let lcbBuf : ℚ := -radiusBuf
  if weightSum ≤ 0 ∨ weightSqSum ≤ 0 then some (lcbBuf, radiusBuf)
  else
    let ess := weightSum * weightSum / weightSqSum
    let essInt : Int := cround ess
    if essInt < MIN_VISITS_FOR_LCB then some (lcbBuf, radiusBuf)
    else
      let utilityNoBonus := utilityAvg
      let endingScoreBonus := E.getEndingWhiteScoreBonus parent child
      let utilityDiff := E.getScoreUtilityDiff scoreMeanAvg scoreMeanSqAvg endingScoreBonus
      let utilityWithBonus := utilityNoBonus + utilityDiff
      let selfUtility := if parent.nextPla = Player.P_WHITE then utilityWithBonus else -utilityWithBonus
      let utilityVariance := max (1 / 10 ^ 8 : ℚ) (utilitySqAvg - utilityNoBonus * utilityNoBonus)
      let estimateStdev := E.sqrt (utilityVariance / ess)
      match getNormToTApproxForLCB s essInt with
      | none => none
      | some t =>
        let radius := estimateStdev * t
        some (selfUtility - radius, radius)

/-- The self-perspective utility of `child` seen from `parent`, as computed inside
`getSelfUtilityLCBAndRadius`: the child's utility with the ending bonus, signed for the
player to move at the parent. -/
def selfUtilityWithBonus (E : Externs) (parent child : SearchNode) : ℚ :=
  let utilityWithBonus :=
    child.stats.utilityAvg
      + E.getScoreUtilityDiff child.stats.scoreMeanAvg child.stats.scoreMeanSqAvg
          (E.getEndingWhiteScoreBonus parent child)
  if parent.nextPla = Player.P_WHITE then utilityWithBonus else -utilityWithBonus

/-- The state threaded through `getPlaySelectionValues`: the three output vectors and
the two LCB buffers. -/
structure PSVState where
  locs : List Int
  playSelectionValues : List ℚ
  retVisitCounts : List ℚ
  lcbBuf : List ℚ
  radiusBuf : List ℚ
  deriving DecidableEq

/-- Lines 70-100, "Store up basic weights": one step of the loop over the children.
The state is `(outputs, totalChildWeight, maxChildWeight)`. -/
def storeWeightsStep (L : LocEncoding) (suppressPass : Bool)
    (acc : PSVState × ℚ × ℚ) (child : SearchNode) : PSVState × ℚ × ℚ :=
  let st := acc.1
  let totalChildWeight := acc.2.1
  let maxChildWeight := acc.2.2
  let moveLoc := child.prevMoveLoc
  let childVisits := child.stats.visits
  let childWeight := child.stats.weightSum
  let totalChildWeight := totalChildWeight + childWeight
  let maxChildWeight := if childWeight > maxChildWeight then childWeight else maxChildWeight
  if suppressPass ∧ moveLoc = L.PASS_LOC then
    ({ st with locs := st.locs ++ [moveLoc],
               playSelectionValues := st.playSelectionValues ++ [0],
               retVisitCounts := st.retVisitCounts ++ [0] }, totalChildWeight, maxChildWeight)
  else
    ({ st with locs := st.locs ++ [moveLoc],
               playSelectionValues := st.playSelectionValues ++ [childWeight],
               retVisitCounts := st.retVisitCounts ++ [(childVisits : ℚ)] },
      totalChildWeight, maxChildWeight)

/-- Lines 104-113, "Find the best child by weight": returns
`(mostWeightedIdx, mostWeightedChildWeight)`. -/
def findMostWeighted (playSelectionValues : List ℚ) : Nat × ℚ :=
  playSelectionValues.enum.foldl
    (fun acc iv => if iv.2 > acc.2 then (iv.1, iv.2) else acc)
    (0, -(10 : ℚ) ^ 30)

/-- Lines 141-154: the loop that reduces the weight of the children other than the most
weighted one. Iteration `i` reads and writes only `playSelectionValues[i]`. -/
def reduceWeights (L : LocEncoding) (suppressPass : Bool) (mostWeightedIdx : Nat)
    (reduced : SearchNode → ℚ) (children : List SearchNode) (playSelectionValues : List ℚ) :
    List ℚ :=
  (List.zip children playSelectionValues).enum.map (fun icv =>
    let i := icv.1
    let child := icv.2.1
    let value := icv.2.2
    if suppressPass ∧ child.prevMoveLoc = L.PASS_LOC then 0
    else if i ≠ mostWeightedIdx then ((Int.ceil (reduced child) : Int) : ℚ)
    else value)

/-- Lines 116-155, "Possibly reduce weight on children that we spend too many visits on
in retrospect" (the body of the `if`). `none` when an `assert` fails. -/
def reduceWeightsAtRoot (E : Externs) (L : LocEncoding) (s : Search) (node : SearchNode)
    (suppressPass : Bool) (mostWeightedIdx : Nat) (totalChildWeight maxChildWeight : ℚ)
    (playSelectionValues : List ℚ) : Option (List ℚ) :=
  match node.getChildren.get? mostWeightedIdx with
  | none => none
  | some bestChild =>
    let isRoot := true
    let policyProbMassVisited : ℚ := 1
    let fpu := E.getFpuValueForChildrenAssumeVisited node s.rootPla isRoot policyProbMassVisited
    let fpuValue := fpu.1
    let parentUtility := fpu.2.1
    let parentWeightPerVisit := fpu.2.2.1
    let parentUtilityStdevFactor := fpu.2.2.2
    let isDuringSearch := false
    match node.getNNOutput with
    | none => none
    | some nnOutput =>
      let policyProbs := nnOutput.getPolicyProbsMaybeNoised
      let bestChildExploreSelectionValue :=
        E.getExploreSelectionValue node policyProbs bestChild totalChildWeight fpuValue
          parentUtility parentWeightPerVisit parentUtilityStdevFactor
          isDuringSearch false maxChildWeight
      some (reduceWeights L suppressPass mostWeightedIdx
        (fun child => E.getReducedPlaySelectionWeight node policyProbs child
          totalChildWeight parentUtilityStdevFactor bestChildExploreSelectionValue)
        node.getChildren playSelectionValues)

/-- Lines 159-172: one iteration of the loop that fills `lcbBuf[i]`, `radiusBuf[i]` and
tracks the eligible child with the best LCB. The state is
`(lcbBuf, radiusBuf, bestLcb, bestLcbIndex)`; `none` when an `assert` has failed. -/
def lcbLoopStep (E : Externs) (s : Search) (node : SearchNode) (mostWeightedChildWeight : ℚ)
    (acc : Option (List ℚ × List ℚ × ℚ × Int)) (icv : Nat × SearchNode × ℚ) :
    Option (List ℚ × List ℚ × ℚ × Int) :=
  match acc with
  | none => none
  | some (lcbBuf, radiusBuf, bestLcb, bestLcbIndex) =>
    let i := icv.1
    let child := icv.2.1
    match getSelfUtilityLCBAndRadius E s node child with
    | none => none
    | some (lcb, radius) =>
      let weight := icv.2.2
      if weight ≥ ((MIN_VISITS_FOR_LCB : Int) : ℚ)
          ∧ weight ≥ s.searchParams.minVisitPropForLCB * mostWeightedChildWeight then
        if lcb > bestLcb then some (lcbBuf ++ [lcb], radiusBuf ++ [radius], lcb, (i : Int))
        else some (lcbBuf ++ [lcb], radiusBuf ++ [radius], bestLcb, bestLcbIndex)
      else some (lcbBuf ++ [lcb], radiusBuf ++ [radius], bestLcb, bestLcbIndex)

/-- Lines 176-197: the weight the best-LCB child is raised to. One fold step per child
`i`, reading `lcbBuf[i]`, `radiusBuf[i]`, `playSelectionValues[i]`. -/
def lcbAdjustedWeight (bestLcb : ℚ) (bestLcbIndex : Nat)
    (lcbBuf radiusBuf playSelectionValues : List ℚ) : ℚ :=
  (List.zip lcbBuf (List.zip radiusBuf playSelectionValues)).enum.foldl
    (fun adjustedWeight x =>
      let i := x.1
      if i ≠ bestLcbIndex then
        let excessValue := bestLcb - x.2.1
        if excessValue < 0 then adjustedWeight
        else
          let radius := x.2.2.1
          let radiusFactor := (radius + excessValue) / (radius + (1 / 5 : ℚ) * excessValue)
          let lbound := radiusFactor * radiusFactor * x.2.2.2
          if lbound > adjustedWeight then lbound else adjustedWeight
      else adjustedWeight)
    (playSelectionValues.getD bestLcbIndex 0)

/-- Lines 158-200, "Now compute play selection values taking into account LCB" (the body
of the outer `if`). -/
def lcbStage (E : Externs) (s : Search) (node : SearchNode) (mostWeightedChildWeight : ℚ)
    (st : PSVState) : Option PSVState :=
  let numChildren := st.playSelectionValues.length
  match (List.zip node.getChildren st.playSelectionValues).enum.foldl
      (lcbLoopStep E s node mostWeightedChildWeight) (some ([], [], -(10 : ℚ) ^ 10, -1)) with
  | none => none
  | some (lcbBuf, radiusBuf, bestLcb, bestLcbIndex) =>
    if s.searchParams.useLcbForSelection ∧ numChildren > 0
        ∧ (if s.searchParams.useNonBuggyLcb then bestLcbIndex ≥ 0 else bestLcbIndex > 0) then
      let adjustedWeight :=
        lcbAdjustedWeight bestLcb bestLcbIndex.toNat lcbBuf radiusBuf st.playSelectionValues
      some { st with lcbBuf := lcbBuf, radiusBuf := radiusBuf,
                     playSelectionValues := st.playSelectionValues.set bestLcbIndex.toNat adjustedWeight }
    else some { st with lcbBuf := lcbBuf, radiusBuf := radiusBuf }

/-- Lines 213-229: one iteration of the loop over policy positions in the no-children
fallback. `none` when the `assert` fails or `avoidMoveUntilByLoc` is read out of range. -/
def policyFallbackStep (E : Externs) (L : LocEncoding) (s : Search) (nnOutput : NNOutput)
    (obeyAllowedRootMove : Bool) (acc : Option PSVState) (movePos : Nat) : Option PSVState :=
  match acc with
  | none => none
  | some st =>
    let moveLoc :=
      NNPos.posToLoc L movePos s.rootBoard.x_size s.rootBoard.y_size s.nnXLen s.nnYLen
    let policyProbs := nnOutput.getPolicyProbsMaybeNoised
    let policyProb := policyProbs movePos
    let pushed : PSVState :=
      { st with locs := st.locs ++ [moveLoc],
                playSelectionValues := st.playSelectionValues ++ [policyProb] }
    if E.isLegal moveLoc s.rootPla = false ∨ policyProb < 0
        ∨ (obeyAllowedRootMove = true ∧ E.isAllowedRootMove moveLoc = false) then some st
    else
      let avoidMoveUntilByLoc :=
        if s.rootPla = Player.P_BLACK then s.avoidMoveUntilByLocBlack else s.avoidMoveUntilByLocWhite
      if avoidMoveUntilByLoc.length > 0 then
        if avoidMoveUntilByLoc.length < s.MAX_ARR_SIZE then none
        else if moveLoc < 0 then none
        else
          match avoidMoveUntilByLoc.get? moveLoc.toNat with
          | none => none
          | some untilDepth => if untilDepth > 0 then some st else some pushed
      else some pushed

/-- Lines 211-236: the `while(true)` loop of the fallback; it runs once obeying
`isAllowedRootMove` and, if that gives no move, once more ignoring it. -/
def policyFallback (E : Externs) (L : LocEncoding) (s : Search) (nnOutput : NNOutput)
    (st : PSVState) : Option PSVState :=
  match (List.range s.policySize).foldl (policyFallbackStep E L s nnOutput true) (some st) with
  | none => none
  | some st1 =>
    if st1.playSelectionValues.length = 0 then
      (List.range s.policySize).foldl (policyFallbackStep E L s nnOutput false) (some st1)
    else some st1

/-- Lines 245-278: the normalization of the selection values, in exact arithmetic
(`normalizeValuesRounded` rounds the operations). Returns the `bool` result and the
values; `none` when an `assert` fails. -/
def normalizeValues (chosenMoveSubtract chosenMovePrune scaleMaxToAtLeast : ℚ)
    (playSelectionValues : List ℚ) : Option (Bool × List ℚ) :=
  let maxValue := playSelectionValues.foldl (fun m v => if v > m then v else m) 0
  if maxValue ≤ 1 / 10 ^ 50 then some (false, playSelectionValues)
  else if ¬ (maxValue < 10 ^ 40) then none
  else
    let amountToSubtract := min chosenMoveSubtract (maxValue / 64)
    let amountToPrune := min chosenMovePrune (maxValue / 64)
    let newMaxValue := maxValue - amountToSubtract
    let values1 := playSelectionValues.map (fun v =>
      if v < amountToPrune then 0
      else if v - amountToSubtract ≤ 0 then 0 else v - amountToSubtract)
    if ¬ (newMaxValue > 0) then none
    else if newMaxValue < scaleMaxToAtLeast then
      some (true, values1.map (fun v => v * (scaleMaxToAtLeast / newMaxValue)))
    else some (true, values1)

/-- Lines 242-278 on the state: `numChildren == 0` returns false, otherwise normalize. -/
def normalizeStage (s : Search) (scaleMaxToAtLeast : ℚ) (st : PSVState) :
    Option (Bool × PSVState) :=
  if st.playSelectionValues.length = 0 then some (false, st)
  else
    match normalizeValues s.searchParams.chosenMoveSubtract s.searchParams.chosenMovePrune
        scaleMaxToAtLeast st.playSelectionValues with
    | none => none
    | some (ok, values) => some (ok, { st with playSelectionValues := values })

/-- `bool Search::getPlaySelectionValues(node, locs, playSelectionValues, retVisitCounts,
scaleMaxToAtLeast, allowDirectPolicyMoves, alwaysComputeLcb, neverUseLcb, lcbBuf, radiusBuf)`,
lines 58-279. `isRootNode` is the test `&node == rootNode`. Returns the `bool` result
with the output vectors; `none` when an `assert` fails. -/
def getPlaySelectionValues (E : Externs) (L : LocEncoding) (s : Search) (node : SearchNode)
    (isRootNode : Bool) (scaleMaxToAtLeast : ℚ)
    (allowDirectPolicyMoves alwaysComputeLcb neverUseLcb : Bool) : Option (Bool × PSVState) :=
  let suppressPass := E.shouldSuppressPass node
  let stored := node.getChildren.foldl (storeWeightsStep L suppressPass) (⟨[], [], [], [], []⟩, 0, 0)
  let st0 := stored.1
  let totalChildWeight := stored.2.1
  let maxChildWeight := stored.2.2
  let numChildren := st0.playSelectionValues.length
  let mostWeighted := findMostWeighted st0.playSelectionValues
  let mostWeightedIdx := mostWeighted.1
  let mostWeightedChildWeight := mostWeighted.2
  let afterReduce : Option PSVState :=
    if isRootNode = true ∧ numChildren > 0 then
      (reduceWeightsAtRoot E L s node suppressPass mostWeightedIdx totalChildWeight maxChildWeight
        st0.playSelectionValues).map (fun values => { st0 with playSelectionValues := values })
    else some st0
  match afterReduce with
  | none => none
  | some st1 =>
    let afterLcb : Option PSVState :=
      if neverUseLcb = false
          ∧ (alwaysComputeLcb = true ∨ (s.searchParams.useLcbForSelection = true ∧ numChildren > 0)) then
        lcbStage E s node mostWeightedChildWeight st1
      else some st1
    match afterLcb with
    | none => none
    | some st2 =>
      if numChildren = 0 then
        match node.getNNOutput with
        | none => some (false, st2)
        | some nnOutput =>
          if isRootNode = false ∨ allowDirectPolicyMoves = false then some (false, st2)
          else
            match policyFallback E L s nnOutput st2 with
            | none => none
            | some st3 => normalizeStage s scaleMaxToAtLeast st3
      else normalizeStage s scaleMaxToAtLeast st2

/-- `bool Search::getPlaySelectionValues(node, locs, playSelectionValues, retVisitCounts,
scaleMaxToAtLeast, allowDirectPolicyMoves)`, lines 44-56. -/
def getPlaySelectionValuesOfNode (E : Externs) (L : LocEncoding) (s : Search) (node : SearchNode)
    (isRootNode : Bool) (scaleMaxToAtLeast : ℚ) (allowDirectPolicyMoves : Bool) :
    Option (Bool × PSVState) :=
  getPlaySelectionValues E L s node isRootNode scaleMaxToAtLeast allowDirectPolicyMoves false false

/-- `bool Search::getPlaySelectionValues(locs, playSelectionValues, retVisitCounts,
scaleMaxToAtLeast)`, lines 30-42 (and 18-28, which passes no `retVisitCounts`). -/
def getPlaySelectionValuesOfRoot (E : Externs) (L : LocEncoding) (s : Search)
    (scaleMaxToAtLeast : ℚ) : Option (Bool × PSVState) :=
  match s.rootNode with
  | none => some (false, ⟨[], [], [], [], []⟩)
  | some rootNode =>
    let allowDirectPolicyMoves := true
    getPlaySelectionValuesOfNode E L s rootNode true scaleMaxToAtLeast allowDirectPolicyMoves

/-- Lines 65-200 of `getPlaySelectionValues` on their own: the state after the weights
are stored, reduced at the root and adjusted by the LCB stage, before the policy fallback
and the normalization. `getPlaySelectionValues_eq_stages` relates it to the function. -/
def selectionStateBeforeFallback (E : Externs) (L : LocEncoding) (s : Search)
    (node : SearchNode) (isRootNode alwaysComputeLcb neverUseLcb : Bool) : Option PSVState :=
  let suppressPass := E.shouldSuppressPass node
  let stored := node.getChildren.foldl (storeWeightsStep L suppressPass) (⟨[], [], [], [], []⟩, 0, 0)
  let st0 := stored.1
  let totalChildWeight := stored.2.1
  let maxChildWeight := stored.2.2
  let numChildren := st0.playSelectionValues.length
  let mostWeighted := findMostWeighted st0.playSelectionValues
  let afterReduce : Option PSVState :=
    if isRootNode = true ∧ numChildren > 0 then
      (reduceWeightsAtRoot E L s node suppressPass mostWeighted.1 totalChildWeight maxChildWeight
        st0.playSelectionValues).map (fun values => { st0 with playSelectionValues := values })
    else some st0
  match afterReduce with
  | none => none
  | some st1 =>
    if neverUseLcb = false
        ∧ (alwaysComputeLcb = true ∨ (s.searchParams.useLcbForSelection = true ∧ numChildren > 0)) then
      lcbStage E s node mostWeighted.2 st1
    else some st1

/-- The value stored for a child by the first loop (lines 90-99): 0 for a suppressed pass,
the child's `weightSum` otherwise. -/
def storedValue (L : LocEncoding) (suppressPass : Bool) (child : SearchNode) : ℚ :=
  if suppressPass ∧ child.prevMoveLoc = L.PASS_LOC then 0 else child.stats.weightSum

/-- The visit count stored for a child by the first loop (lines 90-99). -/
def storedVisits (L : LocEncoding) (suppressPass : Bool) (child : SearchNode) : ℚ :=
  if suppressPass ∧ child.prevMoveLoc = L.PASS_LOC then 0 else (child.stats.visits : ℚ)

/-- The running maximum `maxValue` of lines 245-249. -/
def maxValueOf (playSelectionValues : List ℚ) : ℚ :=
  playSelectionValues.foldl (fun m v => if v > m then v else m) 0

/-- The LCB that `getSelfUtilityLCBAndRadius` writes for `child` (0 if it aborts). -/
def lcbOf (E : Externs) (s : Search) (node child : SearchNode) : ℚ :=
  ((getSelfUtilityLCBAndRadius E s node child).getD (0, 0)).1

/-- The radius that `getSelfUtilityLCBAndRadius` writes for `child` (0 if it aborts). -/
def radiusOf (E : Externs) (s : Search) (node child : SearchNode) : ℚ :=
  ((getSelfUtilityLCBAndRadius E s node child).getD (0, 0)).2

/-- The eligibility test of line 166 for a selection weight. -/
def eligibleForLcb (s : Search) (mostWeightedChildWeight weight : ℚ) : Prop :=
  weight ≥ ((MIN_VISITS_FOR_LCB : Int) : ℚ)
    ∧ weight ≥ s.searchParams.minVisitPropForLCB * mostWeightedChildWeight

/-- The move of a policy position in the fallback, line 214. -/
def fallbackMoveLoc (L : LocEncoding) (s : Search) (movePos : Nat) : Int :=
  NNPos.posToLoc L movePos s.rootBoard.x_size s.rootBoard.y_size s.nnXLen s.nnYLen

/-- The vector chosen at line 219. -/
def avoidMoveUntilByLoc (s : Search) : List Int :=
  if s.rootPla = Player.P_BLACK then s.avoidMoveUntilByLocBlack else s.avoidMoveUntilByLocWhite

/-- Whether lines 220-225 skip the move: the vector is not empty and its entry for the
move is positive. -/
def avoidedUntil (s : Search) (moveLoc : Int) : Bool :=
  decide (0 < (avoidMoveUntilByLoc s).length)
    && decide (0 < (avoidMoveUntilByLoc s).getD moveLoc.toNat 0)

/-- Whether the fallback loop pushes the policy position `movePos` (lines 217-228): the
move is legal, its policy is not negative, it is an allowed root move when
`obeyAllowedRootMove` is set, and it is not skipped by `avoidMoveUntilByLoc`. -/
def fallbackCandidate (E : Externs) (L : LocEncoding) (s : Search) (nnOutput : NNOutput)
    (obeyAllowedRootMove : Bool) (movePos : Nat) : Bool :=
  E.isLegal (fallbackMoveLoc L s movePos) s.rootPla
    && decide (0 ≤ nnOutput.getPolicyProbsMaybeNoised movePos)
    && (!obeyAllowedRootMove || E.isAllowedRootMove (fallbackMoveLoc L s movePos))
    && !avoidedUntil s (fallbackMoveLoc L s movePos)

/-! ### Ownership aggregation (searchresults.cpp) -/

/-- How a call ends: with a value, with a thrown `StringError`, or without a result
(`aborted`: a failed `assert`, or weights that are not numbers). -/
inductive Outcome (α : Type) where
  | ok (value : α)
  | thrown (message : String)
  | aborted
  deriving DecidableEq

/-- Lines 1578-1586 of `traverseTreeWithOwnershipAndSelfWeightHelper`: the sums over the
children of weight at least `minWeight`, as
`(relativeChildrenWeightSum, usedChildrenWeightSum)`. -/
def childrenWeightSums (minWeight : ℚ) (children : List SearchNode) : ℚ × ℚ :=
  children.foldl
    (fun acc child =>
      let childWeight := child.stats.weightSum
      if childWeight < minWeight then acc
      else (acc.1 + childWeight * childWeight, acc.2 + childWeight))
    (0, 0)

/-- Whether the loop "Recurse" (lines 1591-1602) descends into `child` with self weights to
accumulate: the child reaches `minWeight` and has an NN output. -/
def usesEvaluated (minWeight : ℚ) (child : SearchNode) : Bool :=
  decide (¬ child.stats.weightSum < minWeight) && child.getNNOutput.isSome

mutual

/-- `double Search::traverseTreeWithOwnershipAndSelfWeight(minWeight, desiredWeight, node,
accumulate)`, lines 1519-1556, for a non-null `node`, with the body of
`traverseTreeWithOwnershipAndSelfWeightHelper` (lines 1568-1588) in place of the call.
`accumulate` acts on a state `σ`; the result is the returned weight and the state after
all calls of `accumulate`. There is no result, `none`, when the `assert` fails, and when
the weights leave the numbers: the quotient of line 1588 is a division by 0.0 and the
loop descends into a child that has an NN output (the self weights passed to `accumulate`
are then infinite or not a number). -/
def traverseTreeWithOwnershipAndSelfWeight {σ : Type} (E : Externs)
    (accumulate : σ → (Nat → ℚ) → ℚ → σ) (minWeight : ℚ) :
    ℚ → SearchNode → σ → Option (ℚ × σ)
  | desiredWeight, SearchNode.mk _ _ _ nnOutput children, acc =>
    match nnOutput with
    | none => some (0, acc)
    | some nnOutput =>
      let thisNodeWeight := E.computeWeightFromNNOutput nnOutput
      let sums := childrenWeightSums minWeight children
      let relativeChildrenWeightSum := sums.1
      let usedChildrenWeightSum := sums.2
      let desiredWeightFromChildren :=
        desiredWeight * usedChildrenWeightSum / (usedChildrenWeightSum + thisNodeWeight)
      if usedChildrenWeightSum + thisNodeWeight = 0
          ∧ children.any (usesEvaluated minWeight) = true then none
      else
        match traverseChildren E accumulate minWeight relativeChildrenWeightSum
            desiredWeightFromChildren 0 children acc with
        | none => none
        | some (actualWeightFromChildren, acc1) =>
          let selfWeight := desiredWeight - actualWeightFromChildren
          match nnOutput.whiteOwnerMap with
          | none => none
          | some ownerMap => some (desiredWeight, accumulate acc1 ownerMap selfWeight)

/-- The loop "Recurse" of `traverseTreeWithOwnershipAndSelfWeightHelper`, lines 1591-1602,
over the remaining children, with the running `actualWeightFromChildren`. There is no
result, `none`, when the quotient of line 1598 is a division by 0.0 (0.0/0.0 is not a
number) for a child that has an NN output: the self weights passed to `accumulate` below
that child are then not numbers. For a child without NN output the traversal returns 0
whatever its desired weight is. -/
def traverseChildren {σ : Type} (E : Externs)
    (accumulate : σ → (Nat → ℚ) → ℚ → σ) (minWeight : ℚ)
    (relativeChildrenWeightSum desiredWeightFromChildren : ℚ) :
    ℚ → List SearchNode → σ → Option (ℚ × σ)
  | actualWeightFromChildren, [], acc => some (actualWeightFromChildren, acc)
  | actualWeightFromChildren, child :: rest, acc =>
    let childWeight := child.stats.weightSum
    if childWeight < minWeight then
      traverseChildren E accumulate minWeight relativeChildrenWeightSum
        desiredWeightFromChildren actualWeightFromChildren rest acc
    else
      let desiredWeightFromChild :=
        childWeight * childWeight / relativeChildrenWeightSum * desiredWeightFromChildren
      if relativeChildrenWeightSum = 0 ∧ child.getNNOutput.isSome = true then none
      else
        match traverseTreeWithOwnershipAndSelfWeight E accumulate minWeight
            desiredWeightFromChild child acc with
        | none => none
        | some (w, acc1) =>
          traverseChildren E accumulate minWeight relativeChildrenWeightSum
            desiredWeightFromChildren (actualWeightFromChildren + w) rest acc1

end

/-- The `accumulate` lambda of `getAverageTreeOwnership`, lines 1491-1494:
`vec[pos] += selfWeight * ownership[pos]` for `pos < nnXLen*nnYLen`. -/
def accumulateOwnership (s : Search) (vec : Nat → ℚ) (ownership : Nat → ℚ) (selfWeight : ℚ) :
    Nat → ℚ :=
  fun pos => if pos < s.nnXLen * s.nnYLen then vec pos + selfWeight * ownership pos else vec pos

/-- `vector<double> Search::getAverageTreeOwnership(double minWeight, const SearchNode* node)`,
lines 1485-1497. The vector is an index function on `pos < nnXLen*nnYLen`. -/
def getAverageTreeOwnership (E : Externs) (s : Search) (minWeight : ℚ)
    (node : Option SearchNode) : Outcome (Nat → ℚ) :=
  let node := match node with
    | none => s.rootNode
    | some n => some n
  if s.alwaysIncludeOwnerMap = false then
    Outcome.thrown "Called Search::getAverageTreeOwnership when alwaysIncludeOwnerMap is false"
  else
    let vec : Nat → ℚ := fun _ => 0
    match node with
    | none => Outcome.ok vec
    | some n =>
      match traverseTreeWithOwnershipAndSelfWeight E (accumulateOwnership s) minWeight 1 n vec with
      | none => Outcome.aborted
      | some (_, vec1) => Outcome.ok vec1

/-- The value of one cell of an `Outcome` vector, for evaluation on concrete inputs. -/
def Outcome.cell (r : Outcome (Nat → ℚ)) (pos : Nat) : Outcome ℚ :=
  match r with
  | Outcome.ok vec => Outcome.ok (vec pos)
  | Outcome.thrown m => Outcome.thrown m
  | Outcome.aborted => Outcome.aborted

/-- The ownership map of a node's NN output where there is one (`0` elsewhere; only used
for nodes that have one). -/
def ownerMapOf (node : SearchNode) : Nat → ℚ :=
  match node.getNNOutput with
  | none => fun _ => 0
  | some o =>
    match o.whiteOwnerMap with
    | none => fun _ => 0
    | some m => m

end Search

/-! ### Node values (searchresults.cpp) -/

/-- `ReportedSearchValues`: the snapshot written by `getNodeValues` and
`getNodeRawNNValues` (declared in a header; these are the fields assigned in
`getNodeRawNNValues`, and `utility`). -/
structure ReportedSearchValues where
  winValue : ℚ
  lossValue : ℚ
  noResultValue : ℚ
  staticScoreValue : ℚ
  dynamicScoreValue : ℚ
  expectedScore : ℚ
  expectedScoreStdev : ℚ
  lead : ℚ
  winLossValue : ℚ
  utility : ℚ
  weight : ℚ
  visits : Int
  deriving DecidableEq

/-- Functions called by the value readers whose bodies are in other files. -/
structure ReportExterns where
  /-- The constructor `ReportedSearchValues(search, winLossValueAvg, noResultValueAvg,
  scoreMeanAvg, scoreMeanSqAvg, leadAvg, utilityAvg, totalWeight, visits)`. -/
  reportedSearchValues : Search → ℚ → ℚ → ℚ → ℚ → ℚ → ℚ → ℚ → Int → ReportedSearchValues
  /-- The default constructor `ReportedSearchValues()`. -/
  defaultValues : ReportedSearchValues
  /-- `Search::getScoreStdev(scoreMean, scoreMeanSq)`. -/
  getScoreStdev : ℚ → ℚ → ℚ
  /-- `ScoreValue::expectedWhiteScoreValue(mean, stdev, center, scale, board)`. -/
  expectedWhiteScoreValue : ℚ → ℚ → ℚ → ℚ → BoardDims → ℚ

namespace Search

/-- `bool Search::getNodeRawNNValues(const SearchNode& node, ReportedSearchValues& values)`,
lines 360-393. Returns the `bool` and `values` as left; `none` when an `assert` fails. -/
def getNodeRawNNValues (E : Externs) (R : ReportExterns) (s : Search) (node : SearchNode)
    (values : ReportedSearchValues) : Option (Bool × ReportedSearchValues) :=
  match node.getNNOutput with
  | none => some (false, values)
  | some nnOutput =>
    let scoreMean := nnOutput.whiteScoreMean
    let scoreMeanSq := nnOutput.whiteScoreMeanSq
    let scoreStdev := R.getScoreStdev scoreMean scoreMeanSq
    let values : ReportedSearchValues :=
      { values with
        winValue := nnOutput.whiteWinProb
        lossValue := nnOutput.whiteLossProb
        noResultValue := nnOutput.whiteNoResultProb
        staticScoreValue := R.expectedWhiteScoreValue scoreMean scoreStdev 0 2 s.rootBoard
        dynamicScoreValue :=
          R.expectedWhiteScoreValue scoreMean scoreStdev s.recentScoreCenter
            s.searchParams.dynamicScoreCenterScale s.rootBoard
        expectedScore := scoreMean
        expectedScoreStdev := scoreStdev
        lead := nnOutput.whiteLead }
    if ¬ (values.winValue ≥ 0) then none
    else if ¬ (values.lossValue ≥ 0) then none
    else if ¬ (values.noResultValue ≥ 0) then none
    else if ¬ (values.winValue + values.lossValue + values.noResultValue < 1001 / 1000) then none
    else
      let winLossValue := values.winValue - values.lossValue
      let winLossValue := if winLossValue > 1 then 1 else winLossValue
      let winLossValue := if winLossValue < -1 then -1 else winLossValue
      some (true,
        { values with
          winLossValue := winLossValue
          weight := E.computeWeightFromNNOutput nnOutput
          visits := 1 })

/-- `bool Search::getNodeValues(const SearchNode* node, ReportedSearchValues& values)`, lines
396-432. `node` is `none` for `NULL`; `isRootNode` is the test `node == rootNode`. -/
def getNodeValues (R : ReportExterns) (s : Search) (node : Option SearchNode)
    (isRootNode : Bool) (values : ReportedSearchValues) : Option (Bool × ReportedSearchValues) :=
  match node with
  | none => some (false, values)
  | some node =>
    let visits := node.stats.visits
    let weightSum := node.stats.weightSum
    let winLossValueAvg := node.stats.winLossValueAvg
    let noResultValueAvg := node.stats.noResultValueAvg
    let scoreMeanAvg := node.stats.scoreMeanAvg
    let scoreMeanSqAvg := node.stats.scoreMeanSqAvg
    let leadAvg := node.stats.leadAvg
    let utilityAvg := node.stats.utilityAvg
    if weightSum ≤ 0 then some (false, values)
    else if ¬ (visits ≥ 0) then none
    else if isRootNode = true ∧ node.getNNOutput.isNone = true then none
    else
      some (true,
        R.reportedSearchValues s winLossValueAvg noResultValueAvg scoreMeanAvg scoreMeanSqAvg
          leadAvg utilityAvg weightSum visits)

/-- `bool Search::getRootValues(ReportedSearchValues& values)`, lines 330-332. -/
def getRootValues (R : ReportExterns) (s : Search) (values : ReportedSearchValues) :
    Option (Bool × ReportedSearchValues) :=
  getNodeValues R s s.rootNode true values

/-- `ReportedSearchValues Search::getRootValuesRequireSuccess()`, lines 334-342. -/
def getRootValuesRequireSuccess (R : ReportExterns) (s : Search) :
    Outcome ReportedSearchValues :=
  let values := R.defaultValues
  match s.rootNode with
  | none => Outcome.thrown "Bug? Bot search root was null"
  | some rootNode =>
    match getNodeValues R s (some rootNode) true values with
    | none => Outcome.aborted
    | some (success, values) =>
      if success = false then Outcome.thrown "Bug? Bot search returned no root values"
      else Outcome.ok values

/-- `bool Search::getRootRawNNValues(ReportedSearchValues& values)`, lines 344-348. -/
def getRootRawNNValues (E : Externs) (R : ReportExterns) (s : Search)
    (values : ReportedSearchValues) : Option (Bool × ReportedSearchValues) :=
  match s.rootNode with
  | none => some (false, values)
  | some rootNode => getNodeRawNNValues E R s rootNode values

/-- `ReportedSearchValues Search::getRootRawNNValuesRequireSuccess()`, lines 350-358. -/
def getRootRawNNValuesRequireSuccess (E : Externs) (R : ReportExterns) (s : Search) :
    Outcome ReportedSearchValues :=
  let values := R.defaultValues
  match s.rootNode with
  | none => Outcome.thrown "Bug? Bot search root was null"
  | some rootNode =>
    match getNodeRawNNValues E R s rootNode values with
    | none => Outcome.aborted
    | some (success, values) =>
      if success = false then Outcome.thrown "Bug? Bot search returned no root values"
      else Outcome.ok values

end Search

/-! ### Duplicate moves under board symmetries (nninputs.cpp) -/

/-- The part of a `Board` read by `markDuplicateMoveLocs`: the sizes, the colour of each
location (`colors[loc]`) and the ko location. -/
structure Board extends BoardDims where
  colors : Int → Int
  ko_loc : Int

namespace SymmetryHelpers

/-- Modelled from the spec: `SymmetryHelpers::NUM_SYMMETRIES` is a constant of the header
`nninputs.h`; the symmetries form "the 8-element symmetry group". -/
def NUM_SYMMETRIES : Nat := 8

/-- Modelled from the spec: `SymmetryHelpers::NUM_SYMMETRIES_WITHOUT_TRANSPOSE` is a
constant of the header `nninputs.h`; the transpose is the `0x4` bit, so the
transpose-free symmetries are the four identifiers `0..3`. -/
def NUM_SYMMETRIES_WITHOUT_TRANSPOSE : Nat := 4

/-- Lines 648-662: whether every cell has the colour of its image under `symmetry`. The
two loops stop at the first mismatch, which is the evaluation order of `all`. -/
def isBoardSym (L : LocEncoding) (board : Board) (symmetry : Nat) : Bool :=
  (List.range board.y_size.toNat).all (fun y =>
    (List.range board.x_size.toNat).all (fun x =>
      let loc := L.getLoc x y board.x_size
      let symLoc := getSymLocBoard L x y board.toBoardDims symmetry
      let isStoneSym : Bool := decide (board.colors loc = board.colors symLoc)
      let isKoRecapBlockedSym : Bool := true
      !(!isStoneSym || !isKoRecapBlockedSym)))

/-- Line 645: the test `onlySymmetries != NULL && !contains(*onlySymmetries,symmetry)`;
`onlySymmetries` is `none` for a `NULL` pointer. -/
def skippedByOnlySymmetries (onlySymmetries : Option (List Int)) (symmetry : Nat) : Bool :=
  match onlySymmetries with
  | none => false
  | some only => !only.contains (Int.ofNat symmetry)

/-- Lines 642-665: the loop that collects the valid symmetries, starting from the `[0]`
pushed at line 634. `onlySymmetries` is `none` for a `NULL` pointer. -/
def collectValidSymmetries (L : LocEncoding) (board : Board)
    (onlySymmetries : Option (List Int)) : List Nat :=
  let symmetrySearchUpperBound :=
    if board.x_size = board.y_size then NUM_SYMMETRIES else NUM_SYMMETRIES_WITHOUT_TRANSPOSE
  (List.range' 1 (symmetrySearchUpperBound - 1)).foldl
    (fun validSymmetries symmetry =>
      if skippedByOnlySymmetries onlySymmetries symmetry then validSymmetries
      else if isBoardSym L board symmetry then validSymmetries ++ [symmetry]
      else validSymmetries)
    [0]

/-- Lines 673-682 (and 689-698): the body of the loops over the cells, for the cell
`(x, y)`. `isSymDupLoc` is indexed by location. `avoidMoves`, when not empty, is indexed
by location too. -/
def markCell (L : LocEncoding) (board : Board) (avoidMoves : List Int)
    (validSymmetries : List Nat) (isSymDupLoc : Int → Bool) (x y : Int) : Int → Bool :=
  let loc := L.getLoc x y board.x_size
  if avoidMoves.length > 0 ∧ avoidMoves.getD loc.toNat 0 > 0 then isSymDupLoc
  else
    validSymmetries.foldl
      (fun isSymDupLoc symmetry =>
        if symmetry = 0 then isSymDupLoc
        else
          let symLoc := getSymLocBoard L x y board.toBoardDims symmetry
          if isSymDupLoc loc = false ∧ loc ≠ symLoc then
            fun l => if l = symLoc then true else isSymDupLoc l
          else isSymDupLoc)
      isSymDupLoc

/-- `void SymmetryHelpers::markDuplicateMoveLocs(board, hist, onlySymmetries, avoidMoves,
isSymDupLoc, validSymmetries)`, lines 623-702; `presumedNextMovePla` is
`hist.presumedNextMovePla`. Returns `(isSymDupLoc, validSymmetries)`. -/
def markDuplicateMoveLocs (L : LocEncoding) (board : Board) (presumedNextMovePla : Player)
    (onlySymmetries : Option (List Int)) (avoidMoves : List Int) : (Int → Bool) × List Nat :=
  let isSymDupLoc : Int → Bool := fun _ => false
  if board.ko_loc ≠ L.NULL_LOC then (isSymDupLoc, [0])
  else
    let validSymmetries := collectValidSymmetries L board onlySymmetries
    let xs : List Int := (List.range board.x_size.toNat).map (fun (n : Nat) => (n : Int))
    let ys : List Int := (List.range board.y_size.toNat).map (fun (n : Nat) => (n : Int))
    if presumedNextMovePla = Player.P_BLACK then
      (xs.reverse.foldl
          (fun dup x => ys.foldl (fun dup y => markCell L board avoidMoves validSymmetries dup x y) dup)
          isSymDupLoc,
        validSymmetries)
    else
      (xs.foldl
          (fun dup x =>
            ys.reverse.foldl (fun dup y => markCell L board avoidMoves validSymmetries dup x y) dup)
          isSymDupLoc,
        validSymmetries)

/-- The cells `(x, y)` in the order in which the loops of lines 670-699 visit them. -/
def visitOrder (board : Board) (presumedNextMovePla : Player) : List (Int × Int) :=
  let xs : List Int := (List.range board.x_size.toNat).map (fun (n : Nat) => (n : Int))
  let ys : List Int := (List.range board.y_size.toNat).map (fun (n : Nat) => (n : Int))
  if presumedNextMovePla = Player.P_BLACK then
    xs.reverse.flatMap (fun x => ys.map (fun y => (x, y)))
  else xs.flatMap (fun x => ys.reverse.map (fun y => (x, y)))

/-- The iteration order in the words of the specification: with Black to move `x` runs
from high to low and then `y` from low to high; otherwise `x` runs from low to high and
then `y` from high to low. `visitedBefore pla b c` says that the cell `b` comes before the
cell `c`. -/
def visitedBefore (presumedNextMovePla : Player) (b c : Int × Int) : Prop :=
  if presumedNextMovePla = Player.P_BLACK then b.1 > c.1 ∨ (b.1 = c.1 ∧ b.2 < c.2)
  else b.1 < c.1 ∨ (b.1 = c.1 ∧ b.2 > c.2)

/-- The cells of the board: `0 <= x < x_size` and `0 <= y < y_size`. -/
def isCell (board : Board) (c : Int × Int) : Prop :=
  0 ≤ c.1 ∧ c.1 < board.x_size ∧ 0 ≤ c.2 ∧ c.2 < board.y_size

/-- In the words of the specification: the location `l` is the image of the cell `b`
under some non-identity symmetry of `validSymmetries`, and is not the location of `b`
itself. -/
def imageOfCell (L : LocEncoding) (board : Board) (validSymmetries : List Nat)
    (b : Int × Int) (l : Int) : Prop :=
  ∃ σ ∈ validSymmetries, σ ≠ 0
    ∧ l = getSymLocBoard L b.1 b.2 board.toBoardDims σ
    ∧ L.getLoc b.1 b.2 board.x_size ≠ l

/-- The coordinates that `getSymLoc` passes to `Location::getLoc` (lines 565-572): the
flips, then the swap. -/
def symXY (xSize ySize : Int) (symmetry : Nat) (p : Int × Int) : Int × Int :=
  let transpose : Bool := (symmetry &&& 0x4) != 0
  let flipX : Bool := (symmetry &&& 0x2) != 0
  let flipY : Bool := (symmetry &&& 0x1) != 0
  let x := if flipX then xSize - p.1 - 1 else p.1
  let y := if flipY then ySize - p.2 - 1 else p.2
  if transpose then (y, x) else (x, y)

end SymmetryHelpers

/-! ### Concrete inputs, used to evaluate the definitions -/

namespace Example

/-- Node statistics with the given visits, weight and utility; a node visited `visits`
times with unit weight each has `weightSqSum = weightSum`. -/
def stats (visits : Int) (weightSum utilityAvg : ℚ) : NodeStats :=
  { visits := visits, weightSum := weightSum, weightSqSum := weightSum,
    winLossValueAvg := utilityAvg, noResultValueAvg := 0, scoreMeanAvg := 0,
    scoreMeanSqAvg := 0, leadAvg := 0, utilityAvg := utilityAvg,
    utilitySqAvg := utilityAvg * utilityAvg }

/-- An NN output on a 2x2 net whose ownership map is the constant `own`. -/
def nnOutput (own : ℚ) : NNOutput :=
  { nnHash := 0, whiteWinProb := 1 / 2, whiteLossProb := 1 / 2, whiteNoResultProb := 0,
    whiteScoreMean := 0, whiteScoreMeanSq := 0, whiteLead := 0, varTimeLeft := 0,
    shorttermWinlossError := 0, shorttermScoreError := 0,
    policyProbs := fun _ => 1 / 5, policyOptimismUsed := 0, nnXLen := 2, nnYLen := 2,
    whiteOwnerMap := some (fun _ => own), noisedPolicyProbs := none }

/-- An NN output with the given policy. -/
def withPolicy (policy : Nat → ℚ) : NNOutput :=
  { nnOutput 0 with policyProbs := policy }

/-- Position 0 illegal (-1), the other positions 1/5. -/
def policyA : NNOutput := withPolicy (fun pos => if pos = 0 then -1 else 1 / 5)

/-- Position 0 illegal (-1), the other positions 3/5. -/
def policyB : NNOutput := withPolicy (fun pos => if pos = 0 then -1 else 3 / 5)

/-- Every position legal with value 1/2: disagrees with `policyA` at position 0. -/
def policyC : NNOutput := withPolicy (fun _ => 1 / 2)

/-- A leaf reached by the move `loc`, with `weight` unit-weight visits and ownership `own`. -/
def leaf (loc : Int) (weight : Int) (own : ℚ) : SearchNode :=
  SearchNode.mk Player.P_WHITE loc (stats weight weight 0) (some (nnOutput own)) []

/-- A root (Black to move) with three children of visit weights 100, 50 and 10, reached
by the moves at (0,0), (1,0) and (0,1) of a 2x2 board. -/
def root3 : SearchNode :=
  SearchNode.mk Player.P_BLACK 0 (stats 161 161 0) (some (nnOutput 1))
    [leaf 4 100 0, leaf 5 50 0, leaf 7 10 0]

/-- A root with own ownership 1 and two leaf children of weights 3 and 1 with
ownerships -1 and 1/5. -/
def root2 : SearchNode :=
  SearchNode.mk Player.P_BLACK 0 (stats 5 5 0) (some (nnOutput 1))
    [leaf 4 3 (-1), leaf 5 1 (1 / 5)]

/-- A root with an NN output and no children. -/
def rootOnly : SearchNode :=
  SearchNode.mk Player.P_BLACK 0 (stats 1 1 0) (some (nnOutput (1 / 3))) []

/-- A child visited once (effective sample size 1) whose utility average is -5/2. -/
def lowEssChild : SearchNode :=
  SearchNode.mk Player.P_BLACK 4 (stats 1 1 (-5 / 2)) none []

/-- A child with 100 unit-weight visits, utility average 1/4 and utility variance 1/100. -/
def highEssChild : SearchNode :=
  SearchNode.mk Player.P_BLACK 5
    { stats 100 100 (1 / 4) with utilitySqAvg := 1 / 16 + 1 / 100 } none []

/-- A parent with White to move over `lowEssChild` and `highEssChild`. -/
def whiteParent : SearchNode :=
  SearchNode.mk Player.P_WHITE 0 (stats 101 101 0) (some (nnOutput 0)) [lowEssChild, highEssChild]

/-- External functions for which nothing is adjusted: pass is never suppressed, the
retrospective reduction returns the child's own weight, no ending bonus, every move
legal and allowed, every NN evaluation has weight 1. `sqrt` is a rational stand-in:
exact at the one value the examples take a root of, and the upper bound `(x+1)/2`
elsewhere. -/
def externs : Externs :=
  { shouldSuppressPass := fun _ => false
    getFpuValueForChildrenAssumeVisited := fun _ _ _ _ => (0, 0, 1, 1)
    getExploreSelectionValue := fun _ _ _ _ _ _ _ _ _ _ _ => 0
    getReducedPlaySelectionWeight := fun _ _ child _ _ _ => child.stats.weightSum
    getEndingWhiteScoreBonus := fun _ _ => 0
    getScoreUtilityDiff := fun _ _ _ => 0
    computeWeightFromNNOutput := fun _ => 1
    isLegal := fun _ _ => true
    isAllowedRootMove := fun _ => true
    sqrt := fun x => if x = 1 / 10000 then 1 / 100 else if x ≤ 0 then 0 else (x + 1) / 2 }

/-- As `externs`, but the retrospective reduction caps a child's weight at 20 (a child
whose exploration value trails the best child's is reported with less weight). -/
def externsReducing : Externs :=
  { externs with
    getReducedPlaySelectionWeight := fun _ _ child _ _ _ => min child.stats.weightSum 20 }

/-- Search parameters with LCB selection off and nothing subtracted or pruned. -/
def params : SearchParams :=
  { winLossUtilityFactor := 1, staticScoreUtilityFactor := 0, dynamicScoreUtilityFactor := 0,
    useLcbForSelection := false, useNonBuggyLcb := true, lcbStdevs := 5,
    minVisitPropForLCB := 3 / 20, chosenMoveSubtract := 0, chosenMovePrune := 0 }

/-- A search on a 2x2 board rooted at `root`. -/
def search (root : SearchNode) (alwaysIncludeOwnerMap : Bool) : Search :=
  { searchParams := params, rootNode := some root, rootPla := Player.P_BLACK,
    rootBoard := ⟨2, 2⟩, nnXLen := 2, nnYLen := 2, policySize := 5,
    alwaysIncludeOwnerMap := alwaysIncludeOwnerMap,
    avoidMoveUntilByLocBlack := [], avoidMoveUntilByLocWhite := [],
    normToTApproxTable := [4, 3, 2], MAX_ARR_SIZE := 12 }

/-- A stand-in for the `ReportedSearchValues` constructors and the score helpers: the
snapshot stores the averages it is given; score values and deviations are 0. -/
def reportExterns : ReportExterns :=
  { reportedSearchValues := fun _ winLoss noResult scoreMean _ lead utility weight visits =>
      { winValue := (1 + winLoss - noResult) / 2, lossValue := (1 - winLoss - noResult) / 2,
        noResultValue := noResult, staticScoreValue := 0, dynamicScoreValue := 0,
        expectedScore := scoreMean, expectedScoreStdev := 0, lead := lead,
        winLossValue := winLoss, utility := utility, weight := weight, visits := visits }
    defaultValues :=
      { winValue := 0, lossValue := 0, noResultValue := 0, staticScoreValue := 0,
        dynamicScoreValue := 0, expectedScore := 0, expectedScoreStdev := 0, lead := 0,
        winLossValue := 0, utility := 0, weight := 0, visits := 0 }
    getScoreStdev := fun _ _ => 0
    expectedWhiteScoreValue := fun _ _ _ _ _ => 0 }

/-- The search `search root true` with the given `avoidMoveUntilByLocBlack`. -/
def searchAvoiding (root : SearchNode) (avoid : List Int) : Search :=
  { search root true with avoidMoveUntilByLocBlack := avoid }

/-- The search `search root true` with the given parameters. -/
def searchWith (p : SearchParams) (root : SearchNode) : Search :=
  { search root true with searchParams := p }

/-- The parameters `params` with LCB selection on. -/
def paramsLcb : SearchParams :=
  { params with useLcbForSelection := true }

/-- A child without NN output reached by the move `loc`, with `weight` unit-weight visits
and utility average `utility` (so its utility variance is the floor `1e-8`). -/
def child (loc : Int) (weight : Int) (utility : ℚ) : SearchNode :=
  SearchNode.mk Player.P_BLACK loc (stats weight weight utility) none []

/-- A parent with White to move over a child of weight 20 and utility 0 and a child of
weight 5 and utility 1/2. -/
def lcbParent : SearchNode :=
  SearchNode.mk Player.P_WHITE 0 (stats 26 26 0) (some (nnOutput 0))
    [child 4 20 0, child 5 5 (1 / 2)]

/-- A parent with White to move over a child of weight 20 and utility 1/2 and a child of
weight 100 and utility 0. -/
def lcbParentFirst : SearchNode :=
  SearchNode.mk Player.P_WHITE 0 (stats 121 121 0) (some (nnOutput 0))
    [child 4 20 (1 / 2), child 5 100 0]

/-- A parent with Black to move over a pass child (location 1) of weight 10 and a child of
weight 100. -/
def passParent : SearchNode :=
  SearchNode.mk Player.P_BLACK 0 (stats 111 111 0) (some (nnOutput 0))
    [child 1 10 0, child 4 100 0]

/-- As `externs`, with the pass suppressed at every node. -/
def externsSuppressing : Externs :=
  { externs with shouldSuppressPass := fun _ => true }

/-- A root that has an NN output but no accumulated weight yet. -/
def rootNoWeight : SearchNode :=
  SearchNode.mk Player.P_BLACK 0 (stats 0 0 0) (some (nnOutput 0)) []

/-- A 2x2 board with a single stone (colour 1) at the cell (0,0) and no ko; locations are
those of `borderedLoc`. -/
def cornerBoard : Board :=
  { x_size := 2, y_size := 2, colors := fun loc => if loc = 4 then 1 else 0, ko_loc := 0 }

/-- The board `cornerBoard` with a ko at the cell (1,1). -/
def koBoard : Board :=
  { cornerBoard with ko_loc := 8 }

/-- An empty 3x2 board without ko. -/
def emptyBoard32 : Board :=
  { x_size := 3, y_size := 2, colors := fun _ => 0, ko_loc := 0 }

end Example

namespace SymmetryHelpers

/-- The test of lines 672 and 688 for the cell `c`: `avoidMoves` is not empty and its
entry at the location of the cell is positive. -/
def avoidedCell (L : LocEncoding) (board : Board) (avoidMoves : List Int)
    (c : Int × Int) : Prop :=
  avoidMoves.length > 0 ∧ avoidMoves.getD (L.getLoc c.1 c.2 board.x_size).toNat 0 > 0

end SymmetryHelpers

/-! ### `ScoreValue` (nninputs.cpp) -/

/-- The functions of libm that `ScoreValue` calls, on exact rationals. -/
structure Libm where
  atan : ℚ → ℚ
  exp : ℚ → ℚ

/-- The file-level constants of lines 126-129. `svTableAssumedBSize` is
`NNPos::MAX_BOARD_LEN`, and `svTableMeanRadius` and `svTableStdevLen` are both
`svTableAssumedBSize * svTableAssumedBSize + NNPos::EXTRA_SCORE_DISTR_RADIUS`; the two
`NNPos` constants are declared in the header `nninputs.h`. -/
structure SVTableDims where
  svTableAssumedBSize : Int
  svTableMeanRadius : Int
  svTableStdevLen : Int

namespace ScoreValue

/-- Lines 126-129: the table dimensions for given values of `NNPos::MAX_BOARD_LEN` and
`NNPos::EXTRA_SCORE_DISTR_RADIUS`. -/
def dimsOfNNPos (MAX_BOARD_LEN EXTRA_SCORE_DISTR_RADIUS : Int) : SVTableDims :=
  { svTableAssumedBSize := MAX_BOARD_LEN
    svTableMeanRadius := MAX_BOARD_LEN * MAX_BOARD_LEN + EXTRA_SCORE_DISTR_RADIUS
    svTableStdevLen := MAX_BOARD_LEN * MAX_BOARD_LEN + EXTRA_SCORE_DISTR_RADIUS }

/-- `static const int svTableMeanLen = svTableMeanRadius*2;` -/
def svTableMeanLen (D : SVTableDims) : Int :=
  D.svTableMeanRadius * 2

/-- `static const double twoOverPi = 0.63661977236758134308;` -/
def twoOverPi : ℚ := 63661977236758134308 / 100000000000000000000

/-- `double ScoreValue::whiteScoreValueOfScoreSmoothNoDrawAdjust(finalWhiteMinusBlackScore,
center, scale, sqrtBoardArea)`. -/
def whiteScoreValueOfScoreSmoothNoDrawAdjust (M : Libm)
    (finalWhiteMinusBlackScore center scale sqrtBoardArea : ℚ) : ℚ :=
  let adjustedScore := finalWhiteMinusBlackScore - center
  M.atan (adjustedScore / (scale * sqrtBoardArea)) * twoOverPi

/-- Lines 144-145 of `initTables`. -/
def stepsPerUnit : Int := 10

/-- Line 145 of `initTables`. -/
def boundStdevs : Int := 5

/-- Line 146 of `initTables`. -/
def minStdevSteps : Int := -boundStdevs * stepsPerUnit

/-- Line 147 of `initTables`. -/
def maxStdevSteps : Int := boundStdevs * stepsPerUnit

/-- Lines 148-153 of `initTables`: the entry `normalPDF[i-minStdevSteps]`, as a function
of `i`. -/
def normalPDF (M : Libm) (i : Int) : ℚ :=
  let xInStdevs : ℚ := (i : ℚ) / (stepsPerUnit : ℚ)
  M.exp (-(1 / 2) * xInStdevs * xInStdevs)

/-- Line 155 of `initTables`; `stepsPerUnit/2` is an integer division. -/
def minSVSteps (D : SVTableDims) : Int :=
  -(D.svTableMeanRadius * stepsPerUnit + stepsPerUnit / 2
      + boundStdevs * D.svTableStdevLen * stepsPerUnit)

/-- Line 156 of `initTables`. -/
def maxSVSteps (D : SVTableDims) : Int :=
  -minSVSteps D

/-- Lines 157-162 of `initTables`: the entry `svPrecomp[i-minSVSteps]`, as a function of
`i`. -/
def svPrecomp (M : Libm) (D : SVTableDims) (i : Int) : ℚ :=
  let mean : ℚ := (i : ℚ) / (stepsPerUnit : ℚ)
  whiteScoreValueOfScoreSmoothNoDrawAdjust M mean 0 1 (D.svTableAssumedBSize : ℚ)

/-- The integers `lo, lo+1, ..., hi`, the values of a loop `for(i = lo; i <= hi; i++)`. -/
def intRange (lo hi : Int) : List Int :=
  (List.range (hi + 1 - lo).toNat).map (fun (n : Nat) => lo + (n : Int))

/-- Lines 170-177 of `initTables`: one step of the numeric integration, on
`(wSum, wsvSum)`; `none` when the `assert` fails. -/
def integrateStep (M : Libm) (D : SVTableDims) (meanSteps stdevIdx : Int)
    (acc : Option (ℚ × ℚ)) (i : Int) : Option (ℚ × ℚ) :=
  match acc with
  | none => none
  | some (wSum, wsvSum) =>
    let xSteps := meanSteps + stdevIdx * i
    let w := normalPDF M i
    if xSteps ≥ minSVSteps D ∧ xSteps ≤ maxSVSteps D then
      let sv := svPrecomp M D xSteps
      some (wSum + w, wsvSum + w * sv)
    else none

/-- Lines 166-178 of `initTables`, in exact arithmetic (`tableEntryRounded` rounds the
operations): the value written to `expectedSVTable[meanIdx*svTableStdevLen + stdevIdx]`;
`none` when the `assert` fails. -/
def tableEntry (M : Libm) (D : SVTableDims) (meanIdx stdevIdx : Int) : Option ℚ :=
  let meanSteps := (meanIdx - D.svTableMeanRadius) * stepsPerUnit - stepsPerUnit / 2
  ((intRange minStdevSteps maxStdevSteps).foldl
      (integrateStep M D meanSteps stdevIdx) (some (0, 0))).map
    (fun sums => sums.2 / sums.1)

/-- Lines 165-180 of `initTables`: one iteration of the inner loop over `stdevIdx`, on the
table (indexed by `meanIdx*svTableStdevLen + stdevIdx`); `none` when an `assert` has
failed. -/
def initTablesStep (M : Libm) (D : SVTableDims) (meanIdx : Int)
    (table : Option (Int → ℚ)) (stdevIdx : Int) : Option (Int → ℚ) :=
  match table with
  | none => none
  | some expectedSVTable =>
    match tableEntry M D meanIdx stdevIdx with
    | none => none
    | some value =>
      some (fun idx =>
        if idx = meanIdx * D.svTableStdevLen + stdevIdx then value else expectedSVTable idx)

/-- `void ScoreValue::initTables()`, lines 139-185: returns `expectedSVTable`, or `none`
when an `assert` fails. The entries of the fresh array are taken as 0. -/
def initTables (M : Libm) (D : SVTableDims) : Option (Int → ℚ) :=
  (intRange 0 (svTableMeanLen D - 1)).foldl
    (fun table meanIdx =>
      (intRange 0 (D.svTableStdevLen - 1)).foldl (initTablesStep M D meanIdx) table)
    (some (fun _ => 0))

/-- Lines 194-203 of `expectedWhiteScoreValue`: `(meanIdx0, meanIdx1)` after the two
clamps, for a rounded scaled mean whose `int` values are in the range of `int`
(`expectedWhiteScoreValueChecked` has the check). -/
def meanBuckets (D : SVTableDims) (meanScaled : ℚ) : Int × Int :=
  let meanRounded : Int := cround meanScaled
  let meanIdx0 : Int := meanRounded + D.svTableMeanRadius
  let meanIdx1 : Int := meanIdx0 + 1
  let mean01 : Int × Int := if meanIdx0 < 0 then (0, 0) else (meanIdx0, meanIdx1)
  if mean01.2 ≥ svTableMeanLen D then (svTableMeanLen D - 1, svTableMeanLen D - 1) else mean01

/-- Lines 195-205 of `expectedWhiteScoreValue`: `(stdevIdx0, stdevIdx1)` after the clamp,
for a floored scaled stdev whose `int` values are in the range of `int`
(`expectedWhiteScoreValueChecked` has the check); `none` when the `assert(stdevIdx0 >= 0)`
fails. -/
def stdevBuckets (D : SVTableDims) (stdevScaled : ℚ) : Option (Int × Int) :=
  let stdevFloored : Int := Int.floor stdevScaled
  let stdevIdx0 : Int := stdevFloored
  let stdevIdx1 : Int := stdevIdx0 + 1
  if stdevIdx0 < 0 then none
  else if stdevIdx1 ≥ D.svTableStdevLen then some (D.svTableStdevLen - 1, D.svTableStdevLen - 1)
  else some (stdevIdx0, stdevIdx1)

/-- `double ScoreValue::expectedWhiteScoreValue(whiteScoreMean, whiteScoreStdev, center,
scale, sqrtBoardArea)`, lines 187-218, reading the initialized table `expectedSVTable`,
on the queries whose values of type `int` are in the range of `int` (the check is in
`expectedWhiteScoreValueChecked`); `none` when the `assert` fails. -/
def expectedWhiteScoreValue (D : SVTableDims) (expectedSVTable : Int → ℚ)
    (whiteScoreMean whiteScoreStdev center scale sqrtBoardArea : ℚ) : Option ℚ :=
  let scaleFactor : ℚ := (D.svTableAssumedBSize : ℚ) / (scale * sqrtBoardArea)
  let meanScaled := (whiteScoreMean - center) * scaleFactor
  let stdevScaled := whiteScoreStdev * scaleFactor
  let meanRounded : Int := cround meanScaled
  let stdevFloored : Int := Int.floor stdevScaled
  let mean01 := meanBuckets D meanScaled
  match stdevBuckets D stdevScaled with
  | none => none
  | some (stdevIdx0, stdevIdx1) =>
    let meanIdx0 := mean01.1
    let meanIdx1 := mean01.2
    let lambdaMean := meanScaled - (meanRounded : ℚ) + 1 / 2
    let lambdaStdev := stdevScaled - (stdevFloored : ℚ)
    let a00 := expectedSVTable (meanIdx0 * D.svTableStdevLen + stdevIdx0)
    let a01 := expectedSVTable (meanIdx0 * D.svTableStdevLen + stdevIdx1)
    let a10 := expectedSVTable (meanIdx1 * D.svTableStdevLen + stdevIdx0)
    let a11 := expectedSVTable (meanIdx1 * D.svTableStdevLen + stdevIdx1)
    let b0 := a00 + lambdaStdev * (a01 - a00)
    let b1 := a10 + lambdaStdev * (a11 - a10)
    some (b0 + lambdaMean * (b1 - b0))

/-- The scale factor of line 190. -/
def lookupScaleFactor (D : SVTableDims) (scale sqrtBoardArea : ℚ) : ℚ :=
  (D.svTableAssumedBSize : ℚ) / (scale * sqrtBoardArea)

/-- The least value of the type `int` (32 bits). -/
def INT_MIN : Int := -2147483648

/-- The greatest value of the type `int` (32 bits). -/
def INT_MAX : Int := 2147483647

/-- Whether an integer is a value of the type `int`. -/
def inIntRange (x : Int) : Bool :=
  decide (INT_MIN ≤ x) && decide (x ≤ INT_MAX)

/-- Whether the values of type `int` computed at lines 196-199 of
`expectedWhiteScoreValue` are values of `int`: the conversions `(int)meanRounded` and
`(int)stdevFloored` of the two `double`s, and the sums `(int)meanRounded +
svTableMeanRadius`, `meanIdx0+1` and `stdevIdx0+1`. -/
def lookupIntsInRange (D : SVTableDims) (meanScaled stdevScaled : ℚ) : Bool :=
  inIntRange (cround meanScaled)
    && inIntRange (cround meanScaled + D.svTableMeanRadius)
    && inIntRange (cround meanScaled + D.svTableMeanRadius + 1)
    && inIntRange (Int.floor stdevScaled)
    && inIntRange (Int.floor stdevScaled + 1)

/-- `double ScoreValue::expectedWhiteScoreValue(...)`, lines 187-218, with the arithmetic
of type `int` checked: the conversion to `int` of a `double` that is outside the range of
`int` (or infinite or not a number, as after the division by `scale * sqrtBoardArea = 0`
of line 190) and a signed sum outside that range have undefined behaviour, and the
function then has no result, `none`; otherwise it is `expectedWhiteScoreValue`, whose
integers are then the values of the `int` variables. -/
def expectedWhiteScoreValueChecked (D : SVTableDims) (expectedSVTable : Int → ℚ)
    (whiteScoreMean whiteScoreStdev center scale sqrtBoardArea : ℚ) : Option ℚ :=
  if scale * sqrtBoardArea = 0 then none
  else if lookupIntsInRange D
      ((whiteScoreMean - center) * lookupScaleFactor D scale sqrtBoardArea)
      (whiteScoreStdev * lookupScaleFactor D scale sqrtBoardArea) = true then
    expectedWhiteScoreValue D expectedSVTable whiteScoreMean whiteScoreStdev center scale
      sqrtBoardArea
  else none

end ScoreValue

namespace Example

/-- A rational stand-in for libm: `atan x` is `x / (1 + |x|)` (odd, increasing, bounded by
1) and `exp x` is `1 / (1 + x*x)` (positive). -/
def libm : Libm :=
  { atan := fun x => x / (1 + |x|)
    exp := fun x => 1 / (1 + x * x) }

/-- Small table dimensions: board length 1 and extra radius 1, so the mean radius and the
stdev length are 2 and the table has 4 x 2 entries. -/
def dims : SVTableDims := ScoreValue.dimsOfNNPos 1 1

/-- A table whose entry at index `idx` is `idx`. -/
def indexTable : Int → ℚ := fun idx => (idx : ℚ)

end Example

namespace ScoreValue

/-- The scaled mean of line 192. -/
def meanScaledOf (D : SVTableDims) (whiteScoreMean center scale sqrtBoardArea : ℚ) : ℚ :=
  (whiteScoreMean - center) * lookupScaleFactor D scale sqrtBoardArea

/-- The smooth utility that `initTables` stores for the scaled score `score` (line 160):
`whiteScoreValueOfScoreSmoothNoDrawAdjust(score, 0.0, 1.0, svTableAssumedBSize)`. -/
def smoothAtScaled (M : Libm) (D : SVTableDims) (score : ℚ) : ℚ :=
  whiteScoreValueOfScoreSmoothNoDrawAdjust M score 0 1 (D.svTableAssumedBSize : ℚ)

end ScoreValue

namespace Example

/-- The table built by `initTables` for `libm` and `dims`, with 0 if it failed. -/
def svTable : Int → ℚ := (ScoreValue.initTables libm dims).getD (fun _ => 0)

end Example

/-! ### Copying with a symmetry (nninputs.cpp) -/

namespace SymmetryHelpers

/-- `static void copyWithSymmetry(const float* src, float* dst, int nSize, int hSize,
int wSize, int cSize, bool useNHWC, int symmetry, bool reverse)`, lines 476-531. The
arrays are index functions; the result is `dst` after the loops. -/
def copyWithSymmetry (src dst : Int → ℚ) (nSize hSize wSize cSize : Int) (useNHWC : Bool)
    (symmetry : Nat) (reverse : Bool) : Int → ℚ :=
  let transpose : Bool := ((symmetry &&& 0x4) != 0) && decide (hSize = wSize)
  let flipX : Bool := (symmetry &&& 0x2) != 0
  let flipY : Bool := (symmetry &&& 0x1) != 0
  let flips : Bool × Bool := if transpose && !reverse then (flipY, flipX) else (flipX, flipY)
  let flipX := flips.1
  let flipY := flips.2
  if useNHWC then
    let nStride := hSize * wSize * cSize
    let hStride := wSize * cSize
    let wStride := cSize
    let hBaseNew : Int := if flipY then (hSize - 1) * hStride else 0
    let hStrideNew : Int := if flipY then -hStride else hStride
    let wBaseNew : Int := if flipX then (wSize - 1) * wStride else 0
    let wStrideNew : Int := if flipX then -wStride else wStride
    let strides : Int × Int :=
      if transpose then (wStrideNew, hStrideNew) else (hStrideNew, wStrideNew)
    let hStrideNew := strides.1
    let wStrideNew := strides.2
    (ScoreValue.intRange 0 (nSize - 1)).foldl
      (fun dst n =>
        (ScoreValue.intRange 0 (hSize - 1)).foldl
          (fun dst h =>
            let nhOld := n * nStride + h * hStride
            let nhNew := n * nStride + hBaseNew + h * hStrideNew
            (ScoreValue.intRange 0 (wSize - 1)).foldl
              (fun dst w =>
                let nhwOld := nhOld + w * wStride
                let nhwNew := nhNew + wBaseNew + w * wStrideNew
                (ScoreValue.intRange 0 (cSize - 1)).foldl
                  (fun dst c => fun i => if i = nhwNew + c then src (nhwOld + c) else dst i)
                  dst)
              dst)
          dst)
      dst
  else
    let ncSize := nSize * cSize
    let ncStride := hSize * wSize
    let hStride := wSize
    let wStride : Int := 1
    let hBaseNew : Int := if flipY then (hSize - 1) * hStride else 0
    let hStrideNew : Int := if flipY then -hStride else hStride
    let wBaseNew : Int := if flipX then (wSize - 1) * wStride else 0
    let wStrideNew : Int := if flipX then -wStride else wStride
    let strides : Int × Int :=
      if transpose then (wStrideNew, hStrideNew) else (hStrideNew, wStrideNew)
    let hStrideNew := strides.1
    let wStrideNew := strides.2
    (ScoreValue.intRange 0 (ncSize - 1)).foldl
      (fun dst nc =>
        (ScoreValue.intRange 0 (hSize - 1)).foldl
          (fun dst h =>
            let nchOld := nc * ncStride + h * hStride
            let nchNew := nc * ncStride + hBaseNew + h * hStrideNew
            (ScoreValue.intRange 0 (wSize - 1)).foldl
              (fun dst w =>
                let nchwOld := nchOld + w * wStride
                let nchwNew := nchNew + wBaseNew + w * wStrideNew
                fun i => if i = nchwNew then src nchwOld else dst i)
              dst)
          dst)
      dst

/-- `void SymmetryHelpers::copyInputsWithSymmetry(src, dst, nSize, hSize, wSize, cSize,
useNHWC, symmetry)`. -/
def copyInputsWithSymmetry (src dst : Int → ℚ) (nSize hSize wSize cSize : Int)
    (useNHWC : Bool) (symmetry : Nat) : Int → ℚ :=
  copyWithSymmetry src dst nSize hSize wSize cSize useNHWC symmetry false

/-- `void SymmetryHelpers::copyOutputsWithSymmetry(src, dst, nSize, hSize, wSize,
symmetry)`. -/
def copyOutputsWithSymmetry (src dst : Int → ℚ) (nSize hSize wSize : Int)
    (symmetry : Nat) : Int → ℚ :=
  copyWithSymmetry src dst nSize hSize wSize 1 false symmetry true

end SymmetryHelpers

namespace SymmetryHelpers

/-- Lines 477-481 of `copyWithSymmetry`: `(transpose, flipX, flipY)` after the swap. -/
def copyFlags (symmetry : Nat) (hSize wSize : Int) (reverse : Bool) : Bool × Bool × Bool :=
  let transpose : Bool := ((symmetry &&& 0x4) != 0) && decide (hSize = wSize)
  let flipX : Bool := (symmetry &&& 0x2) != 0
  let flipY : Bool := (symmetry &&& 0x1) != 0
  let flips : Bool × Bool := if transpose && !reverse then (flipY, flipX) else (flipX, flipY)
  (transpose, flips.1, flips.2)

/-- The row and column that the element `(h, w)` of a plane is copied to: each flip
mirrors its axis, and the transpose exchanges the roles of `h` and `w`. -/
def copyCoord (hSize wSize : Int) (flags : Bool × Bool × Bool) (hw : Int × Int) : Int × Int :=
  if flags.1 then
    (if flags.2.2 then hSize - 1 - hw.2 else hw.2, if flags.2.1 then wSize - 1 - hw.1 else hw.1)
  else
    (if flags.2.2 then hSize - 1 - hw.1 else hw.1, if flags.2.1 then wSize - 1 - hw.2 else hw.2)

/-- The index in a single-channel array of the element `(h, w)` of the plane `n`. -/
def planeIndex (hSize wSize : Int) (k : Int × Int × Int) : Int :=
  k.1 * (hSize * wSize) + (k.2.1 * wSize + k.2.2)

/-- The destination index of the element `(h, w)` of the plane `n`. -/
def copyDestIndex (hSize wSize : Int) (flags : Bool × Bool × Bool) (k : Int × Int × Int) :
    Int :=
  planeIndex hSize wSize (k.1, copyCoord hSize wSize flags k.2)

/-- The elements `(n, h, w)` in the order of the loops. -/
def copyKeys (nSize hSize wSize : Int) : List (Int × Int × Int) :=
  List.product (ScoreValue.intRange 0 (nSize - 1))
    (List.product (ScoreValue.intRange 0 (hSize - 1)) (ScoreValue.intRange 0 (wSize - 1)))

end SymmetryHelpers

namespace Example

/-- The array holding `i` at index `i`. -/
def ramp : Int → ℚ := fun i => (i : ℚ)

/-- The array of zeros. -/
def zeros : Int → ℚ := fun _ => 0

end Example

/-! ### Principal variations (searchresults.cpp) -/

namespace Search

/-- Lines 764-780 of `appendPVForMove`: the scan of `scratchValues` for the best child,
over the indices still to visit. The state is
`(maxSelectionValue, bestChildIdx, bestChildMoveLoc)`; the `break` returns at once.
`none` when `scratchLocs[i]` or `scratchValues[i]` is read out of range. -/
def scanBestChild (depth move : Int) (scratchLocs : List Int) (scratchValues : List ℚ) :
    List Nat → ℚ × Int × Int → Option (ℚ × Int × Int)
  | [], acc => some acc
  | i :: rest, acc =>
    match scratchLocs.get? i, scratchValues.get? i with
    | some moveLoc, some selectionValue =>
      if depth = 0 ∧ moveLoc = move then some (selectionValue, (i : Int), moveLoc)
      else if selectionValue > acc.1 then
        scanBestChild depth move scratchLocs scratchValues rest (selectionValue, (i : Int), moveLoc)
      else scanBestChild depth move scratchLocs scratchValues rest acc
    | _, _ => none

/-- The loop of `appendPVForMove` (lines 755-800) with `remaining = maxDepth - depth`
iterations left, at the node `node`; `bufs` is `(buf, visitsBuf)`.
`POLICY_ILLEGAL_SELECTION_VALUE` is a constant of the search header, a parameter here.
`childrenCapacity` is the size of the child-slot array, which is at least the number of
allocated children; the two assertions on it are checked against that number. `none` when
an `assert` fails. -/
def appendPVFrom (E : Externs) (L : LocEncoding) (s : Search)
    (POLICY_ILLEGAL_SELECTION_VALUE : ℚ) (move : Int) :
    Nat → Int → SearchNode → Bool → List Int × List Int → Option (List Int × List Int)
  | 0, _, _, _, bufs => some bufs
  | remaining + 1, depth, node, isRootNode, bufs =>
    match getPlaySelectionValuesOfNode E L s node isRootNode 1 false with
    | none => none
    | some (success, st) =>
      if success = false then some bufs
      else
        let scratchLocs := st.locs
        let scratchValues := st.playSelectionValues
        match scanBestChild depth move scratchLocs scratchValues
            (List.range scratchValues.length)
            (POLICY_ILLEGAL_SELECTION_VALUE, -1, L.NULL_LOC) with
        | none => none
        | some (_, bestChildIdx, bestChildMoveLoc) =>
          if bestChildIdx < 0 ∨ bestChildMoveLoc = L.NULL_LOC then some bufs
          else if depth = 0 ∧ move ≠ L.NULL_LOC ∧ bestChildMoveLoc ≠ move then some bufs
          else
            let childrenCapacity : Int := node.getChildren.length
            if ¬ (bestChildIdx ≤ childrenCapacity) then none
            else if ¬ ((scratchValues.length : Int) ≤ childrenCapacity) then none
            else
              match node.getChildren.get? bestChildIdx.toNat with
              | none => none
              | some child =>
                let visits := child.stats.visits
                appendPVFrom E L s POLICY_ILLEGAL_SELECTION_VALUE move remaining (depth + 1)
                  child false (bufs.1 ++ [bestChildMoveLoc], bufs.2 ++ [visits])

/-- `void Search::appendPVForMove(buf, visitsBuf, scratchLocs, scratchValues, node, move,
maxDepth)`, lines 751-801. `node` is `none` for `NULL`; `isRootNode` tells whether `node`
is the root of the search (the test `&node == rootNode` of `getPlaySelectionValues`); the
nodes below it are not. Returns `(buf, visitsBuf)`. -/
def appendPVForMove (E : Externs) (L : LocEncoding) (s : Search)
    (POLICY_ILLEGAL_SELECTION_VALUE : ℚ) (buf visitsBuf : List Int)
    (node : Option SearchNode) (isRootNode : Bool) (move : Int) (maxDepth : Int) :
    Option (List Int × List Int) :=
  match node with
  | none => some (buf, visitsBuf)
  | some node =>
    appendPVFrom E L s POLICY_ILLEGAL_SELECTION_VALUE move maxDepth.toNat 0 node isRootNode
      (buf, visitsBuf)

/-- `void Search::appendPV(buf, visitsBuf, scratchLocs, scratchValues, node, maxDepth)`,
lines 747-749. -/
def appendPV (E : Externs) (L : LocEncoding) (s : Search)
    (POLICY_ILLEGAL_SELECTION_VALUE : ℚ) (buf visitsBuf : List Int)
    (node : Option SearchNode) (isRootNode : Bool) (maxDepth : Int) :
    Option (List Int × List Int) :=
  appendPVForMove E L s POLICY_ILLEGAL_SELECTION_VALUE buf visitsBuf node isRootNode
    L.NULL_LOC maxDepth

/-- A descent from `node`: each node of `chain` is a child of the one before it (the first
one of `node`), and play selection succeeded on every node that is left. -/
def isDescent (E : Externs) (L : LocEncoding) (s : Search) :
    SearchNode → Bool → List SearchNode → Prop
  | _, _, [] => True
  | node, isRootNode, c :: cs =>
    (∃ st, getPlaySelectionValuesOfNode E L s node isRootNode 1 false = some (true, st))
      ∧ c ∈ node.getChildren ∧ isDescent E L s c false cs

/-- The node at the end of a descent, with its root flag. -/
def descentEnd (node : SearchNode) (isRootNode : Bool) (chain : List SearchNode) :
    SearchNode × Bool :=
  match chain.getLast? with
  | none => (node, isRootNode)
  | some c => (c, false)

end Search

namespace Example

/-- A root whose first child (move 4, 100 visits) has two children of its own (moves 5
and 7, with 60 and 30 visits) and whose second child (move 5, 50 visits) is a leaf. -/
def pvRoot : SearchNode :=
  SearchNode.mk Player.P_BLACK 0 (stats 151 151 0) (some (nnOutput 0))
    [SearchNode.mk Player.P_WHITE 4 (stats 100 100 0) (some (nnOutput 0))
      [leaf 5 60 0, leaf 7 30 0],
     leaf 5 50 0]

end Example

/-! ### Analysis records (searchresults.cpp) -/

/-- The fields of `AnalysisData` that the embedded code reads or writes. -/
structure AnalysisData where
  move : Int
  numVisits : Int
  playSelectionValue : ℚ
  lcb : ℚ
  radius : ℚ
  utility : ℚ
  resultUtility : ℚ
  scoreUtility : ℚ
  winLossValue : ℚ
  policyPrior : ℚ
  scoreMean : ℚ
  scoreStdev : ℚ
  lead : ℚ
  ess : ℚ
  weightFactor : ℚ
  weightSum : ℚ
  weightSqSum : ℚ
  utilitySqAvg : ℚ
  scoreMeanSqAvg : ℚ
  order : Int
  isSymmetryOf : Int
  symmetry : Nat
  pv : List Int
  pvVisits : List Int
  node : Option SearchNode

namespace Search

/-- Lines 1087-1096 of `getAnalysisData`: the copy of `data` pushed to `newBuf` for
`symmetry`, with `move`, `isSymmetryOf`, `symmetry` and `pv` adjusted. -/
def symmetricCopy (L : LocEncoding) (s : Search) (data : AnalysisData) (symmetry : Nat) :
    AnalysisData :=
  let symMove := SymmetryHelpers.getSymLocOfLocBoard L data.move s.rootBoard symmetry
  { data with
    move := symMove
    isSymmetryOf := if symmetry ≠ 0 then data.move else data.isSymmetryOf
    symmetry := symmetry
    pv := data.pv.map (fun loc => SymmetryHelpers.getSymLocOfLocBoard L loc s.rootBoard symmetry) }

/-- Lines 1079-1097 of `getAnalysisData`: one iteration of the loop over `rootSymmetries`
for the record `data`. The state is `(newBuf, isDone)`, the set `isDone` being the list of
the inserted moves; `none` when `avoidMoveUntilByLoc[symMove]` is read out of range. -/
def expandSymmetryStep (L : LocEncoding) (s : Search) (data : AnalysisData)
    (acc : Option (List AnalysisData × List Int)) (symmetry : Nat) :
    Option (List AnalysisData × List Int) :=
  match acc with
  | none => none
  | some (newBuf, isDone) =>
    let symMove := SymmetryHelpers.getSymLocOfLocBoard L data.move s.rootBoard symmetry
    if isDone.contains symMove then some (newBuf, isDone)
    else
      let avoidMoveUntilByLoc :=
        if s.rootPla = Player.P_BLACK then s.avoidMoveUntilByLocBlack else s.avoidMoveUntilByLocWhite
      if avoidMoveUntilByLoc.length > 0 then
        if symMove < 0 then none
        else
          match avoidMoveUntilByLoc.get? symMove.toNat with
          | none => none
          | some untilDepth =>
            if untilDepth > 0 then some (newBuf, isDone)
            else some (newBuf ++ [symmetricCopy L s data symmetry], isDone ++ [symMove])
      else some (newBuf ++ [symmetricCopy L s data symmetry], isDone ++ [symMove])

/-- Lines 1075-1099 of `getAnalysisData`: the records duplicated for the root symmetries. -/
def expandForSymmetries (L : LocEncoding) (s : Search) (buf : List AnalysisData) :
    Option (List AnalysisData) :=
  (buf.foldl (fun acc data => s.rootSymmetries.foldl (expandSymmetryStep L s data) acc)
    (some ([], []))).map (fun r => r.1)

/-- Lines 1102-1103 of `getAnalysisData`: `buf[i].order = i`. -/
def assignOrder (buf : List AnalysisData) : List AnalysisData :=
  buf.enum.map (fun id => { id.2 with order := (id.1 : Int) })

/-- Lines 1074-1103, the end of `getAnalysisData(node, buf, ...)`, on the sorted records
`buf`: the symmetry expansion when it is requested, then the numbering. -/
def getAnalysisDataFinish (L : LocEncoding) (s : Search) (duplicateForSymmetries : Bool)
    (buf : List AnalysisData) : Option (List AnalysisData) :=
  let expanded : Option (List AnalysisData) :=
    if duplicateForSymmetries = true ∧ s.searchParams.rootSymmetryPruning = true
        ∧ s.rootSymmetries.length > 1 then
      expandForSymmetries L s buf
    else some buf
  expanded.map assignOrder

end Search

namespace Example

/-- A record for `move` with the principal variation `pv`, not a symmetric image
(`isSymmetryOf` is the null location 0 of `borderedLoc`). -/
def record (move : Int) (pv : List Int) : AnalysisData :=
  { move := move, numVisits := 1, playSelectionValue := 0, lcb := 0, radius := 0,
    utility := 0, resultUtility := 0, scoreUtility := 0, winLossValue := 0, policyPrior := 0,
    scoreMean := 0, scoreStdev := 0, lead := 0, ess := 0, weightFactor := 0, weightSum := 0,
    weightSqSum := 0, utilitySqAvg := 0, scoreMeanSqAvg := 0, order := 0, isSymmetryOf := 0,
    symmetry := 0, pv := pv, pvVisits := pv.map (fun _ => 1), node := none }

/-- The search `search rootOnly true` with root symmetry pruning on and the four symmetries
without transpose. -/
def searchSym : Search :=
  { search rootOnly true with
    searchParams := { params with rootSymmetryPruning := true }
    rootSymmetries := [0, 1, 2, 3] }

/-- What the examples compare of a record: move, `isSymmetryOf`, symmetry, `pv`, order. -/
def summary (d : AnalysisData) : Int × Int × Nat × List Int × Int :=
  (d.move, d.isSymmetryOf, d.symmetry, d.pv, d.order)

end Example

/-! ### The self weights of the ownership traversal -/

namespace Search

/-- An `accumulate` that records its calls: the pairs `(ownerMap, selfWeight)` in order. -/
def logAccumulate (log : List ((Nat → ℚ) × ℚ)) (ownerMap : Nat → ℚ) (selfWeight : ℚ) :
    List ((Nat → ℚ) × ℚ) :=
  log ++ [(ownerMap, selfWeight)]

/-- The calls of `accumulate` made by `traverseTreeWithOwnershipAndSelfWeight`, with the
returned weight: the traversal run with `logAccumulate` from the empty record. -/
def selfWeightLog (E : Externs) (minWeight desiredWeight : ℚ) (node : SearchNode) :
    Option (ℚ × List ((Nat → ℚ) × ℚ)) :=
  traverseTreeWithOwnershipAndSelfWeight E logAccumulate minWeight desiredWeight node []

/-- The weight that a child hands back to the loop "Recurse" (lines 1591-1602): nothing
for a child below `minWeight` (skipped) or without NN output (its traversal returns 0),
its desired weight otherwise. -/
def childShare (minWeight relativeChildrenWeightSum desiredWeightFromChildren : ℚ)
    (child : SearchNode) : ℚ :=
  if child.stats.weightSum < minWeight ∨ child.getNNOutput.isSome = false then 0
  else child.stats.weightSum * child.stats.weightSum / relativeChildrenWeightSum
    * desiredWeightFromChildren

end Search

mutual

/-- The nodes of the tree below `node`, `node` included. -/
def SearchNode.subtree : SearchNode → List SearchNode
  | SearchNode.mk p l st nn children =>
    SearchNode.mk p l st nn children :: SearchNode.subtreeOfList children

/-- The nodes of the trees below the nodes of a list. -/
def SearchNode.subtreeOfList : List SearchNode → List SearchNode
  | [] => []
  | child :: rest => child.subtree ++ SearchNode.subtreeOfList rest

end

namespace Search

/-- The `relativeChildrenWeightSum` of a node (lines 1579-1586). -/
def relativeChildrenWeightSumOf (minWeight : ℚ) (node : SearchNode) : ℚ :=
  (childrenWeightSums minWeight node.getChildren).1

/-- The `desiredWeightFromChildren` of a node with the NN output `nnOutput` (line 1588). -/
def desiredWeightFromChildrenOf (E : Externs) (minWeight desiredWeight : ℚ) (node : SearchNode)
    (nnOutput : NNOutput) : ℚ :=
  desiredWeight * (childrenWeightSums minWeight node.getChildren).2
    / ((childrenWeightSums minWeight node.getChildren).2 + E.computeWeightFromNNOutput nnOutput)

end Search

namespace Example

/-- A root with an NN output whose only child has an NN output and no weight yet: its
`weightSum` is 0, as between the evaluation of a new child and the update of its
statistics. -/
def rootOfUnweighted : SearchNode :=
  SearchNode.mk Player.P_BLACK 0 (stats 1 1 0) (some (nnOutput 1)) [leaf 4 0 (-1)]

end Example

namespace NNPos

/-- `int NNPos::locToPos(Loc loc, int boardXSize, int nnXLen, int nnYLen)`. -/
def locToPos (L : LocEncoding) (loc boardXSize nnXLen nnYLen : Int) : Int :=
  if loc = L.PASS_LOC then nnXLen * nnYLen
  else if loc = L.NULL_LOC then nnXLen * (nnYLen + 1)
  else L.getY loc boardXSize * nnXLen + L.getX loc boardXSize

/-- `int NNPos::getPassPos(int nnXLen, int nnYLen)`. -/
def getPassPos (nnXLen nnYLen : Int) : Int :=
  nnXLen * nnYLen

end NNPos

/-! ### Building the analysis records (searchresults.cpp) -/

/-- Functions and constants that the record-building code uses and whose definitions are in
files other than the embedded ones. Each is a parameter. -/
structure AnalysisExterns where
  /-- `Search::getScoreUtility(scoreMeanAvg, scoreMeanSqAvg)`. -/
  getScoreUtility : ℚ → ℚ → ℚ
  /-- `Search::getResultUtility(winLossValue, noResultValue)`. -/
  getResultUtility : ℚ → ℚ → ℚ
  /-- `Search::getScoreStdev(scoreMeanAvg, scoreMeanSqAvg)`. -/
  getScoreStdev : ℚ → ℚ → ℚ
  /-- `Search::getPos(Loc moveLoc)`. -/
  getPos : Int → Int
  /-- The record left by the default constructor `AnalysisData()`. -/
  defaultData : AnalysisData
  /-- `NNPos::MAX_NN_POLICY_SIZE`. -/
  MAX_NN_POLICY_SIZE : Nat
  /-- `Search::POLICY_ILLEGAL_SELECTION_VALUE`. -/
  POLICY_ILLEGAL_SELECTION_VALUE : ℚ

namespace Search

/-- Lines 831-853 of `getAnalysisDataOfSingleChild`: the statistics read from `child`, all
zero for a null child. -/
def childStatsOrZero (child : Option SearchNode) : NodeStats :=
  match child with
  | some c => c.stats
  | none =>
    { visits := 0, weightSum := 0, weightSqSum := 0, winLossValueAvg := 0,
      noResultValueAvg := 0, scoreMeanAvg := 0, scoreMeanSqAvg := 0, leadAvg := 0,
      utilityAvg := 0, utilitySqAvg := 0 }

/-- Lines 855-894 of `getAnalysisDataOfSingleChild`: the record before its principal
variation is filled in. -/
def singleChildData (A : AnalysisExterns) (s : Search) (child : Option SearchNode) (move : Int)
    (policyProb fpuValue parentUtility parentWinLossValue parentScoreMean parentScoreStdev
      parentLead : ℚ) : AnalysisData :=
  let numVisits := (childStatsOrZero child).visits
  let weightSum := (childStatsOrZero child).weightSum
  let weightSqSum := (childStatsOrZero child).weightSqSum
  let winLossValueAvg := (childStatsOrZero child).winLossValueAvg
  let noResultValueAvg := (childStatsOrZero child).noResultValueAvg
  let scoreMeanAvg := (childStatsOrZero child).scoreMeanAvg
  let scoreMeanSqAvg := (childStatsOrZero child).scoreMeanSqAvg
  let leadAvg := (childStatsOrZero child).leadAvg
  let utilityAvg := (childStatsOrZero child).utilityAvg
  let utilitySqAvg := (childStatsOrZero child).utilitySqAvg
  let data : AnalysisData := { A.defaultData with move := move, numVisits := numVisits }
  let data : AnalysisData :=
    if numVisits ≤ 0 ∨ weightSum ≤ 1 / 10 ^ 30 ∨ weightSqSum ≤ 1 / 10 ^ 60 then
      let scoreUtility := A.getScoreUtility parentScoreMean
        (parentScoreMean * parentScoreMean + parentScoreStdev * parentScoreStdev)
      let winLossValue : ℚ :=
        if s.searchParams.winLossUtilityFactor = 1 then
          parentWinLossValue + (fpuValue - parentUtility)
        else 0
      let winLossValue : ℚ := if winLossValue < -1 then -1 else winLossValue
      let winLossValue : ℚ := if winLossValue > 1 then 1 else winLossValue
      { data with
        utility := fpuValue
        scoreUtility := scoreUtility
        resultUtility := fpuValue - scoreUtility
        winLossValue := winLossValue
        scoreMean := parentScoreMean
        scoreStdev := parentScoreStdev
        lead := parentLead
        ess := 0
        weightSum := 0
        weightSqSum := 0
        utilitySqAvg := fpuValue * fpuValue
        scoreMeanSqAvg :=
          parentScoreMean * parentScoreMean + parentScoreStdev * parentScoreStdev }
    else
      { data with
        utility := utilityAvg
        resultUtility := A.getResultUtility winLossValueAvg noResultValueAvg
        scoreUtility := A.getScoreUtility scoreMeanAvg scoreMeanSqAvg
        winLossValue := winLossValueAvg
        scoreMean := scoreMeanAvg
        scoreStdev := A.getScoreStdev scoreMeanAvg scoreMeanSqAvg
        lead := leadAvg
        ess := weightSum * weightSum / weightSqSum
        weightSum := weightSum
        weightSqSum := weightSqSum
        utilitySqAvg := utilitySqAvg
        scoreMeanSqAvg := scoreMeanSqAvg }
  { data with policyPrior := policyProb, order := 0 }

/-- `AnalysisData Search::getAnalysisDataOfSingleChild(child, scratchLocs, scratchValues,
move, policyProb, fpuValue, parentUtility, parentWinLossValue, parentScoreMean,
parentScoreStdev, parentLead, maxPVDepth)`, lines 826-904: the record of `singleChildData`
with the principal variation of lines 895-899. `child` is `none` for `NULL`; `isRootNode`
tells whether `child` is the root of the search (for the play selection inside `appendPV`).
`none` when an `assert` fails inside `appendPV`. -/
def getAnalysisDataOfSingleChild (E : Externs) (A : AnalysisExterns) (L : LocEncoding)
    (s : Search) (child : Option SearchNode) (isRootNode : Bool) (move : Int)
    (policyProb fpuValue parentUtility parentWinLossValue parentScoreMean parentScoreStdev
      parentLead : ℚ) (maxPVDepth : Int) : Option AnalysisData :=
  let numVisits := (childStatsOrZero child).visits
  let data := singleChildData A s child move policyProb fpuValue parentUtility
    parentWinLossValue parentScoreMean parentScoreStdev parentLead
  match appendPV E L s A.POLICY_ILLEGAL_SELECTION_VALUE [move] [numVisits] child isRootNode
      maxPVDepth with
  | none => none
  | some (pv, pvVisits) =>
    some { data with pv := pv, pvVisits := pvVisits, node := child }

/-- Lines 1042-1060 of `getAnalysisData`: the scan for the unused position of greatest
policy, as `(bestPos, bestPolicy)`. -/
def findBestUnusedPos (A : AnalysisExterns) (policyProbs : Nat → ℚ) (buf : List AnalysisData) :
    Int × ℚ :=
  (List.range A.MAX_NN_POLICY_SIZE).foldl
    (fun best pos =>
      if policyProbs pos < best.2 then best
      else
        let alreadyUsed : Bool := buf.any (fun d => decide (A.getPos d.move = (pos : Int)))
        if alreadyUsed then best
        else ((pos : Int), policyProbs pos))
    (-1, -1)

/-- Lines 1040-1070 of `getAnalysisData`: the loop that fills the rest of the moves directly
from the policy, with `remaining` iterations left. -/
def padFromPolicyLoop (E : Externs) (A : AnalysisExterns) (L : LocEncoding) (s : Search)
    (policyProbs : Nat → ℚ)
    (fpuValue parentUtility parentWinLossValue parentScoreMean parentScoreStdev parentLead : ℚ)
    (maxPVDepth : Int) : Nat → List AnalysisData → Option (List AnalysisData)
  | 0, buf => some buf
  | remaining + 1, buf =>
    let best := findBestUnusedPos A policyProbs buf
    let bestPos := best.1
    let bestPolicy := best.2
    if bestPos < 0 ∨ bestPolicy < 0 then some buf
    else
      let bestMove :=
        NNPos.posToLoc L bestPos s.rootBoard.x_size s.rootBoard.y_size s.nnXLen s.nnYLen
      match getAnalysisDataOfSingleChild E A L s none false bestMove bestPolicy fpuValue
          parentUtility parentWinLossValue parentScoreMean parentScoreStdev parentLead
          maxPVDepth with
      | none => none
      | some data =>
        padFromPolicyLoop E A L s policyProbs fpuValue parentUtility parentWinLossValue
          parentScoreMean parentScoreStdev parentLead maxPVDepth remaining (buf ++ [data])

/-- Lines 1038-1071 of `getAnalysisData`, "Fill the rest of the moves directly from
policy", on the records `buf` of the `numChildren` children. -/
def padFromPolicy (E : Externs) (A : AnalysisExterns) (L : LocEncoding) (s : Search)
    (policyProbs : Nat → ℚ) (numChildren minMovesToTryToGet : Int)
    (fpuValue parentUtility parentWinLossValue parentScoreMean parentScoreStdev parentLead : ℚ)
    (maxPVDepth : Int) (buf : List AnalysisData) : Option (List AnalysisData) :=
  if numChildren < minMovesToTryToGet then
    padFromPolicyLoop E A L s policyProbs fpuValue parentUtility parentWinLossValue
      parentScoreMean parentScoreStdev parentLead maxPVDepth
      (minMovesToTryToGet - numChildren).toNat buf
  else some buf

end Search

namespace Example

/-- Stand-ins for the externals of the record-building code: the score utility is a tenth
of the score mean, the result utility is the win-loss value, the position of a location of
`borderedLoc` on the 2x2 board inside the 2x2 net, the default record, and a policy of 5
entries. -/
def analysisExterns : AnalysisExterns :=
  { getScoreUtility := fun mean _ => mean / 10
    getResultUtility := fun winLoss _ => winLoss
    getScoreStdev := fun _ _ => 0
    getPos := fun loc => NNPos.locToPos borderedLoc loc 2 2 2
    defaultData := record 0 []
    MAX_NN_POLICY_SIZE := 5
    POLICY_ILLEGAL_SELECTION_VALUE := -(10 : ℚ) ^ 50 }

/-- What the examples compare of a record's statistics. -/
def statSummary (d : AnalysisData) : Int × Int × ℚ × ℚ × ℚ × ℚ × ℚ :=
  (d.move, d.numVisits, d.utility, d.resultUtility, d.scoreUtility, d.winLossValue,
    d.policyPrior)

end Example

namespace Search

/-- Line 1737-1738 of `getAnalysisJson`: `pvLen`. `pvContainsPass` and
`getPVLenUpToPhaseEnd` are members of `AnalysisData` whose bodies are outside the embedded
sources; their results are the parameters `pvContainsPass` and `pvLenUpToPhaseEnd`. -/
def jsonPVLen (preventEncore pvContainsPass : Bool) (pvLenUpToPhaseEnd : Int)
    (data : AnalysisData) : Int :=
  if (preventEncore && pvContainsPass) = true then pvLenUpToPhaseEnd else (data.pv.length : Int)

/-- Line 1744 of `getAnalysisJson`: the condition of `assert(data.pvVisits.size() >= pvLen)`. -/
def pvVisitsAssertion (data : AnalysisData) (pvLen : Int) : Bool :=
  decide ((data.pvVisits.length : Int) ≥ pvLen)

end Search

namespace Search

/-- No record of `buf` has the position `pos`: the scan of lines 1049-1054 of
`getAnalysisData` leaves `alreadyUsed` false. -/
def posUnused (A : AnalysisExterns) (buf : List AnalysisData) (pos : Nat) : Prop :=
  ∀ e ∈ buf, A.getPos e.move ≠ (pos : Int)

end Search

namespace Example

/-- A raw policy on the 2x2 board: the cell (0,0) is illegal (-1), the cell (1,0) has 1/2,
the cell (0,1) has 1/8, the cell (1,1) has 1/4 and the pass has 1/8. -/
def rawPolicy (pos : Nat) : ℚ :=
  match pos with
  | 0 => -1
  | 1 => 1 / 2
  | 2 => 1 / 8
  | 3 => 1 / 4
  | 4 => 1 / 8
  | _ => -1

end Example

/-! ### Rounding of `double` arithmetic -/

namespace Binary64

/-- The integer nearest to `y`, the even one of the two when `y` is half-way between
them. -/
def roundHalfEven (y : ℚ) : Int :=
  let f := Int.floor y
  if y - (f : ℚ) < 1 / 2 then f
  else if 1 / 2 < y - (f : ℚ) then f + 1
  else if f % 2 = 0 then f else f + 1

/-- The number of halvings that bring `x >= 1` below 2, in at most `fuel` steps. -/
def halvings : Nat → ℚ → Nat
  | 0, _ => 0
  | fuel + 1, x => if 2 ≤ x then halvings fuel (x / 2) + 1 else 0

/-- The number of doublings that bring `0 < x < 1` to at least 1, in at most `fuel`
steps. -/
def doublings : Nat → ℚ → Nat
  | 0, _ => 0
  | fuel + 1, x => if x < 1 then doublings fuel (x * 2) + 1 else 0

/-- The binary exponent of `x ≠ 0`: the `e` with `2^e <= |x| < 2^(e+1)`. The numerator of
`|x|` bounds the halvings and its denominator the doublings. -/
def exponent (x : ℚ) : Int :=
  if 1 ≤ |x| then (halvings x.num.natAbs |x| : Int) else -(doublings x.den |x| : Int)

/-- The `double` that an arithmetic operation of exact result `x` returns in the default
rounding mode: the multiple of `2^(e-52)` nearest to `x`, `e` the binary exponent of `x`
(53 significant bits, ties to the even significand). The range of the exponent is not
limited: no overflow to infinity and no gradual underflow. -/
def round (x : ℚ) : ℚ :=
  if x = 0 then 0
  else (roundHalfEven (x / (2 : ℚ) ^ (exponent x - 52)) : ℚ) * (2 : ℚ) ^ (exponent x - 52)

/-- The unit roundoff of `double` arithmetic, `2^-53`. -/
def unitRoundoff : ℚ := 1 / 2 ^ 53

end Binary64

namespace Search

/-- Lines 245-278, the normalization of the selection values, with the result of every
`double` operation rounded by `fl` (`Binary64.round` for the arithmetic of the machine,
the identity for exact arithmetic, which gives `normalizeValues`); the literals `1e-50`
and `1e40` are the roundings of their decimal values. Returns the `bool` result and the
values; `none` when an `assert` fails. -/
def normalizeValuesRounded (fl : ℚ → ℚ)
    (chosenMoveSubtract chosenMovePrune scaleMaxToAtLeast : ℚ)
    (playSelectionValues : List ℚ) : Option (Bool × List ℚ) :=
  let maxValue := playSelectionValues.foldl (fun m v => if v > m then v else m) 0
  if maxValue ≤ fl (1 / 10 ^ 50) then some (false, playSelectionValues)
  else if ¬ (maxValue < fl (10 ^ 40)) then none
  else
    let amountToSubtract := min chosenMoveSubtract (fl (maxValue / 64))
    let amountToPrune := min chosenMovePrune (fl (maxValue / 64))
    let newMaxValue := fl (maxValue - amountToSubtract)
    let values1 := playSelectionValues.map (fun v =>
      if v < amountToPrune then 0
      else if fl (v - amountToSubtract) ≤ 0 then 0 else fl (v - amountToSubtract))
    if ¬ (newMaxValue > 0) then none
    else if newMaxValue < scaleMaxToAtLeast then
      some (true, values1.map (fun v => fl (v * fl (scaleMaxToAtLeast / newMaxValue))))
    else some (true, values1)

/-- Lines 242-278 on the state, with the arithmetic of the normalization rounded by `fl`:
`numChildren == 0` returns false, otherwise normalize. -/
def normalizeStageRounded (fl : ℚ → ℚ) (s : Search) (scaleMaxToAtLeast : ℚ) (st : PSVState) :
    Option (Bool × PSVState) :=
  if st.playSelectionValues.length = 0 then some (false, st)
  else
    match normalizeValuesRounded fl s.searchParams.chosenMoveSubtract
        s.searchParams.chosenMovePrune scaleMaxToAtLeast st.playSelectionValues with
    | none => none
    | some (ok, values) => some (ok, { st with playSelectionValues := values })

/-- `bool Search::getPlaySelectionValues(node, locs, playSelectionValues, retVisitCounts,
scaleMaxToAtLeast, allowDirectPolicyMoves, alwaysComputeLcb, neverUseLcb, lcbBuf, radiusBuf)`,
lines 58-279, with the arithmetic of its normalization (lines 245-278) rounded by `fl`; the
stages before the normalization are those of `getPlaySelectionValues`. -/
def getPlaySelectionValuesRounded (fl : ℚ → ℚ) (E : Externs) (L : LocEncoding) (s : Search)
    (node : SearchNode) (isRootNode : Bool) (scaleMaxToAtLeast : ℚ)
    (allowDirectPolicyMoves alwaysComputeLcb neverUseLcb : Bool) : Option (Bool × PSVState) :=
  let suppressPass := E.shouldSuppressPass node
  let stored := node.getChildren.foldl (storeWeightsStep L suppressPass) (⟨[], [], [], [], []⟩, 0, 0)
  let st0 := stored.1
  let totalChildWeight := stored.2.1
  let maxChildWeight := stored.2.2
  let numChildren := st0.playSelectionValues.length
  let mostWeighted := findMostWeighted st0.playSelectionValues
  let mostWeightedIdx := mostWeighted.1
  let mostWeightedChildWeight := mostWeighted.2
  let afterReduce : Option PSVState :=
    if isRootNode = true ∧ numChildren > 0 then
      (reduceWeightsAtRoot E L s node suppressPass mostWeightedIdx totalChildWeight maxChildWeight
        st0.playSelectionValues).map (fun values => { st0 with playSelectionValues := values })
    else some st0
  match afterReduce with
  | none => none
  | some st1 =>
    let afterLcb : Option PSVState :=
      if neverUseLcb = false
          ∧ (alwaysComputeLcb = true ∨ (s.searchParams.useLcbForSelection = true ∧ numChildren > 0)) then
        lcbStage E s node mostWeightedChildWeight st1
      else some st1
    match afterLcb with
    | none => none
    | some st2 =>
      if numChildren = 0 then
        match node.getNNOutput with
        | none => some (false, st2)
        | some nnOutput =>
          if isRootNode = false ∨ allowDirectPolicyMoves = false then some (false, st2)
          else
            match policyFallback E L s nnOutput st2 with
            | none => none
            | some st3 => normalizeStageRounded fl s scaleMaxToAtLeast st3
      else normalizeStageRounded fl s scaleMaxToAtLeast st2

end Search

namespace Example

/-- A node (Black to move) with one child, of visit weight 97, reached by the move at
(0,0) of a 2x2 board. -/
def root97 : SearchNode :=
  SearchNode.mk Player.P_BLACK 0 (stats 98 98 0) (some (nnOutput 1)) [leaf 4 97 0]

end Example

namespace ScoreValue

/-- `double ScoreValue::whiteScoreValueOfScoreSmoothNoDrawAdjust(finalWhiteMinusBlackScore,
center, scale, sqrtBoardArea)` with the result of every `double` operation rounded by `fl`
(and the literal `twoOverPi` rounded to a `double`); the value of `atan` is the one that
the library returns. -/
def whiteScoreValueOfScoreSmoothNoDrawAdjustRounded (fl : ℚ → ℚ) (M : Libm)
    (finalWhiteMinusBlackScore center scale sqrtBoardArea : ℚ) : ℚ :=
  let adjustedScore := fl (finalWhiteMinusBlackScore - center)
  fl (M.atan (fl (adjustedScore / fl (scale * sqrtBoardArea))) * fl twoOverPi)

/-- Lines 148-153 of `initTables` with rounded operations: the entry
`normalPDF[i-minStdevSteps]`, the value of `exp` at `-0.5 * xInStdevs * xInStdevs`. -/
def normalPDFRounded (fl : ℚ → ℚ) (M : Libm) (i : Int) : ℚ :=
  let xInStdevs : ℚ := fl ((i : ℚ) / (stepsPerUnit : ℚ))
  M.exp (fl (fl (-(1 / 2) * xInStdevs) * xInStdevs))

/-- Lines 157-162 of `initTables` with rounded operations: the entry
`svPrecomp[i-minSVSteps]`. -/
def svPrecompRounded (fl : ℚ → ℚ) (M : Libm) (D : SVTableDims) (i : Int) : ℚ :=
  let mean : ℚ := fl ((i : ℚ) / (stepsPerUnit : ℚ))
  whiteScoreValueOfScoreSmoothNoDrawAdjustRounded fl M mean 0 1 (D.svTableAssumedBSize : ℚ)

/-- Lines 170-177 of `initTables` with rounded operations: one step of the numeric
integration, on `(wSum, wsvSum)`; `none` when the `assert` fails. -/
def integrateStepRounded (fl : ℚ → ℚ) (M : Libm) (D : SVTableDims) (meanSteps stdevIdx : Int)
    (acc : Option (ℚ × ℚ)) (i : Int) : Option (ℚ × ℚ) :=
  match acc with
  | none => none
  | some (wSum, wsvSum) =>
    let xSteps := meanSteps + stdevIdx * i
    let w := normalPDFRounded fl M i
    if xSteps ≥ minSVSteps D ∧ xSteps ≤ maxSVSteps D then
      let sv := svPrecompRounded fl M D xSteps
      some (fl (wSum + w), fl (wsvSum + fl (w * sv)))
    else none

/-- Lines 166-178 of `initTables` with the result of every `double` operation rounded by
`fl` (`Binary64.round` for the arithmetic of the machine; the identity gives `tableEntry`):
the value written to `expectedSVTable[meanIdx*svTableStdevLen + stdevIdx]`; `none` when the
`assert` fails. -/
def tableEntryRounded (fl : ℚ → ℚ) (M : Libm) (D : SVTableDims) (meanIdx stdevIdx : Int) :
    Option ℚ :=
  let meanSteps := (meanIdx - D.svTableMeanRadius) * stepsPerUnit - stepsPerUnit / 2
  ((intRange minStdevSteps maxStdevSteps).foldl
      (integrateStepRounded fl M D meanSteps stdevIdx) (some (0, 0))).map
    (fun sums => fl (sums.2 / sums.1))

end ScoreValue

namespace Example

/-- The values that `exp` of the C library (glibc, x86-64) returns at the 51 arguments
`-0.5 * x * x`, `x = i / 10.0` for `i = 0, ..., 50`, that `initTables` passes to it, as
pairs of the argument and the value, both `double`s written as exact fractions. -/
def expValues : List (ℚ × ℚ) :=
  [
    (0, 1),
    ((-(1441151880758559 / 288230376151711744)), (8962275661042315 / 9007199254740992)),
    ((-(1441151880758559 / 72057594037927936)), (8828844759706715 / 9007199254740992)),
    ((-(3242591731706757 / 72057594037927936)), (8610859805901363 / 9007199254740992)),
    ((-(1441151880758559 / 18014398509481984)), (8314692867212933 / 9007199254740992)),
    ((-(1 / 8)), (3974412721635601 / 4503599627370496)),
    ((-(3242591731706757 / 18014398509481984)), (470215326608185 / 562949953421312)),
    ((-(8827055269646171 / 36028797018963968)), (7049975733534547 / 9007199254740992)),
    ((-(1441151880758559 / 4503599627370496)), (6540569065561037 / 9007199254740992)),
    ((-(1823957849085051 / 4503599627370496)), (3003796516846987 / 4503599627370496)),
    ((-(1 / 2)), (2731571253070597 / 4503599627370496)),
    ((-(5449355549118301 / 9007199254740992)), (4918601168662305 / 9007199254740992)),
    ((-(3242591731706757 / 4503599627370496)), (8768549114252307 / 18014398509481984)),
    ((-(7611083370256139 / 9007199254740992)), (7738217433488557 / 18014398509481984)),
    ((-(8827055269646171 / 9007199254740992)), (3380501849870349 / 9007199254740992)),
    ((-(9 / 8)), (182763091377497 / 562949953421312)),
    ((-(1441151880758559 / 1125899906842624)), (2504337365432207 / 9007199254740992)),
    ((-(3253850730775183 / 2251799813685248)), (8493647540248349 / 36028797018963968)),
    ((-(1823957849085051 / 1125899906842624)), (7130052059600583 / 36028797018963968)),
    ((-(8128997327403745 / 4503599627370496)), (5925816810822717 / 36028797018963968)),
    ((-2), (1218991862308979 / 9007199254740992)),
    ((-(1241304647293993 / 562949953421312)), (7944387594858897 / 72057594037927936)),
    ((-(5449355549118301 / 2251799813685248)), (6407477812084383 / 72057594037927936)),
    ((-(744501313399685 / 281474976710656)), (639559369286279 / 9007199254740992)),
    ((-(3242591731706757 / 1125899906842624)), (4044935951717373 / 72057594037927936)),
    ((-(25 / 8)), (1582994863153439 / 36028797018963968)),
    ((-(7611083370256139 / 2251799813685248)), (1226688835645243 / 36028797018963968)),
    ((-(4103905160441365 / 1125899906842624)), (7528983787807879 / 288230376151711744)),
    ((-(8827055269646171 / 2251799813685248)), (2859403100715801 / 144115188075855872)),
    ((-(2367204554136617 / 562949953421312)), (8601247562333289 / 576460752303423488)),
    ((-(9 / 2)), (6403900501771287 / 576460752303423488)),
    ((-(5409949052378809 / 1125899906842624)), (2360232373566943 / 288230376151711744)),
    ((-(1441151880758559 / 281474976710656)), (6889885307675211 / 1152921504606846976)),
    ((-(6130524992758087 / 1125899906842624)), (1244532649562993 / 288230376151711744)),
    ((-(3253850730775183 / 562949953421312)), (7122092831533381 / 2305843009213693952)),
    ((-(49 / 8)), (1261002775644763 / 576460752303423488)),
    ((-(1823957849085051 / 281474976710656)), (884181658094405 / 576460752303423488)),
    ((-(3853392431168881 / 562949953421312)), (306897972908437 / 288230376151711744)),
    ((-(8128997327403745 / 1125899906842624)), (3374842983402419 / 4611686018427387904)),
    ((-(8562468791538155 / 1125899906842624)), (2296414055146765 / 4611686018427387904)),
    ((-8), (6188193243211693 / 18446744073709551616)),
    ((-(4731594358506127 / 562949953421312)), (4127381394333297 / 18446744073709551616)),
    ((-(1241304647293993 / 140737488355328)), (5450952377021141 / 36893488147419103232)),
    ((-(5204472319380029 / 562949953421312)), (7127335928556291 / 73786976294838206464)),
    ((-(5449355549118301 / 562949953421312)), (1153318179237573 / 18446744073709551616)),
    ((-(81 / 8)), (5912594297958647 / 147573952589676412928)),
    ((-(744501313399685 / 70368744177664)), (7502466875284301 / 295147905179352825856)),
    ((-(777222779442299 / 70368744177664)), (1178140704972121 / 73786976294838206464)),
    ((-(3242591731706757 / 281474976710656)), (5861344790682621 / 590295810358705651712)),
    ((-(1689553547705713 / 140737488355328)), (7217627113784449 / 1180591620717411303424)),
    ((-(25 / 2)), (549956938534505 / 147573952589676412928))]

/-- The functions of the C library at the arguments that the entry of the mean bucket 421
at stdev bucket 0 needs, for the board length 19: `exp` as in `expValues`, and
`atan(-0.5 / 19.0)`; elsewhere the stand-ins of `libm`. -/
def libm64 : Libm :=
  { atan := fun x =>
      if x = (-(948126237341157 / 36028797018963968)) then (-(7583259700254943 / 288230376151711744))
      else libm.atan x
    exp := fun x =>
      match expValues.lookup x with
      | some v => v
      | none => libm.exp x }

/-- The table dimensions of a build with `NNPos::MAX_BOARD_LEN = 19` and
`NNPos::EXTRA_SCORE_DISTR_RADIUS = 60`: the mean radius and the stdev length are 421. -/
def dims19 : SVTableDims := ScoreValue.dimsOfNNPos 19 60

end Example

/-! ## Theorems -/

/-- The bordered encoding satisfies the laws the symmetry helpers rely on. -/
theorem borderedLoc_valid : borderedLoc.Valid := by
  constructor
  · intro x y xSize hx hxs hy
    show ((x + 1) + (y + 1) * (xSize + 1)) % (xSize + 1) - 1 = x
    rw [Int.add_mul_emod_self, Int.emod_eq_of_lt (by omega) (by omega)]
    omega
  · intro x y xSize hx hxs hy
    show ((x + 1) + (y + 1) * (xSize + 1)) / (xSize + 1) - 1 = y
    rw [Int.add_mul_ediv_right _ _ (by omega), Int.ediv_eq_zero_of_lt (by omega) (by omega)]
    omega
  · intro x y xSize hx hxs hy
    show (x + 1) + (y + 1) * (xSize + 1) ≠ 0
    have : 0 ≤ (y + 1) * (xSize + 1) := mul_nonneg (by omega) (by omega)
    omega
  · intro x y xSize hx hxs hy
    show (x + 1) + (y + 1) * (xSize + 1) ≠ 1
    have : 0 < (y + 1) * (xSize + 1) := mul_pos (by omega) (by omega)
    omega

/-! ### Running maximum, as computed by the loops `if(v > m) m = v;` -/

/-- The running maximum is at least its initial value and at least every element. -/
theorem foldl_runMax_ge (l : List ℚ) :
    ∀ init : ℚ, init ≤ l.foldl (fun m v => if v > m then v else m) init ∧
      ∀ v ∈ l, v ≤ l.foldl (fun m v => if v > m then v else m) init := by
  induction l with
  | nil => intro init; simp
  | cons a t ih =>
    intro init
    simp only [List.foldl_cons, List.mem_cons, forall_eq_or_imp]
    obtain ⟨h1, h2⟩ := ih (if a > init then a else init)
    refine ⟨?_, ?_, h2⟩
    · refine le_trans ?_ h1
      split_ifs with h
      · exact le_of_lt h
      · exact le_refl _
    · refine le_trans ?_ h1
      split_ifs with h
      · exact le_refl _
      · exact not_lt.mp h

/-- The running maximum is its initial value or one of the elements. -/
theorem foldl_runMax_mem (l : List ℚ) :
    ∀ init : ℚ, l.foldl (fun m v => if v > m then v else m) init = init ∨
      l.foldl (fun m v => if v > m then v else m) init ∈ l := by
  induction l with
  | nil => intro init; simp
  | cons a t ih =>
    intro init
    simp only [List.foldl_cons, List.mem_cons]
    rcases ih (if a > init then a else init) with h | h
    · rw [h]
      split_ifs with h'
      · exact Or.inr (Or.inl rfl)
      · exact Or.inl rfl
    · exact Or.inr (Or.inr h)

/-- When `normalizeValues` returns true, the returned vector has a maximum entry and it
is at least the requested floor. -/
theorem normalizeValues_max (cs cp scale : ℚ) (values r : List ℚ)
    (h : Search.normalizeValues cs cp scale values = some (true, r)) :
    ∃ m ∈ r, (∀ v ∈ r, v ≤ m) ∧ 0 < m ∧ scale ≤ m := by
  unfold Search.normalizeValues at h
  simp only at h
  set M := values.foldl (fun m v => if v > m then v else m) 0 with hM
  have hge := (foldl_runMax_ge values 0).2
  rw [← hM] at hge
  have hmem := foldl_runMax_mem values 0
  rw [← hM] at hmem
  split_ifs at h with h1 h2 h3 h4
  · simp at h
  · -- rescaled
    have hMpos : 0 < M := lt_of_lt_of_le (by positivity) (not_le.mp h1).le
    have hMmem : M ∈ values := by
      rcases hmem with h0 | h0
      · exact absurd h0 (ne_of_gt hMpos)
      · exact h0
    have hsub : min cs (M / 64) ≤ M / 64 := min_le_right _ _
    have hpr : min cp (M / 64) ≤ M / 64 := min_le_right _ _
    have hnew : 0 < M - min cs (M / 64) := by push_neg at h3; exact h3
    have hscale : 0 < scale / (M - min cs (M / 64)) := div_pos (lt_trans hnew h4) hnew
    simp only [Option.some.injEq, Prod.mk.injEq, true_and] at h
    subst h
    refine ⟨scale, ?_, ?_, lt_trans hnew h4, le_refl _⟩
    · simp only [List.map_map, List.mem_map, Function.comp]
      refine ⟨M, hMmem, ?_⟩
      rw [if_neg (by linarith), if_neg (by linarith)]
      field_simp
    · intro v hv
      simp only [List.map_map, List.mem_map, Function.comp] at hv
      obtain ⟨w, hw, rfl⟩ := hv
      have hwM := hge w hw
      have hbound : (if w < min cp (M / 64) then 0
          else if w - min cs (M / 64) ≤ 0 then 0 else w - min cs (M / 64))
            ≤ M - min cs (M / 64) := by
        split_ifs <;> linarith
      calc _ ≤ (M - min cs (M / 64)) * (scale / (M - min cs (M / 64))) :=
            mul_le_mul_of_nonneg_right hbound hscale.le
        _ = scale := by field_simp
  · -- not rescaled
    have hMpos : 0 < M := lt_of_lt_of_le (by positivity) (not_le.mp h1).le
    have hMmem : M ∈ values := by
      rcases hmem with h0 | h0
      · exact absurd h0 (ne_of_gt hMpos)
      · exact h0
    have hsub : min cs (M / 64) ≤ M / 64 := min_le_right _ _
    have hpr : min cp (M / 64) ≤ M / 64 := min_le_right _ _
    have hnew : 0 < M - min cs (M / 64) := by push_neg at h3; exact h3
    simp only [Option.some.injEq, Prod.mk.injEq, true_and] at h
    subst h
    refine ⟨M - min cs (M / 64), ?_, ?_, hnew, not_lt.mp h4⟩
    · simp only [List.mem_map]
      refine ⟨M, hMmem, ?_⟩
      rw [if_neg (by linarith), if_neg (by linarith)]
    · intro v hv
      simp only [List.mem_map] at hv
      obtain ⟨w, hw, rfl⟩ := hv
      have hwM := hge w hw
      split_ifs <;> linarith

/-- When `normalizeStage` returns true, the returned values are those of a successful
`normalizeValues`. -/
theorem normalizeStage_true (s : Search) (scale : ℚ) (st out : Search.PSVState)
    (h : Search.normalizeStage s scale st = some (true, out)) :
    Search.normalizeValues s.searchParams.chosenMoveSubtract s.searchParams.chosenMovePrune
      scale st.playSelectionValues = some (true, out.playSelectionValues) := by
  unfold Search.normalizeStage at h
  split_ifs at h with h0
  · simp at h
  · split at h
    · simp at h
    · rename_i ok values heq
      simp only [Option.some.injEq, Prod.mk.injEq] at h
      obtain ⟨h1, h2⟩ := h
      subst h1
      rw [heq, ← h2]

/-- Whenever `getPlaySelectionValues` returns true, its values come out of a successful
`normalizeValues` run on some intermediate vector. -/
theorem getPlaySelectionValues_true_normalized (E : Externs) (L : LocEncoding) (s : Search)
    (node : SearchNode) (isRootNode : Bool) (scale : ℚ) (allow always never : Bool)
    (out : Search.PSVState)
    (h : Search.getPlaySelectionValues E L s node isRootNode scale allow always never
          = some (true, out)) :
    ∃ values, Search.normalizeValues s.searchParams.chosenMoveSubtract
        s.searchParams.chosenMovePrune scale values = some (true, out.playSelectionValues) := by
  unfold Search.getPlaySelectionValues at h
  simp only at h
  split at h
  · simp at h
  · split at h
    · simp at h
    · rename_i st2 _
      split_ifs at h with h0 h1
      · split at h
        · simp at h
        · simp at h
      · split at h
        · simp at h
        · split at h
          · simp at h
          · rename_i st3 _
            exact ⟨_, normalizeStage_true s scale st3 out h⟩
      · exact ⟨_, normalizeStage_true s scale st2 out h⟩

/-! ### The scenario with child weights 100, 50, 10 -/

/-- The most weighted of `[100, 50, 10]` is entry 0. -/
theorem findMostWeighted_100_50_10 :
    Search.findMostWeighted [100, 50, 10] = (0, 100) := by decide!

/-- With nothing subtracted or pruned and a floor of at most 100, normalization leaves
`[100, 50, 10]` as it is. -/
theorem normalizeValues_100_50_10 (scale : ℚ) (hscale : scale ≤ 100) :
    Search.normalizeValues 0 0 scale [100, 50, 10] = some (true, [100, 50, 10]) := by
  have hmax : ([100, 50, 10] : List ℚ).foldl (fun m v => if v > m then v else m) 0 = 100 := by
    decide!
  unfold Search.normalizeValues
  simp only [hmax]
  have h0 : min (0 : ℚ) (100 / 64) = 0 := by decide!
  rw [h0]
  rw [if_neg (by norm_num), if_neg (by norm_num), if_neg (by norm_num), if_neg (by linarith)]
  norm_num

/-- The same on the state of `getPlaySelectionValues`. -/
theorem normalizeStage_100_50_10 (s : Search) (scale : ℚ) (st : Search.PSVState)
    (hst : st.playSelectionValues = [100, 50, 10])
    (hsub : s.searchParams.chosenMoveSubtract = 0)
    (hprune : s.searchParams.chosenMovePrune = 0)
    (hscale : scale ≤ 100) :
    Search.normalizeStage s scale st = some (true, st) := by
  unfold Search.normalizeStage
  rw [hsub, hprune, hst]
  rw [normalizeValues_100_50_10 scale hscale]
  rw [if_neg (by simp)]
  cases st
  simp only at hst
  subst hst
  rfl

/-- The first loop on three children of weights 100, 50, 10 without pass suppression. -/
theorem storeWeights_three (L : LocEncoding) (c1 c2 c3 : SearchNode)
    (hw1 : c1.stats.weightSum = 100) (hw2 : c2.stats.weightSum = 50)
    (hw3 : c3.stats.weightSum = 10) :
    [c1, c2, c3].foldl (Search.storeWeightsStep L false) (⟨[], [], [], [], []⟩, 0, 0)
      = (⟨[c1.prevMoveLoc, c2.prevMoveLoc, c3.prevMoveLoc], [100, 50, 10],
          [(c1.stats.visits : ℚ), (c2.stats.visits : ℚ), (c3.stats.visits : ℚ)], [], []⟩,
          160, 100) := by
  simp [Search.storeWeightsStep, hw1, hw2, hw3]
  norm_num

/-- The reduction loop when the reduced weights of the two lower children are their own
weights. -/
theorem reduceWeights_three (L : LocEncoding) (reduced : SearchNode → ℚ) (c1 c2 c3 : SearchNode)
    (h2 : reduced c2 = 50) (h3 : reduced c3 = 10) :
    Search.reduceWeights L false 0 reduced [c1, c2, c3] [100, 50, 10] = [100, 50, 10] := by
  simp [Search.reduceWeights, List.enum, List.enumFrom, h2, h3]

/-! ### The lower confidence bound -/

/-- For at least `MIN_VISITS_FOR_LCB` visits and a non-empty table,
`getNormToTApproxForLCB` returns an entry of the table. -/
theorem getNormToTApproxForLCB_mem (s : Search) (numVisits : Int)
    (hn : MIN_VISITS_FOR_LCB ≤ numVisits) (htab : s.normToTApproxTable ≠ []) :
    ∃ t ∈ s.normToTApproxTable, Search.getNormToTApproxForLCB s numVisits = some t := by
  have hlen : 0 < s.normToTApproxTable.length := List.length_pos.mpr htab
  unfold Search.getNormToTApproxForLCB
  simp only
  rw [if_neg (by omega)]
  split_ifs with h1 h2 h3
  · omega
  · have hlt : ((s.normToTApproxTable.length : Int) - 1).toNat < s.normToTApproxTable.length := by
      omega
    refine ⟨s.normToTApproxTable.get ⟨_, hlt⟩, List.get_mem _ _ _, ?_⟩
    exact List.get?_eq_get hlt
  · omega
  · have hlt : (numVisits - MIN_VISITS_FOR_LCB).toNat < s.normToTApproxTable.length := by
      omega
    refine ⟨s.normToTApproxTable.get ⟨_, hlt⟩, List.get_mem _ _ _, ?_⟩
    exact List.get?_eq_get hlt

/-- The stand-in for `sqrt` in the examples is non-negative. -/
theorem Example.externs_sqrt_nonneg (x : ℚ) : 0 ≤ Example.externs.sqrt x := by
  show 0 ≤ (if x = 1 / 10000 then (1 / 100 : ℚ) else if x ≤ 0 then 0 else (x + 1) / 2)
  split_ifs with h1 h2
  · norm_num
  · exact le_refl _
  · push_neg at h2
    linarith

/-! ### Symmetries of board locations -/

/-- On the location of an on-board cell the `Loc` overload of `getSymLoc` is the
coordinate overload at that cell. -/
theorem getSymLocOfLoc_getLoc (L : LocEncoding) (hL : L.Valid) (x y xSize ySize : Int)
    (symmetry : Nat) (hx : 0 ≤ x) (hxs : x < xSize) (hy : 0 ≤ y) :
    SymmetryHelpers.getSymLocOfLoc L (L.getLoc x y xSize) xSize ySize symmetry
      = SymmetryHelpers.getSymLoc L x y xSize ySize symmetry := by
  unfold SymmetryHelpers.getSymLocOfLoc
  rw [if_neg, hL.getX_getLoc x y xSize hx hxs hy, hL.getY_getLoc x y xSize hx hxs hy]
  push_neg
  exact ⟨hL.ne_null x y xSize hx hxs hy, hL.ne_pass x y xSize hx hxs hy⟩

/-- The eight cases of `getSymLoc`, by evaluating the three bit tests. -/
theorem getSymLoc_cases (L : LocEncoding) (x y xSize ySize : Int) :
    SymmetryHelpers.getSymLoc L x y xSize ySize 0 = L.getLoc x y xSize ∧
    SymmetryHelpers.getSymLoc L x y xSize ySize 1 = L.getLoc x (ySize - y - 1) xSize ∧
    SymmetryHelpers.getSymLoc L x y xSize ySize 2 = L.getLoc (xSize - x - 1) y xSize ∧
    SymmetryHelpers.getSymLoc L x y xSize ySize 3
      = L.getLoc (xSize - x - 1) (ySize - y - 1) xSize ∧
    SymmetryHelpers.getSymLoc L x y xSize ySize 4 = L.getLoc y x ySize ∧
    SymmetryHelpers.getSymLoc L x y xSize ySize 5 = L.getLoc (ySize - y - 1) x ySize ∧
    SymmetryHelpers.getSymLoc L x y xSize ySize 6 = L.getLoc y (xSize - x - 1) ySize ∧
    SymmetryHelpers.getSymLoc L x y xSize ySize 7
      = L.getLoc (ySize - y - 1) (xSize - x - 1) ySize :=
  ⟨rfl, rfl, rfl, rfl, rfl, rfl, rfl, rfl⟩

/-! ### Ownership aggregation -/

/-- The traversal of a node with an ownership map and no children makes one call of
`accumulate`, with the node's own map and the whole desired weight. -/
theorem traverse_leaf {σ : Type} (E : Externs) (accumulate : σ → (Nat → ℚ) → ℚ → σ)
    (minWeight desiredWeight : ℚ) (node : SearchNode) (nnOutput : NNOutput) (ownerMap : Nat → ℚ)
    (st : σ) (hchildren : node.getChildren = []) (hnn : node.getNNOutput = some nnOutput)
    (hmap : nnOutput.whiteOwnerMap = some ownerMap) :
    Search.traverseTreeWithOwnershipAndSelfWeight E accumulate minWeight desiredWeight node st
      = some (desiredWeight, accumulate st ownerMap desiredWeight) := by
  cases node with
  | mk p l stats o cs =>
    simp only [SearchNode.getChildren] at hchildren
    simp only [SearchNode.getNNOutput] at hnn
    subst hchildren hnn
    simp [Search.traverseTreeWithOwnershipAndSelfWeight, Search.traverseChildren,
      Search.childrenWeightSums, hmap]

/-- The sums over children that all reach `minWeight`. -/
theorem childrenWeightSums_all (minWeight : ℚ) (children : List SearchNode)
    (hmin : ∀ c ∈ children, minWeight ≤ c.stats.weightSum) :
    Search.childrenWeightSums minWeight children
      = ((children.map (fun c => c.stats.weightSum * c.stats.weightSum)).sum,
         (children.map (fun c => c.stats.weightSum)).sum) := by
  have key : ∀ (l : List SearchNode) (a b : ℚ), (∀ c ∈ l, minWeight ≤ c.stats.weightSum) →
      l.foldl (fun acc child =>
          if child.stats.weightSum < minWeight then acc
          else (acc.1 + child.stats.weightSum * child.stats.weightSum,
                acc.2 + child.stats.weightSum)) (a, b)
        = (a + (l.map (fun c => c.stats.weightSum * c.stats.weightSum)).sum,
           b + (l.map (fun c => c.stats.weightSum)).sum) := by
    intro l
    induction l with
    | nil => intro a b _; simp
    | cons c t ih =>
      intro a b h
      have hc : ¬ c.stats.weightSum < minWeight := not_lt.mpr (h c (List.mem_cons_self _ _))
      simp only [List.foldl_cons, if_neg hc, List.map_cons, List.sum_cons]
      rw [ih _ _ (fun c' hc' => h c' (List.mem_cons_of_mem _ hc'))]
      simp only [add_assoc]
  have := key children 0 0 hmin
  simpa [Search.childrenWeightSums] using this

/-- The loop over children that are all leaves with an ownership map and of weight at
least `minWeight`, for a divisor `rel` that is not zero: each child gets its desired
weight as self weight. -/
theorem traverseChildren_leaves (E : Externs) (s : Search) (minWeight rel dfc : ℚ)
    (children : List SearchNode)
    (hleaf : ∀ c ∈ children, c.getChildren = [] ∧
      ∃ o m, c.getNNOutput = some o ∧ o.whiteOwnerMap = some m)
    (hmin : ∀ c ∈ children, minWeight ≤ c.stats.weightSum) (hrel : rel ≠ 0) :
    ∀ (actual : ℚ) (vec : Nat → ℚ),
      ∃ vec1, Search.traverseChildren E (Search.accumulateOwnership s) minWeight rel dfc actual
          children vec
          = some (actual + (children.map (fun c =>
              c.stats.weightSum * c.stats.weightSum / rel * dfc)).sum, vec1) ∧
        ∀ pos, pos < s.nnXLen * s.nnYLen →
          vec1 pos = vec pos + (children.map (fun c =>
            c.stats.weightSum * c.stats.weightSum / rel * dfc * Search.ownerMapOf c pos)).sum := by
  induction children with
  | nil =>
    intro actual vec
    exact ⟨vec, by simp [Search.traverseChildren], fun pos _ => by simp⟩
  | cons c t ih =>
    intro actual vec
    obtain ⟨hc0, o, m, ho, hm⟩ := hleaf c (List.mem_cons_self _ _)
    have hcmin : ¬ c.stats.weightSum < minWeight := not_lt.mpr (hmin c (List.mem_cons_self _ _))
    obtain ⟨vec1, h1, h2⟩ := ih (fun c' hc' => hleaf c' (List.mem_cons_of_mem _ hc'))
      (fun c' hc' => hmin c' (List.mem_cons_of_mem _ hc'))
      (actual + c.stats.weightSum * c.stats.weightSum / rel * dfc)
      (Search.accumulateOwnership s vec m (c.stats.weightSum * c.stats.weightSum / rel * dfc))
    refine ⟨vec1, ?_, ?_⟩
    · rw [Search.traverseChildren]
      simp only [if_neg hcmin]
      rw [if_neg (fun h => hrel h.1), traverse_leaf E _ minWeight _ c o m vec hc0 ho hm]
      simp only [h1, List.map_cons, List.sum_cons, add_assoc]
    · intro pos hpos
      rw [h2 pos hpos]
      have hown : Search.ownerMapOf c = m := by
        simp [Search.ownerMapOf, ho, hm]
      simp only [Search.accumulateOwnership, if_pos hpos, List.map_cons, List.sum_cons, hown,
        add_assoc]

/-! ### Averaging NN outputs -/

/-- The loop over `pos` for one input: every position below the bound gets the input's
value added, and `mismatch` is raised when, for an input other than the first, the sign
of the running sum differs from the sign of the input at some position. -/
theorem policySum_inner (i : Nat) (other : NNOutput) (m : Bool) (f : Nat → ℚ) (n : Nat) :
    (List.range n).foldl (NNOutput.policySumStep i other) (m, f)
      = (m || (decide (0 < i) && (List.range n).any (fun pos =>
            decide (f pos < 0) != decide (other.policyProbs pos < 0))),
         fun pos => if pos < n then f pos + other.policyProbs pos else f pos) := by
  induction n with
  | zero => simp
  | succ n ih =>
    rw [List.range_succ, List.foldl_append, ih]
    simp only [List.foldl_cons, List.foldl_nil, NNOutput.policySumStep, List.any_append,
      List.any_cons, List.any_nil, Bool.or_false, lt_irrefl, if_false]
    refine Prod.ext ?_ ?_
    · simp only
      by_cases hi : 0 < i <;> by_cases hm : m = true <;>
        by_cases ha : ((List.range n).any (fun pos =>
            decide (f pos < 0) != decide (other.policyProbs pos < 0))) = true <;>
        by_cases hb : (decide (f n < 0) != decide (other.policyProbs n < 0)) = true <;>
        simp [hi, hm, ha, hb]
    · funext pos
      simp only
      by_cases h1 : pos = n
      · subst h1
        simp
      · by_cases h2 : pos < n
        · simp [h1, h2, Nat.lt_succ_of_lt h2]
        · have h3 : ¬ pos < n + 1 := by omega
          simp [h1, h2, h3]

/-- The outer loop over the inputs after the first, started from a running sum whose signs
agree with the first input unless `mismatch` is already raised. -/
theorem policySum_outer (MAX : Nat) (first : NNOutput) :
    ∀ (rest : List NNOutput) (k : Nat) (m : Bool) (f : Nat → ℚ), 1 ≤ k →
      (m = false → ∀ pos, pos < MAX → (f pos < 0 ↔ first.policyProbs pos < 0)) →
      ∃ (m1 : Bool) (f1 : Nat → ℚ),
        (rest.enumFrom k).foldl
            (fun acc io => (List.range MAX).foldl (NNOutput.policySumStep io.1 io.2) acc) (m, f)
          = (m1, f1) ∧
        (∀ pos, f1 pos
          = if pos < MAX then f pos + (rest.map (fun o => o.policyProbs pos)).sum else f pos) ∧
        (m1 = false → m = false) ∧
        (m1 = false → ∀ o ∈ rest, ∀ pos, pos < MAX →
          (o.policyProbs pos < 0 ↔ first.policyProbs pos < 0)) ∧
        (m = false → (∀ o ∈ rest, ∀ pos, pos < MAX →
          (o.policyProbs pos < 0 ↔ first.policyProbs pos < 0)) → m1 = false) := by
  intro rest
  induction rest with
  | nil =>
    intro k m f _ _
    exact ⟨m, f, rfl, fun pos => by simp, id, fun _ o ho => by simp at ho, fun h _ => h⟩
  | cons o t ih =>
    intro k m f hk hf
    simp only [List.enumFrom_cons, List.foldl_cons]
    rw [policySum_inner k o m f MAX]
    have hk0 : decide (0 < k) = true := by simpa using hk
    simp only [hk0, Bool.true_and]
    -- what the absence of a mismatch at this input says
    have hstep : (m || (List.range MAX).any (fun pos =>
          decide (f pos < 0) != decide (o.policyProbs pos < 0))) = false →
        m = false ∧ ∀ pos, pos < MAX → (f pos < 0 ↔ o.policyProbs pos < 0) := by
      intro h
      rw [Bool.or_eq_false_iff] at h
      refine ⟨h.1, fun pos hpos => ?_⟩
      have h2 := h.2
      rw [List.any_eq_false] at h2
      have h3 := h2 pos (List.mem_range.mpr hpos)
      simpa using h3
    obtain ⟨m1, f1, hfold, hf1, hm1, hagree, hconv⟩ := ih (k + 1)
      (m || (List.range MAX).any (fun pos =>
          decide (f pos < 0) != decide (o.policyProbs pos < 0)))
      (fun pos => if pos < MAX then f pos + o.policyProbs pos else f pos) (by omega)
      (by
        intro h pos hpos
        obtain ⟨hm, hsign⟩ := hstep h
        have h1 := hf hm pos hpos
        have h2 := hsign pos hpos
        simp only [if_pos hpos]
        constructor
        · intro hlt
          by_contra hcon
          have hf0 : ¬ f pos < 0 := fun hx => hcon (h1.mp hx)
          have ho0 : ¬ o.policyProbs pos < 0 := fun hx => hf0 (h2.mpr hx)
          linarith [not_lt.mp hf0, not_lt.mp ho0]
        · intro hlt
          have hf0 : f pos < 0 := h1.mpr hlt
          have ho0 : o.policyProbs pos < 0 := h2.mp hf0
          linarith)
    refine ⟨m1, f1, hfold, ?_, ?_, ?_, ?_⟩
    · intro pos
      rw [hf1 pos]
      by_cases hpos : pos < MAX
      · simp only [if_pos hpos, List.map_cons, List.sum_cons]
        ring
      · simp only [if_neg hpos]
    · intro h
      exact (hstep (hm1 h)).1
    · intro h o' ho' pos hpos
      rcases List.mem_cons.mp ho' with rfl | hmem
      · obtain ⟨hm, hsign⟩ := hstep (hm1 h)
        exact (hsign pos hpos).symm.trans (hf hm pos hpos)
      · exact hagree h o' hmem pos hpos
    · intro hm hall
      apply hconv
      · rw [Bool.or_eq_false_iff]
        refine ⟨hm, ?_⟩
        rw [List.any_eq_false]
        intro pos hpos
        have hpos' := List.mem_range.mp hpos
        have h1 := hf hm pos hpos'
        have h2 := hall o (List.mem_cons_self _ _) pos hpos'
        have h3 : (f pos < 0 ↔ o.policyProbs pos < 0) := h1.trans h2.symm
        simp [h3]
      · intro o' ho' pos hpos
        exact hall o' (List.mem_cons_of_mem _ ho') pos hpos

/-- A sum of non-positive rationals is non-positive. -/
theorem list_sum_nonpos (l : List ℚ) (h : ∀ x ∈ l, x ≤ 0) : l.sum ≤ 0 := by
  induction l with
  | nil => simp
  | cons a t ih =>
    simp only [List.sum_cons]
    have h1 := h a (List.mem_cons_self _ _)
    have h2 := ih (fun x hx => h x (List.mem_cons_of_mem _ hx))
    linarith

/-- The averaged policy keeps the sign of the first input at every position, and is the
arithmetic mean when all inputs agree in sign everywhere. -/
theorem averagePolicy_sign (MAX : Nat) (first : NNOutput) (rest : List NNOutput)
    (floatLen : ℚ) (hlen : 0 < floatLen) (pos : Nat) (hpos : pos < MAX) :
    (NNOutput.averagePolicy MAX (first :: rest) first floatLen pos < 0
        ↔ first.policyProbs pos < 0) ∧
    ((∀ o ∈ rest, ∀ p, p < MAX → (o.policyProbs p < 0 ↔ first.policyProbs p < 0)) →
      NNOutput.averagePolicy MAX (first :: rest) first floatLen pos
        = ((first :: rest).map (fun o => o.policyProbs pos)).sum / floatLen) := by
  obtain ⟨m1, f1, hfold, hf1, _, hagree, hconv⟩ := policySum_outer MAX first rest 1 false
    (fun p => if p < MAX then 0 + first.policyProbs p else 0) (le_refl 1)
    (by intro _ p hp; simp [hp])
  have hsum : NNOutput.policySum MAX (first :: rest) = (m1, f1) := by
    unfold NNOutput.policySum
    simp only [List.enum, List.enumFrom_cons, List.foldl_cons]
    rw [policySum_inner 0 first false (fun _ => 0) MAX]
    simpa using hfold
  have hval : f1 pos = first.policyProbs pos + (rest.map (fun o => o.policyProbs pos)).sum := by
    rw [hf1 pos]
    simp [hpos]
  unfold NNOutput.averagePolicy
  simp only [hsum]
  cases m1 with
  | true =>
    simp only [if_true, if_pos hpos]
    refine ⟨trivial, fun hall => ?_⟩
    exact absurd (hconv rfl hall) (by simp)
  | false =>
    simp only [Bool.false_eq_true, if_false, if_pos hpos, hval, List.map_cons, List.sum_cons]
    have hall := hagree rfl
    refine ⟨?_, fun _ => trivial⟩
    rw [div_neg_iff]
    constructor
    · rintro (⟨_, h⟩ | ⟨h, _⟩)
      · exact absurd hlen (not_lt.mpr h.le)
      · by_contra hcon
        have hnn : 0 ≤ (rest.map (fun o => o.policyProbs pos)).sum := by
          apply List.sum_nonneg
          intro x hx
          obtain ⟨o, ho, rfl⟩ := List.mem_map.mp hx
          exact not_lt.mp (fun hx' => hcon ((hall o ho pos hpos).mp hx'))
        linarith [not_lt.mp hcon]
    · intro hneg
      right
      refine ⟨?_, hlen⟩
      have hnp : (rest.map (fun o => o.policyProbs pos)).sum ≤ 0 := by
        apply list_sum_nonpos
        intro x hx
        obtain ⟨o, ho, rfl⟩ := List.mem_map.mp hx
        exact ((hall o ho pos hpos).mpr hneg).le
      linarith

/-- The assertion on the ownership-map count never fails: a map is only allocated
together with a count increment. -/
theorem averageOwnerMap_isSome (others : List NNOutput) (nnXLen nnYLen : Nat) :
    ∃ r, NNOutput.averageOwnerMap others nnXLen nnYLen = some r := by
  have key : ∀ (l : List NNOutput) (acc : Option (Nat → ℚ) × ℚ),
      (0 ≤ acc.2) → (acc.1.isSome = true → 0 < acc.2) →
      (0 ≤ (l.foldl (fun acc other =>
          match other.whiteOwnerMap with
          | none => acc
          | some otherMap =>
            (some (fun pos =>
                if pos < nnXLen * nnYLen then
                  (match acc.1 with
                    | none => fun _ => 0
                    | some m => m) pos + otherMap pos
                else (match acc.1 with
                    | none => fun _ => 0
                    | some m => m) pos),
              acc.2 + 1)) acc).2) ∧
      ((l.foldl (fun acc other =>
          match other.whiteOwnerMap with
          | none => acc
          | some otherMap =>
            (some (fun pos =>
                if pos < nnXLen * nnYLen then
                  (match acc.1 with
                    | none => fun _ => 0
                    | some m => m) pos + otherMap pos
                else (match acc.1 with
                    | none => fun _ => 0
                    | some m => m) pos),
              acc.2 + 1)) acc).1.isSome = true →
        0 < (l.foldl (fun acc other =>
          match other.whiteOwnerMap with
          | none => acc
          | some otherMap =>
            (some (fun pos =>
                if pos < nnXLen * nnYLen then
                  (match acc.1 with
                    | none => fun _ => 0
                    | some m => m) pos + otherMap pos
                else (match acc.1 with
                    | none => fun _ => 0
                    | some m => m) pos),
              acc.2 + 1)) acc).2) := by
    intro l
    induction l with
    | nil => intro acc h1 h2; exact ⟨h1, h2⟩
    | cons o t ih =>
      intro acc h1 h2
      simp only [List.foldl_cons]
      cases ho : o.whiteOwnerMap with
      | none => exact ih acc h1 h2
      | some om =>
        apply ih
        · simp only; linarith
        · intro _; simp only; linarith
  obtain ⟨_, h2⟩ := key others (none, 0) (le_refl _) (by simp)
  unfold NNOutput.averageOwnerMap
  simp only
  split
  · exact ⟨_, rfl⟩
  · rename_i m hm
    rw [if_pos]
    · exact ⟨_, rfl⟩
    · apply h2
      rw [hm]
      rfl

/-- The policy of the output built by `ofOthers` is `averagePolicy` of the inputs. -/
theorem ofOthers_policyProbs (MAX : Nat) (first : NNOutput) (rest : List NNOutput)
    (r : NNOutput) (h : NNOutput.ofOthers MAX (first :: rest) = some r) :
    r.policyProbs
      = NNOutput.averagePolicy MAX (first :: rest) first (((first :: rest).length : ℕ) : ℚ) := by
  unfold NNOutput.ofOthers at h
  simp only at h
  split_ifs at h with h1 h2 h3
  all_goals
    split at h
    · simp at h
    · simp only [Option.some.injEq] at h
      rw [← h]

/-- C4: for every symmetry `s` in `0..7`, `compose(s, invert(s))` is the identity `0`,
`invert(compose(s, invert(s)))` is `0`, and `compose(invert(s), s)` is `0`. -/
theorem compose_invert_identity :
    ∀ s : Nat, s < 8 →
      SymmetryHelpers.compose s (SymmetryHelpers.invert s) = 0 ∧
      SymmetryHelpers.invert (SymmetryHelpers.compose s (SymmetryHelpers.invert s)) = 0 ∧
      SymmetryHelpers.compose (SymmetryHelpers.invert s) s = 0 := by
  decide

/-- C5: `compose` is associative on the eight symmetries, and the three-argument
`compose` equals both bracketings. -/
theorem compose_assoc :
    ∀ a : Nat, a < 8 → ∀ b : Nat, b < 8 → ∀ c : Nat, c < 8 →
      SymmetryHelpers.compose (SymmetryHelpers.compose a b) c
        = SymmetryHelpers.compose a (SymmetryHelpers.compose b c) ∧
      SymmetryHelpers.compose3 a b c = SymmetryHelpers.compose (SymmetryHelpers.compose a b) c ∧
      SymmetryHelpers.compose3 a b c = SymmetryHelpers.compose a (SymmetryHelpers.compose b c) := by
  decide


/-- Witness for C4 at the transpose-with-one-flip symmetry 5, whose inverse is 6. -/
theorem compose_invert_identity_witness :
    SymmetryHelpers.invert 5 = 6 ∧
    SymmetryHelpers.compose 5 (SymmetryHelpers.invert 5) = 0 ∧
    SymmetryHelpers.invert (SymmetryHelpers.compose 5 (SymmetryHelpers.invert 5)) = 0 ∧
    SymmetryHelpers.compose (SymmetryHelpers.invert 5) 5 = 0 :=
  ⟨by decide, compose_invert_identity 5 (by decide)⟩

/-- Witness for C5 at the symmetries 4, 1, 6. -/
theorem compose_assoc_witness :
    SymmetryHelpers.compose (SymmetryHelpers.compose 4 1) 6
      = SymmetryHelpers.compose 4 (SymmetryHelpers.compose 1 6) ∧
    SymmetryHelpers.compose3 4 1 6 = SymmetryHelpers.compose (SymmetryHelpers.compose 4 1) 6 ∧
    SymmetryHelpers.compose3 4 1 6 = SymmetryHelpers.compose 4 (SymmetryHelpers.compose 1 6) :=
  compose_assoc 4 (by decide) 1 (by decide) 6 (by decide)

/-- C2, as stated, fails: a root with children of visit weights 100, 50 and 10, LCB
selection disabled, nothing subtracted or pruned and floor 1, for which the root's
retrospective weight reduction reports the second child with weight 20; the returned
values are `[100, 20, 10]`. -/
theorem getPlaySelectionValues_visit_weights_counterexample :
    Example.root3.getChildren.map (fun c => c.stats.weightSum) = [100, 50, 10] ∧
    (Example.search Example.root3 true).searchParams.useLcbForSelection = false ∧
    (Example.search Example.root3 true).searchParams.chosenMoveSubtract = 0 ∧
    (Example.search Example.root3 true).searchParams.chosenMovePrune = 0 ∧
    (1 : ℚ) ≤ 100 ∧
    Search.getPlaySelectionValuesOfRoot Example.externsReducing borderedLoc
        (Example.search Example.root3 true) 1
      = some (true, ⟨[4, 5, 7], [100, 20, 10], [100, 50, 10], [], []⟩) := by
  decide!

/-- C2, amended: for a root with an NN output whose three children have visit weights
100, 50 and 10, with LCB selection disabled, `chosenMoveSubtract = 0`,
`chosenMovePrune = 0`, a floor of at most 100, pass not suppressed at the root, and a
retrospective weight reduction that returns the two lower children's own weights,
`Search::getPlaySelectionValues` succeeds and returns the values `[100, 50, 10]` in
child order. -/
theorem getPlaySelectionValues_visit_weights_unchanged (E : Externs) (L : LocEncoding)
    (s : Search) (root c1 c2 c3 : SearchNode) (nnOutput : NNOutput) (scaleMaxToAtLeast : ℚ)
    (hroot : s.rootNode = some root)
    (hchildren : root.getChildren = [c1, c2, c3])
    (hw1 : c1.stats.weightSum = 100) (hw2 : c2.stats.weightSum = 50)
    (hw3 : c3.stats.weightSum = 10)
    (hlcb : s.searchParams.useLcbForSelection = false)
    (hsub : s.searchParams.chosenMoveSubtract = 0)
    (hprune : s.searchParams.chosenMovePrune = 0)
    (hscale : scaleMaxToAtLeast ≤ 100)
    (hnn : root.getNNOutput = some nnOutput)
    (hpass : E.shouldSuppressPass root = false)
    (hreduced : ∀ child ∈ [c2, c3], ∀ (policyProbs : Nat → ℚ) (t u v : ℚ),
      E.getReducedPlaySelectionWeight root policyProbs child t u v = child.stats.weightSum) :
    ∃ out, Search.getPlaySelectionValuesOfRoot E L s scaleMaxToAtLeast = some (true, out) ∧
      out.playSelectionValues = [100, 50, 10] ∧
      out.locs = [c1.prevMoveLoc, c2.prevMoveLoc, c3.prevMoveLoc] := by
  have hr2 := hreduced c2 (by simp)
  have hr3 := hreduced c3 (by simp)
  refine ⟨⟨[c1.prevMoveLoc, c2.prevMoveLoc, c3.prevMoveLoc], [100, 50, 10],
    [(c1.stats.visits : ℚ), (c2.stats.visits : ℚ), (c3.stats.visits : ℚ)], [], []⟩, ?_, rfl, rfl⟩
  unfold Search.getPlaySelectionValuesOfRoot Search.getPlaySelectionValuesOfNode
    Search.getPlaySelectionValues
  simp only [hroot, hchildren, hpass, storeWeights_three L c1 c2 c3 hw1 hw2 hw3,
    findMostWeighted_100_50_10, Search.reduceWeightsAtRoot, hnn, hlcb]
  simp only [List.get?_cons_zero]
  rw [reduceWeights_three L _ c1 c2 c3 (by rw [hr2, hw2]) (by rw [hr3, hw3])]
  rw [if_pos (by simp)]
  simp only [Option.map_some', Bool.false_eq_true, false_and, or_self, and_false, if_false,
    List.length_cons, List.length_nil]
  rw [if_neg (by simp)]
  exact normalizeStage_100_50_10 s scaleMaxToAtLeast _ rfl hsub hprune hscale

/-- Witness for the amended C2: the root `Example.root3` with the external functions that
adjust nothing, and floor 1. -/
theorem getPlaySelectionValues_visit_weights_unchanged_witness :
    ∃ out, Search.getPlaySelectionValuesOfRoot Example.externs borderedLoc
        (Example.search Example.root3 true) 1 = some (true, out) ∧
      out.playSelectionValues = [100, 50, 10] ∧
      out.locs = [(Example.leaf 4 100 0).prevMoveLoc, (Example.leaf 5 50 0).prevMoveLoc,
        (Example.leaf 7 10 0).prevMoveLoc] :=
  getPlaySelectionValues_visit_weights_unchanged Example.externs borderedLoc
    (Example.search Example.root3 true) Example.root3
    (Example.leaf 4 100 0) (Example.leaf 5 50 0) (Example.leaf 7 10 0) (Example.nnOutput 1) 1
    rfl rfl (by decide!) (by decide!) (by decide!) rfl (by decide!) (by decide!) (by decide!)
    rfl rfl (fun _ _ _ _ _ _ => rfl)

/-- C3: for every parent and every child (of nonzero weight or not) whose self-perspective
utility with ending bonus lies within the range of a utility, that is within the sum
`winLossUtilityFactor + staticScoreUtilityFactor + dynamicScoreUtilityFactor` in absolute
value, given a non-negative `sqrt` and a non-empty table of non-negative t-approximation
factors: `getSelfUtilityLCBAndRadius` returns, the lower confidence bound it writes is at
most the child's self-perspective utility (the utility with ending bonus, signed for the
player to move at the parent), and the radius it writes is not negative. On the main path
`lcb = selfUtility - radius`; on the default path the radius is twice the sum of the
factors and `lcb = -radius`, below every utility of the range. -/
theorem getSelfUtilityLCBAndRadius_lcb_le_utility (E : Externs) (s : Search)
    (parent child : SearchNode)
    (hsqrt : ∀ x : ℚ, 0 ≤ E.sqrt x)
    (htable : ∀ t ∈ s.normToTApproxTable, 0 ≤ t)
    (htab : s.normToTApproxTable ≠ [])
    (hU : |Search.selfUtilityWithBonus E parent child|
      ≤ s.searchParams.winLossUtilityFactor + s.searchParams.staticScoreUtilityFactor
        + s.searchParams.dynamicScoreUtilityFactor) :
    ∃ lcb radius, Search.getSelfUtilityLCBAndRadius E s parent child = some (lcb, radius) ∧
      lcb ≤ Search.selfUtilityWithBonus E parent child ∧ 0 ≤ radius ∧
      (lcb = Search.selfUtilityWithBonus E parent child - radius ∨
        (radius = 2 * (s.searchParams.winLossUtilityFactor
            + s.searchParams.staticScoreUtilityFactor
            + s.searchParams.dynamicScoreUtilityFactor) ∧ lcb = -radius)) := by
  have hF : 0 ≤ s.searchParams.winLossUtilityFactor + s.searchParams.staticScoreUtilityFactor
      + s.searchParams.dynamicScoreUtilityFactor := le_trans (abs_nonneg _) hU
  have hlow : -(s.searchParams.winLossUtilityFactor + s.searchParams.staticScoreUtilityFactor
      + s.searchParams.dynamicScoreUtilityFactor)
      ≤ Search.selfUtilityWithBonus E parent child := (abs_le.mp hU).1
  have hdefault :
      -(2 * (s.searchParams.winLossUtilityFactor + s.searchParams.staticScoreUtilityFactor
          + s.searchParams.dynamicScoreUtilityFactor))
        ≤ Search.selfUtilityWithBonus E parent child ∧
      0 ≤ 2 * (s.searchParams.winLossUtilityFactor + s.searchParams.staticScoreUtilityFactor
          + s.searchParams.dynamicScoreUtilityFactor) :=
    ⟨by linarith, by linarith⟩
  by_cases hw : child.stats.weightSum ≤ 0 ∨ child.stats.weightSqSum ≤ 0
  · refine ⟨_, _, ?_, hdefault.1, hdefault.2, Or.inr ⟨rfl, rfl⟩⟩
    unfold Search.getSelfUtilityLCBAndRadius
    simp only
    rw [if_pos hw]
  · by_cases hess : cround (child.stats.weightSum * child.stats.weightSum
        / child.stats.weightSqSum) < MIN_VISITS_FOR_LCB
    · refine ⟨_, _, ?_, hdefault.1, hdefault.2, Or.inr ⟨rfl, rfl⟩⟩
      unfold Search.getSelfUtilityLCBAndRadius
      simp only
      rw [if_neg hw, if_pos hess]
    · obtain ⟨t, ht, hget⟩ := getNormToTApproxForLCB_mem s _ (not_lt.mp hess) htab
      have hrad : 0 ≤ E.sqrt (max (1 / 10 ^ 8)
          (child.stats.utilitySqAvg - child.stats.utilityAvg * child.stats.utilityAvg)
          / (child.stats.weightSum * child.stats.weightSum / child.stats.weightSqSum)) * t :=
        mul_nonneg (hsqrt _) (htable t ht)
      refine ⟨Search.selfUtilityWithBonus E parent child
          - E.sqrt (max (1 / 10 ^ 8)
              (child.stats.utilitySqAvg - child.stats.utilityAvg * child.stats.utilityAvg)
              / (child.stats.weightSum * child.stats.weightSum / child.stats.weightSqSum)) * t,
        _, ?_, by linarith, hrad, Or.inl rfl⟩
      unfold Search.getSelfUtilityLCBAndRadius Search.selfUtilityWithBonus
      simp only
      rw [if_neg hw, if_neg hess, hget]

/-- Witness for C3 under a White-to-move parent with utility factors summing to 1: the
child `Example.highEssChild` (100 unit-weight visits, utility 1/4, variance 1/100) gets
the radius 1/100 times the table factor 2 and `lcb = 1/4 - 1/50`; a child visited once
with utility -1/2 gets the default radius 2 and `lcb = -2`. -/
theorem getSelfUtilityLCBAndRadius_lcb_le_utility_witness :
    Search.getSelfUtilityLCBAndRadius Example.externs (Example.search Example.whiteParent true)
      Example.whiteParent Example.highEssChild = some (1 / 4 - 1 / 50, 1 / 50) ∧
    Search.getSelfUtilityLCBAndRadius Example.externs (Example.search Example.whiteParent true)
      Example.whiteParent (Example.child 4 1 (-1 / 2)) = some (-2, 2) ∧
    Search.selfUtilityWithBonus Example.externs Example.whiteParent
      (Example.child 4 1 (-1 / 2)) = -1 / 2 ∧
    (∃ lcb radius, Search.getSelfUtilityLCBAndRadius Example.externs
        (Example.search Example.whiteParent true) Example.whiteParent Example.highEssChild
          = some (lcb, radius) ∧
      lcb ≤ Search.selfUtilityWithBonus Example.externs Example.whiteParent
        Example.highEssChild ∧ 0 ≤ radius ∧
      (lcb = Search.selfUtilityWithBonus Example.externs Example.whiteParent
          Example.highEssChild - radius ∨
        (radius = 2 * ((Example.search Example.whiteParent true).searchParams.winLossUtilityFactor
            + (Example.search Example.whiteParent true).searchParams.staticScoreUtilityFactor
            + (Example.search Example.whiteParent true).searchParams.dynamicScoreUtilityFactor)
          ∧ lcb = -radius))) :=
  ⟨by decide!, by decide!, by decide!,
    getSelfUtilityLCBAndRadius_lcb_le_utility Example.externs
      (Example.search Example.whiteParent true) Example.whiteParent Example.highEssChild
      Example.externs_sqrt_nonneg (by decide!) (by decide!) (by decide!)⟩

/-- C6: applying a symmetry and then its inverse returns the original location: on a
square board of side `N`, for every on-board cell and every symmetry `s` in `0..7`,
`getSymLoc(getSymLoc(x,y,N,N,s), N, N, invert(s))` is the location of `(x,y)`; on a
non-square board `W x H` the same holds for every on-board cell and every transpose-free
symmetry `s` in `0..3`. -/
theorem getSymLoc_invert_roundtrip (L : LocEncoding) (hL : L.Valid) :
    (∀ (N x y : Int) (s : Nat), 0 ≤ x → x < N → 0 ≤ y → y < N → s < 8 →
      SymmetryHelpers.getSymLocOfLoc L (SymmetryHelpers.getSymLoc L x y N N s) N N
        (SymmetryHelpers.invert s) = L.getLoc x y N) ∧
    (∀ (W H x y : Int) (s : Nat), W ≠ H → 0 ≤ x → x < W → 0 ≤ y → y < H → s < 4 →
      SymmetryHelpers.getSymLocOfLoc L (SymmetryHelpers.getSymLoc L x y W H s) W H
        (SymmetryHelpers.invert s) = L.getLoc x y W) := by
  have hc := getSymLoc_cases L
  constructor
  · intro N x y s hx hxN hy hyN hs
    obtain ⟨h0, h1, h2, h3, h4, h5, h6, h7⟩ := hc x y N N
    interval_cases s
    · rw [h0, show SymmetryHelpers.invert 0 = 0 from rfl,
        getSymLocOfLoc_getLoc L hL _ _ _ _ _ (by omega) (by omega) (by omega), (hc _ _ N N).1]
    · rw [h1, show SymmetryHelpers.invert 1 = 1 from rfl,
        getSymLocOfLoc_getLoc L hL _ _ _ _ _ (by omega) (by omega) (by omega), (hc _ _ N N).2.1]
      congr 1; omega
    · rw [h2, show SymmetryHelpers.invert 2 = 2 from rfl,
        getSymLocOfLoc_getLoc L hL _ _ _ _ _ (by omega) (by omega) (by omega), (hc _ _ N N).2.2.1]
      congr 1; omega
    · rw [h3, show SymmetryHelpers.invert 3 = 3 from rfl,
        getSymLocOfLoc_getLoc L hL _ _ _ _ _ (by omega) (by omega) (by omega),
        (hc _ _ N N).2.2.2.1]
      congr 1 <;> omega
    · rw [h4, show SymmetryHelpers.invert 4 = 4 from rfl,
        getSymLocOfLoc_getLoc L hL _ _ _ _ _ (by omega) (by omega) (by omega),
        (hc _ _ N N).2.2.2.2.1]
    · rw [h5, show SymmetryHelpers.invert 5 = 6 from rfl,
        getSymLocOfLoc_getLoc L hL _ _ _ _ _ (by omega) (by omega) (by omega),
        (hc _ _ N N).2.2.2.2.2.2.1]
      congr 1; omega
    · rw [h6, show SymmetryHelpers.invert 6 = 5 from rfl,
        getSymLocOfLoc_getLoc L hL _ _ _ _ _ (by omega) (by omega) (by omega),
        (hc _ _ N N).2.2.2.2.2.1]
      congr 1; omega
    · rw [h7, show SymmetryHelpers.invert 7 = 7 from rfl,
        getSymLocOfLoc_getLoc L hL _ _ _ _ _ (by omega) (by omega) (by omega),
        (hc _ _ N N).2.2.2.2.2.2.2]
      congr 1 <;> omega
  · intro W H x y s _ hx hxW hy hyH hs
    obtain ⟨h0, h1, h2, h3, _⟩ := hc x y W H
    interval_cases s
    · rw [h0, show SymmetryHelpers.invert 0 = 0 from rfl,
        getSymLocOfLoc_getLoc L hL _ _ _ _ _ (by omega) (by omega) (by omega), (hc _ _ W H).1]
    · rw [h1, show SymmetryHelpers.invert 1 = 1 from rfl,
        getSymLocOfLoc_getLoc L hL _ _ _ _ _ (by omega) (by omega) (by omega), (hc _ _ W H).2.1]
      congr 1; omega
    · rw [h2, show SymmetryHelpers.invert 2 = 2 from rfl,
        getSymLocOfLoc_getLoc L hL _ _ _ _ _ (by omega) (by omega) (by omega), (hc _ _ W H).2.2.1]
      congr 1; omega
    · rw [h3, show SymmetryHelpers.invert 3 = 3 from rfl,
        getSymLocOfLoc_getLoc L hL _ _ _ _ _ (by omega) (by omega) (by omega),
        (hc _ _ W H).2.2.2.1]
      congr 1 <;> omega

/-- Witness for C6 with the bordered encoding: the cell (3,16) of a 19x19 board under the
symmetry 5 (inverse 6), and the cell (8,2) of a 9x13 board under the symmetry 3. -/
theorem getSymLoc_invert_roundtrip_witness :
    SymmetryHelpers.getSymLocOfLoc borderedLoc
        (SymmetryHelpers.getSymLoc borderedLoc 3 16 19 19 5) 19 19 (SymmetryHelpers.invert 5)
      = borderedLoc.getLoc 3 16 19 ∧
    SymmetryHelpers.getSymLocOfLoc borderedLoc
        (SymmetryHelpers.getSymLoc borderedLoc 8 2 9 13 3) 9 13 (SymmetryHelpers.invert 3)
      = borderedLoc.getLoc 8 2 9 :=
  ⟨(getSymLoc_invert_roundtrip borderedLoc borderedLoc_valid).1 19 3 16 5
      (by decide) (by decide) (by decide) (by decide) (by decide),
    (getSymLoc_invert_roundtrip borderedLoc borderedLoc_valid).2 9 13 8 2 3
      (by decide) (by decide) (by decide) (by decide) (by decide) (by decide)⟩

/-- C7: `getSymLoc` with symmetry 0 is the identity on coordinates: for every board size
and every cell `(x,y)` the coordinate overloads return the location of `(x,y)`; and for
every symmetry the `Loc` overloads return `PASS_LOC` and `NULL_LOC` unchanged. -/
theorem getSymLoc_identity_and_pass_null (L : LocEncoding) :
    (∀ x y xSize ySize : Int,
      SymmetryHelpers.getSymLoc L x y xSize ySize 0 = L.getLoc x y xSize) ∧
    (∀ (x y : Int) (board : BoardDims),
      SymmetryHelpers.getSymLocBoard L x y board 0 = L.getLoc x y board.x_size) ∧
    (∀ (symmetry : Nat) (xSize ySize : Int),
      SymmetryHelpers.getSymLocOfLoc L L.PASS_LOC xSize ySize symmetry = L.PASS_LOC ∧
      SymmetryHelpers.getSymLocOfLoc L L.NULL_LOC xSize ySize symmetry = L.NULL_LOC) ∧
    (∀ (symmetry : Nat) (board : BoardDims),
      SymmetryHelpers.getSymLocOfLocBoard L L.PASS_LOC board symmetry = L.PASS_LOC ∧
      SymmetryHelpers.getSymLocOfLocBoard L L.NULL_LOC board symmetry = L.NULL_LOC) := by
  refine ⟨fun _ _ _ _ => rfl, fun _ _ _ => rfl, fun _ _ _ => ⟨?_, ?_⟩, fun _ _ => ⟨?_, ?_⟩⟩
  · simp [SymmetryHelpers.getSymLocOfLoc]
  · simp [SymmetryHelpers.getSymLocOfLoc]
  · simp [SymmetryHelpers.getSymLocOfLocBoard]
  · simp [SymmetryHelpers.getSymLocOfLocBoard]

/-- C8, as stated, fails: a search whose root has an NN output with an ownership map and
no children, but with `alwaysIncludeOwnerMap` off; `getAverageTreeOwnership` throws and
returns no map. -/
theorem getAverageTreeOwnership_root_only_counterexample :
    Example.rootOnly.getChildren = [] ∧
    (Example.rootOnly.getNNOutput.bind (fun o => o.whiteOwnerMap)).isSome = true ∧
    (Example.search Example.rootOnly false).rootNode = some Example.rootOnly ∧
    (Search.getAverageTreeOwnership Example.externs (Example.search Example.rootOnly false) 0
        none).cell 0
      = Search.Outcome.thrown "Called Search::getAverageTreeOwnership when alwaysIncludeOwnerMap is false" :=
  ⟨rfl, by decide!, rfl, by decide!⟩

/-- C8, amended: when `alwaysIncludeOwnerMap` is set, for a tree consisting of only a root
that has an NN output with an ownership map and no children, the traversal makes a single
`accumulate` call with the root's map and self weight exactly 1, and
`getAverageTreeOwnership` returns a vector every cell of which equals the root's
`whiteOwnerMap` value, for every `minWeight`. -/
theorem getAverageTreeOwnership_root_only (E : Externs) (s : Search) (minWeight : ℚ)
    (pla : Player) (loc : Int) (stats : NodeStats) (nnOutput : NNOutput) (ownerMap : Nat → ℚ)
    (hflag : s.alwaysIncludeOwnerMap = true)
    (hroot : s.rootNode = some (SearchNode.mk pla loc stats (some nnOutput) []))
    (hmap : nnOutput.whiteOwnerMap = some ownerMap) :
    (∀ (σ : Type) (accumulate : σ → (Nat → ℚ) → ℚ → σ) (st : σ),
      Search.traverseTreeWithOwnershipAndSelfWeight E accumulate minWeight 1
          (SearchNode.mk pla loc stats (some nnOutput) []) st
        = some (1, accumulate st ownerMap 1)) ∧
    ∃ vec, Search.getAverageTreeOwnership E s minWeight none = Search.Outcome.ok vec ∧
      ∀ pos, pos < s.nnXLen * s.nnYLen → vec pos = ownerMap pos := by
  have htr : ∀ (σ : Type) (accumulate : σ → (Nat → ℚ) → ℚ → σ) (st : σ),
      Search.traverseTreeWithOwnershipAndSelfWeight E accumulate minWeight 1
          (SearchNode.mk pla loc stats (some nnOutput) []) st
        = some (1, accumulate st ownerMap 1) :=
    fun σ accumulate st =>
      traverse_leaf E accumulate minWeight 1 _ nnOutput ownerMap st rfl rfl hmap
  refine ⟨htr, ?_⟩
  unfold Search.getAverageTreeOwnership
  simp only [hflag, hroot, Bool.true_eq_false, if_false, htr]
  refine ⟨_, rfl, ?_⟩
  intro pos hpos
  simp [Search.accumulateOwnership, hpos]

/-- Witness for the amended C8: the root `Example.rootOnly`, whose map is constantly 1/3,
with `minWeight = 7`. -/
theorem getAverageTreeOwnership_root_only_witness :
    (Search.getAverageTreeOwnership Example.externs (Example.search Example.rootOnly true) 7
        none).cell 3 = Search.Outcome.ok (1 / 3) ∧
    ∃ vec, Search.getAverageTreeOwnership Example.externs (Example.search Example.rootOnly true)
        7 none = Search.Outcome.ok vec ∧
      ∀ pos, pos < (Example.search Example.rootOnly true).nnXLen
          * (Example.search Example.rootOnly true).nnYLen → vec pos = (fun _ => (1 / 3 : ℚ)) pos :=
  ⟨by decide!,
    (getAverageTreeOwnership_root_only Example.externs (Example.search Example.rootOnly true) 7
      Player.P_BLACK 0 (Example.stats 1 1 0) (Example.nnOutput (1 / 3)) (fun _ => 1 / 3)
      rfl rfl rfl).2⟩

/-- C9, as stated, fails: a search whose root (own weight 1, ownership 1) has two leaf
children of weights 3 and 1 with ownerships -1 and 1/5, all carrying ownership maps, but
with `alwaysIncludeOwnerMap` off; `getAverageTreeOwnership` throws instead of returning
-0.504. -/
theorem getAverageTreeOwnership_blend_counterexample :
    Example.root2.getChildren.map (fun c => c.stats.weightSum) = [3, 1] ∧
    (Example.search Example.root2 false).rootNode = some Example.root2 ∧
    (Search.getAverageTreeOwnership Example.externs (Example.search Example.root2 false) 0
        none).cell 0
      = Search.Outcome.thrown "Called Search::getAverageTreeOwnership when alwaysIncludeOwnerMap is false" ∧
    (Search.getAverageTreeOwnership Example.externs (Example.search Example.root2 false) 0
        none).cell 0
      ≠ Search.Outcome.ok (-63 / 125) :=
  ⟨by decide!, rfl, by decide!, by decide!⟩

/-- C9, amended: when `alwaysIncludeOwnerMap` is set, for a root with own evaluation
weight `W` and leaf children of weights `w_i` (all at least `minWeight`, all carrying
ownership maps) such that `S + W` and `sum_j w_j^2` are not zero, where `S = sum_i w_i`,
`getAverageTreeOwnership` returns at each cell
`(W/(S+W))*root + sum_i (w_i^2 / sum_j w_j^2)*(S/(S+W))*child_i`. -/
theorem getAverageTreeOwnership_blend (E : Externs) (s : Search) (minWeight : ℚ)
    (pla : Player) (loc : Int) (stats : NodeStats) (nnOutput : NNOutput) (ownerMap : Nat → ℚ)
    (children : List SearchNode)
    (hflag : s.alwaysIncludeOwnerMap = true)
    (hroot : s.rootNode = some (SearchNode.mk pla loc stats (some nnOutput) children))
    (hmap : nnOutput.whiteOwnerMap = some ownerMap)
    (hleaf : ∀ c ∈ children, c.getChildren = [] ∧
      ∃ o m, c.getNNOutput = some o ∧ o.whiteOwnerMap = some m)
    (hmin : ∀ c ∈ children, minWeight ≤ c.stats.weightSum)
    (hSW : (children.map (fun c => c.stats.weightSum)).sum
      + E.computeWeightFromNNOutput nnOutput ≠ 0)
    (hQ : (children.map (fun c => c.stats.weightSum * c.stats.weightSum)).sum ≠ 0) :
    ∃ vec, Search.getAverageTreeOwnership E s minWeight none = Search.Outcome.ok vec ∧
      ∀ pos, pos < s.nnXLen * s.nnYLen →
        vec pos =
          E.computeWeightFromNNOutput nnOutput
              / ((children.map (fun c => c.stats.weightSum)).sum
                  + E.computeWeightFromNNOutput nnOutput) * ownerMap pos
            + (children.map (fun c =>
                c.stats.weightSum * c.stats.weightSum
                    / (children.map (fun c => c.stats.weightSum * c.stats.weightSum)).sum
                  * ((children.map (fun c => c.stats.weightSum)).sum
                      / ((children.map (fun c => c.stats.weightSum)).sum
                          + E.computeWeightFromNNOutput nnOutput))
                  * Search.ownerMapOf c pos)).sum := by
  set S := (children.map (fun c => c.stats.weightSum)).sum with hS
  set Q := (children.map (fun c => c.stats.weightSum * c.stats.weightSum)).sum with hQdef
  set W := E.computeWeightFromNNOutput nnOutput with hW
  obtain ⟨vec1, h1, h2⟩ := traverseChildren_leaves E s minWeight Q (1 * S / (S + W)) children
    hleaf hmin hQ 0 (fun _ => 0)
  have hsum : ∀ (l : List SearchNode) (k : ℚ),
      (l.map (fun c => c.stats.weightSum * c.stats.weightSum / Q * k)).sum
        = (l.map (fun c => c.stats.weightSum * c.stats.weightSum)).sum / Q * k := by
    intro l k
    induction l with
    | nil => simp
    | cons c t ih => simp only [List.map_cons, List.sum_cons, ih]; ring
  unfold Search.getAverageTreeOwnership
  simp only [hflag, hroot, Bool.true_eq_false, if_false]
  rw [Search.traverseTreeWithOwnershipAndSelfWeight]
  simp only [childrenWeightSums_all minWeight children hmin, ← hS, ← hQdef, ← hW]
  rw [if_neg (fun h => hSW h.1)]
  simp only [h1, hmap]
  refine ⟨_, rfl, ?_⟩
  intro pos hpos
  simp only [Search.accumulateOwnership, if_pos hpos, h2 pos hpos, hsum children, ← hQdef]
  rw [div_self hQ]
  field_simp
  ring

/-- Witness for the amended C9: root weight 1, child weights 3 and 1, ownerships 1, -1 and
1/5; the aggregated value of a cell is 0.2*1 + 0.72*(-1) + 0.08*0.2 = -0.504. -/
theorem getAverageTreeOwnership_blend_witness :
    (Search.getAverageTreeOwnership Example.externs (Example.search Example.root2 true) 0
        none).cell 0 = Search.Outcome.ok (-63 / 125) ∧
    (1 / 5 : ℚ) * 1 + (18 / 25) * (-1) + (2 / 25) * (1 / 5) = -63 / 125 ∧
    ∃ vec, Search.getAverageTreeOwnership Example.externs (Example.search Example.root2 true) 0
        none = Search.Outcome.ok vec ∧
      ∀ pos, pos < (Example.search Example.root2 true).nnXLen
          * (Example.search Example.root2 true).nnYLen →
        vec pos =
          Example.externs.computeWeightFromNNOutput (Example.nnOutput 1)
              / (([Example.leaf 4 3 (-1), Example.leaf 5 1 (1 / 5)].map
                    (fun c => c.stats.weightSum)).sum
                  + Example.externs.computeWeightFromNNOutput (Example.nnOutput 1))
              * (fun _ => (1 : ℚ)) pos
            + ([Example.leaf 4 3 (-1), Example.leaf 5 1 (1 / 5)].map (fun c =>
                c.stats.weightSum * c.stats.weightSum
                    / ([Example.leaf 4 3 (-1), Example.leaf 5 1 (1 / 5)].map
                        (fun c => c.stats.weightSum * c.stats.weightSum)).sum
                  * (([Example.leaf 4 3 (-1), Example.leaf 5 1 (1 / 5)].map
                        (fun c => c.stats.weightSum)).sum
                      / (([Example.leaf 4 3 (-1), Example.leaf 5 1 (1 / 5)].map
                            (fun c => c.stats.weightSum)).sum
                          + Example.externs.computeWeightFromNNOutput (Example.nnOutput 1)))
                  * Search.ownerMapOf c pos)).sum :=
  ⟨by decide!, by decide!,
    getAverageTreeOwnership_blend Example.externs (Example.search Example.root2 true) 0
      Player.P_BLACK 0 (Example.stats 5 5 0) (Example.nnOutput 1) (fun _ => 1)
      [Example.leaf 4 3 (-1), Example.leaf 5 1 (1 / 5)] rfl rfl rfl
      (by
        intro c hc
        simp only [List.mem_cons, List.mem_singleton, List.not_mem_nil, or_false] at hc
        rcases hc with rfl | rfl
        · exact ⟨rfl, _, _, rfl, rfl⟩
        · exact ⟨rfl, _, _, rfl, rfl⟩)
      (by decide!) (by decide!) (by decide!)⟩

/-- C10: averaging evaluations preserves move legality: for every non-empty list of NN
outputs (`first :: rest`) and every policy position, the averaged output's policy value
is negative if and only if the first input's value at that position is negative, and when
all inputs agree in sign at every position the result is the arithmetic mean; the
constructor produces an output whenever its assertions (fewer than 1000000 inputs, equal
hashes) hold. -/
theorem ofOthers_policy_sign (MAX : Nat) (first : NNOutput) (rest : List NNOutput) :
    (∀ r, NNOutput.ofOthers MAX (first :: rest) = some r → ∀ pos, pos < MAX →
      (r.policyProbs pos < 0 ↔ first.policyProbs pos < 0) ∧
      ((∀ o ∈ rest, ∀ p, p < MAX → (o.policyProbs p < 0 ↔ first.policyProbs p < 0)) →
        r.policyProbs pos
          = ((first :: rest).map (fun o => o.policyProbs pos)).sum
              / (((first :: rest).length : ℕ) : ℚ))) ∧
    ((first :: rest).length < 1000000 → (∀ o ∈ rest, o.nnHash = first.nnHash) →
      ∃ r, NNOutput.ofOthers MAX (first :: rest) = some r) := by
  constructor
  · intro r h pos hpos
    rw [ofOthers_policyProbs MAX first rest r h]
    exact averagePolicy_sign MAX first rest _
      (by rw [List.length_cons]; exact_mod_cast Nat.succ_pos _) pos hpos
  · intro hlen hhash
    obtain ⟨om, hom⟩ := averageOwnerMap_isSome (first :: rest) first.nnXLen first.nnYLen
    unfold NNOutput.ofOthers
    rw [if_neg (not_not.mpr hlen)]
    simp only
    rw [if_neg]
    · rw [hom]
      exact ⟨_, rfl⟩
    · simp only [Bool.not_eq_false, List.all_eq_true, beq_iff_eq]
      exact hhash

/-- Witness for C10 with a policy of size 5: averaging `policyA` and `policyB` (both
illegal at position 0) gives -1 at position 0 and the mean 2/5 at position 1; averaging
`policyA` with `policyC` (legal at position 0) gives back `policyA`. -/
theorem ofOthers_policy_sign_witness :
    (NNOutput.ofOthers 5 [Example.policyA, Example.policyB]).map
        (fun r => (r.policyProbs 0, r.policyProbs 1)) = some (-1, 2 / 5) ∧
    (NNOutput.ofOthers 5 [Example.policyA, Example.policyC]).map
        (fun r => (r.policyProbs 0, r.policyProbs 1)) = some (-1, 1 / 5) ∧
    ∃ r, NNOutput.ofOthers 5 [Example.policyA, Example.policyB] = some r ∧
      (r.policyProbs 0 < 0 ↔ Example.policyA.policyProbs 0 < 0) ∧
      r.policyProbs 1
        = ([Example.policyA, Example.policyB].map (fun o => o.policyProbs 1)).sum
            / (([Example.policyA, Example.policyB].length : ℕ) : ℚ) := by
  refine ⟨by decide!, by decide!, ?_⟩
  obtain ⟨r, hr⟩ := (ofOthers_policy_sign 5 Example.policyA [Example.policyB]).2
    (by decide) (by decide!)
  exact ⟨r, hr,
    ((ofOthers_policy_sign 5 Example.policyA [Example.policyB]).1 r hr 0 (by decide)).1,
    ((ofOthers_policy_sign 5 Example.policyA [Example.policyB]).1 r hr 1 (by decide)).2
      (by decide!)⟩

/-! ### Valid symmetries and duplicate moves -/

/-- The loop that collects the valid symmetries appends, in order, the candidates that are
not skipped and under which the board is symmetric. -/
theorem collectValidSymmetries_eq (L : LocEncoding) (board : Board)
    (onlySymmetries : Option (List Int)) :
    SymmetryHelpers.collectValidSymmetries L board onlySymmetries
      = 0 :: (List.range' 1 ((if board.x_size = board.y_size then SymmetryHelpers.NUM_SYMMETRIES
            else SymmetryHelpers.NUM_SYMMETRIES_WITHOUT_TRANSPOSE) - 1)).filter (fun symmetry =>
          !SymmetryHelpers.skippedByOnlySymmetries onlySymmetries symmetry
          && SymmetryHelpers.isBoardSym L board symmetry) := by
  have key : ∀ (l : List Nat) (init : List Nat),
      l.foldl (fun validSymmetries symmetry =>
          if SymmetryHelpers.skippedByOnlySymmetries onlySymmetries symmetry = true then
            validSymmetries
          else if SymmetryHelpers.isBoardSym L board symmetry = true then
            validSymmetries ++ [symmetry]
          else validSymmetries) init
        = init ++ l.filter (fun symmetry =>
            !SymmetryHelpers.skippedByOnlySymmetries onlySymmetries symmetry
            && SymmetryHelpers.isBoardSym L board symmetry) := by
    intro l
    induction l with
    | nil => intro init; simp
    | cons a t ih =>
      intro init
      simp only [List.foldl_cons, List.filter_cons]
      rw [ih]
      split_ifs with h1 h2 h3 h3 <;> simp_all
  unfold SymmetryHelpers.collectValidSymmetries
  simp only
  rw [key]
  rfl

/-- The board test of `markDuplicateMoveLocs` holds exactly when every cell has the colour
of its image. -/
theorem isBoardSym_iff (L : LocEncoding) (board : Board) (symmetry : Nat) :
    SymmetryHelpers.isBoardSym L board symmetry = true ↔
      ∀ x y : Int, 0 ≤ x → x < board.x_size → 0 ≤ y → y < board.y_size →
        board.colors (L.getLoc x y board.x_size)
          = board.colors (SymmetryHelpers.getSymLocBoard L x y board.toBoardDims symmetry) := by
  unfold SymmetryHelpers.isBoardSym
  simp only [List.all_eq_true, List.mem_range, Bool.not_true, Bool.or_false, Bool.not_not,
    decide_eq_true_eq]
  constructor
  · intro h x y hx hxs hy hys
    have := h y.toNat (by omega) x.toNat (by omega)
    rwa [Int.toNat_of_nonneg hx, Int.toNat_of_nonneg hy] at this
  · intro h y hy x hx
    exact h x y (by omega) (by omega) (by omega) (by omega)

/-- C11: `markDuplicateMoveLocs` always returns `validSymmetries` with the identity 0 as
first element and in strictly increasing order; when no ko restriction is active and
`onlySymmetries` is null, a symmetry `s` in `1..7` (`1..3` on non-square boards) is in
`validSymmetries` if and only if every board cell has the same colour as its image under
`getSymLoc` with `s`. -/
theorem markDuplicateMoveLocs_validSymmetries (L : LocEncoding) (board : Board)
    (presumedNextMovePla : Player) (onlySymmetries : Option (List Int))
    (avoidMoves : List Int) :
    ((SymmetryHelpers.markDuplicateMoveLocs L board presumedNextMovePla onlySymmetries
        avoidMoves).2.head? = some 0 ∧
      (SymmetryHelpers.markDuplicateMoveLocs L board presumedNextMovePla onlySymmetries
        avoidMoves).2.Pairwise (fun a b => a < b)) ∧
    (board.ko_loc = L.NULL_LOC → onlySymmetries = none →
      ∀ s : Nat, 1 ≤ s → s < (if board.x_size = board.y_size then 8 else 4) →
        (s ∈ (SymmetryHelpers.markDuplicateMoveLocs L board presumedNextMovePla onlySymmetries
            avoidMoves).2 ↔
          ∀ x y : Int, 0 ≤ x → x < board.x_size → 0 ≤ y → y < board.y_size →
            board.colors (L.getLoc x y board.x_size)
              = board.colors (SymmetryHelpers.getSymLocBoard L x y board.toBoardDims s))) := by
  have hvalid : (SymmetryHelpers.markDuplicateMoveLocs L board presumedNextMovePla onlySymmetries
      avoidMoves).2 = [0] ∨
      (board.ko_loc = L.NULL_LOC ∧
        (SymmetryHelpers.markDuplicateMoveLocs L board presumedNextMovePla onlySymmetries
          avoidMoves).2 = SymmetryHelpers.collectValidSymmetries L board onlySymmetries) := by
    unfold SymmetryHelpers.markDuplicateMoveLocs
    simp only
    split_ifs with h1 h2
    · exact Or.inl rfl
    · exact Or.inr ⟨not_not.mp h1, rfl⟩
    · exact Or.inr ⟨not_not.mp h1, rfl⟩
  refine ⟨?_, ?_⟩
  · rcases hvalid with h | ⟨_, h⟩
    · rw [h]; simp
    · rw [h, collectValidSymmetries_eq]
      refine ⟨rfl, ?_⟩
      rw [List.pairwise_cons]
      refine ⟨?_, ?_⟩
      · intro a ha
        have := (List.mem_filter.mp ha).1
        rw [List.mem_range'_1] at this
        omega
      · exact List.Pairwise.filter _ (List.pairwise_lt_range' 1 _)
  · intro hko honly s hs1 hs2
    have h : (SymmetryHelpers.markDuplicateMoveLocs L board presumedNextMovePla onlySymmetries
        avoidMoves).2 = SymmetryHelpers.collectValidSymmetries L board onlySymmetries := by
      unfold SymmetryHelpers.markDuplicateMoveLocs
      simp only [hko, ne_eq, not_true_eq_false, if_false]
      split_ifs <;> rfl
    · rw [h, collectValidSymmetries_eq, honly]
      simp only [List.mem_cons, List.mem_filter, List.mem_range'_1,
        SymmetryHelpers.skippedByOnlySymmetries, Bool.not_false, Bool.true_and]
      rw [isBoardSym_iff]
      constructor
      · rintro (h0 | ⟨_, h2⟩)
        · omega
        · exact h2
      · intro h2
        refine Or.inr ⟨⟨hs1, ?_⟩, h2⟩
        unfold SymmetryHelpers.NUM_SYMMETRIES SymmetryHelpers.NUM_SYMMETRIES_WITHOUT_TRANSPOSE
        split_ifs at hs2 ⊢ <;> omega

/-- Witness for C11: the 2x2 board with one stone in the corner (0,0) is symmetric under
the transpose 4 only, so `validSymmetries = [0, 4]`; the symmetry 4 is in it and every
cell has the colour of its transposed cell. -/
theorem markDuplicateMoveLocs_validSymmetries_witness :
    (SymmetryHelpers.markDuplicateMoveLocs borderedLoc Example.cornerBoard Player.P_BLACK none
        []).2 = [0, 4] ∧
    (4 ∈ (SymmetryHelpers.markDuplicateMoveLocs borderedLoc Example.cornerBoard Player.P_BLACK
          none []).2 ↔
      ∀ x y : Int, 0 ≤ x → x < Example.cornerBoard.x_size → 0 ≤ y →
        y < Example.cornerBoard.y_size →
          Example.cornerBoard.colors (borderedLoc.getLoc x y Example.cornerBoard.x_size)
            = Example.cornerBoard.colors
                (SymmetryHelpers.getSymLocBoard borderedLoc x y
                  Example.cornerBoard.toBoardDims 4)) :=
  ⟨by decide!,
    (markDuplicateMoveLocs_validSymmetries borderedLoc Example.cornerBoard Player.P_BLACK none
      []).2 rfl rfl 4 (by decide) (by decide)⟩

/-- C12: when a ko restriction is active (`board.ko_loc` is not `NULL_LOC`),
`markDuplicateMoveLocs` returns `validSymmetries = [0]` and marks no location as a
duplicate, for every board, player, `onlySymmetries` and `avoidMoves`. -/
theorem markDuplicateMoveLocs_ko (L : LocEncoding) (board : Board)
    (presumedNextMovePla : Player) (onlySymmetries : Option (List Int))
    (avoidMoves : List Int) (hko : board.ko_loc ≠ L.NULL_LOC) :
    (SymmetryHelpers.markDuplicateMoveLocs L board presumedNextMovePla onlySymmetries
        avoidMoves).2 = [0] ∧
    ∀ loc : Int,
      (SymmetryHelpers.markDuplicateMoveLocs L board presumedNextMovePla onlySymmetries
        avoidMoves).1 loc = false := by
  unfold SymmetryHelpers.markDuplicateMoveLocs
  rw [if_pos hko]
  exact ⟨rfl, fun _ => rfl⟩

/-- Witness for C12: the corner board with a ko at the cell (1,1), White to move, only
the symmetries 4 and 7 asked for. -/
theorem markDuplicateMoveLocs_ko_witness :
    (SymmetryHelpers.markDuplicateMoveLocs borderedLoc Example.koBoard Player.P_WHITE
        (some [4, 7]) []).2 = [0] ∧
    ∀ loc : Int,
      (SymmetryHelpers.markDuplicateMoveLocs borderedLoc Example.koBoard Player.P_WHITE
        (some [4, 7]) []).1 loc = false :=
  markDuplicateMoveLocs_ko borderedLoc Example.koBoard Player.P_WHITE (some [4, 7]) []
    (by decide)

/-! ### Node values -/

/-- C14: `Search::getNodeValues` returns false, leaving the snapshot unchanged, if and only
if the node pointer is null or the node's `weightSum` is `<= 0`; otherwise whatever it
returns is true with the snapshot built from the node's winLoss, noResult, scoreMean,
scoreMeanSq, lead and utility averages, `weightSum` and `visits`, and it does return when
its assertions hold (`visits >= 0`, and the root has an NN output). -/
theorem getNodeValues_false_iff (R : ReportExterns) (s : Search) (node : Option SearchNode)
    (isRootNode : Bool) (values : ReportedSearchValues) :
    ((node = none ∨ ∃ n, node = some n ∧ n.stats.weightSum ≤ 0) →
      Search.getNodeValues R s node isRootNode values = some (false, values)) ∧
    (∀ v, Search.getNodeValues R s node isRootNode values = some (false, v) →
      (node = none ∨ ∃ n, node = some n ∧ n.stats.weightSum ≤ 0)) ∧
    (∀ n, node = some n → 0 < n.stats.weightSum →
      (∀ b v, Search.getNodeValues R s node isRootNode values = some (b, v) →
        b = true ∧
        v = R.reportedSearchValues s n.stats.winLossValueAvg n.stats.noResultValueAvg
              n.stats.scoreMeanAvg n.stats.scoreMeanSqAvg n.stats.leadAvg n.stats.utilityAvg
              n.stats.weightSum n.stats.visits) ∧
      (0 ≤ n.stats.visits → (isRootNode = true → n.getNNOutput ≠ none) →
        Search.getNodeValues R s node isRootNode values
          = some (true,
              R.reportedSearchValues s n.stats.winLossValueAvg n.stats.noResultValueAvg
                n.stats.scoreMeanAvg n.stats.scoreMeanSqAvg n.stats.leadAvg n.stats.utilityAvg
                n.stats.weightSum n.stats.visits))) := by
  refine ⟨?_, ?_, ?_⟩
  · rintro (h | ⟨n, h, hw⟩)
    · subst h; rfl
    · subst h
      unfold Search.getNodeValues
      simp only [if_pos hw]
  · intro v h
    cases node with
    | none => exact Or.inl rfl
    | some n =>
      refine Or.inr ⟨n, rfl, ?_⟩
      unfold Search.getNodeValues at h
      simp only at h
      split_ifs at h with h1 h2 h3
      · exact h1
      · simp at h
  · intro n hn hw
    subst hn
    have hw2 : ¬ n.stats.weightSum ≤ 0 := not_le.mpr hw
    refine ⟨?_, ?_⟩
    · intro b v h
      unfold Search.getNodeValues at h
      simp only [if_neg hw2] at h
      split_ifs at h with h2 h3
      simp only [Option.some.injEq, Prod.mk.injEq] at h
      exact ⟨h.1.symm, h.2.symm⟩
    · intro hv hnn
      unfold Search.getNodeValues
      simp only [if_neg hw2]
      rw [if_neg (by simpa using hv), if_neg]
      rintro ⟨hr, hnone⟩
      apply hnn hr
      cases hx : n.getNNOutput with
      | none => rfl
      | some o => rw [hx] at hnone; simp at hnone

/-- Witness for C14: the root of `Example.root3` (weight 161) gives a true return with the
built snapshot; the root without weight gives false with the snapshot unchanged. -/
theorem getNodeValues_false_iff_witness :
    Search.getNodeValues Example.reportExterns (Example.search Example.rootNoWeight true)
        (some Example.rootNoWeight) true Example.reportExterns.defaultValues
      = some (false, Example.reportExterns.defaultValues) ∧
    Search.getNodeValues Example.reportExterns (Example.search Example.root3 true)
        (some Example.root3) true Example.reportExterns.defaultValues
      = some (true,
          Example.reportExterns.reportedSearchValues (Example.search Example.root3 true)
            Example.root3.stats.winLossValueAvg Example.root3.stats.noResultValueAvg
            Example.root3.stats.scoreMeanAvg Example.root3.stats.scoreMeanSqAvg
            Example.root3.stats.leadAvg Example.root3.stats.utilityAvg
            Example.root3.stats.weightSum Example.root3.stats.visits) :=
  ⟨(getNodeValues_false_iff Example.reportExterns (Example.search Example.rootNoWeight true)
      (some Example.rootNoWeight) true Example.reportExterns.defaultValues).1
      (Or.inr ⟨Example.rootNoWeight, rfl, by decide!⟩),
    ((getNodeValues_false_iff Example.reportExterns (Example.search Example.root3 true)
      (some Example.root3) true Example.reportExterns.defaultValues).2.2
      Example.root3 rfl (by decide!)).2 (by decide!) (fun _ => by simp [Example.root3, SearchNode.getNNOutput])⟩

/-- C15: `getRootValuesRequireSuccess` raises an error if and only if `getRootValues` would
return false, and otherwise returns the snapshot `getRootValues` produces; likewise
`getRootRawNNValuesRequireSuccess` raises exactly when `getRootRawNNValues` returns
false. -/
theorem requireSuccess_raises_iff (E : Externs) (R : ReportExterns) (s : Search)
    (values : ReportedSearchValues) :
    ((∃ m, Search.getRootValuesRequireSuccess R s = Search.Outcome.thrown m) ↔
      ∃ v, Search.getRootValues R s values = some (false, v)) ∧
    (∀ v, Search.getRootValues R s values = some (true, v) →
      Search.getRootValuesRequireSuccess R s = Search.Outcome.ok v) ∧
    ((∃ m, Search.getRootRawNNValuesRequireSuccess E R s = Search.Outcome.thrown m) ↔
      ∃ v, Search.getRootRawNNValues E R s values = some (false, v)) := by
  refine ⟨?_, ?_, ?_⟩
  · unfold Search.getRootValuesRequireSuccess Search.getRootValues
    cases hroot : s.rootNode with
    | none => exact ⟨fun _ => ⟨values, rfl⟩, fun _ => ⟨_, rfl⟩⟩
    | some root =>
      simp only
      unfold Search.getNodeValues
      simp only
      split_ifs with h1 h2 h3
      · exact ⟨fun _ => ⟨values, rfl⟩, fun _ => ⟨_, rfl⟩⟩
      · simp
      · simp
      · simp
  · intro v h
    unfold Search.getRootValuesRequireSuccess
    unfold Search.getRootValues at h
    cases hroot : s.rootNode with
    | none => rw [hroot] at h; simp [Search.getNodeValues] at h
    | some root =>
      rw [hroot] at h
      unfold Search.getNodeValues at h ⊢
      simp only at h ⊢
      split_ifs at h ⊢ with h1 h2 h3
      · simp at h
      · simp only [Option.some.injEq, Prod.mk.injEq, true_and] at h
        simp [h]
  · unfold Search.getRootRawNNValuesRequireSuccess Search.getRootRawNNValues
    cases hroot : s.rootNode with
    | none => exact ⟨fun _ => ⟨values, rfl⟩, fun _ => ⟨_, rfl⟩⟩
    | some root =>
      simp only
      unfold Search.getNodeRawNNValues
      cases hnn : root.getNNOutput with
      | none => exact ⟨fun _ => ⟨values, rfl⟩, fun _ => ⟨_, rfl⟩⟩
      | some o =>
        simp only
        split_ifs <;> simp

/-- Witness for C15: for the search rooted at `Example.root3` both readers succeed and the
require-success variant returns the snapshot of `getRootValues`. -/
theorem requireSuccess_raises_iff_witness :
    Search.getRootValues Example.reportExterns (Example.search Example.root3 true)
        Example.reportExterns.defaultValues
      = some (true,
          Example.reportExterns.reportedSearchValues (Example.search Example.root3 true)
            0 0 0 0 0 0 161 161) ∧
    Search.getRootValuesRequireSuccess Example.reportExterns (Example.search Example.root3 true)
      = Search.Outcome.ok
          (Example.reportExterns.reportedSearchValues (Example.search Example.root3 true)
            0 0 0 0 0 0 161 161) ∧
    Search.getRootValuesRequireSuccess Example.reportExterns
        (Example.search Example.rootNoWeight true)
      = Search.Outcome.thrown "Bug? Bot search returned no root values" :=
  ⟨by decide!,
    (requireSuccess_raises_iff Example.externs Example.reportExterns
      (Example.search Example.root3 true) Example.reportExterns.defaultValues).2.1 _
      (by decide!),
    by decide!⟩

/-! ### The stages of `getPlaySelectionValues` -/

/-- The first loop appends one entry per child to each output vector. -/
theorem storeWeights_fold (L : LocEncoding) (suppressPass : Bool) (children : List SearchNode) :
    ∀ (st : Search.PSVState) (t m : ℚ),
      (children.foldl (Search.storeWeightsStep L suppressPass) (st, t, m)).1
        = { st with
            locs := st.locs ++ children.map (fun c => c.prevMoveLoc)
            playSelectionValues :=
              st.playSelectionValues ++ children.map (Search.storedValue L suppressPass)
            retVisitCounts :=
              st.retVisitCounts ++ children.map (Search.storedVisits L suppressPass) } := by
  induction children with
  | nil => intro st t m; simp
  | cons c cs ih =>
    intro st t m
    simp only [List.foldl_cons]
    have hstep : ∃ t1 m1, Search.storeWeightsStep L suppressPass (st, t, m) c
        = ({ st with
              locs := st.locs ++ [c.prevMoveLoc]
              playSelectionValues :=
                st.playSelectionValues ++ [Search.storedValue L suppressPass c]
              retVisitCounts := st.retVisitCounts ++ [Search.storedVisits L suppressPass c] },
            t1, m1) := by
      unfold Search.storeWeightsStep Search.storedValue Search.storedVisits
      simp only
      split_ifs <;> exact ⟨_, _, rfl⟩
    obtain ⟨t1, m1, h⟩ := hstep
    rw [h, ih]
    simp

/-- The number of stored values is the number of children. -/
theorem storeWeights_length (L : LocEncoding) (suppressPass : Bool) (children : List SearchNode) :
    (children.foldl (Search.storeWeightsStep L suppressPass)
        (⟨[], [], [], [], []⟩, 0, 0)).1.playSelectionValues.length = children.length := by
  rw [storeWeights_fold]
  simp

/-- `getPlaySelectionValues` is the state before the fallback, followed by the policy
fallback when there are no children, followed by the normalization. -/
theorem getPlaySelectionValues_eq_stages (E : Externs) (L : LocEncoding) (s : Search)
    (node : SearchNode) (isRootNode : Bool) (scale : ℚ) (allow always never : Bool) :
    Search.getPlaySelectionValues E L s node isRootNode scale allow always never
      = match Search.selectionStateBeforeFallback E L s node isRootNode always never with
        | none => none
        | some st2 =>
          if node.getChildren.length = 0 then
            match node.getNNOutput with
            | none => some (false, st2)
            | some nnOutput =>
              if isRootNode = false ∨ allow = false then some (false, st2)
              else
                match Search.policyFallback E L s nnOutput st2 with
                | none => none
                | some st3 => Search.normalizeStage s scale st3
          else Search.normalizeStage s scale st2 := by
  unfold Search.getPlaySelectionValues Search.selectionStateBeforeFallback
  simp only [storeWeights_length]
  split
  · rename_i h
    simp only [h]
  · rename_i st1 h
    simp only [h]

/-- The three outcomes of the normalization, by the maximum of the values: false at or
below `1e-50`, a failed assertion from `1e40` on, true in between. -/
theorem normalizeValues_cases (cs cp scale : ℚ) (values : List ℚ) :
    (Search.maxValueOf values ≤ 1 / 10 ^ 50 →
      Search.normalizeValues cs cp scale values = some (false, values)) ∧
    (1 / 10 ^ 50 < Search.maxValueOf values → Search.maxValueOf values < 10 ^ 40 →
      ∃ r, Search.normalizeValues cs cp scale values = some (true, r)) ∧
    (∀ b r, Search.normalizeValues cs cp scale values = some (b, r) →
      (b = true ↔ 1 / 10 ^ 50 < Search.maxValueOf values)) := by
  unfold Search.normalizeValues Search.maxValueOf
  simp only
  set M := values.foldl (fun m v => if v > m then v else m) 0 with hM
  refine ⟨?_, ?_, ?_⟩
  · intro h
    rw [if_pos h]
  · intro h1 h2
    have hpos : (0 : ℚ) < 1 / 10 ^ 50 := by positivity
    have hsub : min cs (M / 64) ≤ M / 64 := min_le_right _ _
    have hnew : M - min cs (M / 64) > 0 := by linarith
    rw [if_neg (not_le.mpr h1), if_neg (not_not.mpr h2), if_neg (not_not.mpr hnew)]
    split_ifs <;> exact ⟨_, rfl⟩
  · intro b r h
    split_ifs at h with h1 h2 h3 h4
    all_goals first
      | (simp only [Option.some.injEq, Prod.mk.injEq] at h
         rw [← h.1]
         simp only [Bool.false_eq_true, false_iff, not_lt]
         exact h1)
      | (simp only [Option.some.injEq, Prod.mk.injEq] at h
         rw [← h.1]
         simp only [true_iff]
         exact not_le.mp h1)

/-- The same on the state: the `numChildren == 0` return is the case of an empty vector,
whose maximum is 0. -/
theorem normalizeStage_cases (s : Search) (scale : ℚ) (st : Search.PSVState) :
    (Search.maxValueOf st.playSelectionValues ≤ 1 / 10 ^ 50 →
      Search.normalizeStage s scale st = some (false, st)) ∧
    (1 / 10 ^ 50 < Search.maxValueOf st.playSelectionValues →
      Search.maxValueOf st.playSelectionValues < 10 ^ 40 →
      ∃ out, Search.normalizeStage s scale st = some (true, out)) ∧
    (∀ b out, Search.normalizeStage s scale st = some (b, out) →
      (b = true ↔ 1 / 10 ^ 50 < Search.maxValueOf st.playSelectionValues)) := by
  obtain ⟨h1, h2, h3⟩ := normalizeValues_cases s.searchParams.chosenMoveSubtract
    s.searchParams.chosenMovePrune scale st.playSelectionValues
  have hempty : st.playSelectionValues.length = 0 →
      Search.maxValueOf st.playSelectionValues = 0 := by
    intro h
    rw [List.length_eq_zero.mp h]
    rfl
  have hpos : (0 : ℚ) < 1 / 10 ^ 50 := by positivity
  unfold Search.normalizeStage
  refine ⟨?_, ?_, ?_⟩
  · intro h
    split_ifs with h0
    · rfl
    · rw [h1 h]
  · intro ha hb
    split_ifs with h0
    · rw [hempty h0] at ha
      linarith
    · obtain ⟨r, hr⟩ := h2 ha hb
      rw [hr]
      exact ⟨_, rfl⟩
  · intro b out h
    split_ifs at h with h0
    · simp only [Option.some.injEq, Prod.mk.injEq] at h
      rw [← h.1, hempty h0]
      constructor
      · intro hx; simp at hx
      · intro hx; linarith
    · split at h
      · simp at h
      · rename_i ok values heq
        simp only [Option.some.injEq, Prod.mk.injEq] at h
        rw [← h.1]
        exact h3 ok values heq

/-- Without children the state before the fallback is the empty state. -/
theorem selectionStateBeforeFallback_nil (E : Externs) (L : LocEncoding) (s : Search)
    (node : SearchNode) (isRootNode always never : Bool) (hnil : node.getChildren = []) :
    Search.selectionStateBeforeFallback E L s node isRootNode always never
      = some ⟨[], [], [], [], []⟩ := by
  unfold Search.selectionStateBeforeFallback
  simp only [hnil, List.foldl_nil, List.length_nil, gt_iff_lt, lt_irrefl, and_false, if_false]
  split_ifs with h
  · simp [Search.lcbStage, hnil]
  · rfl

/-- C18: expected absence is a boolean failure: `getPlaySelectionValues` returns false when
the root is null, when the node has no children and the policy fallback is not permitted
(no NN output, not the root, or direct policy moves not allowed) or yields nothing, and
when the maximum pre-normalization weight is at most `1e-50`; for a node with at least one
child every return is true exactly when that maximum exceeds `1e-50`, and it does return
true when the maximum is also below the overflow guard `1e40`. -/
theorem getPlaySelectionValues_false_returns (E : Externs) (L : LocEncoding) (s : Search)
    (node : SearchNode) (isRootNode : Bool) (scale : ℚ) (allow always never : Bool) :
    (s.rootNode = none →
      Search.getPlaySelectionValuesOfRoot E L s scale = some (false, ⟨[], [], [], [], []⟩)) ∧
    (node.getChildren = [] →
      (node.getNNOutput = none ∨ isRootNode = false ∨ allow = false) →
      Search.getPlaySelectionValues E L s node isRootNode scale allow always never
        = some (false, ⟨[], [], [], [], []⟩)) ∧
    (∀ nnOutput st3, node.getChildren = [] → node.getNNOutput = some nnOutput →
      isRootNode = true → allow = true →
      Search.policyFallback E L s nnOutput ⟨[], [], [], [], []⟩ = some st3 →
      Search.getPlaySelectionValues E L s node isRootNode scale allow always never
          = Search.normalizeStage s scale st3 ∧
        (st3.playSelectionValues = [] →
          Search.getPlaySelectionValues E L s node isRootNode scale allow always never
            = some (false, st3))) ∧
    (∀ st, Search.maxValueOf st.playSelectionValues ≤ 1 / 10 ^ 50 →
      Search.normalizeStage s scale st = some (false, st)) ∧
    (node.getChildren ≠ [] → ∀ st2,
      Search.selectionStateBeforeFallback E L s node isRootNode always never = some st2 →
      (∀ b out,
        Search.getPlaySelectionValues E L s node isRootNode scale allow always never
            = some (b, out) →
          (b = true ↔ 1 / 10 ^ 50 < Search.maxValueOf st2.playSelectionValues)) ∧
      (Search.maxValueOf st2.playSelectionValues ≤ 1 / 10 ^ 50 →
        Search.getPlaySelectionValues E L s node isRootNode scale allow always never
          = some (false, st2)) ∧
      (1 / 10 ^ 50 < Search.maxValueOf st2.playSelectionValues →
        Search.maxValueOf st2.playSelectionValues < 10 ^ 40 →
        ∃ out, Search.getPlaySelectionValues E L s node isRootNode scale allow always never
          = some (true, out))) := by
  refine ⟨?_, ?_, ?_, ?_, ?_⟩
  · intro h
    unfold Search.getPlaySelectionValuesOfRoot
    rw [h]
  · intro hnil hno
    rw [getPlaySelectionValues_eq_stages,
      selectionStateBeforeFallback_nil E L s node isRootNode always never hnil]
    simp only [hnil, List.length_nil, if_true]
    cases hnn : node.getNNOutput with
    | none => rfl
    | some o =>
      rcases hno with h | h | h
      · rw [hnn] at h; simp at h
      · simp [h]
      · simp [h]
  · intro nnOutput st3 hnil hnn hroot hallow hfb
    have heq : Search.getPlaySelectionValues E L s node isRootNode scale allow always never
        = Search.normalizeStage s scale st3 := by
      rw [getPlaySelectionValues_eq_stages,
        selectionStateBeforeFallback_nil E L s node isRootNode always never hnil]
      simp only [hnil, List.length_nil, if_true, hnn, hroot, hallow, Bool.true_eq_false,
        or_self, if_false, hfb]
    refine ⟨heq, fun hempty => ?_⟩
    rw [heq]
    apply (normalizeStage_cases s scale st3).1
    rw [hempty]
    show (0 : ℚ) ≤ 1 / 10 ^ 50
    positivity
  · intro st h
    exact (normalizeStage_cases s scale st).1 h
  · intro hne st2 hst2
    have hlen : ¬ node.getChildren.length = 0 := by
      intro h
      exact hne (List.length_eq_zero.mp h)
    have heq : Search.getPlaySelectionValues E L s node isRootNode scale allow always never
        = Search.normalizeStage s scale st2 := by
      rw [getPlaySelectionValues_eq_stages, hst2]
      simp only [if_neg hlen]
    rw [heq]
    obtain ⟨h1, h2, h3⟩ := normalizeStage_cases s scale st2
    exact ⟨h3, h1, h2⟩

/-- Witness for C18: the node `Example.root3` (children of weights 100, 50, 10, not the
root) returns true and its pre-normalization maximum 100 exceeds `1e-50`; a node without
children that is not the root returns false. -/
theorem getPlaySelectionValues_false_returns_witness :
    Search.selectionStateBeforeFallback Example.externs borderedLoc
        (Example.search Example.rootOnly true) Example.root3 false false false
      = some ⟨[4, 5, 7], [100, 50, 10], [100, 50, 10], [], []⟩ ∧
    (∀ b out,
      Search.getPlaySelectionValues Example.externs borderedLoc
          (Example.search Example.rootOnly true) Example.root3 false 1 true false false
          = some (b, out) →
        (b = true ↔ 1 / 10 ^ 50
          < Search.maxValueOf
              (⟨[4, 5, 7], [100, 50, 10], [100, 50, 10], [], []⟩ :
                Search.PSVState).playSelectionValues)) ∧
    Search.getPlaySelectionValues Example.externs borderedLoc
        (Example.search Example.root3 true) Example.rootOnly false 1 true false false
      = some (false, ⟨[], [], [], [], []⟩) :=
  ⟨by decide!,
    ((getPlaySelectionValues_false_returns Example.externs borderedLoc
      (Example.search Example.rootOnly true) Example.root3 false 1 true false false).2.2.2.2
      (by simp [Example.root3, SearchNode.getChildren]) _ (by decide!)).1,
    (getPlaySelectionValues_false_returns Example.externs borderedLoc
      (Example.search Example.root3 true) Example.rootOnly false 1 true false false).2.1
      rfl (Or.inr (Or.inl rfl))⟩

/-! ### The policy fallback -/

/-- One step of the fallback loop either fails an assertion or pushes the position exactly
when it is a candidate. -/
theorem policyFallbackStep_some (E : Externs) (L : LocEncoding) (s : Search)
    (nnOutput : NNOutput) (obey : Bool) (st st1 : Search.PSVState) (movePos : Nat)
    (h : Search.policyFallbackStep E L s nnOutput obey (some st) movePos = some st1) :
    st1 = if Search.fallbackCandidate E L s nnOutput obey movePos = true then
        { st with
          locs := st.locs ++ [Search.fallbackMoveLoc L s movePos]
          playSelectionValues :=
            st.playSelectionValues ++ [nnOutput.getPolicyProbsMaybeNoised movePos] }
      else st := by
  unfold Search.policyFallbackStep at h
  unfold Search.fallbackCandidate Search.avoidedUntil Search.avoidMoveUntilByLoc
    Search.fallbackMoveLoc
  simp only at h ⊢
  generalize NNPos.posToLoc L (movePos : Int) s.rootBoard.x_size s.rootBoard.y_size
    (s.nnXLen : Int) (s.nnYLen : Int) = loc at h ⊢
  generalize (if s.rootPla = Player.P_BLACK then s.avoidMoveUntilByLocBlack
    else s.avoidMoveUntilByLocWhite) = avoid at h ⊢
  generalize E.isLegal loc s.rootPla = legal at h ⊢
  generalize E.isAllowedRootMove loc = allowed at h ⊢
  generalize nnOutput.getPolicyProbsMaybeNoised movePos = pol at h ⊢
  by_cases hfirst : legal = false ∨ pol < 0 ∨ (obey = true ∧ allowed = false)
  · rw [if_pos hfirst] at h
    simp only [Option.some.injEq] at h
    subst h
    rw [if_neg]
    rcases hfirst with h1 | h1 | ⟨h1, h1b⟩
    · simp [h1]
    · simp [not_le.mpr h1]
    · simp [h1, h1b]
  · rw [if_neg hfirst] at h
    push_neg at hfirst
    obtain ⟨ha, hb, hc⟩ := hfirst
    have ha2 : legal = true := by cases legal <;> simp_all
    have hc2 : (!obey || allowed) = true := by cases obey <;> cases allowed <;> simp_all
    by_cases hlen : avoid.length > 0
    · rw [if_pos hlen] at h
      by_cases h4 : avoid.length < s.MAX_ARR_SIZE
      · rw [if_pos h4] at h
        exact absurd h (by simp)
      · rw [if_neg h4] at h
        by_cases h5 : loc < 0
        · rw [if_pos h5] at h
          exact absurd h (by simp)
        · rw [if_neg h5] at h
          cases hget : avoid.get? loc.toNat with
          | none =>
            rw [hget] at h
            exact absurd h (by simp)
          | some untilDepth =>
            rw [hget] at h
            have hD : avoid[loc.toNat]?.getD 0 = untilDepth := by
              rw [← List.get?_eq_getElem?, hget]
              rfl
            by_cases h6 : untilDepth > 0
            · simp only [if_pos h6, Option.some.injEq] at h
              subst h
              rw [if_neg]
              simp only [List.getD_eq_getElem?_getD, hD]
              simp [h6, hlen]
            · simp only [if_neg h6, Option.some.injEq] at h
              subst h
              rw [if_pos]
              simp only [List.getD_eq_getElem?_getD, hD]
              simp [h6, ha2, hb, hc2]
    · rw [if_neg hlen] at h
      simp only [Option.some.injEq] at h
      subst h
      rw [if_pos]
      simp [ha2, hb, hc2, hlen]

/-- Once an assertion has failed the fallback loop stays failed. -/
theorem policyFallback_fold_none (E : Externs) (L : LocEncoding) (s : Search)
    (nnOutput : NNOutput) (obey : Bool) (positions : List Nat) :
    positions.foldl (Search.policyFallbackStep E L s nnOutput obey) none = none := by
  induction positions with
  | nil => rfl
  | cons p ps ih => simpa [Search.policyFallbackStep] using ih

/-- When the fallback loop ends without a failed assertion it has pushed, in order, the
candidate positions. -/
theorem policyFallback_fold (E : Externs) (L : LocEncoding) (s : Search)
    (nnOutput : NNOutput) (obey : Bool) (positions : List Nat) :
    ∀ st st1 : Search.PSVState,
      positions.foldl (Search.policyFallbackStep E L s nnOutput obey) (some st) = some st1 →
      st1 = { st with
        locs := st.locs
          ++ (positions.filter (Search.fallbackCandidate E L s nnOutput obey)).map
              (Search.fallbackMoveLoc L s)
        playSelectionValues := st.playSelectionValues
          ++ (positions.filter (Search.fallbackCandidate E L s nnOutput obey)).map
              nnOutput.getPolicyProbsMaybeNoised } := by
  induction positions with
  | nil =>
    intro st st1 h
    simp only [List.foldl_nil, Option.some.injEq] at h
    subst h
    simp
  | cons p ps ih =>
    intro st st1 h
    simp only [List.foldl_cons] at h
    cases hstep : Search.policyFallbackStep E L s nnOutput obey (some st) p with
    | none =>
      rw [hstep, policyFallback_fold_none] at h
      simp at h
    | some st2 =>
      rw [hstep] at h
      have h2 := policyFallbackStep_some E L s nnOutput obey st st2 p hstep
      have h3 := ih st2 st1 h
      rw [h3, h2]
      by_cases hc : Search.fallbackCandidate E L s nnOutput obey p = true
      · simp [hc]
      · simp [hc]

/-- The vector `avoidMoveUntilByLoc` is well formed for the fallback when it is empty, or
has at least `Board::MAX_ARR_SIZE` entries and covers the location of every policy
position. -/
theorem policyFallback_fold_total (E : Externs) (L : LocEncoding) (s : Search)
    (nnOutput : NNOutput) (obey : Bool) (positions : List Nat)
    (hwf : (Search.avoidMoveUntilByLoc s).length = 0 ∨
      (s.MAX_ARR_SIZE ≤ (Search.avoidMoveUntilByLoc s).length ∧
        ∀ pos ∈ positions, 0 ≤ Search.fallbackMoveLoc L s pos ∧
          (Search.fallbackMoveLoc L s pos).toNat < (Search.avoidMoveUntilByLoc s).length)) :
    ∀ st : Search.PSVState, ∃ st1,
      positions.foldl (Search.policyFallbackStep E L s nnOutput obey) (some st) = some st1 := by
  induction positions with
  | nil => intro st; exact ⟨st, rfl⟩
  | cons p ps ih =>
    intro st
    have hstep : ∃ st2, Search.policyFallbackStep E L s nnOutput obey (some st) p = some st2 := by
      have hp : (Search.avoidMoveUntilByLoc s).length = 0 ∨
          (s.MAX_ARR_SIZE ≤ (Search.avoidMoveUntilByLoc s).length ∧
            0 ≤ Search.fallbackMoveLoc L s p ∧
            (Search.fallbackMoveLoc L s p).toNat < (Search.avoidMoveUntilByLoc s).length) := by
        rcases hwf with h | ⟨h1, h2⟩
        · exact Or.inl h
        · exact Or.inr ⟨h1, h2 p (List.mem_cons_self _ _)⟩
      have hav : Search.avoidMoveUntilByLoc s
          = (if s.rootPla = Player.P_BLACK then s.avoidMoveUntilByLocBlack
              else s.avoidMoveUntilByLocWhite) := rfl
      have hml : Search.fallbackMoveLoc L s p
          = NNPos.posToLoc L (p : Int) s.rootBoard.x_size s.rootBoard.y_size
              (s.nnXLen : Int) (s.nnYLen : Int) := rfl
      rw [hav, hml] at hp
      unfold Search.policyFallbackStep
      simp only
      generalize NNPos.posToLoc L (p : Int) s.rootBoard.x_size s.rootBoard.y_size
        (s.nnXLen : Int) (s.nnYLen : Int) = loc at hp ⊢
      generalize (if s.rootPla = Player.P_BLACK then s.avoidMoveUntilByLocBlack
        else s.avoidMoveUntilByLocWhite) = avoid at hp ⊢
      by_cases hfirst : E.isLegal loc s.rootPla = false
          ∨ nnOutput.getPolicyProbsMaybeNoised p < 0
          ∨ (obey = true ∧ E.isAllowedRootMove loc = false)
      · rw [if_pos hfirst]
        exact ⟨_, rfl⟩
      · rw [if_neg hfirst]
        by_cases hlen : avoid.length > 0
        · rw [if_pos hlen]
          rcases hp with h | ⟨h1, h2, h3⟩
          · omega
          · rw [if_neg (by omega), if_neg (by omega), List.get?_eq_get h3]
            simp only
            split_ifs <;> exact ⟨_, rfl⟩
        · rw [if_neg hlen]
          exact ⟨_, rfl⟩
    obtain ⟨st2, h2⟩ := hstep
    simp only [List.foldl_cons, h2]
    apply ih
    rcases hwf with h | ⟨h1, h2⟩
    · exact Or.inl h
    · exact Or.inr ⟨h1, fun pos hpos => h2 pos (List.mem_cons_of_mem _ hpos)⟩

/-- The normalization leaves `locs` as it is. -/
theorem normalizeStage_locs (s : Search) (scale : ℚ) (st out : Search.PSVState) (b : Bool)
    (h : Search.normalizeStage s scale st = some (b, out)) : out.locs = st.locs := by
  unfold Search.normalizeStage at h
  split_ifs at h with h0
  · simp only [Option.some.injEq, Prod.mk.injEq] at h
    rw [← h.2]
  · split at h
    · simp at h
    · simp only [Option.some.injEq, Prod.mk.injEq] at h
      rw [← h.2]

/-- The fallback from the empty state, with a well-formed `avoidMoveUntilByLoc`: it pushes
the candidates that obey `isAllowedRootMove`, or, when there are none, the candidates of
the second pass that ignores `isAllowedRootMove`. -/
theorem policyFallback_empty (E : Externs) (L : LocEncoding) (s : Search)
    (nnOutput : NNOutput)
    (hwf : (Search.avoidMoveUntilByLoc s).length = 0 ∨
      (s.MAX_ARR_SIZE ≤ (Search.avoidMoveUntilByLoc s).length ∧
        ∀ pos ∈ List.range s.policySize, 0 ≤ Search.fallbackMoveLoc L s pos ∧
          (Search.fallbackMoveLoc L s pos).toNat < (Search.avoidMoveUntilByLoc s).length)) :
    ∃ st3, Search.policyFallback E L s nnOutput ⟨[], [], [], [], []⟩ = some st3 ∧
      st3.locs
        = (if (List.range s.policySize).filter (Search.fallbackCandidate E L s nnOutput true) = []
            then (List.range s.policySize).filter (Search.fallbackCandidate E L s nnOutput false)
            else (List.range s.policySize).filter
              (Search.fallbackCandidate E L s nnOutput true)).map (Search.fallbackMoveLoc L s) ∧
      st3.playSelectionValues
        = (if (List.range s.policySize).filter (Search.fallbackCandidate E L s nnOutput true) = []
            then (List.range s.policySize).filter (Search.fallbackCandidate E L s nnOutput false)
            else (List.range s.policySize).filter
              (Search.fallbackCandidate E L s nnOutput true)).map
            nnOutput.getPolicyProbsMaybeNoised := by
  obtain ⟨st1, h1⟩ := policyFallback_fold_total E L s nnOutput true (List.range s.policySize)
    hwf ⟨[], [], [], [], []⟩
  have e1 := policyFallback_fold E L s nnOutput true (List.range s.policySize) _ _ h1
  unfold Search.policyFallback
  rw [h1]
  simp only
  by_cases hempty : (List.range s.policySize).filter
      (Search.fallbackCandidate E L s nnOutput true) = []
  · have hst1 : st1 = ⟨[], [], [], [], []⟩ := by
      rw [e1, hempty]
      rfl
    subst hst1
    obtain ⟨st2, h2⟩ := policyFallback_fold_total E L s nnOutput false (List.range s.policySize)
      hwf ⟨[], [], [], [], []⟩
    have e2 := policyFallback_fold E L s nnOutput false (List.range s.policySize) _ _ h2
    refine ⟨st2, ?_, ?_, ?_⟩
    · simp only [List.length_nil, if_true]
      exact h2
    · rw [if_pos hempty, e2]
      simp
    · rw [if_pos hempty, e2]
      simp
  · refine ⟨st1, ?_, ?_, ?_⟩
    · have hlen : ¬ st1.playSelectionValues.length = 0 := by
        rw [e1]
        simp only [List.nil_append, List.length_map]
        intro h
        exact hempty (List.length_eq_zero.mp h)
      rw [if_neg hlen]
    · rw [if_neg hempty, e1]
      simp
    · rw [if_neg hempty, e1]
      simp

/-- C16, counterexample: at the root `Example.rootOnly` (no children, Black to move, every
move legal and allowed, policy 1/5 everywhere) with `avoidMoveUntilByLocBlack` positive at
every location, the fallback returns false with no candidate, although the move of policy
position 0 is legal and has positive policy: the retry ignores `isAllowedRootMove`, not
`avoidMoveUntilByLoc`. -/
theorem getPlaySelectionValues_policy_fallback_counterexample :
    Example.rootOnly.getChildren = [] ∧
    Example.externs.isLegal
        (Search.fallbackMoveLoc borderedLoc
          (Example.searchAvoiding Example.rootOnly (List.replicate 12 1)) 0)
        (Example.searchAvoiding Example.rootOnly (List.replicate 12 1)).rootPla = true ∧
    0 < (Example.nnOutput (1 / 3)).getPolicyProbsMaybeNoised 0 ∧
    Search.getPlaySelectionValues Example.externs borderedLoc
        (Example.searchAvoiding Example.rootOnly (List.replicate 12 1)) Example.rootOnly
        true 1 true false false
      = some (false, ⟨[], [], [], [], []⟩) := by
  refine ⟨rfl, rfl, by decide!, by decide!⟩

/-- C16, amended: in the no-children policy fallback of `getPlaySelectionValues` (root,
direct policy moves allowed, `avoidMoveUntilByLoc` empty or covering every move), the
candidates are the policy positions whose move is legal, has non-negative policy, is an
allowed root move and is not held back by `avoidMoveUntilByLoc`; if there is none, they are
the positions that pass the same tests without `isAllowedRootMove`. Every return carries
exactly these moves, each legal, of non-negative policy and not held back; the list is
non-empty whenever some position passes the tests without `isAllowedRootMove`; and the call
returns when the policy values are below the overflow guard `1e40`. -/
theorem getPlaySelectionValues_policy_fallback (E : Externs) (L : LocEncoding) (s : Search)
    (node : SearchNode) (nnOutput : NNOutput) (scale : ℚ) (always never : Bool)
    (hnil : node.getChildren = []) (hnn : node.getNNOutput = some nnOutput)
    (hwf : (Search.avoidMoveUntilByLoc s).length = 0 ∨
      (s.MAX_ARR_SIZE ≤ (Search.avoidMoveUntilByLoc s).length ∧
        ∀ pos ∈ List.range s.policySize, 0 ≤ Search.fallbackMoveLoc L s pos ∧
          (Search.fallbackMoveLoc L s pos).toNat < (Search.avoidMoveUntilByLoc s).length)) :
    ∃ st3, Search.policyFallback E L s nnOutput ⟨[], [], [], [], []⟩ = some st3 ∧
      Search.getPlaySelectionValues E L s node true scale true always never
        = Search.normalizeStage s scale st3 ∧
      st3.locs
        = (if (List.range s.policySize).filter (Search.fallbackCandidate E L s nnOutput true) = []
            then (List.range s.policySize).filter (Search.fallbackCandidate E L s nnOutput false)
            else (List.range s.policySize).filter
              (Search.fallbackCandidate E L s nnOutput true)).map (Search.fallbackMoveLoc L s) ∧
      st3.playSelectionValues
        = (if (List.range s.policySize).filter (Search.fallbackCandidate E L s nnOutput true) = []
            then (List.range s.policySize).filter (Search.fallbackCandidate E L s nnOutput false)
            else (List.range s.policySize).filter
              (Search.fallbackCandidate E L s nnOutput true)).map
            nnOutput.getPolicyProbsMaybeNoised ∧
      (∀ b out,
        Search.getPlaySelectionValues E L s node true scale true always never = some (b, out) →
        out.locs = st3.locs ∧
        (∀ loc ∈ out.locs, ∃ pos, pos < s.policySize ∧ loc = Search.fallbackMoveLoc L s pos ∧
          E.isLegal loc s.rootPla = true ∧ 0 ≤ nnOutput.getPolicyProbsMaybeNoised pos ∧
          Search.avoidedUntil s loc = false) ∧
        ((∃ pos, pos < s.policySize ∧ Search.fallbackCandidate E L s nnOutput false pos = true) →
          out.locs ≠ [])) ∧
      (Search.maxValueOf st3.playSelectionValues < 10 ^ 40 →
        ∃ b out,
          Search.getPlaySelectionValues E L s node true scale true always never
            = some (b, out)) := by
  obtain ⟨st3, hfb, hlocs, hvals⟩ := policyFallback_empty E L s nnOutput hwf
  have heq : Search.getPlaySelectionValues E L s node true scale true always never
      = Search.normalizeStage s scale st3 := by
    rw [getPlaySelectionValues_eq_stages,
      selectionStateBeforeFallback_nil E L s node true always never hnil]
    simp only [hnil, List.length_nil, if_true, hnn, Bool.true_eq_false, or_self, if_false, hfb]
  have hweak : ∀ pos, Search.fallbackCandidate E L s nnOutput true pos = true →
      Search.fallbackCandidate E L s nnOutput false pos = true := by
    intro pos h
    unfold Search.fallbackCandidate at h ⊢
    simp only [Bool.and_eq_true, Bool.not_true, Bool.false_or, Bool.not_false, Bool.true_or,
      Bool.and_true] at h ⊢
    exact ⟨⟨h.1.1.1, h.1.1.2⟩, h.2⟩
  have hmem : ∀ pos, pos ∈ (if (List.range s.policySize).filter
        (Search.fallbackCandidate E L s nnOutput true) = []
      then (List.range s.policySize).filter (Search.fallbackCandidate E L s nnOutput false)
      else (List.range s.policySize).filter (Search.fallbackCandidate E L s nnOutput true)) →
      pos < s.policySize ∧ Search.fallbackCandidate E L s nnOutput false pos = true := by
    intro pos h
    split_ifs at h
    · rw [List.mem_filter, List.mem_range] at h
      exact h
    · rw [List.mem_filter, List.mem_range] at h
      exact ⟨h.1, hweak pos h.2⟩
  refine ⟨st3, hfb, heq, hlocs, hvals, ?_, ?_⟩
  · intro b out hret
    rw [heq] at hret
    have hl := normalizeStage_locs s scale st3 out b hret
    refine ⟨hl, ?_, ?_⟩
    · intro loc hloc
      rw [hl, hlocs, List.mem_map] at hloc
      obtain ⟨pos, hpos, hposloc⟩ := hloc
      obtain ⟨hlt, hc⟩ := hmem pos hpos
      unfold Search.fallbackCandidate at hc
      simp only [Bool.and_eq_true, Bool.not_false, Bool.true_or, Bool.and_true,
        decide_eq_true_eq, Bool.not_eq_true'] at hc
      refine ⟨pos, hlt, hposloc.symm, ?_, hc.1.2, ?_⟩
      · rw [← hposloc]; exact hc.1.1
      · rw [← hposloc]; exact hc.2
    · rintro ⟨pos, hlt, hc⟩ hnone
      rw [hl, hlocs, List.map_eq_nil_iff] at hnone
      have hin : pos ∈ (List.range s.policySize).filter
          (Search.fallbackCandidate E L s nnOutput false) := by
        rw [List.mem_filter, List.mem_range]
        exact ⟨hlt, hc⟩
      split_ifs at hnone with h0
      · rw [hnone] at hin
        simp at hin
      · exact h0 hnone
  · intro hmax
    rw [heq]
    obtain ⟨h1, h2, _⟩ := normalizeStage_cases s scale st3
    by_cases hle : Search.maxValueOf st3.playSelectionValues ≤ 1 / 10 ^ 50
    · exact ⟨false, st3, h1 hle⟩
    · obtain ⟨out, hout⟩ := h2 (not_le.mp hle) hmax
      exact ⟨true, out, hout⟩

/-- Witness for C16: at the root `Example.rootOnly` with `avoidMoveUntilByLocBlack` positive
only at the location 4 (the move of policy position 0), the fallback returns the moves of
the positions 1 to 4 with their policy 1/5, rescaled to the floor 1. -/
theorem getPlaySelectionValues_policy_fallback_witness :
    Search.getPlaySelectionValues Example.externs borderedLoc
        (Example.searchAvoiding Example.rootOnly [0, 0, 0, 0, 1, 0, 0, 0, 0, 0, 0, 0])
        Example.rootOnly true 1 true false false
      = some (true, ⟨[5, 7, 8, 1], [1, 1, 1, 1], [], [], []⟩) ∧
    ∃ st3, Search.policyFallback Example.externs borderedLoc
        (Example.searchAvoiding Example.rootOnly [0, 0, 0, 0, 1, 0, 0, 0, 0, 0, 0, 0])
        (Example.nnOutput (1 / 3)) ⟨[], [], [], [], []⟩ = some st3 ∧
      Search.getPlaySelectionValues Example.externs borderedLoc
          (Example.searchAvoiding Example.rootOnly [0, 0, 0, 0, 1, 0, 0, 0, 0, 0, 0, 0])
          Example.rootOnly true 1 true false false
        = Search.normalizeStage
            (Example.searchAvoiding Example.rootOnly [0, 0, 0, 0, 1, 0, 0, 0, 0, 0, 0, 0]) 1 st3 :=
  ⟨by decide!,
    (getPlaySelectionValues_policy_fallback Example.externs borderedLoc
      (Example.searchAvoiding Example.rootOnly [0, 0, 0, 0, 1, 0, 0, 0, 0, 0, 0, 0])
      Example.rootOnly (Example.nnOutput (1 / 3)) 1 false false rfl rfl
      (Or.inr (by decide!))).imp (fun _ h => ⟨h.1, h.2.1⟩)⟩

/-! ### The LCB stage -/

/-- Once an assertion has failed the LCB loop stays failed. -/
theorem lcbLoop_fold_none (E : Externs) (s : Search) (node : SearchNode) (mw : ℚ)
    (xs : List (Nat × SearchNode × ℚ)) :
    xs.foldl (Search.lcbLoopStep E s node mw) none = none := by
  induction xs with
  | nil => rfl
  | cons x xs ih => simpa [Search.lcbLoopStep] using ih

/-- One iteration of the LCB loop: it appends the child's LCB and radius, and moves the
best LCB to the child when the child is eligible and its LCB is higher. -/
theorem lcbLoopStep_some (E : Externs) (s : Search) (node : SearchNode) (mw : ℚ)
    (lb rb : List ℚ) (best : ℚ) (idx : Int) (x : Nat × SearchNode × ℚ)
    (r : List ℚ × List ℚ × ℚ × Int)
    (h : Search.lcbLoopStep E s node mw (some (lb, rb, best, idx)) x = some r) :
    Search.getSelfUtilityLCBAndRadius E s node x.2.1
        = some (Search.lcbOf E s node x.2.1, Search.radiusOf E s node x.2.1) ∧
    r.1 = lb ++ [Search.lcbOf E s node x.2.1] ∧
    r.2.1 = rb ++ [Search.radiusOf E s node x.2.1] ∧
    ((Search.eligibleForLcb s mw x.2.2 ∧ Search.lcbOf E s node x.2.1 > best ∧
        r.2.2 = (Search.lcbOf E s node x.2.1, (x.1 : Int))) ∨
      (¬ (Search.eligibleForLcb s mw x.2.2 ∧ Search.lcbOf E s node x.2.1 > best) ∧
        r.2.2 = (best, idx))) := by
  unfold Search.lcbLoopStep at h
  unfold Search.lcbOf Search.radiusOf Search.eligibleForLcb
  simp only at h ⊢
  cases hlr : Search.getSelfUtilityLCBAndRadius E s node x.2.1 with
  | none =>
    rw [hlr] at h
    simp at h
  | some lr =>
    obtain ⟨lcb, radius⟩ := lr
    rw [hlr] at h
    simp only [Option.getD_some] at h ⊢
    by_cases he : x.2.2 ≥ ((MIN_VISITS_FOR_LCB : Int) : ℚ)
        ∧ x.2.2 ≥ s.searchParams.minVisitPropForLCB * mw
    · rw [if_pos he] at h
      by_cases hb : lcb > best
      · rw [if_pos hb] at h
        simp only [Option.some.injEq] at h
        subst h
        exact ⟨trivial, rfl, rfl, Or.inl ⟨he, hb, rfl⟩⟩
      · rw [if_neg hb] at h
        simp only [Option.some.injEq] at h
        subst h
        exact ⟨trivial, rfl, rfl, Or.inr ⟨fun hh => hb hh.2, rfl⟩⟩
    · rw [if_neg he] at h
      simp only [Option.some.injEq] at h
      subst h
      exact ⟨trivial, rfl, rfl, Or.inr ⟨fun hh => he hh.1, rfl⟩⟩

/-- The LCB loop: the buffers hold the LCB and the radius of every child, the best LCB
bounds the LCB of every eligible child, and the best index is either untouched or the index
of an eligible child whose LCB is the best one. -/
theorem lcbLoop_fold (E : Externs) (s : Search) (node : SearchNode) (mw : ℚ)
    (xs : List (Nat × SearchNode × ℚ)) :
    ∀ (lb rb : List ℚ) (best : ℚ) (idx : Int) (r : List ℚ × List ℚ × ℚ × Int),
      xs.foldl (Search.lcbLoopStep E s node mw) (some (lb, rb, best, idx)) = some r →
      r.1 = lb ++ xs.map (fun x => Search.lcbOf E s node x.2.1) ∧
      r.2.1 = rb ++ xs.map (fun x => Search.radiusOf E s node x.2.1) ∧
      best ≤ r.2.2.1 ∧
      (∀ x ∈ xs, Search.eligibleForLcb s mw x.2.2 → Search.lcbOf E s node x.2.1 ≤ r.2.2.1) ∧
      ((r.2.2.2 = idx ∧ r.2.2.1 = best) ∨
        ∃ x ∈ xs, r.2.2.2 = (x.1 : Int) ∧ r.2.2.1 = Search.lcbOf E s node x.2.1
          ∧ Search.eligibleForLcb s mw x.2.2 ∧ best < r.2.2.1) := by
  induction xs with
  | nil =>
    intro lb rb best idx r h
    simp only [List.foldl_nil, Option.some.injEq] at h
    subst h
    simp
  | cons x xs ih =>
    intro lb rb best idx r h
    simp only [List.foldl_cons] at h
    cases hstep : Search.lcbLoopStep E s node mw (some (lb, rb, best, idx)) x with
    | none =>
      rw [hstep, lcbLoop_fold_none] at h
      simp at h
    | some r1 =>
      rw [hstep] at h
      obtain ⟨lb1, rb1, best1, idx1⟩ := r1
      obtain ⟨_, h1, h2, h3⟩ := lcbLoopStep_some E s node mw lb rb best idx x _ hstep
      obtain ⟨i1, i2, i3, i4, i5⟩ := ih lb1 rb1 best1 idx1 r h
      simp only at h1 h2 h3
      subst h1 h2
      refine ⟨by rw [i1]; simp, by rw [i2]; simp, ?_, ?_, ?_⟩
      · rcases h3 with ⟨_, hb, he⟩ | ⟨_, he⟩
        · simp only [Prod.mk.injEq] at he
          rw [he.1] at i3
          exact le_trans (le_of_lt hb) i3
        · simp only [Prod.mk.injEq] at he
          rw [he.1] at i3
          exact i3
      · intro y hy hel
        rcases List.mem_cons.mp hy with hyx | hyxs
        · subst hyx
          rcases h3 with ⟨_, _, he⟩ | ⟨hn, he⟩
          · simp only [Prod.mk.injEq] at he
            rw [he.1] at i3
            exact i3
          · simp only [Prod.mk.injEq] at he
            rw [he.1] at i3
            have : ¬ Search.lcbOf E s node y.2.1 > best := fun hh => hn ⟨hel, hh⟩
            exact le_trans (not_lt.mp this) i3
        · exact i4 y hyxs hel
      · rcases h3 with ⟨hel, hb, he⟩ | ⟨_, he⟩
        · simp only [Prod.mk.injEq] at he
          obtain ⟨he1, he2⟩ := he
          subst he1 he2
          rcases i5 with ⟨j1, j2⟩ | ⟨y, hy, j1, j2, j3, j4⟩
          · exact Or.inr ⟨x, List.mem_cons_self _ _, j1, j2, hel, by rw [j2]; exact hb⟩
          · exact Or.inr ⟨y, List.mem_cons_of_mem _ hy, j1, j2, j3, lt_trans hb j4⟩
        · simp only [Prod.mk.injEq] at he
          obtain ⟨he1, he2⟩ := he
          subst he1 he2
          rcases i5 with ⟨j1, j2⟩ | ⟨y, hy, j1, j2, j3, j4⟩
          · exact Or.inl ⟨j1, j2⟩
          · exact Or.inr ⟨y, List.mem_cons_of_mem _ hy, j1, j2, j3, j4⟩

/-- The LCB loop ends without a failed assertion when `getSelfUtilityLCBAndRadius` returns
for every child. -/
theorem lcbLoop_fold_total (E : Externs) (s : Search) (node : SearchNode) (mw : ℚ)
    (xs : List (Nat × SearchNode × ℚ))
    (hret : ∀ x ∈ xs, (Search.getSelfUtilityLCBAndRadius E s node x.2.1).isSome = true) :
    ∀ acc : List ℚ × List ℚ × ℚ × Int,
      ∃ r, xs.foldl (Search.lcbLoopStep E s node mw) (some acc) = some r := by
  induction xs with
  | nil => intro acc; exact ⟨acc, rfl⟩
  | cons x xs ih =>
    intro acc
    obtain ⟨lb, rb, best, idx⟩ := acc
    have hstep : ∃ r1, Search.lcbLoopStep E s node mw (some (lb, rb, best, idx)) x = some r1 := by
      have hx := hret x (List.mem_cons_self _ _)
      unfold Search.lcbLoopStep
      simp only
      cases hlr : Search.getSelfUtilityLCBAndRadius E s node x.2.1 with
      | none => rw [hlr] at hx; simp at hx
      | some lr =>
        simp only
        split_ifs <;> exact ⟨_, rfl⟩
    obtain ⟨r1, h1⟩ := hstep
    simp only [List.foldl_cons, h1]
    exact ih (fun y hy => hret y (List.mem_cons_of_mem _ hy)) r1

/-- The LCB stage when it returns: the loop has returned, and the value at the best index
is replaced exactly when LCB selection is on, there are children and the best index passes
the `useNonBuggyLcb` test. -/
theorem lcbStage_some (E : Externs) (s : Search) (node : SearchNode) (mw : ℚ)
    (st out : Search.PSVState) (h : Search.lcbStage E s node mw st = some out) :
    ∃ r : List ℚ × List ℚ × ℚ × Int,
      (List.zip node.getChildren st.playSelectionValues).enum.foldl
          (Search.lcbLoopStep E s node mw) (some ([], [], -(10 : ℚ) ^ 10, -1)) = some r ∧
      out = if s.searchParams.useLcbForSelection = true ∧ st.playSelectionValues.length > 0
            ∧ (if s.searchParams.useNonBuggyLcb = true then r.2.2.2 ≥ 0 else r.2.2.2 > 0) then
          { st with
            lcbBuf := r.1
            radiusBuf := r.2.1
            playSelectionValues := st.playSelectionValues.set r.2.2.2.toNat
              (Search.lcbAdjustedWeight r.2.2.1 r.2.2.2.toNat r.1 r.2.1 st.playSelectionValues) }
        else { st with lcbBuf := r.1, radiusBuf := r.2.1 } := by
  unfold Search.lcbStage at h
  simp only at h
  split at h
  · simp at h
  · rename_i lcbBuf radiusBuf bestLcb bestLcbIndex heq
    refine ⟨_, heq, ?_⟩
    simp only
    split_ifs at h ⊢ <;> simp_all

/-- The entries of the enumerated pairs of children and values. -/
theorem mem_enum_zip_iff (children : List SearchNode) (values : List ℚ)
    (x : Nat × SearchNode × ℚ) :
    x ∈ (List.zip children values).enum
      ↔ children[x.1]? = some x.2.1 ∧ values[x.1]? = some x.2.2 := by
  obtain ⟨i, c, v⟩ := x
  rw [List.mk_mem_enum_iff_getElem?, List.getElem?_zip_eq_some]

/-- The LCB stage returns when `getSelfUtilityLCBAndRadius` returns for every child. -/
theorem lcbStage_total (E : Externs) (s : Search) (node : SearchNode) (mw : ℚ)
    (st : Search.PSVState)
    (hret : ∀ c ∈ node.getChildren, (Search.getSelfUtilityLCBAndRadius E s node c).isSome = true) :
    ∃ out, Search.lcbStage E s node mw st = some out := by
  obtain ⟨r, hr⟩ := lcbLoop_fold_total E s node mw
    (List.zip node.getChildren st.playSelectionValues).enum
    (fun x hx => hret x.2.1
      (List.getElem?_mem ((mem_enum_zip_iff _ _ x).mp hx).1))
    ([], [], -(10 : ℚ) ^ 10, -1)
  unfold Search.lcbStage
  simp only [hr]
  split_ifs <;> exact ⟨_, rfl⟩

/-- A fold whose step never decreases the accumulator ends at or above its start. -/
theorem foldl_step_ge {α : Type} (f : ℚ → α → ℚ) (hmono : ∀ a x, a ≤ f a x) (l : List α) :
    ∀ init : ℚ, init ≤ l.foldl f init := by
  induction l with
  | nil => intro init; exact le_refl _
  | cons x xs ih =>
    intro init
    exact le_trans (hmono init x) (ih (f init x))

/-- A fold whose step never decreases the accumulator and raises it to `g x` at the
entries `x` with `P x` ends at or above `g x` for each such entry. -/
theorem foldl_step_ge_mem {α : Type} (f : ℚ → α → ℚ) (g : α → ℚ) (P : α → Prop)
    (hmono : ∀ a x, a ≤ f a x) (hg : ∀ a x, P x → g x ≤ f a x) (l : List α) :
    ∀ (init : ℚ) (x : α), x ∈ l → P x → g x ≤ l.foldl f init := by
  induction l with
  | nil => intro init x hx; simp at hx
  | cons y ys ih =>
    intro init x hx hP
    rcases List.mem_cons.mp hx with h | h
    · subst h
      exact le_trans (hg init x hP) (foldl_step_ge f hmono ys (f init x))
    · exact ih (f init y) x h hP

/-- The adjusted weight of lines 176-197 is at least the weight it starts from and at least
the bound `radiusFactor * radiusFactor * playSelectionValues[i]` of every other child `i`
whose LCB is not above the best one. -/
theorem lcbAdjustedWeight_ge (bestLcb : ℚ) (b : Nat) (lb rb vs : List ℚ) :
    vs.getD b 0 ≤ Search.lcbAdjustedWeight bestLcb b lb rb vs ∧
    ∀ (i : Nat) (l r v : ℚ), i ≠ b → lb[i]? = some l → rb[i]? = some r → vs[i]? = some v →
      l ≤ bestLcb →
      (r + (bestLcb - l)) / (r + (1 / 5 : ℚ) * (bestLcb - l))
          * ((r + (bestLcb - l)) / (r + (1 / 5 : ℚ) * (bestLcb - l))) * v
        ≤ Search.lcbAdjustedWeight bestLcb b lb rb vs := by
  unfold Search.lcbAdjustedWeight
  have hmono : ∀ (a : ℚ) (x : Nat × ℚ × ℚ × ℚ), a ≤
      (fun (adjustedWeight : ℚ) (x : Nat × ℚ × ℚ × ℚ) =>
        let i := x.1
        if i ≠ b then
          let excessValue := bestLcb - x.2.1
          if excessValue < 0 then adjustedWeight
          else
            let radius := x.2.2.1
            let radiusFactor := (radius + excessValue) / (radius + (1 / 5 : ℚ) * excessValue)
            let lbound := radiusFactor * radiusFactor * x.2.2.2
            if lbound > adjustedWeight then lbound else adjustedWeight
        else adjustedWeight) a x := by
    intro a x
    simp only
    split_ifs with h1 h2 h3
    · exact le_refl _
    · exact le_of_lt h3
    · exact le_refl _
    · exact le_refl _
  refine ⟨foldl_step_ge _ hmono _ _, ?_⟩
  intro i l r v hib hl hr hv hle
  have hmem : (i, l, r, v) ∈ (List.zip lb (List.zip rb vs)).enum := by
    rw [List.mk_mem_enum_iff_getElem?, List.getElem?_zip_eq_some, List.getElem?_zip_eq_some]
    exact ⟨hl, hr, hv⟩
  exact foldl_step_ge_mem _
    (fun x : Nat × ℚ × ℚ × ℚ =>
      (x.2.2.1 + (bestLcb - x.2.1)) / (x.2.2.1 + (1 / 5 : ℚ) * (bestLcb - x.2.1))
        * ((x.2.2.1 + (bestLcb - x.2.1)) / (x.2.2.1 + (1 / 5 : ℚ) * (bestLcb - x.2.1)))
        * x.2.2.2)
    (fun x : Nat × ℚ × ℚ × ℚ => x.1 ≠ b ∧ x.2.1 ≤ bestLcb)
    hmono
    (by
      intro a x hP
      simp only
      rw [if_pos hP.1, if_neg (by linarith [hP.2])]
      split_ifs with h3
      · exact le_refl _
      · exact not_lt.mp h3)
    _ _ (i, l, r, v) hmem ⟨hib, hle⟩

/-- With a non-negative excess and a positive denominator, the bound of lines 188-190 is
at least the weight it scales, when that weight is not negative. -/
theorem radiusFactor_sq_mul_ge (r e v : ℚ) (he : 0 ≤ e)
    (hpos : 0 < r + (1 / 5 : ℚ) * e) (hv : 0 ≤ v) :
    v ≤ (r + e) / (r + (1 / 5 : ℚ) * e) * ((r + e) / (r + (1 / 5 : ℚ) * e)) * v := by
  have h1 : 1 ≤ (r + e) / (r + (1 / 5 : ℚ) * e) := by
    rw [le_div_iff₀ hpos]
    linarith
  have h2 : 1 ≤ (r + e) / (r + (1 / 5 : ℚ) * e) * ((r + e) / (r + (1 / 5 : ℚ) * e)) := by
    nlinarith
  nlinarith

/-- Reading an entry of a buffer filled from the enumerated pairs of children and values. -/
theorem enum_zip_map_getElem? (children : List SearchNode) (values : List ℚ)
    (g : Nat × SearchNode × ℚ → ℚ) (i : Nat) (c : SearchNode) (v : ℚ)
    (hc : children[i]? = some c) (hv : values[i]? = some v) :
    ((List.zip children values).enum.map g)[i]? = some (g (i, c, v)) := by
  have hz : (List.zip children values)[i]? = some (c, v) :=
    List.getElem?_zip_eq_some.mpr ⟨hc, hv⟩
  rw [List.getElem?_map, List.getElem?_enum, hz]
  rfl

/-- The LCB stage when it returns: `locs` and `retVisitCounts` are untouched, and either
no value is changed, or exactly the value of one child `b` is replaced by a weight `a`:
`b` is eligible, its LCB is above the start value `-1e10` and is the best among the
eligible children, `a` is at least the old value of `b` and at least the value of every
other child whose LCB is not above that of `b` and whose radius is positive. -/
theorem lcbStage_spec (E : Externs) (s : Search) (node : SearchNode) (mw : ℚ)
    (st out : Search.PSVState) (h : Search.lcbStage E s node mw st = some out) :
    out.locs = st.locs ∧ out.retVisitCounts = st.retVisitCounts ∧
    ((out.playSelectionValues = st.playSelectionValues ∧
        (s.searchParams.useLcbForSelection = true → s.searchParams.useNonBuggyLcb = true →
          ∀ (i : Nat) (c : SearchNode) (v : ℚ), node.getChildren[i]? = some c →
            st.playSelectionValues[i]? = some v → Search.eligibleForLcb s mw v →
            Search.lcbOf E s node c ≤ -(10 : ℚ) ^ 10)) ∨
      ∃ (b : Nat) (c : SearchNode) (w a : ℚ),
        node.getChildren[b]? = some c ∧ st.playSelectionValues[b]? = some w ∧
        Search.eligibleForLcb s mw w ∧ -(10 : ℚ) ^ 10 < Search.lcbOf E s node c ∧
        s.searchParams.useLcbForSelection = true ∧
        (s.searchParams.useNonBuggyLcb = true ∨ 0 < b) ∧
        (∀ (i : Nat) (c2 : SearchNode) (v : ℚ), node.getChildren[i]? = some c2 →
          st.playSelectionValues[i]? = some v → Search.eligibleForLcb s mw v →
          Search.lcbOf E s node c2 ≤ Search.lcbOf E s node c) ∧
        out.playSelectionValues = st.playSelectionValues.set b a ∧ w ≤ a ∧
        (∀ (i : Nat) (c2 : SearchNode) (v : ℚ), i ≠ b → node.getChildren[i]? = some c2 →
          st.playSelectionValues[i]? = some v →
          Search.lcbOf E s node c2 ≤ Search.lcbOf E s node c →
          0 < Search.radiusOf E s node c2 → v ≤ a)) := by
  obtain ⟨r, hr, hout⟩ := lcbStage_some E s node mw st out h
  obtain ⟨f1, f2, f3, f4, f5⟩ := lcbLoop_fold E s node mw _ _ _ _ _ r hr
  obtain ⟨lb, rb, best, idx⟩ := r
  simp only [List.nil_append] at f1 f2 f3 f4 f5 hout
  have hall : ∀ (i : Nat) (c2 : SearchNode) (v : ℚ), node.getChildren[i]? = some c2 →
      st.playSelectionValues[i]? = some v → Search.eligibleForLcb s mw v →
      Search.lcbOf E s node c2 ≤ best := by
    intro i c2 v hc hv hel
    exact f4 (i, c2, v) ((mem_enum_zip_iff _ _ _).mpr ⟨hc, hv⟩) hel
  by_cases hcond : s.searchParams.useLcbForSelection = true ∧ st.playSelectionValues.length > 0
      ∧ (if s.searchParams.useNonBuggyLcb = true then idx ≥ 0 else idx > 0)
  · rw [if_pos hcond] at hout
    subst hout
    refine ⟨rfl, rfl, Or.inr ?_⟩
    rcases f5 with ⟨j1, _⟩ | ⟨x, hx, j1, j2, j3, j4⟩
    · exfalso
      obtain ⟨_, _, h3⟩ := hcond
      rw [j1] at h3
      split_ifs at h3 <;> omega
    · obtain ⟨i0, c0, w0⟩ := x
      obtain ⟨hc0, hw0⟩ := (mem_enum_zip_iff _ _ _).mp hx
      simp only at hc0 hw0 j1 j2 j3
      subst j1 j2
      simp only [Int.toNat_ofNat]
      obtain ⟨g1, g2⟩ := lcbAdjustedWeight_ge (Search.lcbOf E s node c0) i0 lb rb
        st.playSelectionValues
      have hw0D : st.playSelectionValues.getD i0 0 = w0 := by
        rw [List.getD_eq_getElem?_getD, hw0]
        rfl
      rw [hw0D] at g1
      refine ⟨i0, c0, w0, _, hc0, hw0, j3, j4, hcond.1, ?_, hall, rfl, g1, ?_⟩
      · obtain ⟨_, _, h3⟩ := hcond
        by_cases hnb : s.searchParams.useNonBuggyLcb = true
        · exact Or.inl hnb
        · rw [if_neg hnb] at h3
          right
          exact_mod_cast h3
      · intro i c2 v hib hc hv hle hrad
        by_cases hvneg : v < 0
        · have h3 : ((MIN_VISITS_FOR_LCB : Int) : ℚ) ≤ w0 := j3.1
          have : ((MIN_VISITS_FOR_LCB : Int) : ℚ) = 3 := by
            unfold MIN_VISITS_FOR_LCB
            norm_num
          rw [this] at h3
          linarith
        · have hlbi : lb[i]? = some (Search.lcbOf E s node c2) := by
            rw [f1]
            exact enum_zip_map_getElem? _ _ (fun x => Search.lcbOf E s node x.2.1) i c2 v hc hv
          have hrbi : rb[i]? = some (Search.radiusOf E s node c2) := by
            rw [f2]
            exact enum_zip_map_getElem? _ _ (fun x => Search.radiusOf E s node x.2.1) i c2 v
              hc hv
          have hb := g2 i _ _ v hib hlbi hrbi hv hle
          have he : 0 ≤ Search.lcbOf E s node c0 - Search.lcbOf E s node c2 := by linarith
          have hge := radiusFactor_sq_mul_ge (Search.radiusOf E s node c2)
            (Search.lcbOf E s node c0 - Search.lcbOf E s node c2) v he
            (by nlinarith) (not_lt.mp hvneg)
          exact le_trans hge hb
  · rw [if_neg hcond] at hout
    subst hout
    refine ⟨rfl, rfl, Or.inl ⟨rfl, ?_⟩⟩
    intro huse hnb i c v hc hv hel
    rcases f5 with ⟨_, j2⟩ | ⟨x, hx, j1, _, _, _⟩
    · rw [← j2]
      exact hall i c v hc hv hel
    · exfalso
      apply hcond
      refine ⟨huse, ?_, ?_⟩
      · have : i < st.playSelectionValues.length := by
          rcases Nat.lt_or_ge i st.playSelectionValues.length with hlt | hge
          · exact hlt
          · rw [List.getElem?_eq_none hge] at hv
            simp at hv
        omega
      · rw [if_pos hnb, j1]
        exact Int.ofNat_nonneg _

/-- C20, counterexample: with the search parameter `minVisitsForLCB` set to 10, the second
child of `Example.lcbParent` (selection weight 5, below 10) is the LCB-boosted child: its
value is raised from 5 to about 37.2. The threshold the code compares with is the constant
`MIN_VISITS_FOR_LCB = 3`, not a search parameter. -/
theorem lcbStage_minVisits_counterexample :
    (Example.searchWith { Example.paramsLcb with minVisitsForLCB := 10 }
      Example.rootOnly).searchParams.minVisitsForLCB = 10 ∧
    Example.lcbParent.getChildren.map (Search.storedValue borderedLoc false) = [20, 5] ∧
    (Search.getPlaySelectionValues Example.externs borderedLoc
        (Example.searchWith { Example.paramsLcb with minVisitsForLCB := 10 } Example.rootOnly)
        Example.lcbParent false 1 true false false).map
        (fun r => (r.1, r.2.playSelectionValues))
      = some (true, [20, 1124999998500000000500 / 30250000011000000001]) ∧
    (5 : ℚ) < 1124999998500000000500 / 30250000011000000001 := by
  refine ⟨rfl, by decide!, by decide!, by norm_num⟩

/-- C20, amended: the LCB stage changes the selection value of a child only if that value
is at least the constant `MIN_VISITS_FOR_LCB = 3` and at least `minVisitPropForLCB` times
`mostWeightedChildWeight` (and only with `useLcbForSelection` on); the value of a child
failing either threshold is what it was before the stage. -/
theorem lcbStage_changes_only_eligible (E : Externs) (s : Search) (node : SearchNode)
    (mostWeightedChildWeight : ℚ) (st out : Search.PSVState)
    (h : Search.lcbStage E s node mostWeightedChildWeight st = some out) (i : Nat)
    (hne : out.playSelectionValues[i]? ≠ st.playSelectionValues[i]?) :
    s.searchParams.useLcbForSelection = true ∧
    ∃ w, st.playSelectionValues[i]? = some w ∧ ((MIN_VISITS_FOR_LCB : Int) : ℚ) ≤ w ∧
      s.searchParams.minVisitPropForLCB * mostWeightedChildWeight ≤ w := by
  obtain ⟨_, _, hcase⟩ := lcbStage_spec E s node mostWeightedChildWeight st out h
  rcases hcase with ⟨heq, _⟩ | ⟨b, c, w, a, _, hw, hel, _, huse, _, _, hset, _, _⟩
  · rw [heq] at hne
    exact absurd rfl hne
  · by_cases hib : b = i
    · subst hib
      exact ⟨huse, w, hw, hel.1, hel.2⟩
    · rw [hset, List.getElem?_set_ne hib] at hne
      exact absurd rfl hne

/-- Witness for C20: at `Example.lcbParent` (values 20 and 5, `minVisitPropForLCB = 3/20`)
the stage changes the value at index 1, and 5 passes both thresholds 3 and 3/20 * 20. -/
theorem lcbStage_changes_only_eligible_witness :
    Example.paramsLcb.useLcbForSelection = true ∧
    ∃ w, ([20, 5] : List ℚ)[1]? = some w ∧ ((MIN_VISITS_FOR_LCB : Int) : ℚ) ≤ w ∧
      Example.paramsLcb.minVisitPropForLCB * 20 ≤ w :=
  lcbStage_changes_only_eligible Example.externs
    (Example.searchWith Example.paramsLcb Example.rootOnly) Example.lcbParent 20
    ⟨[4, 5], [20, 5], [20, 5], [], []⟩
    ⟨[4, 5], [20, 1124999998500000000500 / 30250000011000000001], [20, 5],
      [-2000000001 / 2000000000, -250000001 / 500000000],
      [2000000001 / 2000000000, 500000001 / 500000000]⟩
    (by decide!) 1 (by decide!)

/-- C19, counterexample: with `useLcbForSelection` on and `useNonBuggyLcb` off, at
`Example.lcbParentFirst` both children are eligible and the first child has the best LCB
(about -0.5 against -1.0), yet the stage leaves the values at 20 and 100: the best-LCB
child at index 0 is never boosted by the test `bestLcbIndex > 0`. -/
theorem lcbStage_boost_counterexample :
    Example.lcbParentFirst.getChildren.map (Search.storedValue borderedLoc false)
      = [20, 100] ∧
    Search.eligibleForLcb
      (Example.searchWith { Example.paramsLcb with useNonBuggyLcb := false } Example.rootOnly)
      100 20 ∧
    Example.lcbParentFirst.getChildren.map
        (Search.lcbOf Example.externs
          (Example.searchWith { Example.paramsLcb with useNonBuggyLcb := false }
            Example.rootOnly) Example.lcbParentFirst)
      = [-1000000001 / 2000000000, -10000000001 / 10000000000] ∧
    (Search.getPlaySelectionValues Example.externs borderedLoc
        (Example.searchWith { Example.paramsLcb with useNonBuggyLcb := false }
          Example.rootOnly)
        Example.lcbParentFirst false 1 true false false).map
        (fun r => (r.1, r.2.playSelectionValues))
      = some (true, [20, 100]) := by
  refine ⟨by decide!, ?_, by decide!, by decide!⟩
  unfold Search.eligibleForLcb
  decide!

/-- C19, amended: with `useLcbForSelection` and `useNonBuggyLcb` on, when
`getSelfUtilityLCBAndRadius` returns a positive radius for every child and some eligible
child has an LCB above the start value `-1e10`, the LCB stage returns and there is a child
`b` that is eligible and whose LCB is the best among the eligible children, such that after
the stage the value of `b` is at least its old value and at least the value of every other
child whose LCB is not higher than that of `b`, and no other child's value is changed. -/
theorem lcbStage_boost (E : Externs) (s : Search) (node : SearchNode)
    (mostWeightedChildWeight : ℚ) (st : Search.PSVState)
    (huse : s.searchParams.useLcbForSelection = true)
    (hnb : s.searchParams.useNonBuggyLcb = true)
    (hret : ∀ c ∈ node.getChildren,
      (Search.getSelfUtilityLCBAndRadius E s node c).isSome = true)
    (hrad : ∀ c ∈ node.getChildren, 0 < Search.radiusOf E s node c)
    (helig : ∃ (i : Nat) (c : SearchNode) (v : ℚ), node.getChildren[i]? = some c ∧
      st.playSelectionValues[i]? = some v ∧
      Search.eligibleForLcb s mostWeightedChildWeight v ∧
      -(10 : ℚ) ^ 10 < Search.lcbOf E s node c) :
    ∃ (out : Search.PSVState) (b : Nat) (c : SearchNode) (w a : ℚ),
      Search.lcbStage E s node mostWeightedChildWeight st = some out ∧
      node.getChildren[b]? = some c ∧ st.playSelectionValues[b]? = some w ∧
      Search.eligibleForLcb s mostWeightedChildWeight w ∧
      (∀ (i : Nat) (c2 : SearchNode) (v : ℚ), node.getChildren[i]? = some c2 →
        st.playSelectionValues[i]? = some v →
        Search.eligibleForLcb s mostWeightedChildWeight v →
        Search.lcbOf E s node c2 ≤ Search.lcbOf E s node c) ∧
      out.playSelectionValues[b]? = some a ∧ w ≤ a ∧
      (∀ (i : Nat) (c2 : SearchNode) (v : ℚ), i ≠ b → node.getChildren[i]? = some c2 →
        out.playSelectionValues[i]? = some v →
        Search.lcbOf E s node c2 ≤ Search.lcbOf E s node c → v ≤ a) ∧
      (∀ i : Nat, i ≠ b → out.playSelectionValues[i]? = st.playSelectionValues[i]?) := by
  obtain ⟨out, hout⟩ := lcbStage_total E s node mostWeightedChildWeight st hret
  obtain ⟨_, _, hcase⟩ := lcbStage_spec E s node mostWeightedChildWeight st out hout
  rcases hcase with ⟨_, hnone⟩ | ⟨b, c, w, a, hc, hw, hel, _, _, _, hbest, hset, hwa, hge⟩
  · obtain ⟨i, c, v, hc, hv, hel, hlcb⟩ := helig
    have := hnone huse hnb i c v hc hv hel
    linarith
  · have hblt : b < st.playSelectionValues.length := by
      rcases Nat.lt_or_ge b st.playSelectionValues.length with hlt | hge2
      · exact hlt
      · rw [List.getElem?_eq_none hge2] at hw
        simp at hw
    have hother : ∀ i : Nat, i ≠ b →
        out.playSelectionValues[i]? = st.playSelectionValues[i]? := by
      intro i hib
      rw [hset, List.getElem?_set_ne (Ne.symm hib)]
    refine ⟨out, b, c, w, a, hout, hc, hw, hel, hbest, ?_, hwa, ?_, hother⟩
    · rw [hset, List.getElem?_set_self hblt]
    · intro i c2 v hib hc2 hv hle
      rw [hother i hib] at hv
      exact hge i c2 v hib hc2 hv hle (hrad c2 (List.getElem?_mem hc2))

/-- Witness for C19: at `Example.lcbParentFirst` with `useNonBuggyLcb` on, the first child
(weight 20, the better LCB) is raised above the second child's 100. -/
theorem lcbStage_boost_witness :
    (Search.lcbStage Example.externs (Example.searchWith Example.paramsLcb Example.rootOnly)
        Example.lcbParentFirst 100 ⟨[4, 5], [20, 100], [20, 100], [], []⟩).map
        (fun out => out.playSelectionValues)
      = some [562499999775000000022500 / 3025000000110000000001, 100] ∧
    ∃ (out : Search.PSVState) (b : Nat) (c : SearchNode) (w a : ℚ),
      Search.lcbStage Example.externs (Example.searchWith Example.paramsLcb Example.rootOnly)
        Example.lcbParentFirst 100 ⟨[4, 5], [20, 100], [20, 100], [], []⟩ = some out ∧
      Example.lcbParentFirst.getChildren[b]? = some c ∧
      ([20, 100] : List ℚ)[b]? = some w ∧
      Search.eligibleForLcb (Example.searchWith Example.paramsLcb Example.rootOnly) 100 w ∧
      (∀ (i : Nat) (c2 : SearchNode) (v : ℚ),
        Example.lcbParentFirst.getChildren[i]? = some c2 →
        ([20, 100] : List ℚ)[i]? = some v →
        Search.eligibleForLcb (Example.searchWith Example.paramsLcb Example.rootOnly) 100 v →
        Search.lcbOf Example.externs (Example.searchWith Example.paramsLcb Example.rootOnly)
            Example.lcbParentFirst c2
          ≤ Search.lcbOf Example.externs
              (Example.searchWith Example.paramsLcb Example.rootOnly)
              Example.lcbParentFirst c) ∧
      out.playSelectionValues[b]? = some a ∧ w ≤ a ∧
      (∀ (i : Nat) (c2 : SearchNode) (v : ℚ), i ≠ b →
        Example.lcbParentFirst.getChildren[i]? = some c2 →
        out.playSelectionValues[i]? = some v →
        Search.lcbOf Example.externs (Example.searchWith Example.paramsLcb Example.rootOnly)
            Example.lcbParentFirst c2
          ≤ Search.lcbOf Example.externs
              (Example.searchWith Example.paramsLcb Example.rootOnly)
              Example.lcbParentFirst c → v ≤ a) ∧
      (∀ i : Nat, i ≠ b → out.playSelectionValues[i]? = ([20, 100] : List ℚ)[i]?) :=
  ⟨by decide!,
    lcbStage_boost Example.externs (Example.searchWith Example.paramsLcb Example.rootOnly)
      Example.lcbParentFirst 100 ⟨[4, 5], [20, 100], [20, 100], [], []⟩ rfl rfl
      (by decide!) (by decide!)
      ⟨0, Example.child 4 20 (1 / 2), 20, rfl, rfl,
        by unfold Search.eligibleForLcb; decide!, by decide!⟩⟩

/-! ### The suppressed pass -/

/-- The normalization keeps a zero entry at zero when `chosenMoveSubtract` is not negative
or `chosenMovePrune` is positive. -/
theorem normalizeValues_zero (cs cp scale : ℚ) (values r : List ℚ) (b : Bool) (i : Nat)
    (h : Search.normalizeValues cs cp scale values = some (b, r))
    (hp : 0 ≤ cs ∨ 0 < cp) (hi : values[i]? = some 0) : r[i]? = some 0 := by
  unfold Search.normalizeValues at h
  simp only at h
  set M := values.foldl (fun m v => if v > m then v else m) 0 with hM
  have hpos : (0 : ℚ) < 1 / 10 ^ 50 := by positivity
  have hzero : M > 1 / 10 ^ 50 →
      (if (0 : ℚ) < min cp (M / 64) then (0 : ℚ)
        else if (0 : ℚ) - min cs (M / 64) ≤ 0 then 0 else 0 - min cs (M / 64)) = 0 := by
    intro hM1
    have hM64 : 0 < M / 64 := by linarith
    rcases hp with hcs | hcp
    · have : 0 ≤ min cs (M / 64) := le_min hcs (le_of_lt hM64)
      split_ifs with h1 h2
      · rfl
      · rfl
      · exfalso; apply h2; linarith
    · rw [if_pos (lt_min hcp hM64)]
  split_ifs at h with h1 h2 h3 h4
  · simp only [Option.some.injEq, Prod.mk.injEq] at h
    rw [← h.2]
    exact hi
  · simp only [Option.some.injEq, Prod.mk.injEq] at h
    rw [← h.2, List.getElem?_map, List.getElem?_map, hi]
    simp only [Option.map_some']
    rw [hzero (not_le.mp h1)]
    simp
  · simp only [Option.some.injEq, Prod.mk.injEq] at h
    rw [← h.2, List.getElem?_map, hi]
    simp only [Option.map_some']
    rw [hzero (not_le.mp h1)]

/-- The normalization on the state keeps `locs` and `retVisitCounts`, and keeps a zero
value at zero when `chosenMoveSubtract` is not negative or `chosenMovePrune` is positive. -/
theorem normalizeStage_zero (s : Search) (scale : ℚ) (st out : Search.PSVState) (b : Bool)
    (i : Nat) (h : Search.normalizeStage s scale st = some (b, out))
    (hp : 0 ≤ s.searchParams.chosenMoveSubtract ∨ 0 < s.searchParams.chosenMovePrune)
    (hi : st.playSelectionValues[i]? = some 0) :
    out.locs = st.locs ∧ out.retVisitCounts = st.retVisitCounts ∧
      out.playSelectionValues[i]? = some 0 := by
  unfold Search.normalizeStage at h
  split_ifs at h with h0
  · simp only [Option.some.injEq, Prod.mk.injEq] at h
    rw [← h.2]
    exact ⟨rfl, rfl, hi⟩
  · split at h
    · simp at h
    · rename_i ok values heq
      simp only [Option.some.injEq, Prod.mk.injEq] at h
      rw [← h.2]
      exact ⟨rfl, rfl, normalizeValues_zero _ _ _ _ _ _ i heq hp hi⟩

/-- The reduction loop of lines 141-154 writes 0 for a suppressed pass. -/
theorem reduceWeights_pass (L : LocEncoding) (idx : Nat) (reduced : SearchNode → ℚ)
    (children : List SearchNode) (values : List ℚ) (i : Nat) (child : SearchNode) (v : ℚ)
    (hc : children[i]? = some child) (hv : values[i]? = some v)
    (hpass : child.prevMoveLoc = L.PASS_LOC) :
    (Search.reduceWeights L true idx reduced children values)[i]? = some 0 := by
  unfold Search.reduceWeights
  have hz : (List.zip children values)[i]? = some (child, v) :=
    List.getElem?_zip_eq_some.mpr ⟨hc, hv⟩
  rw [List.getElem?_map, List.getElem?_enum, hz]
  simp [hpass]

/-- The weight reduction at the root, when it returns, is the loop of lines 141-154. -/
theorem reduceWeightsAtRoot_some (E : Externs) (L : LocEncoding) (s : Search)
    (node : SearchNode) (suppressPass : Bool) (idx : Nat) (t m : ℚ) (values r : List ℚ)
    (h : Search.reduceWeightsAtRoot E L s node suppressPass idx t m values = some r) :
    ∃ reduced : SearchNode → ℚ,
      r = Search.reduceWeights L suppressPass idx reduced node.getChildren values := by
  unfold Search.reduceWeightsAtRoot at h
  split at h
  · simp at h
  · simp only at h
    split at h
    · simp at h
    · simp only [Option.some.injEq] at h
      exact ⟨_, h.symm⟩

/-- Before the fallback and the normalization, a suppressed pass child has the location
`PASS_LOC`, the value 0 and the visit count 0: the first loop stores zeros, the root
reduction writes 0 again, and the LCB stage only changes a value of at least 3. -/
theorem selectionStateBeforeFallback_pass (E : Externs) (L : LocEncoding) (s : Search)
    (node : SearchNode) (isRootNode always never : Bool) (st2 : Search.PSVState)
    (hsup : E.shouldSuppressPass node = true)
    (h : Search.selectionStateBeforeFallback E L s node isRootNode always never = some st2)
    (i : Nat) (child : SearchNode) (hc : node.getChildren[i]? = some child)
    (hpass : child.prevMoveLoc = L.PASS_LOC) :
    st2.locs[i]? = some L.PASS_LOC ∧ st2.playSelectionValues[i]? = some 0
      ∧ st2.retVisitCounts[i]? = some 0 := by
  unfold Search.selectionStateBeforeFallback at h
  simp only [storeWeights_fold, hsup, List.nil_append] at h
  have hloc : (node.getChildren.map (fun c => c.prevMoveLoc))[i]? = some L.PASS_LOC := by
    rw [List.getElem?_map, hc]
    simp [hpass]
  have hval : (node.getChildren.map (Search.storedValue L true))[i]? = some 0 := by
    rw [List.getElem?_map, hc]
    simp [Search.storedValue, hpass]
  have hvis : (node.getChildren.map (Search.storedVisits L true))[i]? = some 0 := by
    rw [List.getElem?_map, hc]
    simp [Search.storedVisits, hpass]
  have hst1 : ∀ st1 : Search.PSVState,
      (if isRootNode = true ∧ (node.getChildren.map (Search.storedValue L true)).length > 0 then
        (Search.reduceWeightsAtRoot E L s node true
          (Search.findMostWeighted (node.getChildren.map (Search.storedValue L true))).1
          (node.getChildren.foldl (Search.storeWeightsStep L true)
            (⟨[], [], [], [], []⟩, 0, 0)).2.1
          (node.getChildren.foldl (Search.storeWeightsStep L true)
            (⟨[], [], [], [], []⟩, 0, 0)).2.2
          (node.getChildren.map (Search.storedValue L true))).map
          (fun values => ({ locs := node.getChildren.map (fun c => c.prevMoveLoc)
                            playSelectionValues := values
                            retVisitCounts := node.getChildren.map (Search.storedVisits L true)
                            lcbBuf := []
                            radiusBuf := [] } : Search.PSVState))
      else some { locs := node.getChildren.map (fun c => c.prevMoveLoc)
                  playSelectionValues := node.getChildren.map (Search.storedValue L true)
                  retVisitCounts := node.getChildren.map (Search.storedVisits L true)
                  lcbBuf := []
                  radiusBuf := [] }) = some st1 →
      st1.locs[i]? = some L.PASS_LOC ∧ st1.playSelectionValues[i]? = some 0
        ∧ st1.retVisitCounts[i]? = some 0 := by
    intro st1 h1
    split_ifs at h1 with hroot
    · cases hr : Search.reduceWeightsAtRoot E L s node true
          (Search.findMostWeighted (node.getChildren.map (Search.storedValue L true))).1
          (node.getChildren.foldl (Search.storeWeightsStep L true)
            (⟨[], [], [], [], []⟩, 0, 0)).2.1
          (node.getChildren.foldl (Search.storeWeightsStep L true)
            (⟨[], [], [], [], []⟩, 0, 0)).2.2
          (node.getChildren.map (Search.storedValue L true)) with
      | none =>
        rw [hr] at h1
        simp at h1
      | some r =>
        rw [hr] at h1
        simp only [Option.map_some', Option.some.injEq] at h1
        obtain ⟨reduced, hred⟩ := reduceWeightsAtRoot_some E L s node true _ _ _ _ r hr
        subst h1
        refine ⟨hloc, ?_, hvis⟩
        simp only
        rw [hred]
        exact reduceWeights_pass L _ reduced _ _ i child 0 hc hval hpass
    · simp only [Option.some.injEq] at h1
      subst h1
      exact ⟨hloc, hval, hvis⟩
  split at h
  · simp at h
  · rename_i st1 heq
    obtain ⟨p1, p2, p3⟩ := hst1 st1 heq
    split_ifs at h with hl
    · obtain ⟨q1, q2, hcase⟩ := lcbStage_spec E s node _ st1 st2 h
      rw [q1, q2]
      refine ⟨p1, ?_, p3⟩
      rcases hcase with ⟨heq2, _⟩ | ⟨b, c, w, a, _, hw, hel, _, _, _, _, hset, _, _⟩
      · rw [heq2]
        exact p2
      · have hbi : b ≠ i := by
          intro hbi
          subst hbi
          rw [p2] at hw
          simp only [Option.some.injEq] at hw
          have h3 : ((MIN_VISITS_FOR_LCB : Int) : ℚ) ≤ w := hel.1
          have : ((MIN_VISITS_FOR_LCB : Int) : ℚ) = 3 := by
            unfold MIN_VISITS_FOR_LCB
            norm_num
          rw [this, ← hw] at h3
          linarith
        rw [hset, List.getElem?_set_ne hbi]
        exact p2
    · simp only [Option.some.injEq] at h
      subst h
      exact ⟨p1, p2, p3⟩

/-- C17, counterexample: at the root `Example.passParent` (a pass child of weight 10 and a
child of weight 100) with the pass suppressed, `chosenMoveSubtract = -1` and
`chosenMovePrune = 0`, the returned value of the pass move is 1, not 0: the normalization
subtracts the negative amount from the zero. -/
theorem getPlaySelectionValues_suppressed_pass_counterexample :
    Example.externsSuppressing.shouldSuppressPass Example.passParent = true ∧
    Example.passParent.getChildren.map (fun c => c.prevMoveLoc) = [borderedLoc.PASS_LOC, 4] ∧
    Search.getPlaySelectionValues Example.externsSuppressing borderedLoc
        (Example.searchWith { Example.params with chosenMoveSubtract := -1 }
          Example.passParent)
        Example.passParent true 1 true false false
      = some (true, ⟨[1, 4], [1, 101], [0, 100], [], []⟩) := by
  refine ⟨rfl, by decide!, by decide!⟩

/-- C17, amended: when `shouldSuppressPass` holds for the node and `chosenMoveSubtract` is
not negative (or `chosenMovePrune` is positive), every return of `getPlaySelectionValues`
has, at the index of each pass child, the location `PASS_LOC`, the selection value 0 and
the visit count 0; and the call returns whenever the stages before the normalization
return values whose maximum is below the overflow guard `1e40`. -/
theorem getPlaySelectionValues_suppressed_pass (E : Externs) (L : LocEncoding) (s : Search)
    (node : SearchNode) (isRootNode : Bool) (scale : ℚ) (allow always never : Bool)
    (hsup : E.shouldSuppressPass node = true)
    (hp : 0 ≤ s.searchParams.chosenMoveSubtract ∨ 0 < s.searchParams.chosenMovePrune)
    (i : Nat) (child : SearchNode) (hc : node.getChildren[i]? = some child)
    (hpass : child.prevMoveLoc = L.PASS_LOC) :
    (∀ b out,
      Search.getPlaySelectionValues E L s node isRootNode scale allow always never
          = some (b, out) →
        out.locs[i]? = some L.PASS_LOC ∧ out.playSelectionValues[i]? = some 0
          ∧ out.retVisitCounts[i]? = some 0) ∧
    (∀ st2, Search.selectionStateBeforeFallback E L s node isRootNode always never = some st2 →
      Search.maxValueOf st2.playSelectionValues < 10 ^ 40 →
      ∃ b out,
        Search.getPlaySelectionValues E L s node isRootNode scale allow always never
          = some (b, out)) := by
  have hlen : ¬ node.getChildren.length = 0 := by
    intro h0
    rw [List.length_eq_zero.mp h0] at hc
    simp at hc
  have heq : ∀ st2,
      Search.selectionStateBeforeFallback E L s node isRootNode always never = some st2 →
      Search.getPlaySelectionValues E L s node isRootNode scale allow always never
        = Search.normalizeStage s scale st2 := by
    intro st2 hst2
    rw [getPlaySelectionValues_eq_stages, hst2]
    simp only [if_neg hlen]
  refine ⟨?_, ?_⟩
  · intro b out hret
    cases hst : Search.selectionStateBeforeFallback E L s node isRootNode always never with
    | none =>
      rw [getPlaySelectionValues_eq_stages, hst] at hret
      simp at hret
    | some st2 =>
      rw [heq st2 hst] at hret
      obtain ⟨p1, p2, p3⟩ := selectionStateBeforeFallback_pass E L s node isRootNode always
        never st2 hsup hst i child hc hpass
      obtain ⟨q1, q2, q3⟩ := normalizeStage_zero s scale st2 out b i hret hp p2
      rw [q1, q2]
      exact ⟨p1, q3, p3⟩
  · intro st2 hst hmax
    rw [heq st2 hst]
    obtain ⟨h1, h2, _⟩ := normalizeStage_cases s scale st2
    by_cases hle : Search.maxValueOf st2.playSelectionValues ≤ 1 / 10 ^ 50
    · exact ⟨false, st2, h1 hle⟩
    · obtain ⟨out, hout⟩ := h2 (not_le.mp hle) hmax
      exact ⟨true, out, hout⟩

/-- Witness for C17: at the root `Example.passParent` with the pass suppressed, LCB
selection on and nothing subtracted, the call returns the pass (location 1) with value 0
and visit count 0, next to the other child's 100. -/
theorem getPlaySelectionValues_suppressed_pass_witness :
    (Search.getPlaySelectionValues Example.externsSuppressing borderedLoc
        (Example.searchWith Example.paramsLcb Example.passParent)
        Example.passParent true 1 true false false).map
        (fun r => (r.1, r.2.locs, r.2.playSelectionValues, r.2.retVisitCounts))
      = some (true, [1, 4], [0, 100], [0, 100]) ∧
    ∀ b out,
      Search.getPlaySelectionValues Example.externsSuppressing borderedLoc
          (Example.searchWith Example.paramsLcb Example.passParent)
          Example.passParent true 1 true false false = some (b, out) →
        out.locs[0]? = some borderedLoc.PASS_LOC ∧ out.playSelectionValues[0]? = some 0
          ∧ out.retVisitCounts[0]? = some 0 :=
  ⟨by decide!,
    (getPlaySelectionValues_suppressed_pass Example.externsSuppressing borderedLoc
      (Example.searchWith Example.paramsLcb Example.passParent)
      Example.passParent true 1 true false false rfl (Or.inl (by decide!)) 0
      (Example.child 1 10 0) rfl rfl).1⟩

/-! ### Duplicate marks -/

/-- The loop over `validSymmetries` for one cell at location `loc` (lines 675-681): a
location ends up marked when it was marked before, or when `loc` is unmarked and the
location is an image of the cell, different from `loc`, under a non-identity symmetry of
the list. -/
theorem markSymmetries_iff (loc : Int) (symLocOf : Nat → Int) (vs : List Nat) :
    ∀ (dup : Int → Bool) (l : Int),
      (vs.foldl (fun (isSymDupLoc : Int → Bool) (symmetry : Nat) =>
          if symmetry = 0 then isSymDupLoc
          else if isSymDupLoc loc = false ∧ loc ≠ symLocOf symmetry then
            fun l => if l = symLocOf symmetry then true else isSymDupLoc l
          else isSymDupLoc) dup) l = true
      ↔ dup l = true ∨ (dup loc = false ∧
          ∃ σ ∈ vs, σ ≠ 0 ∧ l = symLocOf σ ∧ loc ≠ l) := by
  induction vs with
  | nil => intro dup l; simp
  | cons σ vs ih =>
    intro dup l
    simp only [List.foldl_cons]
    rw [ih]
    by_cases h0 : σ = 0
    · simp only [h0, if_true]
      constructor
      · rintro (h | ⟨h1, τ, hτ, h2⟩)
        · exact Or.inl h
        · exact Or.inr ⟨h1, τ, List.mem_cons_of_mem _ hτ, h2⟩
      · rintro (h | ⟨h1, τ, hτ, h2, h3⟩)
        · exact Or.inl h
        · rcases List.mem_cons.mp hτ with hh | hh
          · exact absurd hh h2
          · exact Or.inr ⟨h1, τ, hh, h2, h3⟩
    · rw [if_neg h0]
      by_cases hc : dup loc = false ∧ loc ≠ symLocOf σ
      · rw [if_pos hc]
        have hloc : (if loc = symLocOf σ then true else dup loc) = false := by
          rw [if_neg hc.2]
          exact hc.1
        simp only [hloc]
        constructor
        · rintro (h | ⟨_, τ, hτ, h2⟩)
          · by_cases hl : l = symLocOf σ
            · exact Or.inr ⟨hc.1, σ, List.mem_cons_self _ _, h0, hl, by rw [hl]; exact hc.2⟩
            · rw [if_neg hl] at h
              exact Or.inl h
          · exact Or.inr ⟨hc.1, τ, List.mem_cons_of_mem _ hτ, h2⟩
        · rintro (h | ⟨h1, τ, hτ, h2, h3, h4⟩)
          · left
            by_cases hl : l = symLocOf σ
            · rw [if_pos hl]
            · rw [if_neg hl]
              exact h
          · rcases List.mem_cons.mp hτ with hh | hh
            · left
              rw [hh] at h3
              rw [if_pos h3]
            · exact Or.inr ⟨trivial, τ, hh, h2, h3, h4⟩
      · rw [if_neg hc]
        constructor
        · rintro (h | ⟨h1, τ, hτ, h2⟩)
          · exact Or.inl h
          · exact Or.inr ⟨h1, τ, List.mem_cons_of_mem _ hτ, h2⟩
        · rintro (h | ⟨h1, τ, hτ, h2, h3, h4⟩)
          · exact Or.inl h
          · rcases List.mem_cons.mp hτ with hh | hh
            · exfalso
              apply hc
              refine ⟨h1, ?_⟩
              rw [← hh, ← h3]
              exact h4
            · exact Or.inr ⟨h1, τ, hh, h2, h3, h4⟩

/-- The body of the cell loops with an empty `avoidMoves`: see `markSymmetries_iff`. -/
theorem markCell_iff (L : LocEncoding) (board : Board) (validSymmetries : List Nat)
    (dup : Int → Bool) (x y l : Int) :
    SymmetryHelpers.markCell L board [] validSymmetries dup x y l = true
      ↔ dup l = true ∨ (dup (L.getLoc x y board.x_size) = false ∧
          ∃ σ ∈ validSymmetries, σ ≠ 0
            ∧ l = SymmetryHelpers.getSymLocBoard L x y board.toBoardDims σ
            ∧ L.getLoc x y board.x_size ≠ l) := by
  unfold SymmetryHelpers.markCell
  simp only [List.length_nil, gt_iff_lt, lt_irrefl, false_and, if_false]
  exact markSymmetries_iff (L.getLoc x y board.x_size)
    (fun σ => SymmetryHelpers.getSymLocBoard L x y board.toBoardDims σ) validSymmetries dup l

/-- A marking fold over a list of cells: a location ends up marked when it was marked at
the start, or some cell of the list was unmarked when it was visited and the location is
one of its images. -/
theorem foldl_mark_iff {α : Type} (loc : α → Int) (img : α → Int → Prop)
    (f : (Int → Bool) → α → (Int → Bool))
    (hf : ∀ dup c l, f dup c l = true ↔ dup l = true ∨ (dup (loc c) = false ∧ img c l))
    (cs : List α) :
    ∀ (dup0 : Int → Bool) (l : Int),
      (cs.foldl f dup0) l = true
        ↔ dup0 l = true ∨ ∃ pre c post, cs = pre ++ c :: post
            ∧ (pre.foldl f dup0) (loc c) = false ∧ img c l := by
  induction cs with
  | nil =>
    intro dup0 l
    simp
  | cons c0 cs ih =>
    intro dup0 l
    simp only [List.foldl_cons]
    rw [ih, hf]
    constructor
    · rintro ((h | ⟨h1, h2⟩) | ⟨pre, c, post, h1, h2, h3⟩)
      · exact Or.inl h
      · exact Or.inr ⟨[], c0, cs, rfl, h1, h2⟩
      · exact Or.inr ⟨c0 :: pre, c, post, by rw [h1]; rfl, h2, h3⟩
    · rintro (h | ⟨pre, c, post, h1, h2, h3⟩)
      · exact Or.inl (Or.inl h)
      · cases pre with
        | nil =>
          simp only [List.nil_append, List.cons.injEq] at h1
          obtain ⟨h1a, _⟩ := h1
          subst h1a
          exact Or.inl (Or.inr ⟨h2, h3⟩)
        | cons p pre =>
          simp only [List.cons_append, List.cons.injEq] at h1
          obtain ⟨h1a, h1b⟩ := h1
          subst h1a
          exact Or.inr ⟨pre, c, post, h1b, h2, h3⟩

/-- Two nested loops over `xs` and `ys` are one loop over the pairs. -/
theorem foldl_flatMap_pairs {β : Type} (g : β → Int → Int → β) (ys : List Int)
    (xs : List Int) :
    ∀ init : β,
      xs.foldl (fun d x => ys.foldl (fun d y => g d x y) d) init
        = (xs.flatMap (fun x => ys.map (fun y => (x, y)))).foldl
            (fun d (c : Int × Int) => g d c.1 c.2) init := by
  induction xs with
  | nil => intro init; rfl
  | cons x xs ih =>
    intro init
    simp only [List.foldl_cons, List.flatMap_cons, List.foldl_append, List.foldl_map]
    exact ih _

/-- Without ko, the marks of `markDuplicateMoveLocs` are the fold of `markCell` over the
cells in visiting order. -/
theorem markDuplicateMoveLocs_eq_fold (L : LocEncoding) (board : Board) (pla : Player)
    (onlySymmetries : Option (List Int)) (avoidMoves : List Int)
    (hko : board.ko_loc = L.NULL_LOC) :
    (SymmetryHelpers.markDuplicateMoveLocs L board pla onlySymmetries avoidMoves).1
      = (SymmetryHelpers.visitOrder board pla).foldl
          (fun dup (c : Int × Int) =>
            SymmetryHelpers.markCell L board avoidMoves
              (SymmetryHelpers.collectValidSymmetries L board onlySymmetries) dup c.1 c.2)
          (fun _ => false) ∧
    (SymmetryHelpers.markDuplicateMoveLocs L board pla onlySymmetries avoidMoves).2
      = SymmetryHelpers.collectValidSymmetries L board onlySymmetries := by
  unfold SymmetryHelpers.markDuplicateMoveLocs SymmetryHelpers.visitOrder
  simp only [hko, ne_eq, not_true_eq_false, if_false]
  split_ifs with h
  · exact ⟨foldl_flatMap_pairs _ _ _ _, rfl⟩
  · exact ⟨foldl_flatMap_pairs _ _ _ _, rfl⟩

/-- The visiting order lists exactly the cells of the board. -/
theorem mem_visitOrder (board : Board) (pla : Player) (c : Int × Int) :
    c ∈ SymmetryHelpers.visitOrder board pla
      ↔ 0 ≤ c.1 ∧ c.1 < board.x_size ∧ 0 ≤ c.2 ∧ c.2 < board.y_size := by
  obtain ⟨x, y⟩ := c
  unfold SymmetryHelpers.visitOrder
  simp only
  split_ifs
  · simp only [List.mem_flatMap, List.mem_reverse, List.mem_map, List.mem_range,
      Prod.mk.injEq]
    constructor
    · rintro ⟨a, ⟨n, hn, rfl⟩, b, ⟨m, hm, rfl⟩, rfl, rfl⟩
      omega
    · rintro ⟨h1, h2, h3, h4⟩
      refine ⟨x, ⟨x.toNat, ?_, ?_⟩, y, ⟨y.toNat, ?_, ?_⟩, rfl, rfl⟩
      · omega
      · exact Int.toNat_of_nonneg h1
      · omega
      · exact Int.toNat_of_nonneg h3
  · simp only [List.mem_flatMap, List.mem_reverse, List.mem_map, List.mem_range,
      Prod.mk.injEq]
    constructor
    · rintro ⟨a, ⟨n, hn, rfl⟩, b, ⟨m, hm, rfl⟩, rfl, rfl⟩
      omega
    · rintro ⟨h1, h2, h3, h4⟩
      refine ⟨x, ⟨x.toNat, ?_, ?_⟩, y, ⟨y.toNat, ?_, ?_⟩, rfl, rfl⟩
      · omega
      · exact Int.toNat_of_nonneg h1
      · omega
      · exact Int.toNat_of_nonneg h3

/-- The visiting order of the loops is the order stated in words. -/
theorem pairwise_visitOrder (board : Board) (pla : Player) :
    (SymmetryHelpers.visitOrder board pla).Pairwise (SymmetryHelpers.visitedBefore pla) := by
  have hlt : ∀ n : Nat, (List.range n).Pairwise (fun (i j : Nat) => (i : Int) < (j : Int)) :=
    fun n => (List.pairwise_lt_range n).imp (fun h => by exact_mod_cast h)
  unfold SymmetryHelpers.visitOrder SymmetryHelpers.visitedBefore
  simp only
  split_ifs with h
  · rw [List.pairwise_flatMap]
    refine ⟨?_, ?_⟩
    · intro x _
      rw [List.pairwise_map, List.pairwise_map]
      exact (hlt _).imp (fun hij => Or.inr ⟨rfl, hij⟩)
    · rw [List.pairwise_reverse, List.pairwise_map]
      refine (hlt _).imp ?_
      intro i j hij a ha b hb
      simp only [List.mem_map] at ha hb
      obtain ⟨_, _, rfl⟩ := ha
      obtain ⟨_, _, rfl⟩ := hb
      exact Or.inl hij
  · rw [List.pairwise_flatMap]
    refine ⟨?_, ?_⟩
    · intro x _
      rw [List.pairwise_map, List.pairwise_reverse, List.pairwise_map]
      exact (hlt _).imp (fun hij => Or.inr ⟨rfl, hij⟩)
    · rw [List.pairwise_map]
      refine (hlt _).imp ?_
      intro i j hij a ha b hb
      simp only [List.mem_map] at ha hb
      obtain ⟨_, _, rfl⟩ := ha
      obtain ⟨_, _, rfl⟩ := hb
      exact Or.inl hij

/-- The order `visitedBefore` is irreflexive and transitive. -/
theorem visitedBefore_order (pla : Player) :
    (∀ a, ¬ SymmetryHelpers.visitedBefore pla a a) ∧
    (∀ a b c, SymmetryHelpers.visitedBefore pla a b → SymmetryHelpers.visitedBefore pla b c →
      SymmetryHelpers.visitedBefore pla a c) := by
  unfold SymmetryHelpers.visitedBefore
  refine ⟨?_, ?_⟩
  · intro a
    split_ifs <;> omega
  · intro a b c
    split_ifs <;> omega

/-- In a list ordered by `visitedBefore`, the cells in front of an entry are the cells of
the list that come before it in the order. -/
theorem mem_prefix_iff (pla : Player) (cs pre post : List (Int × Int)) (c b : Int × Int)
    (hp : cs.Pairwise (SymmetryHelpers.visitedBefore pla)) (hcs : cs = pre ++ c :: post) :
    b ∈ pre ↔ b ∈ cs ∧ SymmetryHelpers.visitedBefore pla b c := by
  obtain ⟨hirr, htr⟩ := visitedBefore_order pla
  rw [hcs, List.pairwise_append] at hp
  obtain ⟨_, h2, h3⟩ := hp
  rw [List.pairwise_cons] at h2
  constructor
  · intro hb
    refine ⟨?_, h3 b hb c (List.mem_cons_self _ _)⟩
    rw [hcs]
    exact List.mem_append_left _ hb
  · rintro ⟨hb, hbc⟩
    rw [hcs] at hb
    rcases List.mem_append.mp hb with h | h
    · exact h
    · rcases List.mem_cons.mp h with h | h
      · rw [h] at hbc
        exact absurd hbc (hirr c)
      · exact absurd (htr _ _ _ hbc (h2.1 b h)) (hirr b)

/-! ### The symmetries as maps on coordinates -/

/-- The eight cases of `symXY`, by evaluating the three bit tests. -/
theorem symXY_cases (X Y : Int) :
    (∀ p, SymmetryHelpers.symXY X Y 0 p = (p.1, p.2)) ∧
    (∀ p, SymmetryHelpers.symXY X Y 1 p = (p.1, Y - p.2 - 1)) ∧
    (∀ p, SymmetryHelpers.symXY X Y 2 p = (X - p.1 - 1, p.2)) ∧
    (∀ p, SymmetryHelpers.symXY X Y 3 p = (X - p.1 - 1, Y - p.2 - 1)) ∧
    (∀ p, SymmetryHelpers.symXY X Y 4 p = (p.2, p.1)) ∧
    (∀ p, SymmetryHelpers.symXY X Y 5 p = (Y - p.2 - 1, p.1)) ∧
    (∀ p, SymmetryHelpers.symXY X Y 6 p = (p.2, X - p.1 - 1)) ∧
    (∀ p, SymmetryHelpers.symXY X Y 7 p = (Y - p.2 - 1, X - p.1 - 1)) :=
  ⟨fun _ => rfl, fun _ => rfl, fun _ => rfl, fun _ => rfl, fun _ => rfl, fun _ => rfl,
    fun _ => rfl, fun _ => rfl⟩

/-- For a symmetry that `markDuplicateMoveLocs` considers (below 8 on a square board, below
4 otherwise), `getSymLoc` is `Location::getLoc` at the coordinates `symXY` on a board of
the same width. -/
theorem getSymLocBoard_eq_symXY (L : LocEncoding) (board : BoardDims) (x y : Int) (σ : Nat)
    (hσ : σ < (if board.x_size = board.y_size then 8 else 4)) :
    SymmetryHelpers.getSymLocBoard L x y board σ
      = L.getLoc (SymmetryHelpers.symXY board.x_size board.y_size σ (x, y)).1
          (SymmetryHelpers.symXY board.x_size board.y_size σ (x, y)).2 board.x_size := by
  by_cases hsq : board.x_size = board.y_size
  · rw [if_pos hsq] at hσ
    unfold SymmetryHelpers.getSymLocBoard
    rw [← hsq]
    interval_cases σ <;> rfl
  · rw [if_neg hsq] at hσ
    interval_cases σ <;> rfl

/-- The coordinate maps send cells to cells. -/
theorem symXY_cell (X Y : Int) (σ : Nat) (hσ : σ < (if X = Y then 8 else 4)) (p : Int × Int)
    (hp : 0 ≤ p.1 ∧ p.1 < X ∧ 0 ≤ p.2 ∧ p.2 < Y) :
    0 ≤ (SymmetryHelpers.symXY X Y σ p).1 ∧ (SymmetryHelpers.symXY X Y σ p).1 < X ∧
    0 ≤ (SymmetryHelpers.symXY X Y σ p).2 ∧ (SymmetryHelpers.symXY X Y σ p).2 < Y := by
  obtain ⟨s0, s1, s2, s3, s4, s5, s6, s7⟩ := symXY_cases X Y
  by_cases hsq : X = Y
  · rw [if_pos hsq] at hσ
    interval_cases σ <;> simp only [s0, s1, s2, s3, s4, s5, s6, s7] <;> omega
  · rw [if_neg hsq] at hσ
    interval_cases σ <;> simp only [s0, s1, s2, s3] <;> omega

/-- The inverse symmetry undoes the coordinate map, is considered too, and is the
identity only for the identity. -/
theorem symXY_invert (X Y : Int) (σ : Nat) (hσ : σ < (if X = Y then 8 else 4))
    (p : Int × Int) :
    SymmetryHelpers.symXY X Y (SymmetryHelpers.invert σ) (SymmetryHelpers.symXY X Y σ p) = p ∧
    SymmetryHelpers.symXY X Y σ (SymmetryHelpers.symXY X Y (SymmetryHelpers.invert σ) p) = p ∧
    SymmetryHelpers.invert σ < (if X = Y then 8 else 4) ∧
    (σ ≠ 0 → SymmetryHelpers.invert σ ≠ 0) := by
  obtain ⟨s0, s1, s2, s3, s4, s5, s6, s7⟩ := symXY_cases X Y
  obtain ⟨x, y⟩ := p
  have h3 : SymmetryHelpers.invert σ < (if X = Y then 8 else 4) := by
    unfold SymmetryHelpers.invert
    split_ifs at hσ ⊢ <;> omega
  have h4 : σ ≠ 0 → SymmetryHelpers.invert σ ≠ 0 := by
    intro h
    unfold SymmetryHelpers.invert
    split_ifs <;> omega
  refine ⟨?_, ?_, h3, h4⟩
  · by_cases hsq : X = Y
    · simp only [if_pos hsq] at hσ
      subst hsq
      interval_cases σ <;>
        simp only [show SymmetryHelpers.invert 0 = 0 from rfl, show SymmetryHelpers.invert 1 = 1 from rfl, show SymmetryHelpers.invert 2 = 2 from rfl, show SymmetryHelpers.invert 3 = 3 from rfl, show SymmetryHelpers.invert 4 = 4 from rfl, show SymmetryHelpers.invert 5 = 6 from rfl, show SymmetryHelpers.invert 6 = 5 from rfl, show SymmetryHelpers.invert 7 = 7 from rfl, s0, s1, s2, s3, s4, s5, s6, s7] <;>
        refine Prod.ext ?_ ?_ <;> dsimp only <;> omega
    · simp only [if_neg hsq] at hσ
      interval_cases σ <;>
        simp only [show SymmetryHelpers.invert 0 = 0 from rfl, show SymmetryHelpers.invert 1 = 1 from rfl, show SymmetryHelpers.invert 2 = 2 from rfl, show SymmetryHelpers.invert 3 = 3 from rfl, show SymmetryHelpers.invert 4 = 4 from rfl, show SymmetryHelpers.invert 5 = 6 from rfl, show SymmetryHelpers.invert 6 = 5 from rfl, show SymmetryHelpers.invert 7 = 7 from rfl, s0, s1, s2, s3] <;>
        refine Prod.ext ?_ ?_ <;> dsimp only <;> omega
  · by_cases hsq : X = Y
    · simp only [if_pos hsq] at hσ
      subst hsq
      interval_cases σ <;>
        simp only [show SymmetryHelpers.invert 0 = 0 from rfl, show SymmetryHelpers.invert 1 = 1 from rfl, show SymmetryHelpers.invert 2 = 2 from rfl, show SymmetryHelpers.invert 3 = 3 from rfl, show SymmetryHelpers.invert 4 = 4 from rfl, show SymmetryHelpers.invert 5 = 6 from rfl, show SymmetryHelpers.invert 6 = 5 from rfl, show SymmetryHelpers.invert 7 = 7 from rfl, s0, s1, s2, s3, s4, s5, s6, s7] <;>
        refine Prod.ext ?_ ?_ <;> dsimp only <;> omega
    · simp only [if_neg hsq] at hσ
      interval_cases σ <;>
        simp only [show SymmetryHelpers.invert 0 = 0 from rfl, show SymmetryHelpers.invert 1 = 1 from rfl, show SymmetryHelpers.invert 2 = 2 from rfl, show SymmetryHelpers.invert 3 = 3 from rfl, show SymmetryHelpers.invert 4 = 4 from rfl, show SymmetryHelpers.invert 5 = 6 from rfl, show SymmetryHelpers.invert 6 = 5 from rfl, show SymmetryHelpers.invert 7 = 7 from rfl, s0, s1, s2, s3] <;>
        refine Prod.ext ?_ ?_ <;> dsimp only <;> omega

/-- The coordinate map of `compose σ τ` is the map of `σ` followed by the map of `τ`, and
`compose σ τ` is considered when `σ` and `τ` are. -/
theorem symXY_compose (X Y : Int) (σ τ : Nat) (hσ : σ < (if X = Y then 8 else 4))
    (hτ : τ < (if X = Y then 8 else 4)) (p : Int × Int) :
    SymmetryHelpers.symXY X Y (SymmetryHelpers.compose σ τ) p
      = SymmetryHelpers.symXY X Y τ (SymmetryHelpers.symXY X Y σ p) ∧
    SymmetryHelpers.compose σ τ < (if X = Y then 8 else 4) := by
  obtain ⟨s0, s1, s2, s3, s4, s5, s6, s7⟩ := symXY_cases X Y
  obtain ⟨x, y⟩ := p
  by_cases hsq : X = Y
  · simp only [if_pos hsq] at hσ hτ ⊢
    subst hsq
    refine ⟨?_, ?_⟩
    · interval_cases σ <;> interval_cases τ <;>
        simp only [show SymmetryHelpers.compose 0 0 = 0 from rfl,
        show SymmetryHelpers.compose 0 1 = 1 from rfl,
        show SymmetryHelpers.compose 0 2 = 2 from rfl,
        show SymmetryHelpers.compose 0 3 = 3 from rfl,
        show SymmetryHelpers.compose 0 4 = 4 from rfl,
        show SymmetryHelpers.compose 0 5 = 5 from rfl,
        show SymmetryHelpers.compose 0 6 = 6 from rfl,
        show SymmetryHelpers.compose 0 7 = 7 from rfl,
        show SymmetryHelpers.compose 1 0 = 1 from rfl,
        show SymmetryHelpers.compose 1 1 = 0 from rfl,
        show SymmetryHelpers.compose 1 2 = 3 from rfl,
        show SymmetryHelpers.compose 1 3 = 2 from rfl,
        show SymmetryHelpers.compose 1 4 = 5 from rfl,
        show SymmetryHelpers.compose 1 5 = 4 from rfl,
        show SymmetryHelpers.compose 1 6 = 7 from rfl,
        show SymmetryHelpers.compose 1 7 = 6 from rfl,
        show SymmetryHelpers.compose 2 0 = 2 from rfl,
        show SymmetryHelpers.compose 2 1 = 3 from rfl,
        show SymmetryHelpers.compose 2 2 = 0 from rfl,
        show SymmetryHelpers.compose 2 3 = 1 from rfl,
        show SymmetryHelpers.compose 2 4 = 6 from rfl,
        show SymmetryHelpers.compose 2 5 = 7 from rfl,
        show SymmetryHelpers.compose 2 6 = 4 from rfl,
        show SymmetryHelpers.compose 2 7 = 5 from rfl,
        show SymmetryHelpers.compose 3 0 = 3 from rfl,
        show SymmetryHelpers.compose 3 1 = 2 from rfl,
        show SymmetryHelpers.compose 3 2 = 1 from rfl,
        show SymmetryHelpers.compose 3 3 = 0 from rfl,
        show SymmetryHelpers.compose 3 4 = 7 from rfl,
        show SymmetryHelpers.compose 3 5 = 6 from rfl,
        show SymmetryHelpers.compose 3 6 = 5 from rfl,
        show SymmetryHelpers.compose 3 7 = 4 from rfl,
        show SymmetryHelpers.compose 4 0 = 4 from rfl,
        show SymmetryHelpers.compose 4 1 = 6 from rfl,
        show SymmetryHelpers.compose 4 2 = 5 from rfl,
        show SymmetryHelpers.compose 4 3 = 7 from rfl,
        show SymmetryHelpers.compose 4 4 = 0 from rfl,
        show SymmetryHelpers.compose 4 5 = 2 from rfl,
        show SymmetryHelpers.compose 4 6 = 1 from rfl,
        show SymmetryHelpers.compose 4 7 = 3 from rfl,
        show SymmetryHelpers.compose 5 0 = 5 from rfl,
        show SymmetryHelpers.compose 5 1 = 7 from rfl,
        show SymmetryHelpers.compose 5 2 = 4 from rfl,
        show SymmetryHelpers.compose 5 3 = 6 from rfl,
        show SymmetryHelpers.compose 5 4 = 1 from rfl,
        show SymmetryHelpers.compose 5 5 = 3 from rfl,
        show SymmetryHelpers.compose 5 6 = 0 from rfl,
        show SymmetryHelpers.compose 5 7 = 2 from rfl,
        show SymmetryHelpers.compose 6 0 = 6 from rfl,
        show SymmetryHelpers.compose 6 1 = 4 from rfl,
        show SymmetryHelpers.compose 6 2 = 7 from rfl,
        show SymmetryHelpers.compose 6 3 = 5 from rfl,
        show SymmetryHelpers.compose 6 4 = 2 from rfl,
        show SymmetryHelpers.compose 6 5 = 0 from rfl,
        show SymmetryHelpers.compose 6 6 = 3 from rfl,
        show SymmetryHelpers.compose 6 7 = 1 from rfl,
        show SymmetryHelpers.compose 7 0 = 7 from rfl,
        show SymmetryHelpers.compose 7 1 = 5 from rfl,
        show SymmetryHelpers.compose 7 2 = 6 from rfl,
        show SymmetryHelpers.compose 7 3 = 4 from rfl,
        show SymmetryHelpers.compose 7 4 = 3 from rfl,
        show SymmetryHelpers.compose 7 5 = 1 from rfl,
        show SymmetryHelpers.compose 7 6 = 2 from rfl,
        show SymmetryHelpers.compose 7 7 = 0 from rfl,
          s0, s1, s2, s3, s4, s5, s6, s7] <;>
        refine Prod.ext ?_ ?_ <;> dsimp only <;> omega
    · interval_cases σ <;> interval_cases τ <;> decide
  · simp only [if_neg hsq] at hσ hτ ⊢
    refine ⟨?_, ?_⟩
    · interval_cases σ <;> interval_cases τ <;>
        simp only [show SymmetryHelpers.compose 0 0 = 0 from rfl,
        show SymmetryHelpers.compose 0 1 = 1 from rfl,
        show SymmetryHelpers.compose 0 2 = 2 from rfl,
        show SymmetryHelpers.compose 0 3 = 3 from rfl,
        show SymmetryHelpers.compose 1 0 = 1 from rfl,
        show SymmetryHelpers.compose 1 1 = 0 from rfl,
        show SymmetryHelpers.compose 1 2 = 3 from rfl,
        show SymmetryHelpers.compose 1 3 = 2 from rfl,
        show SymmetryHelpers.compose 2 0 = 2 from rfl,
        show SymmetryHelpers.compose 2 1 = 3 from rfl,
        show SymmetryHelpers.compose 2 2 = 0 from rfl,
        show SymmetryHelpers.compose 2 3 = 1 from rfl,
        show SymmetryHelpers.compose 3 0 = 3 from rfl,
        show SymmetryHelpers.compose 3 1 = 2 from rfl,
        show SymmetryHelpers.compose 3 2 = 1 from rfl,
        show SymmetryHelpers.compose 3 3 = 0 from rfl,
          s0, s1, s2, s3] <;>
        refine Prod.ext ?_ ?_ <;> dsimp only <;> omega
    · interval_cases σ <;> interval_cases τ <;> decide

/-- With `onlySymmetries` null, a symmetry is in the collected list exactly when it is
below the search bound and every cell has the colour of its image. -/
theorem mem_collectValidSymmetries_iff (L : LocEncoding) (board : Board) (σ : Nat) :
    σ ∈ SymmetryHelpers.collectValidSymmetries L board none
      ↔ σ < (if board.x_size = board.y_size then 8 else 4) ∧
        ∀ x y : Int, 0 ≤ x → x < board.x_size → 0 ≤ y → y < board.y_size →
          board.colors (L.getLoc x y board.x_size)
            = board.colors (SymmetryHelpers.getSymLocBoard L x y board.toBoardDims σ) := by
  rw [collectValidSymmetries_eq]
  simp only [List.mem_cons, List.mem_filter, List.mem_range'_1,
    SymmetryHelpers.skippedByOnlySymmetries, Bool.not_false, Bool.true_and]
  rw [isBoardSym_iff]
  unfold SymmetryHelpers.NUM_SYMMETRIES SymmetryHelpers.NUM_SYMMETRIES_WITHOUT_TRANSPOSE
  constructor
  · rintro (h0 | ⟨⟨_, h1⟩, h2⟩)
    · subst h0
      refine ⟨by split_ifs <;> omega, ?_⟩
      intro x y _ _ _ _
      rfl
    · refine ⟨by split_ifs at h1 ⊢ <;> omega, h2⟩
  · rintro ⟨h1, h2⟩
    by_cases h0 : σ = 0
    · exact Or.inl h0
    · exact Or.inr ⟨⟨by omega, by split_ifs at h1 ⊢ <;> omega⟩, h2⟩

/-- The locations of two cells of a board are equal only if the cells are. -/
theorem getLoc_cell_inj (L : LocEncoding) (hL : L.Valid) (X : Int) (p q : Int × Int)
    (hp : 0 ≤ p.1 ∧ p.1 < X ∧ 0 ≤ p.2) (hq : 0 ≤ q.1 ∧ q.1 < X ∧ 0 ≤ q.2)
    (h : L.getLoc p.1 p.2 X = L.getLoc q.1 q.2 X) : p = q := by
  have hx := hL.getX_getLoc p.1 p.2 X hp.1 hp.2.1 hp.2.2
  have hy := hL.getY_getLoc p.1 p.2 X hp.1 hp.2.1 hp.2.2
  rw [h, hL.getX_getLoc q.1 q.2 X hq.1 hq.2.1 hq.2.2] at hx
  rw [h, hL.getY_getLoc q.1 q.2 X hq.1 hq.2.1 hq.2.2] at hy
  exact Prod.ext hx.symm hy.symm

/-- The collected symmetries are closed under `invert` and `compose`. -/
theorem collectValidSymmetries_closed (L : LocEncoding) (board : Board) (σ τ : Nat)
    (hσ : σ ∈ SymmetryHelpers.collectValidSymmetries L board none)
    (hτ : τ ∈ SymmetryHelpers.collectValidSymmetries L board none) :
    SymmetryHelpers.invert σ ∈ SymmetryHelpers.collectValidSymmetries L board none ∧
    SymmetryHelpers.compose σ τ ∈ SymmetryHelpers.collectValidSymmetries L board none := by
  rw [mem_collectValidSymmetries_iff] at hσ hτ ⊢
  rw [mem_collectValidSymmetries_iff]
  obtain ⟨hσ1, hσ2⟩ := hσ
  obtain ⟨hτ1, hτ2⟩ := hτ
  refine ⟨⟨?_, ?_⟩, ⟨?_, ?_⟩⟩
  · exact (symXY_invert board.x_size board.y_size σ hσ1 (0, 0)).2.2.1
  · intro x y hx hxs hy hys
    obtain ⟨_, hinv, hlt, _⟩ := symXY_invert board.x_size board.y_size σ hσ1 (x, y)
    obtain ⟨c1, c2, c3, c4⟩ := symXY_cell board.x_size board.y_size
      (SymmetryHelpers.invert σ) hlt (x, y) ⟨hx, hxs, hy, hys⟩
    have h := hσ2 _ _ c1 c2 c3 c4
    rw [getSymLocBoard_eq_symXY L board.toBoardDims _ _ σ hσ1, hinv] at h
    rw [getSymLocBoard_eq_symXY L board.toBoardDims x y _ hlt]
    exact h.symm
  · exact (symXY_compose board.x_size board.y_size σ τ hσ1 hτ1 (0, 0)).2
  · intro x y hx hxs hy hys
    obtain ⟨hcomp, hlt⟩ := symXY_compose board.x_size board.y_size σ τ hσ1 hτ1 (x, y)
    obtain ⟨c1, c2, c3, c4⟩ := symXY_cell board.x_size board.y_size σ hσ1 (x, y)
      ⟨hx, hxs, hy, hys⟩
    have h1 := hσ2 x y hx hxs hy hys
    have h2 := hτ2 _ _ c1 c2 c3 c4
    rw [getSymLocBoard_eq_symXY L board.toBoardDims x y σ hσ1] at h1
    rw [getSymLocBoard_eq_symXY L board.toBoardDims _ _ τ hτ1] at h2
    rw [getSymLocBoard_eq_symXY L board.toBoardDims x y _ hlt, hcomp, h1, h2]

/-- Being an image under the collected symmetries is symmetric between cells. -/
theorem imageOfCell_symm (L : LocEncoding) (hL : L.Valid) (board : Board) (b c : Int × Int)
    (hb : SymmetryHelpers.isCell board b) (hc : SymmetryHelpers.isCell board c)
    (h : SymmetryHelpers.imageOfCell L board
      (SymmetryHelpers.collectValidSymmetries L board none) b
      (L.getLoc c.1 c.2 board.x_size)) :
    SymmetryHelpers.imageOfCell L board
      (SymmetryHelpers.collectValidSymmetries L board none) c
      (L.getLoc b.1 b.2 board.x_size) := by
  obtain ⟨σ, hσ, h0, himg, hne⟩ := h
  have hσ1 := ((mem_collectValidSymmetries_iff L board σ).mp hσ).1
  obtain ⟨hinv, _, _, hinv0⟩ := symXY_invert board.x_size board.y_size σ hσ1 b
  have hcell := symXY_cell board.x_size board.y_size σ hσ1 b hb
  rw [getSymLocBoard_eq_symXY L board.toBoardDims b.1 b.2 σ hσ1] at himg
  have hceq : c = SymmetryHelpers.symXY board.x_size board.y_size σ b :=
    getLoc_cell_inj L hL board.x_size c _ ⟨hc.1, hc.2.1, hc.2.2.1⟩
      ⟨hcell.1, hcell.2.1, hcell.2.2.1⟩ himg
  have hτ := (collectValidSymmetries_closed L board σ σ hσ hσ).1
  have hτ1 := ((mem_collectValidSymmetries_iff L board _).mp hτ).1
  refine ⟨SymmetryHelpers.invert σ, hτ, hinv0 h0, ?_, fun hh => hne hh.symm⟩
  rw [getSymLocBoard_eq_symXY L board.toBoardDims c.1 c.2 _ hτ1, hceq, hinv]

/-- Being an image under the collected symmetries is transitive between distinct cells. -/
theorem imageOfCell_trans (L : LocEncoding) (hL : L.Valid) (board : Board)
    (a b c : Int × Int) (ha : SymmetryHelpers.isCell board a)
    (hb : SymmetryHelpers.isCell board b)
    (hab : SymmetryHelpers.imageOfCell L board
      (SymmetryHelpers.collectValidSymmetries L board none) a
      (L.getLoc b.1 b.2 board.x_size))
    (hbc : SymmetryHelpers.imageOfCell L board
      (SymmetryHelpers.collectValidSymmetries L board none) b
      (L.getLoc c.1 c.2 board.x_size))
    (hac : L.getLoc a.1 a.2 board.x_size ≠ L.getLoc c.1 c.2 board.x_size) :
    SymmetryHelpers.imageOfCell L board
      (SymmetryHelpers.collectValidSymmetries L board none) a
      (L.getLoc c.1 c.2 board.x_size) := by
  obtain ⟨σ, hσ, _, h1, _⟩ := hab
  obtain ⟨τ, hτ, _, h2, _⟩ := hbc
  have hσ1 := ((mem_collectValidSymmetries_iff L board σ).mp hσ).1
  have hτ1 := ((mem_collectValidSymmetries_iff L board τ).mp hτ).1
  have hcell := symXY_cell board.x_size board.y_size σ hσ1 a ha
  rw [getSymLocBoard_eq_symXY L board.toBoardDims a.1 a.2 σ hσ1] at h1
  have hbeq : b = SymmetryHelpers.symXY board.x_size board.y_size σ a :=
    getLoc_cell_inj L hL board.x_size b _ ⟨hb.1, hb.2.1, hb.2.2.1⟩
      ⟨hcell.1, hcell.2.1, hcell.2.2.1⟩ h1
  rw [getSymLocBoard_eq_symXY L board.toBoardDims b.1 b.2 τ hτ1, hbeq] at h2
  obtain ⟨hcomp, hlt⟩ := symXY_compose board.x_size board.y_size σ τ hσ1 hτ1 a
  have hρ := (collectValidSymmetries_closed L board σ τ hσ hτ).2
  have himg : L.getLoc c.1 c.2 board.x_size
      = SymmetryHelpers.getSymLocBoard L a.1 a.2 board.toBoardDims
          (SymmetryHelpers.compose σ τ) := by
    rw [getSymLocBoard_eq_symXY L board.toBoardDims a.1 a.2 _ hlt, hcomp]
    exact h2
  refine ⟨SymmetryHelpers.compose σ τ, hρ, ?_, himg, hac⟩
  intro h0
  rw [h0] at himg
  exact hac himg.symm

/-- C13: with no ko, `onlySymmetries` null and an empty restriction list,
`markDuplicateMoveLocs` marks the location of a cell `c` as duplicate exactly when it is the
image, under some non-identity symmetry of the returned `validSymmetries`, of a different
cell `b` that is visited before `c` (Black to move: `x` from high to low, then `y` from low
to high; otherwise `x` from low to high, then `y` from high to low); the loops visit the
cells in that order, and the first visited cell is not marked. -/
theorem markDuplicateMoveLocs_marks_iff (L : LocEncoding) (hL : L.Valid) (board : Board)
    (pla : Player) (hko : board.ko_loc = L.NULL_LOC) :
    (∀ c : Int × Int, SymmetryHelpers.isCell board c →
      ((SymmetryHelpers.markDuplicateMoveLocs L board pla none []).1
          (L.getLoc c.1 c.2 board.x_size) = true
        ↔ ∃ b : Int × Int, SymmetryHelpers.isCell board b
            ∧ SymmetryHelpers.visitedBefore pla b c
            ∧ SymmetryHelpers.imageOfCell L board
                (SymmetryHelpers.markDuplicateMoveLocs L board pla none []).2 b
                (L.getLoc c.1 c.2 board.x_size))) ∧
    (SymmetryHelpers.visitOrder board pla).Pairwise (SymmetryHelpers.visitedBefore pla) ∧
    (∀ c : Int × Int, (SymmetryHelpers.visitOrder board pla).head? = some c →
      (SymmetryHelpers.markDuplicateMoveLocs L board pla none []).1
        (L.getLoc c.1 c.2 board.x_size) = false) := by
  obtain ⟨hfold, hV⟩ := markDuplicateMoveLocs_eq_fold L board pla none [] hko
  have hpw := pairwise_visitOrder board pla
  obtain ⟨hirr, htr⟩ := visitedBefore_order pla
  have hF := foldl_mark_iff (fun c : Int × Int => L.getLoc c.1 c.2 board.x_size)
    (SymmetryHelpers.imageOfCell L board (SymmetryHelpers.collectValidSymmetries L board none))
    (fun dup (c : Int × Int) =>
      SymmetryHelpers.markCell L board []
        (SymmetryHelpers.collectValidSymmetries L board none) dup c.1 c.2)
    (fun dup c l => markCell_iff L board _ dup c.1 c.2 l)
  have hcellmem : ∀ p, p ∈ SymmetryHelpers.visitOrder board pla
      ↔ SymmetryHelpers.isCell board p := fun p => mem_visitOrder board pla p
  have hmain : ∀ c : Int × Int, SymmetryHelpers.isCell board c →
      ((SymmetryHelpers.markDuplicateMoveLocs L board pla none []).1
          (L.getLoc c.1 c.2 board.x_size) = true
        ↔ ∃ b : Int × Int, SymmetryHelpers.isCell board b
            ∧ SymmetryHelpers.visitedBefore pla b c
            ∧ SymmetryHelpers.imageOfCell L board
                (SymmetryHelpers.markDuplicateMoveLocs L board pla none []).2 b
                (L.getLoc c.1 c.2 board.x_size)) := by
    intro c hc
    rw [hfold, hV, hF]
    constructor
    · rintro (h | ⟨pre, b, post, hcs, hun, himg⟩)
      · simp at h
      · have hbmem : b ∈ SymmetryHelpers.visitOrder board pla := by
          rw [hcs]; simp
        have hbcell := (hcellmem b).mp hbmem
        by_cases hbc : SymmetryHelpers.visitedBefore pla b c
        · exact ⟨b, hbcell, hbc, himg⟩
        · have hcmem := (hcellmem c).mpr hc
          rw [hcs] at hcmem
          have hcpre : c ∈ pre := by
            rcases List.mem_append.mp hcmem with h | h
            · exact h
            · exfalso
              rcases List.mem_cons.mp h with h | h
              · obtain ⟨_, _, _, _, hne⟩ := himg
                rw [h] at hne
                exact hne rfl
              · rw [hcs, List.pairwise_append] at hpw
                have := (List.pairwise_cons.mp hpw.2.1).1 c h
                exact hbc this
          obtain ⟨pre1, post1, hpre⟩ := List.append_of_mem hcpre
          cases hdc : (pre1.foldl (fun dup (c : Int × Int) =>
              SymmetryHelpers.markCell L board []
                (SymmetryHelpers.collectValidSymmetries L board none) dup c.1 c.2)
              (fun _ => false)) (L.getLoc c.1 c.2 board.x_size) with
          | false =>
            exfalso
            have hmark := (hF pre (fun _ => false) (L.getLoc b.1 b.2 board.x_size)).mpr
              (Or.inr ⟨pre1, c, post1, hpre, hdc,
                imageOfCell_symm L hL board b c hbcell hc himg⟩)
            simp only at hun
            rw [hmark] at hun
            exact absurd hun (by simp)
          | true =>
            rcases (hF pre1 (fun _ => false) (L.getLoc c.1 c.2 board.x_size)).mp hdc with
              h | ⟨pre2, a, post2, hpre1, _, himga⟩
            · simp at h
            · have hcs2 : SymmetryHelpers.visitOrder board pla
                  = pre1 ++ c :: (post1 ++ b :: post) := by
                rw [hcs, hpre]; simp
              have hamem : a ∈ pre1 := by rw [hpre1]; simp
              obtain ⟨ha1, ha2⟩ := (mem_prefix_iff pla _ pre1 _ c a hpw hcs2).mp hamem
              exact ⟨a, (hcellmem a).mp ha1, ha2, himga⟩
    · rintro ⟨b, hbcell, hbc, himg⟩
      right
      obtain ⟨pre, post, hcs⟩ := List.append_of_mem ((hcellmem b).mpr hbcell)
      cases hdb : (pre.foldl (fun dup (c : Int × Int) =>
          SymmetryHelpers.markCell L board []
            (SymmetryHelpers.collectValidSymmetries L board none) dup c.1 c.2)
          (fun _ => false)) (L.getLoc b.1 b.2 board.x_size) with
      | false => exact ⟨pre, b, post, hcs, hdb, himg⟩
      | true =>
        rcases (hF pre (fun _ => false) (L.getLoc b.1 b.2 board.x_size)).mp hdb with
          h | ⟨pre2, a, post2, hpre, hun, himga⟩
        · simp at h
        · have hamem : a ∈ pre := by rw [hpre]; simp
          obtain ⟨ha1, ha2⟩ := (mem_prefix_iff pla _ pre post b a hpw hcs).mp hamem
          have hacell := (hcellmem a).mp ha1
          have hac : SymmetryHelpers.visitedBefore pla a c := htr a b c ha2 hbc
          have hne : L.getLoc a.1 a.2 board.x_size ≠ L.getLoc c.1 c.2 board.x_size := by
            intro heq
            have := getLoc_cell_inj L hL board.x_size a c
              ⟨hacell.1, hacell.2.1, hacell.2.2.1⟩ ⟨hc.1, hc.2.1, hc.2.2.1⟩ heq
            rw [this] at hac
            exact hirr c hac
          refine ⟨pre2, a, post2 ++ b :: post, ?_, hun, ?_⟩
          · rw [hcs, hpre]; simp
          · exact imageOfCell_trans L hL board a b c hacell hbcell himga himg hne
  refine ⟨hmain, hpw, ?_⟩
  intro c hhead
  have hcs : SymmetryHelpers.visitOrder board pla
      = [] ++ c :: (SymmetryHelpers.visitOrder board pla).tail := by
    cases hl : SymmetryHelpers.visitOrder board pla with
    | nil => rw [hl] at hhead; simp at hhead
    | cons d ds =>
      rw [hl] at hhead
      simp only [List.head?_cons, Option.some.injEq] at hhead
      rw [hhead]
      rfl
  have hcmem : c ∈ SymmetryHelpers.visitOrder board pla := by
    rw [hcs]; simp
  have hc := (hcellmem c).mp hcmem
  cases hd : (SymmetryHelpers.markDuplicateMoveLocs L board pla none []).1
      (L.getLoc c.1 c.2 board.x_size) with
  | false => rfl
  | true =>
    exfalso
    obtain ⟨b, hbcell, hbc, _⟩ := (hmain c hc).mp hd
    have := (mem_prefix_iff pla _ [] _ c b hpw hcs).mpr ⟨(hcellmem b).mpr hbcell, hbc⟩
    simp at this

/-- Witness for C13: on the 2x2 board with one stone at (0,0) (valid symmetries 0 and 4,
the transpose) with Black to move, the cells are visited in the order (1,0), (1,1), (0,0),
(0,1); the cell (0,1) at location 7 is marked, being the transposed image of the earlier
cell (1,0), and the first visited cell (1,0) at location 5 is not marked. -/
theorem markDuplicateMoveLocs_marks_iff_witness :
    SymmetryHelpers.visitOrder Example.cornerBoard Player.P_BLACK
      = [(1, 0), (1, 1), (0, 0), (0, 1)] ∧
    ([4, 5, 7, 8].map
        (SymmetryHelpers.markDuplicateMoveLocs borderedLoc Example.cornerBoard Player.P_BLACK
          none []).1) = [false, false, true, false] ∧
    ((SymmetryHelpers.markDuplicateMoveLocs borderedLoc Example.cornerBoard Player.P_BLACK
          none []).1 (borderedLoc.getLoc 0 1 Example.cornerBoard.x_size) = true
      ↔ ∃ b : Int × Int, SymmetryHelpers.isCell Example.cornerBoard b
          ∧ SymmetryHelpers.visitedBefore Player.P_BLACK b (0, 1)
          ∧ SymmetryHelpers.imageOfCell borderedLoc Example.cornerBoard
              (SymmetryHelpers.markDuplicateMoveLocs borderedLoc Example.cornerBoard
                Player.P_BLACK none []).2 b
              (borderedLoc.getLoc 0 1 Example.cornerBoard.x_size)) :=
  ⟨by decide!, by decide!,
    (markDuplicateMoveLocs_marks_iff borderedLoc borderedLoc_valid Example.cornerBoard
      Player.P_BLACK rfl).1 (0, 1) (by unfold SymmetryHelpers.isCell; decide!)⟩

/-! ### The symmetry group -/

/-- C25: symmetry identifiers are closed under composition and self-inverse: for all `a`,
`b` in `0..7`, `compose a b` is in `0..7` and 0 is a left and right identity; `invert s`
is `s` for every `s` other than 5 and 6, which `invert` maps to each other; and
`invert (invert s) = s` for every `s`. -/
theorem compose_closed_invert_involution :
    (∀ a b : Nat, a < 8 → b < 8 → SymmetryHelpers.compose a b < 8) ∧
    (∀ a : Nat, a < 8 → SymmetryHelpers.compose 0 a = a ∧ SymmetryHelpers.compose a 0 = a) ∧
    (∀ s : Nat, s ≠ 5 → s ≠ 6 → SymmetryHelpers.invert s = s) ∧
    SymmetryHelpers.invert 5 = 6 ∧ SymmetryHelpers.invert 6 = 5 ∧
    (∀ s : Nat, SymmetryHelpers.invert (SymmetryHelpers.invert s) = s) := by
  refine ⟨?_, ?_, ?_, rfl, rfl, ?_⟩
  · intro a b ha hb
    interval_cases a <;> interval_cases b <;> decide
  · intro a ha
    interval_cases a <;> exact ⟨rfl, rfl⟩
  · intro s h5 h6
    unfold SymmetryHelpers.invert
    rw [if_neg h5, if_neg h6]
  · intro s
    unfold SymmetryHelpers.invert
    split_ifs <;> omega

/-- Witness for C25: the transposing symmetries 5 and 6: `compose 5 6 = 0`, 0 is neutral
for 5, 7 is its own inverse. -/
theorem compose_closed_invert_involution_witness :
    SymmetryHelpers.compose 5 6 < 8 ∧
    (SymmetryHelpers.compose 0 5 = 5 ∧ SymmetryHelpers.compose 5 0 = 5) ∧
    SymmetryHelpers.invert 7 = 7 :=
  ⟨compose_closed_invert_involution.1 5 6 (by decide) (by decide),
    compose_closed_invert_involution.2.1 5 (by decide),
    compose_closed_invert_involution.2.2.1 7 (by decide) (by decide)⟩

/-- C27: `getSymLoc` is a homomorphism for `compose` on square boards: for every side `N`,
every cell `(x, y)` and all symmetries `a`, `b` in `0..7`, applying `a` and then `b` gives
the location that `compose a b` gives:
`getSymLoc(getSymLoc(x,y,N,N,a), N, N, b) = getSymLoc(x,y,N,N,compose(a,b))`. -/
theorem getSymLoc_compose (L : LocEncoding) (hL : L.Valid) (N x y : Int) (a b : Nat)
    (hx : 0 ≤ x) (hxN : x < N) (hy : 0 ≤ y) (hyN : y < N) (ha : a < 8) (hb : b < 8) :
    SymmetryHelpers.getSymLocOfLoc L (SymmetryHelpers.getSymLoc L x y N N a) N N b
      = SymmetryHelpers.getSymLoc L x y N N (SymmetryHelpers.compose a b) := by
  have hub : ∀ σ : Nat, σ < 8 → σ < (if (⟨N, N⟩ : BoardDims).x_size
      = (⟨N, N⟩ : BoardDims).y_size then 8 else 4) := by
    intro σ hσ
    simp only [if_true]
    exact hσ
  have hub2 : ∀ σ : Nat, σ < 8 → σ < (if N = N then 8 else 4) := by
    intro σ hσ
    simp only [if_true]
    exact hσ
  obtain ⟨hcomp, hlt⟩ := symXY_compose N N a b (hub2 a ha) (hub2 b hb) (x, y)
  simp only [if_true] at hlt
  have hcell := symXY_cell N N a (hub2 a ha) (x, y) ⟨hx, hxN, hy, hyN⟩
  have e1 := getSymLocBoard_eq_symXY L ⟨N, N⟩ x y a (hub a ha)
  have e2 := getSymLocBoard_eq_symXY L ⟨N, N⟩ x y (SymmetryHelpers.compose a b) (hub _ hlt)
  have e3 := getSymLocBoard_eq_symXY L ⟨N, N⟩ (SymmetryHelpers.symXY N N a (x, y)).1
    (SymmetryHelpers.symXY N N a (x, y)).2 b (hub b hb)
  unfold SymmetryHelpers.getSymLocBoard at e1 e2 e3
  simp only at e1 e2 e3
  rw [e1, e2, getSymLocOfLoc_getLoc L hL _ _ N N b hcell.1 hcell.2.1 hcell.2.2.1, e3, hcomp]

/-- Witness for C27 with the bordered encoding: the cell (3,16) of a 19x19 board under
the symmetry 5 followed by the symmetry 3. -/
theorem getSymLoc_compose_witness :
    SymmetryHelpers.getSymLocOfLoc borderedLoc
        (SymmetryHelpers.getSymLoc borderedLoc 3 16 19 19 5) 19 19 3
      = SymmetryHelpers.getSymLoc borderedLoc 3 16 19 19 (SymmetryHelpers.compose 5 3) :=
  getSymLoc_compose borderedLoc borderedLoc_valid 19 3 16 5 3
    (by decide) (by decide) (by decide) (by decide) (by decide) (by decide)

/-- C29: with no ko and `onlySymmetries` null, the `validSymmetries` returned by
`markDuplicateMoveLocs` is a subgroup of the symmetry group: it contains 0, and for all
`s`, `t` in it, `compose s t` and `invert s` are in it too (for every board, player and
`avoidMoves`). -/
theorem markDuplicateMoveLocs_validSymmetries_subgroup (L : LocEncoding) (board : Board)
    (pla : Player) (avoidMoves : List Int) (hko : board.ko_loc = L.NULL_LOC) :
    0 ∈ (SymmetryHelpers.markDuplicateMoveLocs L board pla none avoidMoves).2 ∧
    ∀ s t : Nat,
      s ∈ (SymmetryHelpers.markDuplicateMoveLocs L board pla none avoidMoves).2 →
      t ∈ (SymmetryHelpers.markDuplicateMoveLocs L board pla none avoidMoves).2 →
      SymmetryHelpers.compose s t
          ∈ (SymmetryHelpers.markDuplicateMoveLocs L board pla none avoidMoves).2 ∧
        SymmetryHelpers.invert s
          ∈ (SymmetryHelpers.markDuplicateMoveLocs L board pla none avoidMoves).2 := by
  rw [(markDuplicateMoveLocs_eq_fold L board pla none avoidMoves hko).2]
  refine ⟨?_, ?_⟩
  · rw [collectValidSymmetries_eq]
    exact List.mem_cons_self _ _
  · intro s t hs ht
    obtain ⟨h1, h2⟩ := collectValidSymmetries_closed L board s t hs ht
    exact ⟨h2, h1⟩

/-- Witness for C29: on the empty 3x2 board all four transpose-free symmetries are valid;
the subgroup contains `compose 1 2 = 3` and `invert 1 = 1`. -/
theorem markDuplicateMoveLocs_validSymmetries_subgroup_witness :
    (SymmetryHelpers.markDuplicateMoveLocs borderedLoc Example.emptyBoard32 Player.P_WHITE
        none []).2 = [0, 1, 2, 3] ∧
    SymmetryHelpers.compose 1 2
        ∈ (SymmetryHelpers.markDuplicateMoveLocs borderedLoc Example.emptyBoard32
            Player.P_WHITE none []).2 ∧
    SymmetryHelpers.invert 1
        ∈ (SymmetryHelpers.markDuplicateMoveLocs borderedLoc Example.emptyBoard32
            Player.P_WHITE none []).2 :=
  ⟨by decide!,
    (markDuplicateMoveLocs_validSymmetries_subgroup borderedLoc Example.emptyBoard32
      Player.P_WHITE [] rfl).2 1 2 (by decide!) (by decide!)⟩


/-! ### Duplicate marks with a restriction list -/

/-- The body of the cell loops for any `avoidMoves`: an excluded cell marks nothing. -/
theorem markCell_avoid_iff (L : LocEncoding) (board : Board) (avoidMoves : List Int)
    (validSymmetries : List Nat) (dup : Int → Bool) (c : Int × Int) (l : Int) :
    SymmetryHelpers.markCell L board avoidMoves validSymmetries dup c.1 c.2 l = true
      ↔ dup l = true ∨ (dup (L.getLoc c.1 c.2 board.x_size) = false ∧
          (¬ SymmetryHelpers.avoidedCell L board avoidMoves c ∧
            SymmetryHelpers.imageOfCell L board validSymmetries c l)) := by
  unfold SymmetryHelpers.markCell SymmetryHelpers.avoidedCell SymmetryHelpers.imageOfCell
  simp only
  by_cases hav : avoidMoves.length > 0
      ∧ avoidMoves.getD (L.getLoc c.1 c.2 board.x_size).toNat 0 > 0
  · rw [if_pos hav]
    constructor
    · intro h
      exact Or.inl h
    · rintro (h | ⟨_, h, _⟩)
      · exact h
      · exact absurd hav h
  · rw [if_neg hav]
    rw [markSymmetries_iff (L.getLoc c.1 c.2 board.x_size)
      (fun σ => SymmetryHelpers.getSymLocBoard L c.1 c.2 board.toBoardDims σ)
      validSymmetries dup l]
    constructor
    · rintro (h | ⟨h1, h2⟩)
      · exact Or.inl h
      · exact Or.inr ⟨h1, hav, h2⟩
    · rintro (h | ⟨h1, _, h2⟩)
      · exact Or.inl h
      · exact Or.inr ⟨h1, h2⟩

/-- In a list ordered by an irreflexive relation an entry has one position: the part in
front of it is determined. -/
theorem append_cons_unique {α : Type} (R : α → α → Prop) (hirr : ∀ a, ¬ R a a) (d : α) :
    ∀ (l a1 b1 a2 b2 : List α), l.Pairwise R → l = a1 ++ d :: b1 → l = a2 ++ d :: b2 →
      a1 = a2 := by
  intro l a1
  induction a1 generalizing l with
  | nil =>
    intro b1 a2 b2 hp h1 h2
    cases a2 with
    | nil => rfl
    | cons x a2 =>
      exfalso
      rw [h1] at h2
      simp only [List.nil_append, List.cons_append, List.cons.injEq] at h2
      obtain ⟨hx, hb⟩ := h2
      rw [h1, List.nil_append, List.pairwise_cons] at hp
      exact hirr d (hp.1 d (by rw [hb]; simp))
  | cons y a1 ih =>
    intro b1 a2 b2 hp h1 h2
    cases a2 with
    | nil =>
      exfalso
      rw [h2] at h1
      simp only [List.nil_append, List.cons_append, List.cons.injEq] at h1
      obtain ⟨hx, hb⟩ := h1
      rw [h2, List.nil_append, List.pairwise_cons] at hp
      exact hirr d (hp.1 d (by rw [hb]; simp))
    | cons x a2 =>
      have h12 := h1.symm.trans h2
      simp only [List.cons_append, List.cons.injEq] at h12
      obtain ⟨hxy, htl⟩ := h12
      rw [hxy]
      congr 1
      rw [h1, List.cons_append, List.pairwise_cons] at hp
      exact ih (a1 ++ d :: b1) b1 a2 b2 hp.2 rfl htl

/-- C28: symmetry pruning never removes a whole equivalence class: with no ko and
`onlySymmetries` null, for every restriction list `avoidMoves`, every location that
`markDuplicateMoveLocs` marks as duplicate (in particular every marked cell) is the image,
under a non-identity symmetry of the returned `validSymmetries`, of a cell that is itself
neither marked duplicate nor excluded by `avoidMoves`. -/
theorem markDuplicateMoveLocs_keeps_representative (L : LocEncoding) (hL : L.Valid)
    (board : Board) (pla : Player) (avoidMoves : List Int)
    (hko : board.ko_loc = L.NULL_LOC) (l : Int)
    (hmark : (SymmetryHelpers.markDuplicateMoveLocs L board pla none avoidMoves).1 l = true) :
    ∃ b : Int × Int, SymmetryHelpers.isCell board b ∧
      SymmetryHelpers.imageOfCell L board
        (SymmetryHelpers.markDuplicateMoveLocs L board pla none avoidMoves).2 b l ∧
      (SymmetryHelpers.markDuplicateMoveLocs L board pla none avoidMoves).1
        (L.getLoc b.1 b.2 board.x_size) = false ∧
      ¬ SymmetryHelpers.avoidedCell L board avoidMoves b := by
  obtain ⟨hfold, hV⟩ := markDuplicateMoveLocs_eq_fold L board pla none avoidMoves hko
  have hpw := pairwise_visitOrder board pla
  obtain ⟨hirr, _⟩ := visitedBefore_order pla
  have hF := foldl_mark_iff (fun c : Int × Int => L.getLoc c.1 c.2 board.x_size)
    (fun c l => ¬ SymmetryHelpers.avoidedCell L board avoidMoves c ∧
      SymmetryHelpers.imageOfCell L board
        (SymmetryHelpers.collectValidSymmetries L board none) c l)
    (fun dup (c : Int × Int) =>
      SymmetryHelpers.markCell L board avoidMoves
        (SymmetryHelpers.collectValidSymmetries L board none) dup c.1 c.2)
    (fun dup c l => markCell_avoid_iff L board avoidMoves _ dup c l)
  rw [hfold] at hmark
  rw [hfold, hV]
  rcases (hF _ (fun _ => false) l).mp hmark with h | ⟨pre, b, post, hcs, hun, hnav, himg⟩
  · simp at h
  · have hbcell : SymmetryHelpers.isCell board b :=
      (mem_visitOrder board pla b).mp (by rw [hcs]; simp)
    refine ⟨b, hbcell, himg, ?_, hnav⟩
    cases hfin : ((SymmetryHelpers.visitOrder board pla).foldl
        (fun dup (c : Int × Int) =>
          SymmetryHelpers.markCell L board avoidMoves
            (SymmetryHelpers.collectValidSymmetries L board none) dup c.1 c.2)
        (fun _ => false)) (L.getLoc b.1 b.2 board.x_size) with
    | false => rfl
    | true =>
      exfalso
      rcases (hF _ (fun _ => false) _).mp hfin with
        h | ⟨pre2, d, post2, hcs2, hun2, hnav2, himg2⟩
      · simp at h
      · have hdmem : d ∈ SymmetryHelpers.visitOrder board pla := by rw [hcs2]; simp
        have hdcell := (mem_visitOrder board pla d).mp hdmem
        have hdb : d ≠ b := by
          intro hdb
          obtain ⟨_, _, _, _, hne⟩ := himg2
          rw [hdb] at hne
          exact hne rfl
        rw [hcs] at hdmem
        rcases List.mem_append.mp hdmem with hin | hin
        · obtain ⟨p1, p2, hp⟩ := List.append_of_mem hin
          have hcs3 : SymmetryHelpers.visitOrder board pla = p1 ++ d :: (p2 ++ b :: post) := by
            rw [hcs, hp]; simp
          have hpe := append_cons_unique _ hirr d _ _ _ _ _ hpw hcs3 hcs2
          rw [← hpe] at hun2
          have := (hF pre (fun _ => false) (L.getLoc b.1 b.2 board.x_size)).mpr
            (Or.inr ⟨p1, d, p2, hp, hun2, hnav2, himg2⟩)
          simp only at hun
          rw [this] at hun
          exact absurd hun (by simp)
        · rcases List.mem_cons.mp hin with hin | hin
          · exact hdb hin
          · obtain ⟨q1, q2, hq⟩ := List.append_of_mem hin
            have hcs3 : SymmetryHelpers.visitOrder board pla
                = (pre ++ b :: q1) ++ d :: q2 := by
              rw [hcs, hq]; simp
            have hpe := append_cons_unique _ hirr d _ _ _ _ _ hpw hcs3 hcs2
            rw [← hpe] at hun2
            have := (hF (pre ++ b :: q1) (fun _ => false)
                (L.getLoc d.1 d.2 board.x_size)).mpr
              (Or.inr ⟨pre, b, q1, rfl, hun, hnav,
                imageOfCell_symm L hL board d b hdcell hbcell himg2⟩)
            simp only at hun2
            rw [this] at hun2
            exact absurd hun2 (by simp)

/-- Witness for C28: on the corner board with Black to move and the cell (1,0) (location
5) excluded, the cell (1,0) at location 5 is marked; it is the image of the cell (0,1),
which is neither marked nor excluded. -/
theorem markDuplicateMoveLocs_keeps_representative_witness :
    ([4, 5, 7, 8].map
        (SymmetryHelpers.markDuplicateMoveLocs borderedLoc Example.cornerBoard Player.P_BLACK
          none [0, 0, 0, 0, 0, 1, 0, 0, 0, 0, 0, 0]).1) = [false, true, false, false] ∧
    ∃ b : Int × Int, SymmetryHelpers.isCell Example.cornerBoard b ∧
      SymmetryHelpers.imageOfCell borderedLoc Example.cornerBoard
        (SymmetryHelpers.markDuplicateMoveLocs borderedLoc Example.cornerBoard Player.P_BLACK
          none [0, 0, 0, 0, 0, 1, 0, 0, 0, 0, 0, 0]).2 b 5 ∧
      (SymmetryHelpers.markDuplicateMoveLocs borderedLoc Example.cornerBoard Player.P_BLACK
          none [0, 0, 0, 0, 0, 1, 0, 0, 0, 0, 0, 0]).1
        (borderedLoc.getLoc b.1 b.2 Example.cornerBoard.x_size) = false ∧
      ¬ SymmetryHelpers.avoidedCell borderedLoc Example.cornerBoard
          [0, 0, 0, 0, 0, 1, 0, 0, 0, 0, 0, 0] b :=
  ⟨by decide!,
    markDuplicateMoveLocs_keeps_representative borderedLoc borderedLoc_valid
      Example.cornerBoard Player.P_BLACK [0, 0, 0, 0, 0, 1, 0, 0, 0, 0, 0, 0] rfl 5
      (by decide!)⟩


/-! ### The score-value table lookup -/

/-- The mean buckets after clamping are inside the table, and they coincide at the
boundary bucket when the rounded scaled mean falls below the first or reaches the last
bucket. -/
theorem meanBuckets_spec (D : SVTableDims) (hR : 0 < D.svTableMeanRadius) (meanScaled : ℚ) :
    (0 ≤ (ScoreValue.meanBuckets D meanScaled).1
      ∧ (ScoreValue.meanBuckets D meanScaled).1 < ScoreValue.svTableMeanLen D
      ∧ 0 ≤ (ScoreValue.meanBuckets D meanScaled).2
      ∧ (ScoreValue.meanBuckets D meanScaled).2 < ScoreValue.svTableMeanLen D) ∧
    (cround meanScaled + D.svTableMeanRadius < 0 →
      ScoreValue.meanBuckets D meanScaled = (0, 0)) ∧
    (cround meanScaled + D.svTableMeanRadius + 1 ≥ ScoreValue.svTableMeanLen D →
      ScoreValue.meanBuckets D meanScaled
        = (ScoreValue.svTableMeanLen D - 1, ScoreValue.svTableMeanLen D - 1)) ∧
    (0 ≤ cround meanScaled + D.svTableMeanRadius →
      cround meanScaled + D.svTableMeanRadius + 1 < ScoreValue.svTableMeanLen D →
      ScoreValue.meanBuckets D meanScaled
        = (cround meanScaled + D.svTableMeanRadius,
            cround meanScaled + D.svTableMeanRadius + 1)) := by
  unfold ScoreValue.meanBuckets ScoreValue.svTableMeanLen
  simp only
  generalize cround meanScaled = k
  refine ⟨?_, ?_, ?_, ?_⟩
  · split_ifs <;> simp only <;> omega
  · intro h
    rw [if_pos h]
    exact if_neg (by simp only; omega)
  · intro h
    have e : (if k + D.svTableMeanRadius < 0 then ((0 : Int), (0 : Int))
        else (k + D.svTableMeanRadius, k + D.svTableMeanRadius + 1))
        = (k + D.svTableMeanRadius, k + D.svTableMeanRadius + 1) := if_neg (by omega)
    rw [e]
    exact if_pos h
  · intro h1 h2
    have e : (if k + D.svTableMeanRadius < 0 then ((0 : Int), (0 : Int))
        else (k + D.svTableMeanRadius, k + D.svTableMeanRadius + 1))
        = (k + D.svTableMeanRadius, k + D.svTableMeanRadius + 1) := if_neg (by omega)
    rw [e]
    exact if_neg (by simp only; omega)

/-- The stdev buckets after clamping are inside the table; the lookup of them fails only
for a negative scaled stdev, and beyond the last bucket both are the last bucket. -/
theorem stdevBuckets_spec (D : SVTableDims) (hL : 0 < D.svTableStdevLen) (stdevScaled : ℚ) :
    (∀ j0 j1, ScoreValue.stdevBuckets D stdevScaled = some (j0, j1) →
      0 ≤ j0 ∧ j0 < D.svTableStdevLen ∧ 0 ≤ j1 ∧ j1 < D.svTableStdevLen) ∧
    (0 ≤ stdevScaled → (ScoreValue.stdevBuckets D stdevScaled).isSome = true) ∧
    (0 ≤ stdevScaled → Int.floor stdevScaled + 1 ≥ D.svTableStdevLen →
      ScoreValue.stdevBuckets D stdevScaled
        = some (D.svTableStdevLen - 1, D.svTableStdevLen - 1)) ∧
    (0 ≤ stdevScaled → Int.floor stdevScaled + 1 < D.svTableStdevLen →
      ScoreValue.stdevBuckets D stdevScaled
        = some (Int.floor stdevScaled, Int.floor stdevScaled + 1)) := by
  unfold ScoreValue.stdevBuckets
  simp only
  have hfl : 0 ≤ stdevScaled → 0 ≤ Int.floor stdevScaled := fun h => Int.floor_nonneg.mpr h
  generalize Int.floor stdevScaled = k at hfl ⊢
  refine ⟨?_, ?_, ?_, ?_⟩
  · intro j0 j1 h
    split_ifs at h with h1 h2
    · simp only [Option.some.injEq, Prod.mk.injEq] at h
      omega
    · simp only [Option.some.injEq, Prod.mk.injEq] at h
      omega
  · intro h
    have := hfl h
    split_ifs
    · omega
    · rfl
    · rfl
  · intro h h2
    have := hfl h
    rw [if_neg (by omega), if_pos h2]
  · intro h h2
    have := hfl h
    rw [if_neg (by omega), if_neg (by omega)]

/-- An index `i * len + j` with `0 <= i < rows` and `0 <= j < len` is inside
`[0, rows * len)`. -/
theorem tableIndex_inside (rows len i j : Int) (hi0 : 0 ≤ i) (hi : i < rows) (hj0 : 0 ≤ j)
    (hj : j < len) : 0 ≤ i * len + j ∧ i * len + j < rows * len := by
  constructor
  · nlinarith
  · nlinarith

/-- The lookup on the queries whose `int` values are in range: for every query that passes
the assertion the four table indices it reads are inside the table, and a query with
`stdev >= 0` (and a positive `scale * sqrtBoardArea`) passes it; when the rounded scaled
mean falls below the first mean bucket, or reaches the last one, the result is the
stdev-interpolated value of that boundary bucket; and when the scaled stdev is at or
beyond the last stdev bucket the result is the mean-interpolated value of the last stdev
bucket. -/
theorem expectedWhiteScoreValue_lookup_clamps (D : SVTableDims) (hR : 0 < D.svTableMeanRadius)
    (hL : 0 < D.svTableStdevLen) (table : Int → ℚ)
    (mean stdev center scale sqrtBoardArea : ℚ) :
    (∀ j0 j1,
      ScoreValue.stdevBuckets D (stdev * ScoreValue.lookupScaleFactor D scale sqrtBoardArea)
        = some (j0, j1) →
      ∀ i ∈ [(ScoreValue.meanBuckets D
                ((mean - center) * ScoreValue.lookupScaleFactor D scale sqrtBoardArea)).1,
              (ScoreValue.meanBuckets D
                ((mean - center) * ScoreValue.lookupScaleFactor D scale sqrtBoardArea)).2],
        ∀ j ∈ [j0, j1],
          0 ≤ i * D.svTableStdevLen + j
            ∧ i * D.svTableStdevLen + j < ScoreValue.svTableMeanLen D * D.svTableStdevLen) ∧
    (0 ≤ stdev → 0 < scale * sqrtBoardArea → 0 ≤ D.svTableAssumedBSize →
      (ScoreValue.expectedWhiteScoreValue D table mean stdev center scale
        sqrtBoardArea).isSome = true) ∧
    (cround ((mean - center) * ScoreValue.lookupScaleFactor D scale sqrtBoardArea)
        + D.svTableMeanRadius < 0 →
      ScoreValue.expectedWhiteScoreValue D table mean stdev center scale sqrtBoardArea
        = (ScoreValue.stdevBuckets D
            (stdev * ScoreValue.lookupScaleFactor D scale sqrtBoardArea)).map
          (fun j =>
            table (0 * D.svTableStdevLen + j.1)
              + (stdev * ScoreValue.lookupScaleFactor D scale sqrtBoardArea
                  - (Int.floor (stdev * ScoreValue.lookupScaleFactor D scale sqrtBoardArea) : ℚ))
                * (table (0 * D.svTableStdevLen + j.2)
                    - table (0 * D.svTableStdevLen + j.1)))) ∧
    (cround ((mean - center) * ScoreValue.lookupScaleFactor D scale sqrtBoardArea)
        + D.svTableMeanRadius + 1 ≥ ScoreValue.svTableMeanLen D →
      ScoreValue.expectedWhiteScoreValue D table mean stdev center scale sqrtBoardArea
        = (ScoreValue.stdevBuckets D
            (stdev * ScoreValue.lookupScaleFactor D scale sqrtBoardArea)).map
          (fun j =>
            table ((ScoreValue.svTableMeanLen D - 1) * D.svTableStdevLen + j.1)
              + (stdev * ScoreValue.lookupScaleFactor D scale sqrtBoardArea
                  - (Int.floor (stdev * ScoreValue.lookupScaleFactor D scale sqrtBoardArea) : ℚ))
                * (table ((ScoreValue.svTableMeanLen D - 1) * D.svTableStdevLen + j.2)
                    - table ((ScoreValue.svTableMeanLen D - 1) * D.svTableStdevLen + j.1)))) ∧
    (0 ≤ stdev * ScoreValue.lookupScaleFactor D scale sqrtBoardArea →
      Int.floor (stdev * ScoreValue.lookupScaleFactor D scale sqrtBoardArea) + 1
        ≥ D.svTableStdevLen →
      ScoreValue.expectedWhiteScoreValue D table mean stdev center scale sqrtBoardArea
        = some
          (table ((ScoreValue.meanBuckets D
                ((mean - center) * ScoreValue.lookupScaleFactor D scale sqrtBoardArea)).1
                * D.svTableStdevLen + (D.svTableStdevLen - 1))
            + ((mean - center) * ScoreValue.lookupScaleFactor D scale sqrtBoardArea
                - (cround ((mean - center)
                    * ScoreValue.lookupScaleFactor D scale sqrtBoardArea) : ℚ) + 1 / 2)
              * (table ((ScoreValue.meanBuckets D
                    ((mean - center) * ScoreValue.lookupScaleFactor D scale sqrtBoardArea)).2
                    * D.svTableStdevLen + (D.svTableStdevLen - 1))
                - table ((ScoreValue.meanBuckets D
                    ((mean - center) * ScoreValue.lookupScaleFactor D scale sqrtBoardArea)).1
                    * D.svTableStdevLen + (D.svTableStdevLen - 1))))) := by
  obtain ⟨hm1, hm2, hm3, _⟩ := meanBuckets_spec D hR
    ((mean - center) * ScoreValue.lookupScaleFactor D scale sqrtBoardArea)
  obtain ⟨hs1, hs2, hs3, _⟩ := stdevBuckets_spec D hL
    (stdev * ScoreValue.lookupScaleFactor D scale sqrtBoardArea)
  have hdef : ScoreValue.expectedWhiteScoreValue D table mean stdev center scale sqrtBoardArea
      = (ScoreValue.stdevBuckets D
          (stdev * ScoreValue.lookupScaleFactor D scale sqrtBoardArea)).map
        (fun j =>
          (table ((ScoreValue.meanBuckets D
              ((mean - center) * ScoreValue.lookupScaleFactor D scale sqrtBoardArea)).1
              * D.svTableStdevLen + j.1)
            + (stdev * ScoreValue.lookupScaleFactor D scale sqrtBoardArea
                - (Int.floor (stdev * ScoreValue.lookupScaleFactor D scale sqrtBoardArea) : ℚ))
              * (table ((ScoreValue.meanBuckets D
                    ((mean - center) * ScoreValue.lookupScaleFactor D scale sqrtBoardArea)).1
                    * D.svTableStdevLen + j.2)
                - table ((ScoreValue.meanBuckets D
                    ((mean - center) * ScoreValue.lookupScaleFactor D scale sqrtBoardArea)).1
                    * D.svTableStdevLen + j.1)))
          + ((mean - center) * ScoreValue.lookupScaleFactor D scale sqrtBoardArea
              - (cround ((mean - center)
                  * ScoreValue.lookupScaleFactor D scale sqrtBoardArea) : ℚ) + 1 / 2)
            * ((table ((ScoreValue.meanBuckets D
                  ((mean - center) * ScoreValue.lookupScaleFactor D scale sqrtBoardArea)).2
                  * D.svTableStdevLen + j.1)
                + (stdev * ScoreValue.lookupScaleFactor D scale sqrtBoardArea
                    - (Int.floor
                        (stdev * ScoreValue.lookupScaleFactor D scale sqrtBoardArea) : ℚ))
                  * (table ((ScoreValue.meanBuckets D
                        ((mean - center)
                          * ScoreValue.lookupScaleFactor D scale sqrtBoardArea)).2
                        * D.svTableStdevLen + j.2)
                    - table ((ScoreValue.meanBuckets D
                        ((mean - center)
                          * ScoreValue.lookupScaleFactor D scale sqrtBoardArea)).2
                        * D.svTableStdevLen + j.1)))
              - (table ((ScoreValue.meanBuckets D
                  ((mean - center) * ScoreValue.lookupScaleFactor D scale sqrtBoardArea)).1
                  * D.svTableStdevLen + j.1)
                + (stdev * ScoreValue.lookupScaleFactor D scale sqrtBoardArea
                    - (Int.floor
                        (stdev * ScoreValue.lookupScaleFactor D scale sqrtBoardArea) : ℚ))
                  * (table ((ScoreValue.meanBuckets D
                        ((mean - center)
                          * ScoreValue.lookupScaleFactor D scale sqrtBoardArea)).1
                        * D.svTableStdevLen + j.2)
                    - table ((ScoreValue.meanBuckets D
                        ((mean - center)
                          * ScoreValue.lookupScaleFactor D scale sqrtBoardArea)).1
                        * D.svTableStdevLen + j.1))))) := by
    unfold ScoreValue.expectedWhiteScoreValue ScoreValue.lookupScaleFactor
    simp only
    cases ScoreValue.stdevBuckets D
        (stdev * ((D.svTableAssumedBSize : ℚ) / (scale * sqrtBoardArea))) with
    | none => rfl
    | some j => rfl
  refine ⟨?_, ?_, ?_, ?_, ?_⟩
  · intro j0 j1 hj i hi j hjm
    obtain ⟨a1, a2, a3, a4⟩ := hs1 j0 j1 hj
    simp only [List.mem_cons, List.mem_singleton, List.not_mem_nil, or_false] at hi hjm
    rcases hi with rfl | rfl <;> rcases hjm with rfl | rfl <;>
      apply tableIndex_inside <;> omega
  · intro h1 h2 h3
    rw [hdef]
    have hsf : 0 ≤ ScoreValue.lookupScaleFactor D scale sqrtBoardArea := by
      unfold ScoreValue.lookupScaleFactor
      exact div_nonneg (by exact_mod_cast h3) (le_of_lt h2)
    have := hs2 (mul_nonneg h1 hsf)
    cases hb : ScoreValue.stdevBuckets D
        (stdev * ScoreValue.lookupScaleFactor D scale sqrtBoardArea) with
    | none => rw [hb] at this; simp at this
    | some j => rfl
  · intro h
    rw [hdef, hm2 h]
    congr 1
    funext j
    ring
  · intro h
    rw [hdef, hm3 h]
    congr 1
    funext j
    ring
  · intro h1 h2
    rw [hdef, hs3 h1 h2]
    simp only [Option.map_some']
    congr 1
    ring

/-- C21, as stated, fails: on the 4 x 2 table of `Example.dims` (scale factor 1), the
query with `stdev = 2^31 >= 0` has `stdevFloored = 2147483648.0`, which is above the
greatest `int`, so `(int)stdevFloored` is undefined (on x86-64 it is the least `int`, and
`assert(stdevIdx0 >= 0)` fails): no last-bucket value is returned. Likewise the query with
`mean = 2^31`, far above the highest mean bucket, converts `meanRounded = 2147483648.0`
to `int` (on x86-64 the least `int`, which the clamp of line 201 sends to the lowest
bucket). -/
theorem expectedWhiteScoreValue_clamps_counterexample :
    (0 : ℚ) ≤ 2 ^ 31 ∧
    ScoreValue.lookupScaleFactor Example.dims 1 1 = 1 ∧
    Int.floor ((2 : ℚ) ^ 31 * ScoreValue.lookupScaleFactor Example.dims 1 1) = 2147483648 ∧
    ScoreValue.inIntRange 2147483648 = false ∧
    ScoreValue.expectedWhiteScoreValueChecked Example.dims Example.indexTable 0 (2 ^ 31) 0 1 1
      = none ∧
    cround ((2 ^ 31 - 0 : ℚ) * ScoreValue.lookupScaleFactor Example.dims 1 1) = 2147483648 ∧
    ScoreValue.expectedWhiteScoreValueChecked Example.dims Example.indexTable (2 ^ 31) 0 0 1 1
      = none := by
  decide!

/-- C21, amended: `ScoreValue::expectedWhiteScoreValue` clamps instead of extrapolating on
the queries whose rounded scaled mean and floored scaled stdev are in the range of `int`
together with the sums of lines 196-199 (and `scale * sqrtBoardArea` is not zero). For
such a query the function is the lookup on unbounded integers; the four table indices it
reads are inside the table; with `stdev >= 0` and a positive `scale * sqrtBoardArea` it
returns; when the rounded scaled mean falls below the first mean bucket, or reaches the
last one, the result is the stdev-interpolated value of that boundary bucket, which does
not depend on the mean; and when the scaled stdev is at or beyond the last stdev bucket
the result is the mean-interpolated value of the last stdev bucket. -/
theorem expectedWhiteScoreValue_clamps (D : SVTableDims) (hR : 0 < D.svTableMeanRadius)
    (hL : 0 < D.svTableStdevLen) (table : Int → ℚ)
    (mean stdev center scale sqrtBoardArea : ℚ)
    (hscale : scale * sqrtBoardArea ≠ 0)
    (hints : ScoreValue.lookupIntsInRange D
      ((mean - center) * ScoreValue.lookupScaleFactor D scale sqrtBoardArea)
      (stdev * ScoreValue.lookupScaleFactor D scale sqrtBoardArea) = true) :
    ScoreValue.expectedWhiteScoreValueChecked D table mean stdev center scale sqrtBoardArea
      = ScoreValue.expectedWhiteScoreValue D table mean stdev center scale sqrtBoardArea ∧
    (∀ j0 j1,
      ScoreValue.stdevBuckets D (stdev * ScoreValue.lookupScaleFactor D scale sqrtBoardArea)
        = some (j0, j1) →
      ∀ i ∈ [(ScoreValue.meanBuckets D
                ((mean - center) * ScoreValue.lookupScaleFactor D scale sqrtBoardArea)).1,
              (ScoreValue.meanBuckets D
                ((mean - center) * ScoreValue.lookupScaleFactor D scale sqrtBoardArea)).2],
        ∀ j ∈ [j0, j1],
          0 ≤ i * D.svTableStdevLen + j
            ∧ i * D.svTableStdevLen + j < ScoreValue.svTableMeanLen D * D.svTableStdevLen) ∧
    (0 ≤ stdev → 0 < scale * sqrtBoardArea → 0 ≤ D.svTableAssumedBSize →
      (ScoreValue.expectedWhiteScoreValueChecked D table mean stdev center scale
        sqrtBoardArea).isSome = true) ∧
    (cround ((mean - center) * ScoreValue.lookupScaleFactor D scale sqrtBoardArea)
        + D.svTableMeanRadius < 0 →
      ScoreValue.expectedWhiteScoreValueChecked D table mean stdev center scale sqrtBoardArea
        = (ScoreValue.stdevBuckets D
            (stdev * ScoreValue.lookupScaleFactor D scale sqrtBoardArea)).map
          (fun j =>
            table (0 * D.svTableStdevLen + j.1)
              + (stdev * ScoreValue.lookupScaleFactor D scale sqrtBoardArea
                  - (Int.floor (stdev * ScoreValue.lookupScaleFactor D scale sqrtBoardArea) : ℚ))
                * (table (0 * D.svTableStdevLen + j.2)
                    - table (0 * D.svTableStdevLen + j.1)))) ∧
    (cround ((mean - center) * ScoreValue.lookupScaleFactor D scale sqrtBoardArea)
        + D.svTableMeanRadius + 1 ≥ ScoreValue.svTableMeanLen D →
      ScoreValue.expectedWhiteScoreValueChecked D table mean stdev center scale sqrtBoardArea
        = (ScoreValue.stdevBuckets D
            (stdev * ScoreValue.lookupScaleFactor D scale sqrtBoardArea)).map
          (fun j =>
            table ((ScoreValue.svTableMeanLen D - 1) * D.svTableStdevLen + j.1)
              + (stdev * ScoreValue.lookupScaleFactor D scale sqrtBoardArea
                  - (Int.floor (stdev * ScoreValue.lookupScaleFactor D scale sqrtBoardArea) : ℚ))
                * (table ((ScoreValue.svTableMeanLen D - 1) * D.svTableStdevLen + j.2)
                    - table ((ScoreValue.svTableMeanLen D - 1) * D.svTableStdevLen + j.1)))) ∧
    (0 ≤ stdev * ScoreValue.lookupScaleFactor D scale sqrtBoardArea →
      Int.floor (stdev * ScoreValue.lookupScaleFactor D scale sqrtBoardArea) + 1
        ≥ D.svTableStdevLen →
      ScoreValue.expectedWhiteScoreValueChecked D table mean stdev center scale sqrtBoardArea
        = some
          (table ((ScoreValue.meanBuckets D
                ((mean - center) * ScoreValue.lookupScaleFactor D scale sqrtBoardArea)).1
                * D.svTableStdevLen + (D.svTableStdevLen - 1))
            + ((mean - center) * ScoreValue.lookupScaleFactor D scale sqrtBoardArea
                - (cround ((mean - center)
                    * ScoreValue.lookupScaleFactor D scale sqrtBoardArea) : ℚ) + 1 / 2)
              * (table ((ScoreValue.meanBuckets D
                    ((mean - center) * ScoreValue.lookupScaleFactor D scale sqrtBoardArea)).2
                    * D.svTableStdevLen + (D.svTableStdevLen - 1))
                - table ((ScoreValue.meanBuckets D
                    ((mean - center) * ScoreValue.lookupScaleFactor D scale sqrtBoardArea)).1
                    * D.svTableStdevLen + (D.svTableStdevLen - 1))))) := by
  have hchk : ScoreValue.expectedWhiteScoreValueChecked D table mean stdev center scale
      sqrtBoardArea
      = ScoreValue.expectedWhiteScoreValue D table mean stdev center scale sqrtBoardArea := by
    unfold ScoreValue.expectedWhiteScoreValueChecked
    rw [if_neg hscale, if_pos hints]
  obtain ⟨h1, h2, h3, h4, h5⟩ := expectedWhiteScoreValue_lookup_clamps D hR hL table mean
    stdev center scale sqrtBoardArea
  rw [hchk]
  exact ⟨rfl, h1, h2, h3, h4, h5⟩

/-- Witness for the amended C21 on the 4 x 2 table whose entry at index `idx` is `idx`: the
query `mean = -5`, `stdev = 1/2` (scale factor 1, rounded scaled mean -5 and floored
scaled stdev 0, in the range of `int`) falls below the first mean bucket and reads the
indices 0 and 1 only, giving `0 + 1/2 * (1 - 0)`. -/
theorem expectedWhiteScoreValue_clamps_witness :
    ScoreValue.expectedWhiteScoreValueChecked Example.dims Example.indexTable (-5) (1 / 2) 0 1
      1 = some (1 / 2) ∧
    ScoreValue.expectedWhiteScoreValueChecked Example.dims Example.indexTable (-5) (1 / 2) 0 1
      1
      = (ScoreValue.stdevBuckets Example.dims
          (1 / 2 * ScoreValue.lookupScaleFactor Example.dims 1 1)).map
        (fun j =>
          Example.indexTable (0 * Example.dims.svTableStdevLen + j.1)
            + (1 / 2 * ScoreValue.lookupScaleFactor Example.dims 1 1
                - (Int.floor (1 / 2 * ScoreValue.lookupScaleFactor Example.dims 1 1) : ℚ))
              * (Example.indexTable (0 * Example.dims.svTableStdevLen + j.2)
                  - Example.indexTable (0 * Example.dims.svTableStdevLen + j.1))) :=
  ⟨by decide!,
    (expectedWhiteScoreValue_clamps Example.dims (by decide) (by decide) Example.indexTable
      (-5) (1 / 2) 0 1 1 (by decide!) (by decide!)).2.2.2.1 (by decide!)⟩


/-! ### The score-value table -/

/-- The loop values `lo..hi`. -/
theorem mem_intRange (lo hi x : Int) : x ∈ ScoreValue.intRange lo hi ↔ lo ≤ x ∧ x ≤ hi := by
  unfold ScoreValue.intRange
  simp only [List.mem_map, List.mem_range]
  constructor
  · rintro ⟨n, hn, rfl⟩
    omega
  · rintro ⟨h1, h2⟩
    exact ⟨(x - lo).toNat, by omega, by omega⟩

/-- The loop values `lo..hi` are increasing. -/
theorem pairwise_intRange (lo hi : Int) :
    (ScoreValue.intRange lo hi).Pairwise (fun a b => a < b) := by
  unfold ScoreValue.intRange
  rw [List.pairwise_map]
  exact (List.pairwise_lt_range _).imp (fun h => by omega)

/-- Once an assertion has failed the integration stays failed. -/
theorem integrate_fold_none (M : Libm) (D : SVTableDims) (meanSteps stdevIdx : Int)
    (is : List Int) :
    is.foldl (ScoreValue.integrateStep M D meanSteps stdevIdx) none = none := by
  induction is with
  | nil => rfl
  | cons i is ih => simpa [ScoreValue.integrateStep] using ih

/-- The numeric integration of one table entry: when every `xSteps` is within the bounds
of `svPrecomp` the loop returns the two sums. -/
theorem integrate_fold (M : Libm) (D : SVTableDims) (meanSteps stdevIdx : Int)
    (is : List Int)
    (hb : ∀ i ∈ is, ScoreValue.minSVSteps D ≤ meanSteps + stdevIdx * i
      ∧ meanSteps + stdevIdx * i ≤ ScoreValue.maxSVSteps D) :
    ∀ wSum wsvSum : ℚ,
      is.foldl (ScoreValue.integrateStep M D meanSteps stdevIdx) (some (wSum, wsvSum))
        = some (wSum + (is.map (ScoreValue.normalPDF M)).sum,
            wsvSum + (is.map (fun i => ScoreValue.normalPDF M i
              * ScoreValue.svPrecomp M D (meanSteps + stdevIdx * i))).sum) := by
  induction is with
  | nil => intro a b; simp
  | cons i is ih =>
    intro a b
    have hi := hb i (List.mem_cons_self _ _)
    simp only [List.foldl_cons, List.map_cons, List.sum_cons]
    have hstep : ScoreValue.integrateStep M D meanSteps stdevIdx (some (a, b)) i
        = some (a + ScoreValue.normalPDF M i,
            b + ScoreValue.normalPDF M i
              * ScoreValue.svPrecomp M D (meanSteps + stdevIdx * i)) := by
      unfold ScoreValue.integrateStep
      simp only
      rw [if_pos ⟨hi.1, hi.2⟩]
    rw [hstep, ih (fun j hj => hb j (List.mem_cons_of_mem _ hj))]
    congr 1
    ext <;> simp only <;> ring

/-- A sum of positive weights over a non-empty list is positive. -/
theorem list_sum_pos (l : List ℚ) (hne : l ≠ []) (h : ∀ x ∈ l, 0 < x) : 0 < l.sum := by
  induction l with
  | nil => exact absurd rfl hne
  | cons a t ih =>
    rw [List.sum_cons]
    have ha := h a (List.mem_cons_self _ _)
    by_cases ht : t = []
    · rw [ht]
      simpa using ha
    · have := ih ht (fun x hx => h x (List.mem_cons_of_mem _ hx))
      linarith

/-- The bounds assertion of the integration holds for every entry of the table. -/
theorem xSteps_in_bounds (D : SVTableDims) (meanIdx stdevIdx i : Int)
    (hm0 : 0 ≤ meanIdx) (hm : meanIdx < ScoreValue.svTableMeanLen D)
    (hs0 : 0 ≤ stdevIdx) (hs : stdevIdx < D.svTableStdevLen)
    (hi : i ∈ ScoreValue.intRange ScoreValue.minStdevSteps ScoreValue.maxStdevSteps) :
    ScoreValue.minSVSteps D
        ≤ (meanIdx - D.svTableMeanRadius) * ScoreValue.stepsPerUnit
            - ScoreValue.stepsPerUnit / 2 + stdevIdx * i
      ∧ (meanIdx - D.svTableMeanRadius) * ScoreValue.stepsPerUnit
            - ScoreValue.stepsPerUnit / 2 + stdevIdx * i ≤ ScoreValue.maxSVSteps D := by
  rw [mem_intRange] at hi
  unfold ScoreValue.maxSVSteps ScoreValue.minSVSteps
  unfold ScoreValue.svTableMeanLen at hm
  have e1 : ScoreValue.stepsPerUnit = 10 := rfl
  have e2 : ScoreValue.boundStdevs = 5 := rfl
  have e3 : ScoreValue.minStdevSteps = -50 := rfl
  have e4 : ScoreValue.maxStdevSteps = 50 := rfl
  rw [e3, e4] at hi
  rw [e1, e2]
  have h1 : stdevIdx * i ≤ stdevIdx * 50 := mul_le_mul_of_nonneg_left hi.2 hs0
  have h2 : stdevIdx * (-50) ≤ stdevIdx * i := mul_le_mul_of_nonneg_left hi.1 hs0
  constructor <;> omega

/-- Every entry of the table is computed without a failed assertion, and the entry at
stdev bucket 0 is the precomputed smooth score value at `meanSteps`, provided `exp` is
positive. -/
theorem tableEntry_spec (M : Libm) (D : SVTableDims) (meanIdx stdevIdx : Int)
    (hm0 : 0 ≤ meanIdx) (hm : meanIdx < ScoreValue.svTableMeanLen D)
    (hs0 : 0 ≤ stdevIdx) (hs : stdevIdx < D.svTableStdevLen) :
    (ScoreValue.tableEntry M D meanIdx stdevIdx).isSome = true ∧
    ((∀ x, 0 < M.exp x) → stdevIdx = 0 →
      ScoreValue.tableEntry M D meanIdx stdevIdx
        = some (ScoreValue.svPrecomp M D
            ((meanIdx - D.svTableMeanRadius) * ScoreValue.stepsPerUnit
              - ScoreValue.stepsPerUnit / 2))) := by
  have hfold := integrate_fold M D
    ((meanIdx - D.svTableMeanRadius) * ScoreValue.stepsPerUnit - ScoreValue.stepsPerUnit / 2)
    stdevIdx (ScoreValue.intRange ScoreValue.minStdevSteps ScoreValue.maxStdevSteps)
    (fun i hi => xSteps_in_bounds D meanIdx stdevIdx i hm0 hm hs0 hs hi) 0 0
  unfold ScoreValue.tableEntry
  simp only
  rw [hfold]
  refine ⟨rfl, ?_⟩
  intro hexp h0
  subst h0
  simp only [Option.map_some', zero_mul, add_zero, zero_add, Option.some.injEq]
  have hW : 0 < ((ScoreValue.intRange ScoreValue.minStdevSteps ScoreValue.maxStdevSteps).map
      (ScoreValue.normalPDF M)).sum := by
    apply list_sum_pos
    · intro h
      have : (0 : Int) ∈ ScoreValue.intRange ScoreValue.minStdevSteps
          ScoreValue.maxStdevSteps := by
        rw [mem_intRange]
        decide
      have h2 := List.mem_map_of_mem (ScoreValue.normalPDF M) this
      rw [h] at h2
      simp at h2
    · intro x hx
      rw [List.mem_map] at hx
      obtain ⟨i, _, rfl⟩ := hx
      exact hexp _
  rw [List.sum_map_mul_right, div_eq_iff (ne_of_gt hW)]
  ring

/-- The loops of `initTables` over a list of `(meanIdx, stdevIdx)` pairs: when every entry
is computed without a failed assertion the loops return a table that is unchanged at the
indices not written and, when the written indices are distinct, holds the entry of each
pair at its index. -/
theorem initTables_fold (M : Libm) (D : SVTableDims) (ks : List (Int × Int)) :
    ∀ init : Int → ℚ,
      (∀ k ∈ ks, (ScoreValue.tableEntry M D k.1 k.2).isSome = true) →
      ∃ t, ks.foldl (fun d (c : Int × Int) => ScoreValue.initTablesStep M D c.1 d c.2)
            (some init) = some t ∧
        (∀ j, (∀ k ∈ ks, k.1 * D.svTableStdevLen + k.2 ≠ j) → t j = init j) ∧
        (ks.Pairwise (fun a b =>
            a.1 * D.svTableStdevLen + a.2 ≠ b.1 * D.svTableStdevLen + b.2) →
          ∀ k ∈ ks, some (t (k.1 * D.svTableStdevLen + k.2))
            = ScoreValue.tableEntry M D k.1 k.2) := by
  induction ks with
  | nil =>
    intro init _
    exact ⟨init, rfl, fun _ _ => rfl, fun _ k hk => absurd hk (List.not_mem_nil k)⟩
  | cons k ks ih =>
    intro init hsome
    have hk := hsome k (List.mem_cons_self _ _)
    cases hv : ScoreValue.tableEntry M D k.1 k.2 with
    | none => rw [hv] at hk; simp at hk
    | some v =>
      have hstep : ScoreValue.initTablesStep M D k.1 (some init) k.2
          = some (fun idx => if idx = k.1 * D.svTableStdevLen + k.2 then v else init idx) := by
        unfold ScoreValue.initTablesStep
        simp only [hv]
      obtain ⟨t, ht, hun, hwr⟩ := ih
        (fun idx => if idx = k.1 * D.svTableStdevLen + k.2 then v else init idx)
        (fun k2 hk2 => hsome k2 (List.mem_cons_of_mem _ hk2))
      refine ⟨t, ?_, ?_, ?_⟩
      · simp only [List.foldl_cons]
        rw [hstep]
        exact ht
      · intro j hj
        rw [hun j (fun k2 hk2 => hj k2 (List.mem_cons_of_mem _ hk2))]
        have := hj k (List.mem_cons_self _ _)
        exact if_neg (fun h => this h.symm)
      · intro hp k2 hk2
        rw [List.pairwise_cons] at hp
        rcases List.mem_cons.mp hk2 with h | h
        · subst h
          rw [hun _ (fun k3 hk3 => (hp.1 k3 hk3).symm)]
          simp only [if_true]
          exact hv.symm
        · exact hwr hp.2 k2 h

/-- `initTables` returns for every positive mean radius and stdev length, and the table it
returns holds at `meanIdx*svTableStdevLen + stdevIdx` the entry computed for that pair. -/
theorem initTables_spec (M : Libm) (D : SVTableDims) :
    ∃ table, ScoreValue.initTables M D = some table ∧
      ∀ meanIdx stdevIdx : Int, 0 ≤ meanIdx → meanIdx < ScoreValue.svTableMeanLen D →
        0 ≤ stdevIdx → stdevIdx < D.svTableStdevLen →
        some (table (meanIdx * D.svTableStdevLen + stdevIdx))
          = ScoreValue.tableEntry M D meanIdx stdevIdx := by
  have hmem : ∀ k : Int × Int,
      k ∈ (ScoreValue.intRange 0 (ScoreValue.svTableMeanLen D - 1)).flatMap
          (fun x => (ScoreValue.intRange 0 (D.svTableStdevLen - 1)).map (fun y => (x, y)))
        ↔ (0 ≤ k.1 ∧ k.1 < ScoreValue.svTableMeanLen D)
          ∧ 0 ≤ k.2 ∧ k.2 < D.svTableStdevLen := by
    intro k
    obtain ⟨m, s⟩ := k
    simp only [List.mem_flatMap, List.mem_map, mem_intRange, Prod.mk.injEq]
    constructor
    · rintro ⟨a, ⟨h1, h2⟩, b, ⟨h3, h4⟩, rfl, rfl⟩
      omega
    · rintro ⟨⟨h1, h2⟩, h3, h4⟩
      exact ⟨m, ⟨h1, by omega⟩, s, ⟨h3, by omega⟩, rfl, rfl⟩
  obtain ⟨t, ht, _, hwr⟩ := initTables_fold M D
    ((ScoreValue.intRange 0 (ScoreValue.svTableMeanLen D - 1)).flatMap
      (fun x => (ScoreValue.intRange 0 (D.svTableStdevLen - 1)).map (fun y => (x, y))))
    (fun _ => 0)
    (fun k hk => by
      obtain ⟨⟨h1, h2⟩, h3, h4⟩ := (hmem k).mp hk
      exact (tableEntry_spec M D k.1 k.2 h1 h2 h3 h4).1)
  refine ⟨t, ?_, ?_⟩
  · unfold ScoreValue.initTables
    rw [foldl_flatMap_pairs
      (fun d x y => ScoreValue.initTablesStep M D x d y)]
    exact ht
  · intro m s hm0 hm hs0 hs
    refine hwr ?_ (m, s) ((hmem (m, s)).mpr ⟨⟨hm0, hm⟩, hs0, hs⟩)
    rw [List.pairwise_flatMap]
    refine ⟨?_, ?_⟩
    · intro x _
      rw [List.pairwise_map]
      exact (pairwise_intRange _ _).imp (fun h => by simp only; omega)
    · refine (List.Pairwise.and_mem.mp (pairwise_intRange _ _)).imp ?_
      rintro a b ⟨_, _, hab⟩ p hp q hq
      simp only [List.mem_map, mem_intRange] at hp hq
      obtain ⟨y1, ⟨h1, h2⟩, rfl⟩ := hp
      obtain ⟨y2, ⟨h3, h4⟩, rfl⟩ := hq
      simp only
      have : (a + 1) * D.svTableStdevLen ≤ b * D.svTableStdevLen := by
        apply mul_le_mul_of_nonneg_right (by omega)
        omega
      intro heq
      nlinarith

/-- `round` moves its argument by at most one half. -/
theorem cround_near (x : ℚ) : (cround x : ℚ) - 1 / 2 ≤ x ∧ x ≤ (cround x : ℚ) + 1 / 2 := by
  unfold cround
  split_ifs with h
  · have h1 := Int.floor_le (x + 1 / 2)
    have h2 := Int.lt_floor_add_one (x + 1 / 2)
    constructor <;> linarith
  · have h1 := Int.le_ceil (x - 1 / 2)
    have h2 := Int.ceil_lt_add_one (x - 1 / 2)
    constructor <;> linarith

/-- The entry of the table at stdev bucket 0 is the smooth utility at the scaled score
`(meanIdx - svTableMeanRadius) - 1/2`. -/
theorem table_stdev_zero (M : Libm) (D : SVTableDims) (hL : 0 < D.svTableStdevLen)
    (hexp : ∀ x, 0 < M.exp x) (table : Int → ℚ)
    (htable : ScoreValue.initTables M D = some table) (meanIdx : Int) (hm0 : 0 ≤ meanIdx)
    (hm : meanIdx < ScoreValue.svTableMeanLen D) :
    table (meanIdx * D.svTableStdevLen + 0)
      = ScoreValue.smoothAtScaled M D (((meanIdx - D.svTableMeanRadius : Int) : ℚ) - 1 / 2) := by
  obtain ⟨t, ht, hentries⟩ := initTables_spec M D
  rw [htable, Option.some.injEq] at ht
  subst ht
  have h1 := hentries meanIdx 0 hm0 hm (le_refl 0) hL
  rw [(tableEntry_spec M D meanIdx 0 hm0 hm (le_refl 0) hL).2 hexp rfl,
    Option.some.injEq] at h1
  rw [h1]
  unfold ScoreValue.svPrecomp ScoreValue.smoothAtScaled
  simp only
  congr 1
  have e1 : ScoreValue.stepsPerUnit = 10 := rfl
  rw [e1]
  have e2 : ((10 : Int) / 2) = 5 := rfl
  rw [e2]
  push_cast
  ring

/-- C22: at `stdev = 0` and for every mean in the table's bucket domain (no clamping of
the mean bucket), `expectedWhiteScoreValue` on the table built by `initTables` returns the
linear interpolation of the smooth utility between the half-integer scaled scores
`k - 1/2` and `k + 1/2` around the scaled mean, `k` its rounding; with `atan`
non-decreasing (and `exp` positive) this value and the closed form
`whiteScoreValueOfScoreSmoothNoDrawAdjust(mean, center, scale, sqrtBoardArea)` both lie
between the two smooth utilities, so they differ by at most the variation of the smooth
utility over one bucket, which is at most `twoOverPi / svTableAssumedBSize` when `atan` is
1-Lipschitz; and for a scaled stdev in `[0, 1)` the result moves linearly in the scaled
stdev away from the value at `stdev = 0`. -/
theorem expectedWhiteScoreValue_stdev_zero (M : Libm) (D : SVTableDims)
    (hB : 0 < D.svTableAssumedBSize) (hL : 0 < D.svTableStdevLen)
    (hexp : ∀ x, 0 < M.exp x) (hmono : ∀ x y, x ≤ y → M.atan x ≤ M.atan y)
    (table : Int → ℚ) (htable : ScoreValue.initTables M D = some table)
    (mean center scale sqrtBoardArea : ℚ) (hscale : 0 < scale * sqrtBoardArea)
    (hlo : 0 ≤ cround (ScoreValue.meanScaledOf D mean center scale sqrtBoardArea)
      + D.svTableMeanRadius)
    (hhi : cround (ScoreValue.meanScaledOf D mean center scale sqrtBoardArea)
      + D.svTableMeanRadius + 1 < ScoreValue.svTableMeanLen D) :
    ∃ v lower upper : ℚ,
      lower = ScoreValue.smoothAtScaled M D
        ((cround (ScoreValue.meanScaledOf D mean center scale sqrtBoardArea) : ℚ) - 1 / 2) ∧
      upper = ScoreValue.smoothAtScaled M D
        ((cround (ScoreValue.meanScaledOf D mean center scale sqrtBoardArea) : ℚ) + 1 / 2) ∧
      ScoreValue.expectedWhiteScoreValue D table mean 0 center scale sqrtBoardArea = some v ∧
      v = lower + (ScoreValue.meanScaledOf D mean center scale sqrtBoardArea
            - (cround (ScoreValue.meanScaledOf D mean center scale sqrtBoardArea) : ℚ) + 1 / 2)
          * (upper - lower) ∧
      lower ≤ v ∧ v ≤ upper ∧
      lower ≤ ScoreValue.whiteScoreValueOfScoreSmoothNoDrawAdjust M mean center scale
        sqrtBoardArea ∧
      ScoreValue.whiteScoreValueOfScoreSmoothNoDrawAdjust M mean center scale sqrtBoardArea
        ≤ upper ∧
      |v - ScoreValue.whiteScoreValueOfScoreSmoothNoDrawAdjust M mean center scale
          sqrtBoardArea| ≤ upper - lower ∧
      ((∀ x y, x ≤ y → M.atan y - M.atan x ≤ y - x) →
        upper - lower ≤ ScoreValue.twoOverPi / (D.svTableAssumedBSize : ℚ)) ∧
      ∃ v1 : ℚ, ∀ stdev : ℚ,
        0 ≤ stdev * ScoreValue.lookupScaleFactor D scale sqrtBoardArea →
        stdev * ScoreValue.lookupScaleFactor D scale sqrtBoardArea < 1 →
        ScoreValue.expectedWhiteScoreValue D table mean stdev center scale sqrtBoardArea
          = some (v + stdev * ScoreValue.lookupScaleFactor D scale sqrtBoardArea * (v1 - v)) := by
  have hR : 0 < D.svTableMeanRadius := by
    unfold ScoreValue.svTableMeanLen at hhi
    omega
  have hBq : (0 : ℚ) < (D.svTableAssumedBSize : ℚ) := by exact_mod_cast hB
  have hpi : (0 : ℚ) < ScoreValue.twoOverPi := by
    unfold ScoreValue.twoOverPi
    norm_num
  have hms : ScoreValue.meanScaledOf D mean center scale sqrtBoardArea
      = (mean - center) * ScoreValue.lookupScaleFactor D scale sqrtBoardArea := rfl
  generalize hk : cround (ScoreValue.meanScaledOf D mean center scale sqrtBoardArea) = k
    at hlo hhi ⊢
  have hnear := cround_near (ScoreValue.meanScaledOf D mean center scale sqrtBoardArea)
  rw [hk] at hnear
  obtain ⟨_, _, _, hmb⟩ := meanBuckets_spec D hR
    ((mean - center) * ScoreValue.lookupScaleFactor D scale sqrtBoardArea)
  rw [← hms, hk] at hmb
  have hmb := hmb hlo hhi
  -- the two table entries at stdev bucket 0
  have ht0 := table_stdev_zero M D hL hexp table htable (k + D.svTableMeanRadius) hlo
    (by omega)
  have ht1 := table_stdev_zero M D hL hexp table htable (k + D.svTableMeanRadius + 1)
    (by omega) hhi
  have ec0 : (((k + D.svTableMeanRadius - D.svTableMeanRadius : Int) : ℚ) - 1 / 2)
      = (k : ℚ) - 1 / 2 := by
    push_cast; ring
  have ec1 : (((k + D.svTableMeanRadius + 1 - D.svTableMeanRadius : Int) : ℚ) - 1 / 2)
      = (k : ℚ) + 1 / 2 := by
    push_cast; ring
  rw [ec0] at ht0
  rw [ec1] at ht1
  simp only [add_zero] at ht0 ht1
  -- the general form of the lookup
  have hdef : ∀ stdev : ℚ,
      ScoreValue.expectedWhiteScoreValue D table mean stdev center scale sqrtBoardArea
      = (ScoreValue.stdevBuckets D
          (stdev * ScoreValue.lookupScaleFactor D scale sqrtBoardArea)).map
        (fun j =>
          (table ((k + D.svTableMeanRadius) * D.svTableStdevLen + j.1)
            + (stdev * ScoreValue.lookupScaleFactor D scale sqrtBoardArea
                - (Int.floor (stdev * ScoreValue.lookupScaleFactor D scale sqrtBoardArea) : ℚ))
              * (table ((k + D.svTableMeanRadius) * D.svTableStdevLen + j.2)
                - table ((k + D.svTableMeanRadius) * D.svTableStdevLen + j.1)))
          + (ScoreValue.meanScaledOf D mean center scale sqrtBoardArea - (k : ℚ) + 1 / 2)
            * ((table ((k + D.svTableMeanRadius + 1) * D.svTableStdevLen + j.1)
                + (stdev * ScoreValue.lookupScaleFactor D scale sqrtBoardArea
                    - (Int.floor
                        (stdev * ScoreValue.lookupScaleFactor D scale sqrtBoardArea) : ℚ))
                  * (table ((k + D.svTableMeanRadius + 1) * D.svTableStdevLen + j.2)
                    - table ((k + D.svTableMeanRadius + 1) * D.svTableStdevLen + j.1)))
              - (table ((k + D.svTableMeanRadius) * D.svTableStdevLen + j.1)
                + (stdev * ScoreValue.lookupScaleFactor D scale sqrtBoardArea
                    - (Int.floor
                        (stdev * ScoreValue.lookupScaleFactor D scale sqrtBoardArea) : ℚ))
                  * (table ((k + D.svTableMeanRadius) * D.svTableStdevLen + j.2)
                    - table ((k + D.svTableMeanRadius) * D.svTableStdevLen + j.1))))) := by
    intro stdev
    have e : ScoreValue.expectedWhiteScoreValue D table mean stdev center scale sqrtBoardArea
        = (ScoreValue.stdevBuckets D
            (stdev * ScoreValue.lookupScaleFactor D scale sqrtBoardArea)).map
          (fun j =>
            (table ((ScoreValue.meanBuckets D
                (ScoreValue.meanScaledOf D mean center scale sqrtBoardArea)).1
                * D.svTableStdevLen + j.1)
              + (stdev * ScoreValue.lookupScaleFactor D scale sqrtBoardArea
                  - (Int.floor
                      (stdev * ScoreValue.lookupScaleFactor D scale sqrtBoardArea) : ℚ))
                * (table ((ScoreValue.meanBuckets D
                      (ScoreValue.meanScaledOf D mean center scale sqrtBoardArea)).1
                      * D.svTableStdevLen + j.2)
                  - table ((ScoreValue.meanBuckets D
                      (ScoreValue.meanScaledOf D mean center scale sqrtBoardArea)).1
                      * D.svTableStdevLen + j.1)))
            + (ScoreValue.meanScaledOf D mean center scale sqrtBoardArea
                - (cround (ScoreValue.meanScaledOf D mean center scale sqrtBoardArea) : ℚ)
                + 1 / 2)
              * ((table ((ScoreValue.meanBuckets D
                    (ScoreValue.meanScaledOf D mean center scale sqrtBoardArea)).2
                    * D.svTableStdevLen + j.1)
                  + (stdev * ScoreValue.lookupScaleFactor D scale sqrtBoardArea
                      - (Int.floor
                          (stdev * ScoreValue.lookupScaleFactor D scale sqrtBoardArea) : ℚ))
                    * (table ((ScoreValue.meanBuckets D
                          (ScoreValue.meanScaledOf D mean center scale sqrtBoardArea)).2
                          * D.svTableStdevLen + j.2)
                      - table ((ScoreValue.meanBuckets D
                          (ScoreValue.meanScaledOf D mean center scale sqrtBoardArea)).2
                          * D.svTableStdevLen + j.1)))
                - (table ((ScoreValue.meanBuckets D
                    (ScoreValue.meanScaledOf D mean center scale sqrtBoardArea)).1
                    * D.svTableStdevLen + j.1)
                  + (stdev * ScoreValue.lookupScaleFactor D scale sqrtBoardArea
                      - (Int.floor
                          (stdev * ScoreValue.lookupScaleFactor D scale sqrtBoardArea) : ℚ))
                    * (table ((ScoreValue.meanBuckets D
                          (ScoreValue.meanScaledOf D mean center scale sqrtBoardArea)).1
                          * D.svTableStdevLen + j.2)
                      - table ((ScoreValue.meanBuckets D
                          (ScoreValue.meanScaledOf D mean center scale sqrtBoardArea)).1
                          * D.svTableStdevLen + j.1))))) := by
      unfold ScoreValue.expectedWhiteScoreValue ScoreValue.meanScaledOf
        ScoreValue.lookupScaleFactor
      simp only
      cases ScoreValue.stdevBuckets D
          (stdev * ((D.svTableAssumedBSize : ℚ) / (scale * sqrtBoardArea))) with
      | none => rfl
      | some j => rfl
    rw [e, hk, hmb]
  -- the stdev buckets for a scaled stdev in [0, 1)
  have hbuckets : ∀ x : ℚ, 0 ≤ x → x < 1 →
      ∃ j1 : Int, ScoreValue.stdevBuckets D x = some (0, j1) ∧ (Int.floor x : ℚ) = 0 := by
    intro x hx0 hx1
    have hfl : Int.floor x = 0 := by
      rw [Int.floor_eq_iff]
      constructor
      · simpa using hx0
      · simpa using hx1
    unfold ScoreValue.stdevBuckets
    simp only [hfl]
    refine ⟨if (0 : Int) + 1 ≥ D.svTableStdevLen then D.svTableStdevLen - 1 else 0 + 1, ?_, by
      simp⟩
    rw [if_neg (by omega)]
    split_ifs with h
    · have : D.svTableStdevLen - 1 = 0 := by omega
      rw [this]
    · rfl
  have hj1 : ∃ j1 : Int, ∀ x : ℚ, 0 ≤ x → x < 1 →
      ScoreValue.stdevBuckets D x = some (0, j1) ∧ (Int.floor x : ℚ) = 0 := by
    obtain ⟨j1, h1, _⟩ := hbuckets 0 (le_refl 0) (by norm_num)
    refine ⟨j1, fun x hx0 hx1 => ?_⟩
    obtain ⟨j2, h2, h3⟩ := hbuckets x hx0 hx1
    refine ⟨?_, h3⟩
    have : ScoreValue.stdevBuckets D x = ScoreValue.stdevBuckets D 0 := by
      unfold ScoreValue.stdevBuckets
      have hfl : Int.floor x = 0 := by exact_mod_cast h3
      simp only [hfl, Int.floor_zero]
    rw [this, h1]
  obtain ⟨j1, hj1⟩ := hj1
  set lower := ScoreValue.smoothAtScaled M D ((k : ℚ) - 1 / 2) with hlower
  set upper := ScoreValue.smoothAtScaled M D ((k : ℚ) + 1 / 2) with hupper
  set lam := ScoreValue.meanScaledOf D mean center scale sqrtBoardArea - (k : ℚ) + 1 / 2
    with hlam
  have hlam0 : 0 ≤ lam := by rw [hlam]; linarith [hnear.1]
  have hlam1 : lam ≤ 1 := by rw [hlam]; linarith [hnear.2]
  have hlu : lower ≤ upper := by
    rw [hlower, hupper]
    unfold ScoreValue.smoothAtScaled ScoreValue.whiteScoreValueOfScoreSmoothNoDrawAdjust
    simp only
    apply mul_le_mul_of_nonneg_right _ (le_of_lt hpi)
    apply hmono
    apply div_le_div_of_nonneg_right _ (by linarith)
    linarith
  have hclosed : ScoreValue.whiteScoreValueOfScoreSmoothNoDrawAdjust M mean center scale
      sqrtBoardArea
      = M.atan (ScoreValue.meanScaledOf D mean center scale sqrtBoardArea
          / (D.svTableAssumedBSize : ℚ)) * ScoreValue.twoOverPi := by
    have hB0 : (D.svTableAssumedBSize : ℚ) ≠ 0 := ne_of_gt hBq
    have hs0 : scale * sqrtBoardArea ≠ 0 := ne_of_gt hscale
    have harg : (mean - center) / (scale * sqrtBoardArea)
        = (mean - center) * ((D.svTableAssumedBSize : ℚ) / (scale * sqrtBoardArea))
            / (D.svTableAssumedBSize : ℚ) := by
      rw [eq_div_iff hB0, mul_div_assoc', div_mul_eq_mul_div]
    show M.atan ((mean - center) / (scale * sqrtBoardArea)) * ScoreValue.twoOverPi
      = M.atan ((mean - center) * ((D.svTableAssumedBSize : ℚ) / (scale * sqrtBoardArea))
          / (D.svTableAssumedBSize : ℚ)) * ScoreValue.twoOverPi
    rw [harg]
  have hcl1 : lower ≤ ScoreValue.whiteScoreValueOfScoreSmoothNoDrawAdjust M mean center
      scale sqrtBoardArea := by
    rw [hclosed, hlower]
    unfold ScoreValue.smoothAtScaled ScoreValue.whiteScoreValueOfScoreSmoothNoDrawAdjust
    simp only
    apply mul_le_mul_of_nonneg_right _ (le_of_lt hpi)
    apply hmono
    rw [sub_zero, one_mul]
    exact div_le_div_of_nonneg_right hnear.1 (le_of_lt hBq)
  have hcl2 : ScoreValue.whiteScoreValueOfScoreSmoothNoDrawAdjust M mean center
      scale sqrtBoardArea ≤ upper := by
    rw [hclosed, hupper]
    unfold ScoreValue.smoothAtScaled ScoreValue.whiteScoreValueOfScoreSmoothNoDrawAdjust
    simp only
    apply mul_le_mul_of_nonneg_right _ (le_of_lt hpi)
    apply hmono
    rw [sub_zero, one_mul]
    exact div_le_div_of_nonneg_right hnear.2 (le_of_lt hBq)
  have hv1 : lower ≤ lower + lam * (upper - lower) := by nlinarith
  have hv2 : lower + lam * (upper - lower) ≤ upper := by nlinarith
  have h00 := hj1 0 (le_refl 0) (by norm_num)
  refine ⟨lower + lam * (upper - lower), lower, upper, rfl, rfl, ?_, rfl, hv1, hv2, hcl1,
    hcl2, ?_, ?_, ?_⟩
  · rw [hdef 0, zero_mul, h00.1]
    simp only [Option.map_some', Int.floor_zero, Int.cast_zero, sub_zero, zero_mul, add_zero,
      Option.some.injEq]
    rw [ht0, ht1]
  · rw [abs_le]
    constructor <;> linarith
  · intro hlip
    rw [hlower, hupper]
    have hB0 : (D.svTableAssumedBSize : ℚ) ≠ 0 := ne_of_gt hBq
    have hl := hlip (((k : ℚ) - 1 / 2) / (D.svTableAssumedBSize : ℚ))
      (((k : ℚ) + 1 / 2) / (D.svTableAssumedBSize : ℚ))
      (div_le_div_of_nonneg_right (by linarith) (le_of_lt hBq))
    have e : ((k : ℚ) + 1 / 2) / (D.svTableAssumedBSize : ℚ)
        - ((k : ℚ) - 1 / 2) / (D.svTableAssumedBSize : ℚ)
        = 1 / (D.svTableAssumedBSize : ℚ) := by
      rw [← sub_div]
      congr 1
      ring
    rw [e] at hl
    have hmul := mul_le_mul_of_nonneg_right hl (le_of_lt hpi)
    show M.atan (((k : ℚ) + 1 / 2 - 0) / (1 * (D.svTableAssumedBSize : ℚ)))
          * ScoreValue.twoOverPi
        - M.atan (((k : ℚ) - 1 / 2 - 0) / (1 * (D.svTableAssumedBSize : ℚ)))
          * ScoreValue.twoOverPi
      ≤ ScoreValue.twoOverPi / (D.svTableAssumedBSize : ℚ)
    rw [sub_zero, sub_zero, one_mul]
    calc M.atan (((k : ℚ) + 1 / 2) / (D.svTableAssumedBSize : ℚ)) * ScoreValue.twoOverPi
          - M.atan (((k : ℚ) - 1 / 2) / (D.svTableAssumedBSize : ℚ)) * ScoreValue.twoOverPi
        = (M.atan (((k : ℚ) + 1 / 2) / (D.svTableAssumedBSize : ℚ))
            - M.atan (((k : ℚ) - 1 / 2) / (D.svTableAssumedBSize : ℚ)))
          * ScoreValue.twoOverPi := by ring
      _ ≤ 1 / (D.svTableAssumedBSize : ℚ) * ScoreValue.twoOverPi := hmul
      _ = ScoreValue.twoOverPi / (D.svTableAssumedBSize : ℚ) := by ring
  · refine ⟨table ((k + D.svTableMeanRadius) * D.svTableStdevLen + j1)
      + lam * (table ((k + D.svTableMeanRadius + 1) * D.svTableStdevLen + j1)
        - table ((k + D.svTableMeanRadius) * D.svTableStdevLen + j1)), ?_⟩
    intro stdev hs0 hs1
    obtain ⟨hb, hfl⟩ := hj1 _ hs0 hs1
    rw [hdef stdev, hb, hfl]
    simp only [Option.map_some', Option.some.injEq, add_zero]
    rw [ht0, ht1]
    ring

/-- The stand-in `atan` of `Example.libm` is non-decreasing. -/
theorem Example.libm_atan_mono (x y : ℚ) (h : x ≤ y) :
    Example.libm.atan x ≤ Example.libm.atan y := by
  show x / (1 + |x|) ≤ y / (1 + |y|)
  have hx : 0 < 1 + |x| := by positivity
  have hy : 0 < 1 + |y| := by positivity
  rw [div_le_div_iff₀ hx hy]
  rcases abs_cases x with ⟨h1, h2⟩ | ⟨h1, h2⟩ <;>
    rcases abs_cases y with ⟨h3, h4⟩ | ⟨h3, h4⟩ <;>
    rw [h1, h3] <;> nlinarith

/-- The stand-in `exp` of `Example.libm` is positive. -/
theorem Example.libm_exp_pos (x : ℚ) : 0 < Example.libm.exp x := by
  show 0 < 1 / (1 + x * x)
  have : 0 ≤ x * x := mul_self_nonneg x
  positivity

/-- Witness for C22 on the 4 x 2 table built from `Example.libm` for board length 1: the
query `mean = 1/4`, `stdev = 0` (scale factor 1, rounded scaled mean 0) returns
`twoOverPi / 6`, the interpolation between the smooth utilities at `-1/2` and `1/2`, within
their difference of the closed form. -/
theorem expectedWhiteScoreValue_stdev_zero_witness :
    ScoreValue.expectedWhiteScoreValue Example.dims Example.svTable (1 / 4) 0 0 1 1
      = some (ScoreValue.twoOverPi / 6) ∧
    ∃ table, ScoreValue.initTables Example.libm Example.dims = some table ∧
      ∃ v lower upper : ℚ,
        lower = ScoreValue.smoothAtScaled Example.libm Example.dims
          ((cround (ScoreValue.meanScaledOf Example.dims (1 / 4) 0 1 1) : ℚ) - 1 / 2) ∧
        upper = ScoreValue.smoothAtScaled Example.libm Example.dims
          ((cround (ScoreValue.meanScaledOf Example.dims (1 / 4) 0 1 1) : ℚ) + 1 / 2) ∧
        ScoreValue.expectedWhiteScoreValue Example.dims table (1 / 4) 0 0 1 1 = some v ∧
        |v - ScoreValue.whiteScoreValueOfScoreSmoothNoDrawAdjust Example.libm (1 / 4) 0 1 1|
          ≤ upper - lower := by
  refine ⟨by decide!, ?_⟩
  obtain ⟨table, htable, _⟩ := initTables_spec Example.libm Example.dims
  obtain ⟨v, lower, upper, h1, h2, h3, _, _, _, _, _, h9, _⟩ :=
    expectedWhiteScoreValue_stdev_zero Example.libm Example.dims (by decide) (by decide)
      Example.libm_exp_pos Example.libm_atan_mono table htable (1 / 4) 0 1 1 (by norm_num)
      (by decide!) (by decide!)
  exact ⟨table, htable, v, lower, upper, h1, h2, h3, h9⟩


/-! ### Copying with a symmetry -/

/-- Two nested loops are one loop over the product of their ranges. -/
theorem foldl_product {α β γ : Type} (g : γ → α → β → γ) (ys : List β) (xs : List α) :
    ∀ init : γ,
      xs.foldl (fun d x => ys.foldl (fun d y => g d x y) d) init
        = (List.product xs ys).foldl (fun d (p : α × β) => g d p.1 p.2) init := by
  induction xs with
  | nil => intro init; rfl
  | cons x xs ih =>
    intro init
    have e : List.product (x :: xs) ys = ys.map (Prod.mk x) ++ List.product xs ys := rfl
    rw [e, List.foldl_append, List.foldl_map, List.foldl_cons]
    exact ih _

/-- A loop of array writes `dst[new k] = src[old k]`: an index that no step writes keeps
its value, and when the written indices are distinct each one holds the value written to
it. -/
theorem foldl_write {κ : Type} (new old : κ → Int) (src : Int → ℚ) (ks : List κ) :
    ∀ dst : Int → ℚ,
      (∀ j, (∀ k ∈ ks, new k ≠ j) →
        (ks.foldl (fun d k => fun i => if i = new k then src (old k) else d i) dst) j = dst j) ∧
      (ks.Pairwise (fun a b => new a ≠ new b) → ∀ k ∈ ks,
        (ks.foldl (fun d k => fun i => if i = new k then src (old k) else d i) dst) (new k)
          = src (old k)) := by
  induction ks with
  | nil =>
    intro dst
    exact ⟨fun _ _ => rfl, fun _ k hk => absurd hk (List.not_mem_nil k)⟩
  | cons k ks ih =>
    intro dst
    obtain ⟨hun, hwr⟩ := ih (fun i => if i = new k then src (old k) else dst i)
    simp only [List.foldl_cons]
    refine ⟨?_, ?_⟩
    · intro j hj
      rw [hun j (fun k2 hk2 => hj k2 (List.mem_cons_of_mem _ hk2))]
      exact if_neg (fun h => hj k (List.mem_cons_self _ _) h.symm)
    · intro hp k2 hk2
      rw [List.pairwise_cons] at hp
      rcases List.mem_cons.mp hk2 with h | h
      · subst h
        rw [hun _ (fun k3 hk3 => (hp.1 k3 hk3).symm)]
        exact if_pos rfl
      · exact hwr hp.2 k2 h

/-- Digits in a mixed radix: `a * B + q` with `0 <= q < B` determines `a` and `q`. -/
theorem radix_inj (B a a2 q q2 : Int) (hq0 : 0 ≤ q) (hq : q < B) (hq20 : 0 ≤ q2)
    (hq2 : q2 < B) (h : a * B + q = a2 * B + q2) : a = a2 ∧ q = q2 := by
  have ha : a = a2 := by
    rcases lt_trichotomy a a2 with hlt | heq | hgt
    · exfalso
      have : (a + 1) * B ≤ a2 * B := mul_le_mul_of_nonneg_right (by omega) (by omega)
      nlinarith
    · exact heq
    · exfalso
      have : (a2 + 1) * B ≤ a * B := mul_le_mul_of_nonneg_right (by omega) (by omega)
      nlinarith
  subst ha
  exact ⟨rfl, by omega⟩

/-- The loop values `lo..hi` have no repetition. -/
theorem nodup_intRange (lo hi : Int) : (ScoreValue.intRange lo hi).Nodup :=
  (pairwise_intRange lo hi).imp (fun h => ne_of_lt h)

/-- The elements of `copyKeys` are the triples within the sizes, each once. -/
theorem copyKeys_spec (nSize hSize wSize : Int) :
    (SymmetryHelpers.copyKeys nSize hSize wSize).Nodup ∧
    ∀ k : Int × Int × Int, k ∈ SymmetryHelpers.copyKeys nSize hSize wSize
      ↔ (0 ≤ k.1 ∧ k.1 < nSize) ∧ (0 ≤ k.2.1 ∧ k.2.1 < hSize) ∧ 0 ≤ k.2.2 ∧ k.2.2 < wSize := by
  unfold SymmetryHelpers.copyKeys
  refine ⟨List.Nodup.product (nodup_intRange _ _)
    (List.Nodup.product (nodup_intRange _ _) (nodup_intRange _ _)), ?_⟩
  rintro ⟨n, h, w⟩
  simp only [List.pair_mem_product, mem_intRange]
  omega
/-- Three nested loops of writes are one loop over `copyKeys`. -/
theorem copy_loops_eq (src : Int → ℚ) (nSize hSize wSize : Int) (new old : Int → Int → Int → Int)
    (dst : Int → ℚ) :
    (ScoreValue.intRange 0 (nSize - 1)).foldl
      (fun dst n =>
        (ScoreValue.intRange 0 (hSize - 1)).foldl
          (fun dst h =>
            (ScoreValue.intRange 0 (wSize - 1)).foldl
              (fun dst w => fun i => if i = new n h w then src (old n h w) else dst i)
              dst)
          dst)
      dst
    = (SymmetryHelpers.copyKeys nSize hSize wSize).foldl
        (fun d k => fun i => if i = new k.1 k.2.1 k.2.2 then src (old k.1 k.2.1 k.2.2) else d i)
        dst := by
  unfold SymmetryHelpers.copyKeys
  rw [← foldl_product (fun d n (p : Int × Int) =>
    fun i => if i = new n p.1 p.2 then src (old n p.1 p.2) else d i)]
  refine List.foldl_ext _ _ _ (fun d n _ => ?_)
  rw [← foldl_product (fun d h w => fun i => if i = new n h w then src (old n h w) else d i)]

/-- The loop of the last axis when there is one channel. -/
theorem intRange_zero_zero : ScoreValue.intRange 0 (1 - 1) = [0] := by decide

/-- For a single channel, `copyWithSymmetry` is one loop of writes over `copyKeys`: the
element `(n, h, w)` is written to `copyDestIndex`. -/
theorem copyWithSymmetry_eq_fold (src dst : Int → ℚ) (nSize hSize wSize : Int)
    (useNHWC : Bool) (symmetry : Nat) (reverse : Bool) :
    SymmetryHelpers.copyWithSymmetry src dst nSize hSize wSize 1 useNHWC symmetry reverse
      = (SymmetryHelpers.copyKeys nSize hSize wSize).foldl
          (fun d k => fun i =>
            if i = SymmetryHelpers.copyDestIndex hSize wSize
                (SymmetryHelpers.copyFlags symmetry hSize wSize reverse) k
            then src (SymmetryHelpers.planeIndex hSize wSize k) else d i) dst := by
  have ht : (((symmetry &&& 0x4) != 0) && decide (hSize = wSize)) = true → hSize = wSize := by
    intro h
    rw [Bool.and_eq_true] at h
    exact of_decide_eq_true h.2
  unfold SymmetryHelpers.copyWithSymmetry SymmetryHelpers.copyFlags
    SymmetryHelpers.copyDestIndex SymmetryHelpers.planeIndex SymmetryHelpers.copyCoord
  generalize (((symmetry &&& 0x4) != 0) && decide (hSize = wSize)) = t at ht ⊢
  generalize ((symmetry &&& 0x2) != 0) = fx
  generalize ((symmetry &&& 0x1) != 0) = fy
  have key : ∀ (d : Int → ℚ) (k : Int × Int × Int) (i A B P Q : Int), A = B → P = Q →
      (if i = A then src P else d i) = (if i = B then src Q else d i) := by
    intro d k i A B P Q hA hP
    rw [hA, hP]
  cases useNHWC
  · simp only [Bool.false_eq_true, if_false, mul_one]
    rw [copy_loops_eq]
    refine List.foldl_ext _ _ _ (fun d k _ => ?_)
    funext i
    refine key d k i _ _ _ _ ?_ (by ring)
    cases t
    · cases reverse <;> cases fx <;> cases fy <;>
        simp only [Bool.false_eq_true, if_false, if_true, Bool.false_and, Bool.true_and,
          Bool.not_false, Bool.not_true] <;> ring
    · have hw := ht rfl
      subst hw
      cases reverse <;> cases fx <;> cases fy <;>
        simp only [Bool.false_eq_true, if_false, if_true, Bool.false_and, Bool.true_and,
          Bool.not_false, Bool.not_true] <;> ring
  · simp only [if_true, mul_one, intRange_zero_zero, List.foldl_cons, List.foldl_nil, add_zero]
    rw [copy_loops_eq]
    refine List.foldl_ext _ _ _ (fun d k _ => ?_)
    funext i
    refine key d k i _ _ _ _ ?_ (by ring)
    cases t
    · cases reverse <;> cases fx <;> cases fy <;>
        simp only [Bool.false_eq_true, if_false, if_true, Bool.false_and, Bool.true_and,
          Bool.not_false, Bool.not_true] <;> ring
    · have hw := ht rfl
      subst hw
      cases reverse <;> cases fx <;> cases fy <;>
        simp only [Bool.false_eq_true, if_false, if_true, Bool.false_and, Bool.true_and,
          Bool.not_false, Bool.not_true] <;> ring

/-- The transpose flag is only set on a square plane. -/
theorem copyFlags_transpose (symmetry : Nat) (hSize wSize : Int) (reverse : Bool)
    (h : (SymmetryHelpers.copyFlags symmetry hSize wSize reverse).1 = true) : hSize = wSize := by
  unfold SymmetryHelpers.copyFlags at h
  simp only [Bool.and_eq_true] at h
  exact of_decide_eq_true h.2

/-- The destination coordinates stay inside the plane. -/
theorem copyCoord_range (hSize wSize : Int) (flags : Bool × Bool × Bool)
    (ht : flags.1 = true → hSize = wSize) (hw : Int × Int)
    (h0 : 0 ≤ hw.1) (h1 : hw.1 < hSize) (w0 : 0 ≤ hw.2) (w1 : hw.2 < wSize) :
    (0 ≤ (SymmetryHelpers.copyCoord hSize wSize flags hw).1 ∧
      (SymmetryHelpers.copyCoord hSize wSize flags hw).1 < hSize) ∧
    0 ≤ (SymmetryHelpers.copyCoord hSize wSize flags hw).2 ∧
      (SymmetryHelpers.copyCoord hSize wSize flags hw).2 < wSize := by
  obtain ⟨t, a, b⟩ := flags
  obtain ⟨h, w⟩ := hw
  unfold SymmetryHelpers.copyCoord
  cases t
  · cases a <;> cases b <;> simp only [Bool.false_eq_true, if_false, if_true] at * <;> omega
  · have e : hSize = wSize := ht rfl
    subst e
    cases a <;> cases b <;> simp only [Bool.false_eq_true, if_false, if_true] at * <;> omega

/-- Distinct elements of a plane have distinct destination coordinates. -/
theorem copyCoord_inj (hSize wSize : Int) (flags : Bool × Bool × Bool) (p q : Int × Int)
    (h : SymmetryHelpers.copyCoord hSize wSize flags p
      = SymmetryHelpers.copyCoord hSize wSize flags q) : p = q := by
  obtain ⟨t, a, b⟩ := flags
  obtain ⟨h1, w1⟩ := p
  obtain ⟨h2, w2⟩ := q
  unfold SymmetryHelpers.copyCoord at h
  cases t <;> cases a <;> cases b <;>
    simp only [Bool.false_eq_true, if_false, if_true, Prod.mk.injEq] at h ⊢ <;> omega

/-- The coordinate map of the outputs (reverse) undoes the coordinate map of the inputs. -/
theorem copyCoord_roundtrip (symmetry : Nat) (hSize wSize : Int) (p : Int × Int) :
    SymmetryHelpers.copyCoord hSize wSize (SymmetryHelpers.copyFlags symmetry hSize wSize true)
      (SymmetryHelpers.copyCoord hSize wSize
        (SymmetryHelpers.copyFlags symmetry hSize wSize false) p) = p := by
  have ht : (((symmetry &&& 0x4) != 0) && decide (hSize = wSize)) = true → hSize = wSize := by
    intro h
    rw [Bool.and_eq_true] at h
    exact of_decide_eq_true h.2
  obtain ⟨h, w⟩ := p
  unfold SymmetryHelpers.copyFlags SymmetryHelpers.copyCoord
  generalize (((symmetry &&& 0x4) != 0) && decide (hSize = wSize)) = t at ht ⊢
  generalize ((symmetry &&& 0x2) != 0) = fx
  generalize ((symmetry &&& 0x1) != 0) = fy
  cases t
  · cases fx <;> cases fy <;>
      simp only [Bool.false_eq_true, if_false, if_true, Bool.false_and, Bool.true_and,
        Bool.not_false, Bool.not_true, Prod.mk.injEq] <;> constructor <;>
      first | trivial | omega
  · have e : hSize = wSize := ht rfl
    subst e
    cases fx <;> cases fy <;>
      simp only [Bool.false_eq_true, if_false, if_true, Bool.false_and, Bool.true_and,
        Bool.not_false, Bool.not_true, Prod.mk.injEq] <;> constructor <;>
      first | trivial | omega

/-- The index of an element of a plane of the array lies inside the array. -/
theorem planeIndex_range (nSize hSize wSize : Int) (k : Int × Int × Int)
    (hn : 0 ≤ k.1 ∧ k.1 < nSize) (hh : 0 ≤ k.2.1 ∧ k.2.1 < hSize)
    (hw : 0 ≤ k.2.2 ∧ k.2.2 < wSize) :
    0 ≤ SymmetryHelpers.planeIndex hSize wSize k ∧
      SymmetryHelpers.planeIndex hSize wSize k < nSize * hSize * wSize := by
  unfold SymmetryHelpers.planeIndex
  have h1 := tableIndex_inside hSize wSize k.2.1 k.2.2 hh.1 hh.2 hw.1 hw.2
  have h2 := tableIndex_inside nSize (hSize * wSize) k.1 (k.2.1 * wSize + k.2.2) hn.1 hn.2
    h1.1 h1.2
  rw [mul_assoc]
  exact h2

/-- Distinct elements have distinct indices. -/
theorem planeIndex_inj (hSize wSize : Int) (k k2 : Int × Int × Int)
    (hh : 0 ≤ k.2.1 ∧ k.2.1 < hSize) (hw : 0 ≤ k.2.2 ∧ k.2.2 < wSize)
    (hh2 : 0 ≤ k2.2.1 ∧ k2.2.1 < hSize) (hw2 : 0 ≤ k2.2.2 ∧ k2.2.2 < wSize)
    (h : SymmetryHelpers.planeIndex hSize wSize k = SymmetryHelpers.planeIndex hSize wSize k2) :
    k = k2 := by
  unfold SymmetryHelpers.planeIndex at h
  have h1 := tableIndex_inside hSize wSize k.2.1 k.2.2 hh.1 hh.2 hw.1 hw.2
  have h2 := tableIndex_inside hSize wSize k2.2.1 k2.2.2 hh2.1 hh2.2 hw2.1 hw2.2
  obtain ⟨e1, e2⟩ := radix_inj (hSize * wSize) k.1 k2.1 _ _ h1.1 h1.2 h2.1 h2.2 h
  obtain ⟨e3, e4⟩ := radix_inj wSize k.2.1 k2.2.1 _ _ hw.1 hw.2 hw2.1 hw2.2 e2
  exact Prod.ext e1 (Prod.ext e3 e4)

/-- Every index of the array is the index of one element of `copyKeys`. -/
theorem planeIndex_surj (nSize hSize wSize : Int) (hH : 0 ≤ hSize) (hW : 0 ≤ wSize) (i : Int)
    (hi0 : 0 ≤ i) (hi : i < nSize * hSize * wSize) :
    ∃ k ∈ SymmetryHelpers.copyKeys nSize hSize wSize,
      SymmetryHelpers.planeIndex hSize wSize k = i := by
  have hW0 : 0 < wSize := by
    rcases eq_or_lt_of_le hW with h | h
    · rw [← h, mul_zero] at hi; omega
    · exact h
  have hH0 : 0 < hSize := by
    rcases eq_or_lt_of_le hH with h | h
    · rw [← h, mul_zero, zero_mul] at hi; omega
    · exact h
  have hHW : 0 < hSize * wSize := mul_pos hH0 hW0
  have d1 := Int.emod_add_ediv i (hSize * wSize)
  have r0 := Int.emod_nonneg i (ne_of_gt hHW)
  have r1 := Int.emod_lt_of_pos i hHW
  have d2 := Int.emod_add_ediv (i % (hSize * wSize)) wSize
  have c0 := Int.emod_nonneg (i % (hSize * wSize)) (ne_of_gt hW0)
  have c1 := Int.emod_lt_of_pos (i % (hSize * wSize)) hW0
  have q0 : 0 ≤ i / (hSize * wSize) := Int.ediv_nonneg hi0 (le_of_lt hHW)
  have q1 : i / (hSize * wSize) < nSize := by
    rw [Int.ediv_lt_iff_lt_mul hHW, ← mul_assoc]
    exact hi
  have s0 : 0 ≤ i % (hSize * wSize) / wSize := Int.ediv_nonneg r0 hW
  have s1 : i % (hSize * wSize) / wSize < hSize := by
    rw [Int.ediv_lt_iff_lt_mul hW0]
    exact r1
  refine ⟨(i / (hSize * wSize), i % (hSize * wSize) / wSize, i % (hSize * wSize) % wSize),
    ((copyKeys_spec nSize hSize wSize).2 _).mpr ⟨⟨q0, q1⟩, ⟨s0, s1⟩, c0, c1⟩, ?_⟩
  unfold SymmetryHelpers.planeIndex
  show i / (hSize * wSize) * (hSize * wSize)
    + (i % (hSize * wSize) / wSize * wSize + i % (hSize * wSize) % wSize) = i
  linarith [mul_comm (i / (hSize * wSize)) (hSize * wSize),
    mul_comm (i % (hSize * wSize) / wSize) wSize]

/-- The destination indices of `copyWithSymmetry` for one channel: each lies inside the
array and no two elements share one. -/
theorem copyDestIndex_spec (nSize hSize wSize : Int) (flags : Bool × Bool × Bool)
    (ht : flags.1 = true → hSize = wSize) :
    (∀ k ∈ SymmetryHelpers.copyKeys nSize hSize wSize,
      0 ≤ SymmetryHelpers.copyDestIndex hSize wSize flags k ∧
      SymmetryHelpers.copyDestIndex hSize wSize flags k < nSize * hSize * wSize) ∧
    (SymmetryHelpers.copyKeys nSize hSize wSize).Pairwise
      (fun a b => SymmetryHelpers.copyDestIndex hSize wSize flags a
        ≠ SymmetryHelpers.copyDestIndex hSize wSize flags b) := by
  have hmem := (copyKeys_spec nSize hSize wSize).2
  have hrange : ∀ k ∈ SymmetryHelpers.copyKeys nSize hSize wSize,
      (0 ≤ (SymmetryHelpers.copyCoord hSize wSize flags k.2).1 ∧
        (SymmetryHelpers.copyCoord hSize wSize flags k.2).1 < hSize) ∧
      0 ≤ (SymmetryHelpers.copyCoord hSize wSize flags k.2).2 ∧
        (SymmetryHelpers.copyCoord hSize wSize flags k.2).2 < wSize := by
    intro k hk
    obtain ⟨_, hh, hw⟩ := (hmem k).mp hk
    exact copyCoord_range hSize wSize flags ht k.2 hh.1 hh.2 hw.1 hw.2
  refine ⟨?_, ?_⟩
  · intro k hk
    obtain ⟨hn, _, _⟩ := (hmem k).mp hk
    exact planeIndex_range nSize hSize wSize (k.1, SymmetryHelpers.copyCoord hSize wSize flags k.2)
      hn (hrange k hk).1 (hrange k hk).2
  · refine (copyKeys_spec nSize hSize wSize).1.imp_of_mem ?_
    intro a b ha hb hab heq
    have e := planeIndex_inj hSize wSize
      (a.1, SymmetryHelpers.copyCoord hSize wSize flags a.2)
      (b.1, SymmetryHelpers.copyCoord hSize wSize flags b.2)
      (hrange a ha).1 (hrange a ha).2 (hrange b hb).1 (hrange b hb).2 heq
    have e1 : a.1 = b.1 := (Prod.ext_iff.mp e).1
    have e2 : a.2 = b.2 := copyCoord_inj hSize wSize flags a.2 b.2 (Prod.ext_iff.mp e).2
    exact hab (Prod.ext e1 e2)

/-- C30: output un-rotation undoes input rotation. For every symmetry, every batch size
and every non-negative height and width (square or not), `copyOutputsWithSymmetry` applied
to the result of the single-channel `copyInputsWithSymmetry` (either layout) with the same
symmetry holds the original array on `[0, n*h*w)`; neither copy touches an index outside
that range; and each copy is one loop over the elements `(n, h, w)` in which every
destination index lies in `[0, n*h*w)` and no two elements are written to the same index. -/
theorem copyOutputsWithSymmetry_undoes_copyInputsWithSymmetry (src dst0 dst1 : Int → ℚ)
    (nSize hSize wSize : Int) (useNHWC : Bool) (symmetry : Nat)
    (hH : 0 ≤ hSize) (hW : 0 ≤ wSize) :
    (∀ i : Int, 0 ≤ i → i < nSize * hSize * wSize →
      SymmetryHelpers.copyOutputsWithSymmetry
        (SymmetryHelpers.copyInputsWithSymmetry src dst0 nSize hSize wSize 1 useNHWC symmetry)
        dst1 nSize hSize wSize symmetry i = src i) ∧
    (∀ i : Int, ¬ (0 ≤ i ∧ i < nSize * hSize * wSize) →
      SymmetryHelpers.copyInputsWithSymmetry src dst0 nSize hSize wSize 1 useNHWC symmetry i
        = dst0 i ∧
      SymmetryHelpers.copyOutputsWithSymmetry
        (SymmetryHelpers.copyInputsWithSymmetry src dst0 nSize hSize wSize 1 useNHWC symmetry)
        dst1 nSize hSize wSize symmetry i = dst1 i) ∧
    (∀ (reverse : Bool) (arr out : Int → ℚ),
      SymmetryHelpers.copyWithSymmetry arr out nSize hSize wSize 1 useNHWC symmetry reverse
        = (SymmetryHelpers.copyKeys nSize hSize wSize).foldl
            (fun d k => fun i =>
              if i = SymmetryHelpers.copyDestIndex hSize wSize
                  (SymmetryHelpers.copyFlags symmetry hSize wSize reverse) k
              then arr (SymmetryHelpers.planeIndex hSize wSize k) else d i) out) ∧
    (∀ reverse : Bool,
      (∀ k ∈ SymmetryHelpers.copyKeys nSize hSize wSize,
        0 ≤ SymmetryHelpers.copyDestIndex hSize wSize
          (SymmetryHelpers.copyFlags symmetry hSize wSize reverse) k ∧
        SymmetryHelpers.copyDestIndex hSize wSize
          (SymmetryHelpers.copyFlags symmetry hSize wSize reverse) k
            < nSize * hSize * wSize) ∧
      (SymmetryHelpers.copyKeys nSize hSize wSize).Pairwise
        (fun a b => SymmetryHelpers.copyDestIndex hSize wSize
            (SymmetryHelpers.copyFlags symmetry hSize wSize reverse) a
          ≠ SymmetryHelpers.copyDestIndex hSize wSize
            (SymmetryHelpers.copyFlags symmetry hSize wSize reverse) b)) := by
  have hspec : ∀ reverse : Bool, _ := fun reverse =>
    copyDestIndex_spec nSize hSize wSize (SymmetryHelpers.copyFlags symmetry hSize wSize reverse)
      (copyFlags_transpose symmetry hSize wSize reverse)
  have hmid : ∀ dst, SymmetryHelpers.copyInputsWithSymmetry src dst nSize hSize wSize 1 useNHWC
      symmetry = _ :=
    fun dst => copyWithSymmetry_eq_fold src dst nSize hSize wSize useNHWC symmetry false
  have hout : ∀ mid dst, SymmetryHelpers.copyOutputsWithSymmetry mid dst nSize hSize wSize
      symmetry = _ :=
    fun mid dst => copyWithSymmetry_eq_fold mid dst nSize hSize wSize false symmetry true
  have hmem := (copyKeys_spec nSize hSize wSize).2
  refine ⟨?_, ?_, ?_, hspec⟩
  · intro i hi0 hi
    obtain ⟨k0, hk0, rfl⟩ := planeIndex_surj nSize hSize wSize hH hW i hi0 hi
    obtain ⟨hn, hh, hw⟩ := (hmem k0).mp hk0
    have hc := copyCoord_range hSize wSize (SymmetryHelpers.copyFlags symmetry hSize wSize false)
      (copyFlags_transpose symmetry hSize wSize false) k0.2 hh.1 hh.2 hw.1 hw.2
    have hk : (k0.1, SymmetryHelpers.copyCoord hSize wSize
        (SymmetryHelpers.copyFlags symmetry hSize wSize false) k0.2)
        ∈ SymmetryHelpers.copyKeys nSize hSize wSize :=
      (hmem _).mpr ⟨hn, hc.1, hc.2⟩
    have hdest : SymmetryHelpers.copyDestIndex hSize wSize
        (SymmetryHelpers.copyFlags symmetry hSize wSize true)
        (k0.1, SymmetryHelpers.copyCoord hSize wSize
          (SymmetryHelpers.copyFlags symmetry hSize wSize false) k0.2)
        = SymmetryHelpers.planeIndex hSize wSize k0 := by
      unfold SymmetryHelpers.copyDestIndex
      rw [copyCoord_roundtrip]
    have w1 := (foldl_write
      (SymmetryHelpers.copyDestIndex hSize wSize
        (SymmetryHelpers.copyFlags symmetry hSize wSize true))
      (SymmetryHelpers.planeIndex hSize wSize)
      (SymmetryHelpers.copyInputsWithSymmetry src dst0 nSize hSize wSize 1 useNHWC symmetry)
      (SymmetryHelpers.copyKeys nSize hSize wSize) dst1).2 (hspec true).2 _ hk
    have w2 := (foldl_write
      (SymmetryHelpers.copyDestIndex hSize wSize
        (SymmetryHelpers.copyFlags symmetry hSize wSize false))
      (SymmetryHelpers.planeIndex hSize wSize) src
      (SymmetryHelpers.copyKeys nSize hSize wSize) dst0).2 (hspec false).2 k0 hk0
    rw [hdest] at w1
    rw [hout, w1, hmid]
    exact w2
  · intro i hi
    have hne : ∀ reverse : Bool, ∀ k ∈ SymmetryHelpers.copyKeys nSize hSize wSize,
        SymmetryHelpers.copyDestIndex hSize wSize
          (SymmetryHelpers.copyFlags symmetry hSize wSize reverse) k ≠ i := by
      intro reverse k hk heq
      exact hi (heq ▸ (hspec reverse).1 k hk)
    refine ⟨?_, ?_⟩
    · rw [hmid]
      exact (foldl_write _ _ src _ dst0).1 i (hne false)
    · rw [hout]
      exact (foldl_write _ _ _ _ dst1).1 i (hne true)
  · intro reverse arr out
    exact copyWithSymmetry_eq_fold arr out nSize hSize wSize useNHWC symmetry reverse

/-- The round trip of C30 on a 3x3 plane with the symmetry 5 (transpose and flip): the
input copy moves the value 3 to the index 1, and the output copy brings back the value 1. -/
theorem copyOutputsWithSymmetry_undoes_copyInputsWithSymmetry_witness :
    (0 : Int) ≤ 3 ∧
    SymmetryHelpers.copyInputsWithSymmetry Example.ramp Example.zeros 1 3 3 1 true 5 1 = 3 ∧
    SymmetryHelpers.copyOutputsWithSymmetry
      (SymmetryHelpers.copyInputsWithSymmetry Example.ramp Example.zeros 1 3 3 1 true 5)
      Example.zeros 1 3 3 5 1 = Example.ramp 1 :=
  ⟨by decide, by decide!,
    (copyOutputsWithSymmetry_undoes_copyInputsWithSymmetry Example.ramp Example.zeros
      Example.zeros 1 3 3 true 5 (by decide) (by decide)).1 1 (by decide) (by decide)⟩


/-! ### Principal variations -/

/-- The normalization keeps the number of values. -/
theorem normalizeValues_length (cs cp scale : ℚ) (values r : List ℚ) (b : Bool)
    (h : Search.normalizeValues cs cp scale values = some (b, r)) :
    r.length = values.length := by
  unfold Search.normalizeValues at h
  simp only at h
  split_ifs at h <;> simp only [Option.some.injEq, Prod.mk.injEq] at h <;> rw [← h.2] <;>
    simp only [List.length_map]

/-- The normalization on the state keeps the number of values. -/
theorem normalizeStage_length (s : Search) (scale : ℚ) (st out : Search.PSVState) (b : Bool)
    (h : Search.normalizeStage s scale st = some (b, out)) :
    out.playSelectionValues.length = st.playSelectionValues.length := by
  unfold Search.normalizeStage at h
  split_ifs at h with h0
  · simp only [Option.some.injEq, Prod.mk.injEq] at h
    rw [← h.2]
  · split at h
    · simp at h
    · rename_i ok values heq
      simp only [Option.some.injEq, Prod.mk.injEq] at h
      rw [← h.2]
      exact normalizeValues_length _ _ _ _ _ _ heq

/-- Before the fallback and the normalization the locations are the moves of the children,
in order, and there is one value per child. -/
theorem selectionStateBeforeFallback_shape (E : Externs) (L : LocEncoding) (s : Search)
    (node : SearchNode) (isRootNode always never : Bool) (st2 : Search.PSVState)
    (h : Search.selectionStateBeforeFallback E L s node isRootNode always never = some st2) :
    st2.locs = node.getChildren.map (fun c => c.prevMoveLoc) ∧
      st2.playSelectionValues.length = node.getChildren.length := by
  unfold Search.selectionStateBeforeFallback at h
  simp only [storeWeights_fold, List.nil_append] at h
  split at h
  · simp at h
  · rename_i st1 hst1
    have h1 : st1.locs = node.getChildren.map (fun c => c.prevMoveLoc) ∧
        st1.playSelectionValues.length = node.getChildren.length := by
      split_ifs at hst1 with hc
      · rw [Option.map_eq_some'] at hst1
        obtain ⟨values, hv, rfl⟩ := hst1
        obtain ⟨reduced, rfl⟩ := reduceWeightsAtRoot_some _ _ _ _ _ _ _ _ _ _ hv
        refine ⟨rfl, ?_⟩
        simp [Search.reduceWeights]
      · simp only [Option.some.injEq] at hst1
        rw [← hst1]
        exact ⟨rfl, by simp⟩
    split_ifs at h with hl
    · obtain ⟨e1, e2, e3⟩ := lcbStage_spec _ _ _ _ _ _ h
      refine ⟨e1.trans h1.1, ?_⟩
      rcases e3 with ⟨e, _⟩ | ⟨b, c, w, a, _, _, _, _, _, _, _, e, _⟩
      · rw [e]; exact h1.2
      · rw [e, List.length_set]; exact h1.2
    · simp only [Option.some.injEq] at h
      rw [← h]
      exact h1

/-- Without direct policy moves, the locations returned by play selection are the moves of
the children, in order, and there is one value per child. -/
theorem getPlaySelectionValuesOfNode_shape (E : Externs) (L : LocEncoding) (s : Search)
    (node : SearchNode) (isRootNode : Bool) (scale : ℚ) (b : Bool) (st : Search.PSVState)
    (h : Search.getPlaySelectionValuesOfNode E L s node isRootNode scale false = some (b, st)) :
    st.locs = node.getChildren.map (fun c => c.prevMoveLoc) ∧
      st.playSelectionValues.length = node.getChildren.length := by
  unfold Search.getPlaySelectionValuesOfNode at h
  rw [getPlaySelectionValues_eq_stages] at h
  split at h
  · simp at h
  · rename_i st2 hst2
    have h2 := selectionStateBeforeFallback_shape _ _ _ _ _ _ _ _ hst2
    by_cases h0 : node.getChildren.length = 0
    · rw [if_pos h0] at h
      split at h
      · simp only [Option.some.injEq, Prod.mk.injEq] at h
        rw [← h.2]; exact h2
      · rw [if_pos (Or.inr rfl)] at h
        simp only [Option.some.injEq, Prod.mk.injEq] at h
        rw [← h.2]; exact h2
    · rw [if_neg h0] at h
      exact ⟨(normalizeStage_locs _ _ _ _ _ h).trans h2.1,
        (normalizeStage_length _ _ _ _ _ h).trans h2.2⟩

/-- The scan for the best child returns when its reads are in range. -/
theorem scanBestChild_total (depth move : Int) (locs : List Int) (values : List ℚ) :
    ∀ (is : List Nat) (acc : ℚ × Int × Int),
      (∀ i ∈ is, i < locs.length ∧ i < values.length) →
      ∃ res, Search.scanBestChild depth move locs values is acc = some res := by
  intro is
  induction is with
  | nil => intro acc _; exact ⟨acc, rfl⟩
  | cons i rest ih =>
    intro acc hin
    obtain ⟨h1, h2⟩ := hin i (List.mem_cons_self _ _)
    have hrest : ∀ j ∈ rest, j < locs.length ∧ j < values.length :=
      fun j hj => hin j (List.mem_cons_of_mem _ hj)
    have e1 : locs.get? i = some locs[i] := by
      rw [List.get?_eq_getElem?]; exact List.getElem?_eq_getElem h1
    have e2 : values.get? i = some values[i] := by
      rw [List.get?_eq_getElem?]; exact List.getElem?_eq_getElem h2
    rw [Search.scanBestChild, e1, e2]
    simp only
    by_cases hb : depth = 0 ∧ locs[i] = move
    · rw [if_pos hb]; exact ⟨_, rfl⟩
    · rw [if_neg hb]
      by_cases hg : values[i] > acc.1
      · rw [if_pos hg]; exact ih _ hrest
      · rw [if_neg hg]; exact ih _ hrest

/-- The scan for the best child: a best index that is not negative is the index of the
best location; and at depth 0, when `move` is among the scanned locations, the best
location is `move`. -/
theorem scanBestChild_spec (depth move : Int) (locs : List Int) (values : List ℚ) :
    ∀ (is : List Nat) (acc res : ℚ × Int × Int),
      Search.scanBestChild depth move locs values is acc = some res →
      ((0 ≤ acc.2.1 → locs[acc.2.1.toNat]? = some acc.2.2) →
        (0 ≤ res.2.1 → locs[res.2.1.toNat]? = some res.2.2)) ∧
      (depth = 0 → (∃ i ∈ is, locs[i]? = some move) → res.2.2 = move ∧ 0 ≤ res.2.1) := by
  intro is
  induction is with
  | nil =>
    intro acc res h
    simp only [Search.scanBestChild, Option.some.injEq] at h
    subst h
    refine ⟨fun hacc => hacc, ?_⟩
    rintro _ ⟨i, hi, _⟩
    exact absurd hi (List.not_mem_nil i)
  | cons i rest ih =>
    intro acc res h
    rw [Search.scanBestChild] at h
    split at h
    · rename_i moveLoc selectionValue e1 e2
      rw [List.get?_eq_getElem?] at e1
      by_cases hb : depth = 0 ∧ moveLoc = move
      · rw [if_pos hb] at h
        simp only [Option.some.injEq] at h
        subst h
        refine ⟨fun _ _ => ?_, fun _ _ => ⟨hb.2, Int.natCast_nonneg i⟩⟩
        simpa using e1
      · rw [if_neg hb] at h
        have hrest : depth = 0 → (∃ j ∈ i :: rest, locs[j]? = some move) →
            ∃ j ∈ rest, locs[j]? = some move := by
          rintro hd ⟨j, hj, hjm⟩
          rcases List.mem_cons.mp hj with rfl | hj
          · rw [e1] at hjm
            exact absurd ⟨hd, Option.some.inj hjm⟩ hb
          · exact ⟨j, hj, hjm⟩
        by_cases hg : selectionValue > acc.1
        · rw [if_pos hg] at h
          obtain ⟨k1, k2⟩ := ih _ _ h
          refine ⟨fun _ => k1 (fun _ => ?_), fun hd hm => k2 hd (hrest hd hm)⟩
          simpa using e1
        · rw [if_neg hg] at h
          obtain ⟨k1, k2⟩ := ih _ _ h
          exact ⟨k1, fun hd hm => k2 hd (hrest hd hm)⟩
    · simp at h

/-- The end of a descent that starts with the child `c` is the end of the rest of the
descent from `c`. -/
theorem descentEnd_cons (node : SearchNode) (isRootNode : Bool) (c : SearchNode)
    (cs : List SearchNode) :
    Search.descentEnd node isRootNode (c :: cs) = Search.descentEnd c false cs := by
  unfold Search.descentEnd
  cases cs with
  | nil => rfl
  | cons d ds =>
    rw [List.getLast?_cons_cons, List.getLast?_cons]

/-- The loop of `appendPVForMove`: it appends the moves and the visits of a descent of at
most `remaining` nodes, unless an assertion of play selection fails at the end of the
descent; at depth 0 with a non-null `move`, the first node of the descent was reached by
`move`, and the descent is not empty when play selection succeeds on `node` and a child
was reached by `move`. -/
theorem appendPVFrom_spec (E : Externs) (L : LocEncoding) (s : Search) (P : ℚ) (move : Int) :
    ∀ (remaining : Nat) (depth : Int) (node : SearchNode) (isRootNode : Bool)
      (bufs : List Int × List Int),
      ∃ chain : List SearchNode,
        Search.isDescent E L s node isRootNode chain ∧ chain.length ≤ remaining ∧
        (Search.appendPVFrom E L s P move remaining depth node isRootNode bufs
            = some (bufs.1 ++ chain.map (fun c => c.prevMoveLoc),
                bufs.2 ++ chain.map (fun c => c.stats.visits)) ∨
          (Search.appendPVFrom E L s P move remaining depth node isRootNode bufs = none ∧
            Search.getPlaySelectionValuesOfNode E L s
              (Search.descentEnd node isRootNode chain).1
              (Search.descentEnd node isRootNode chain).2 1 false = none)) ∧
        (depth = 0 → move ≠ L.NULL_LOC →
          (∀ c, chain.head? = some c → c.prevMoveLoc = move) ∧
          (0 < remaining →
            (∃ st, Search.getPlaySelectionValuesOfNode E L s node isRootNode 1 false
              = some (true, st)) →
            (∃ c ∈ node.getChildren, c.prevMoveLoc = move) → chain ≠ [])) := by
  intro remaining
  induction remaining with
  | zero =>
    intro depth node isRootNode bufs
    refine ⟨[], trivial, le_refl _, Or.inl ?_, fun _ _ => ⟨fun c hc => ?_, fun h => ?_⟩⟩
    · simp [Search.appendPVFrom]
    · simp at hc
    · exact absurd h (lt_irrefl 0)
  | succ remaining ih =>
    intro depth node isRootNode bufs
    rw [Search.appendPVFrom]
    cases hg : Search.getPlaySelectionValuesOfNode E L s node isRootNode 1 false with
    | none =>
      refine ⟨[], trivial, Nat.zero_le _, Or.inr ⟨rfl, hg⟩, fun _ _ => ⟨fun c hc => ?_, ?_⟩⟩
      · simp at hc
      · rintro _ ⟨st, hst⟩ _
        simp at hst
    | some r =>
      obtain ⟨success, st⟩ := r
      cases success with
      | false =>
        refine ⟨[], trivial, Nat.zero_le _, Or.inl ?_, fun _ _ => ⟨fun c hc => ?_, ?_⟩⟩
        · simp
        · simp at hc
        · rintro _ ⟨st2, hst2⟩ _
          simp at hst2
      | true =>
        obtain ⟨hlocs, hlen⟩ := getPlaySelectionValuesOfNode_shape E L s node isRootNode 1 true st hg
        have hlocslen : st.locs.length = node.getChildren.length := by
          rw [hlocs, List.length_map]
        obtain ⟨res, hres⟩ := scanBestChild_total depth move st.locs st.playSelectionValues
          (List.range st.playSelectionValues.length) (P, -1, L.NULL_LOC)
          (fun i hi => by
            rw [List.mem_range] at hi
            exact ⟨by omega, hi⟩)
        obtain ⟨hidx, hmatch⟩ := scanBestChild_spec depth move st.locs st.playSelectionValues
          _ _ _ hres
        have hidx := hidx (fun h => absurd (show (0 : Int) ≤ -1 from h) (by decide))
        obtain ⟨v, idx, loc⟩ := res
        simp only at hidx hmatch
        have hfound : depth = 0 → (∃ c ∈ node.getChildren, c.prevMoveLoc = move) →
            loc = move ∧ 0 ≤ idx := by
          rintro hd ⟨c, hc, hcm⟩
          obtain ⟨i, hi, hci⟩ := List.getElem_of_mem hc
          refine hmatch hd ⟨i, List.mem_range.mpr (by omega), ?_⟩
          rw [hlocs, List.getElem?_map, List.getElem?_eq_getElem hi, hci]
          simp [hcm]
        simp only [Bool.true_eq_false, if_false, hres]
        by_cases c1 : idx < 0 ∨ loc = L.NULL_LOC
        · rw [if_pos c1]
          refine ⟨[], trivial, Nat.zero_le _, Or.inl ?_, fun hd hm => ⟨fun c hc => ?_, ?_⟩⟩
          · simp
          · simp at hc
          · rintro _ _ hex
            obtain ⟨e1, e2⟩ := hfound hd hex
            rcases c1 with c1 | c1
            · omega
            · exact absurd (e1 ▸ c1) hm
        · rw [if_neg c1]
          by_cases c2 : depth = 0 ∧ move ≠ L.NULL_LOC ∧ loc ≠ move
          · rw [if_pos c2]
            refine ⟨[], trivial, Nat.zero_le _, Or.inl ?_, fun hd hm => ⟨fun c hc => ?_, ?_⟩⟩
            · simp
            · simp at hc
            · rintro _ _ hex
              exact absurd (hfound hd hex).1 c2.2.2
          · rw [if_neg c2]
            have hidx0 : 0 ≤ idx := by
              by_contra hneg
              exact c1 (Or.inl (by omega))
            have hloc := hidx hidx0
            have hlt : idx.toNat < node.getChildren.length := by
              rw [← hlocslen]
              by_contra hnot
              rw [List.getElem?_eq_none (by omega)] at hloc
              simp at hloc
            have hchild : node.getChildren.get? idx.toNat
                = some (node.getChildren[idx.toNat]) := by
              rw [List.get?_eq_getElem?]; exact List.getElem?_eq_getElem hlt
            have hmove : (node.getChildren[idx.toNat]).prevMoveLoc = loc := by
              rw [hlocs, List.getElem?_map, List.getElem?_eq_getElem hlt] at hloc
              simpa using hloc
            have ha1 : idx ≤ (node.getChildren.length : Int) := by omega
            have ha2 : (st.playSelectionValues.length : Int) ≤ (node.getChildren.length : Int) := by
              omega
            simp only [ha1, ha2, not_true, if_false, hchild]
            obtain ⟨chain, hd1, hd2, hd3, _⟩ := ih (depth + 1) (node.getChildren[idx.toNat]) false
              (bufs.1 ++ [loc], bufs.2 ++ [(node.getChildren[idx.toNat]).stats.visits])
            refine ⟨node.getChildren[idx.toNat] :: chain,
              ⟨⟨st, hg⟩, List.getElem_mem _, hd1⟩, Nat.succ_le_succ hd2, ?_,
              fun hd hm => ⟨fun c hc => ?_, fun _ _ _ => List.cons_ne_nil _ _⟩⟩
            · rcases hd3 with hd3 | hd3
              · left
                rw [hd3]
                simp only [List.map_cons, List.append_assoc, List.singleton_append, hmove]
              · right
                rw [descentEnd_cons]
                exact hd3
            · simp only [List.head?_cons, Option.some.injEq] at hc
              subst hc
              rw [hmove]
              by_contra hne
              exact c2 ⟨hd, hm, hne⟩

/-- C24: `Search::appendPVForMove` appends the moves (and the visits) of a descent from
`node`: each appended location is the move of a child of the previously reached node, play
selection succeeded on every node that was left (so the descent stops at the first node on
which it fails), and at most `maxDepth` locations are appended. The call returns with this
result unless an assertion inside play selection fails at the end of the descent; its
own assertions never fail. With a non-null `move`: nothing is appended when no child of
`node` was reached by `move`; the first appended location, if any, is `move`; and one is
appended when `maxDepth` is positive, play selection succeeds on `node` and some child
was reached by `move`. For a null `node` nothing is appended. -/
theorem appendPVForMove_descent (E : Externs) (L : LocEncoding) (s : Search)
    (POLICY_ILLEGAL_SELECTION_VALUE : ℚ) (buf visitsBuf : List Int) (node : SearchNode)
    (isRootNode : Bool) (move maxDepth : Int) :
    (∃ chain : List SearchNode,
      Search.isDescent E L s node isRootNode chain ∧ chain.length ≤ maxDepth.toNat ∧
      (Search.appendPVForMove E L s POLICY_ILLEGAL_SELECTION_VALUE buf visitsBuf (some node)
          isRootNode move maxDepth
          = some (buf ++ chain.map (fun c => c.prevMoveLoc),
              visitsBuf ++ chain.map (fun c => c.stats.visits)) ∨
        (Search.appendPVForMove E L s POLICY_ILLEGAL_SELECTION_VALUE buf visitsBuf (some node)
            isRootNode move maxDepth = none ∧
          Search.getPlaySelectionValuesOfNode E L s
            (Search.descentEnd node isRootNode chain).1
            (Search.descentEnd node isRootNode chain).2 1 false = none)) ∧
      (move ≠ L.NULL_LOC →
        ((∀ c ∈ node.getChildren, c.prevMoveLoc ≠ move) → chain = []) ∧
        (∀ c, chain.head? = some c → c.prevMoveLoc = move) ∧
        (0 < maxDepth →
          (∃ st, Search.getPlaySelectionValuesOfNode E L s node isRootNode 1 false
            = some (true, st)) →
          (∃ c ∈ node.getChildren, c.prevMoveLoc = move) → chain ≠ []))) ∧
    Search.appendPVForMove E L s POLICY_ILLEGAL_SELECTION_VALUE buf visitsBuf none
      isRootNode move maxDepth = some (buf, visitsBuf) := by
  refine ⟨?_, rfl⟩
  obtain ⟨chain, h1, h2, h3, h4⟩ := appendPVFrom_spec E L s POLICY_ILLEGAL_SELECTION_VALUE move
    maxDepth.toNat 0 node isRootNode (buf, visitsBuf)
  refine ⟨chain, h1, h2, h3, fun hm => ?_⟩
  obtain ⟨k1, k2⟩ := h4 rfl hm
  refine ⟨fun hno => ?_, k1, fun hpos => k2 (by omega)⟩
  cases chain with
  | nil => rfl
  | cons c cs => exact absurd (k1 c rfl) (hno c h1.2.1)

/-- The principal variation of `Example.pvRoot` constrained to start with the move 4: the
child reached by 4, then its most visited child (move 5). -/
theorem appendPVForMove_descent_witness :
    Search.appendPVForMove Example.externs borderedLoc (Example.search Example.pvRoot true)
        (-(10 : ℚ) ^ 50) [] [] (some Example.pvRoot) true 4 3 = some ([4, 5], [100, 60]) ∧
    ∃ chain : List SearchNode,
      Search.isDescent Example.externs borderedLoc (Example.search Example.pvRoot true)
        Example.pvRoot true chain ∧
      chain.length ≤ (3 : Int).toNat ∧
      ((4 : Int) ≠ borderedLoc.NULL_LOC → ∀ c, chain.head? = some c → c.prevMoveLoc = 4) :=
  ⟨by decide!,
    (appendPVForMove_descent Example.externs borderedLoc (Example.search Example.pvRoot true)
      (-(10 : ℚ) ^ 50) [] [] Example.pvRoot true 4 3).1.imp
      (fun _ h => ⟨h.1, h.2.1, fun hm => (h.2.2.2 hm).2.1⟩)⟩


/-! ### Symmetry expansion of the analysis records -/

/-- Once a read of `avoidMoveUntilByLoc` has been out of range the expansion stays failed. -/
theorem expand_fold_none (L : LocEncoding) (s : Search) (ps : List (AnalysisData × Nat)) :
    ps.foldl (fun acc p => Search.expandSymmetryStep L s p.1 acc p.2) none = none := by
  induction ps with
  | nil => rfl
  | cons p ps ih => simpa [Search.expandSymmetryStep] using ih

/-- One iteration of the expansion: either nothing is pushed, because the symmetric move is
done already or is to be avoided, or the symmetric copy is pushed and its move inserted. -/
theorem expandSymmetryStep_cases (L : LocEncoding) (s : Search) (d : AnalysisData)
    (acc out : List AnalysisData × List Int) (σ : Nat)
    (h : Search.expandSymmetryStep L s d (some acc) σ = some out) :
    (out = acc ∧
      (SymmetryHelpers.getSymLocOfLocBoard L d.move s.rootBoard σ ∈ acc.2 ∨
        Search.avoidedUntil s (SymmetryHelpers.getSymLocOfLocBoard L d.move s.rootBoard σ)
          = true)) ∨
    (SymmetryHelpers.getSymLocOfLocBoard L d.move s.rootBoard σ ∉ acc.2 ∧
      Search.avoidedUntil s (SymmetryHelpers.getSymLocOfLocBoard L d.move s.rootBoard σ)
        = false ∧
      out = (acc.1 ++ [Search.symmetricCopy L s d σ],
        acc.2 ++ [SymmetryHelpers.getSymLocOfLocBoard L d.move s.rootBoard σ])) := by
  obtain ⟨newBuf, isDone⟩ := acc
  unfold Search.expandSymmetryStep at h
  unfold Search.avoidedUntil Search.avoidMoveUntilByLoc
  generalize SymmetryHelpers.getSymLocOfLocBoard L d.move s.rootBoard σ = symMove at h ⊢
  generalize (if s.rootPla = Player.P_BLACK then s.avoidMoveUntilByLocBlack
    else s.avoidMoveUntilByLocWhite) = avoid at h ⊢
  simp only at h
  by_cases hdone : isDone.contains symMove = true
  · rw [if_pos hdone] at h
    simp only [Option.some.injEq] at h
    exact Or.inl ⟨h.symm, Or.inl (by simpa using hdone)⟩
  · rw [if_neg hdone] at h
    have hnot : symMove ∉ isDone := by simpa using hdone
    by_cases hlen : avoid.length > 0
    · rw [if_pos hlen] at h
      by_cases hneg : symMove < 0
      · rw [if_pos hneg] at h
        simp at h
      · rw [if_neg hneg] at h
        split at h
        · simp at h
        · rename_i untilDepth hget
          rw [List.get?_eq_getElem?] at hget
          have hD : avoid.getD symMove.toNat 0 = untilDepth := by
            rw [List.getD_eq_getElem?_getD, hget]
            rfl
          by_cases hu : untilDepth > 0
          · rw [if_pos hu] at h
            simp only [Option.some.injEq] at h
            refine Or.inl ⟨h.symm, Or.inr ?_⟩
            rw [hD]
            simp only [Bool.and_eq_true, decide_eq_true_eq]
            exact ⟨hlen, hu⟩
          · rw [if_neg hu] at h
            simp only [Option.some.injEq] at h
            refine Or.inr ⟨hnot, ?_, h.symm⟩
            rw [hD]
            simp only [Bool.and_eq_false_iff, decide_eq_false_iff_not]
            exact Or.inr hu
    · rw [if_neg hlen] at h
      simp only [Option.some.injEq] at h
      refine Or.inr ⟨hnot, ?_, h.symm⟩
      simp only [Bool.and_eq_false_iff, decide_eq_false_iff_not]
      exact Or.inl hlen

/-- The move of a symmetric copy. -/
theorem symmetricCopy_move (L : LocEncoding) (s : Search) (d : AnalysisData) (σ : Nat) :
    (Search.symmetricCopy L s d σ).move
      = SymmetryHelpers.getSymLocOfLocBoard L d.move s.rootBoard σ := rfl

/-- The expansion loop over pairs of a record and a symmetry: `isDone` stays the list of
the moves of `newBuf`, without repetition; the records added are symmetric copies for
pairs whose symmetric move is not to be avoided; and the symmetric move of every pair is
done at the end or is to be avoided. -/
theorem expand_fold (L : LocEncoding) (s : Search) (ps : List (AnalysisData × Nat)) :
    ∀ acc out : List AnalysisData × List Int,
      ps.foldl (fun acc p => Search.expandSymmetryStep L s p.1 acc p.2) (some acc) = some out →
      acc.2 = acc.1.map (fun r => r.move) → acc.2.Nodup →
      out.2 = out.1.map (fun r => r.move) ∧ out.2.Nodup ∧
      (∃ added : List AnalysisData, out.1 = acc.1 ++ added ∧
        ∀ r ∈ added, ∃ p ∈ ps,
          Search.avoidedUntil s (SymmetryHelpers.getSymLocOfLocBoard L p.1.move s.rootBoard p.2)
            = false ∧
          r = Search.symmetricCopy L s p.1 p.2) ∧
      (∀ p ∈ ps,
        SymmetryHelpers.getSymLocOfLocBoard L p.1.move s.rootBoard p.2 ∈ out.2 ∨
        Search.avoidedUntil s (SymmetryHelpers.getSymLocOfLocBoard L p.1.move s.rootBoard p.2)
          = true) := by
  induction ps with
  | nil =>
    intro acc out h hmap hnd
    simp only [List.foldl_nil, Option.some.injEq] at h
    subst h
    exact ⟨hmap, hnd, ⟨[], by simp, fun r hr => absurd hr (List.not_mem_nil r)⟩,
      fun p hp => absurd hp (List.not_mem_nil p)⟩
  | cons p ps ih =>
    intro acc out h hmap hnd
    rw [List.foldl_cons] at h
    cases hstep : Search.expandSymmetryStep L s p.1 (some acc) p.2 with
    | none =>
      rw [hstep, expand_fold_none] at h
      simp at h
    | some mid =>
      rw [hstep] at h
      have hmid : mid.2 = mid.1.map (fun r => r.move) ∧ mid.2.Nodup ∧
          (∃ added : List AnalysisData, mid.1 = acc.1 ++ added ∧
            ∀ r ∈ added,
              Search.avoidedUntil s
                (SymmetryHelpers.getSymLocOfLocBoard L p.1.move s.rootBoard p.2) = false ∧
              r = Search.symmetricCopy L s p.1 p.2) ∧
          (SymmetryHelpers.getSymLocOfLocBoard L p.1.move s.rootBoard p.2 ∈ mid.2 ∨
            Search.avoidedUntil s
              (SymmetryHelpers.getSymLocOfLocBoard L p.1.move s.rootBoard p.2) = true) := by
        rcases expandSymmetryStep_cases L s p.1 acc mid p.2 hstep with ⟨e, hd⟩ | ⟨hnot, hav, e⟩
        · subst e
          exact ⟨hmap, hnd, ⟨[], by simp, fun r hr => absurd hr (List.not_mem_nil r)⟩, hd⟩
        · subst e
          refine ⟨?_, ?_, ⟨[Search.symmetricCopy L s p.1 p.2], rfl, fun r hr => ?_⟩, Or.inl ?_⟩
          · simp only [List.map_append, List.map_cons, List.map_nil, symmetricCopy_move, hmap]
          · rw [List.nodup_append]
            refine ⟨hnd, List.nodup_singleton _, ?_⟩
            intro a ha hb
            rw [List.mem_singleton] at hb
            exact hnot (hb ▸ ha)
          · rw [List.mem_singleton] at hr
            exact ⟨hav, hr⟩
          · simp
      obtain ⟨m1, m2, ⟨added1, m3, m4⟩, m5⟩ := hmid
      obtain ⟨o1, o2, ⟨added2, o3, o4⟩, o5⟩ := ih mid out h m1 m2
      refine ⟨o1, o2, ⟨added1 ++ added2, ?_, fun r hr => ?_⟩, fun q hq => ?_⟩
      · rw [o3, m3, List.append_assoc]
      · rcases List.mem_append.mp hr with hr | hr
        · exact ⟨p, List.mem_cons_self _ _, m4 r hr⟩
        · obtain ⟨q, hq, hq2⟩ := o4 r hr
          exact ⟨q, List.mem_cons_of_mem _ hq, hq2⟩
      · rcases List.mem_cons.mp hq with rfl | hq
        · rcases m5 with m5 | m5
          · left
            rw [o1, o3, List.map_append, ← m1]
            exact List.mem_append_left _ m5
          · exact Or.inr m5
        · exact o5 q hq

/-- The expansion loop returns when every read of `avoidMoveUntilByLoc` is in range. -/
theorem expand_fold_total (L : LocEncoding) (s : Search) (ps : List (AnalysisData × Nat))
    (hin : ∀ p ∈ ps, (Search.avoidMoveUntilByLoc s).length > 0 →
      0 ≤ SymmetryHelpers.getSymLocOfLocBoard L p.1.move s.rootBoard p.2 ∧
      (SymmetryHelpers.getSymLocOfLocBoard L p.1.move s.rootBoard p.2).toNat
        < (Search.avoidMoveUntilByLoc s).length) :
    ∀ acc : List AnalysisData × List Int,
      ∃ out, ps.foldl (fun acc p => Search.expandSymmetryStep L s p.1 acc p.2) (some acc)
        = some out := by
  induction ps with
  | nil => intro acc; exact ⟨acc, rfl⟩
  | cons p ps ih =>
    intro acc
    have hrest := ih (fun q hq => hin q (List.mem_cons_of_mem _ hq))
    have hp := hin p (List.mem_cons_self _ _)
    rw [List.foldl_cons]
    have hstep : ∃ mid, Search.expandSymmetryStep L s p.1 (some acc) p.2 = some mid := by
      unfold Search.avoidMoveUntilByLoc at hp
      unfold Search.expandSymmetryStep
      generalize SymmetryHelpers.getSymLocOfLocBoard L p.1.move s.rootBoard p.2 = symMove at hp ⊢
      generalize (if s.rootPla = Player.P_BLACK then s.avoidMoveUntilByLocBlack
        else s.avoidMoveUntilByLocWhite) = avoid at hp ⊢
      simp only
      by_cases hdone : acc.2.contains symMove = true
      · rw [if_pos hdone]; exact ⟨_, rfl⟩
      · rw [if_neg hdone]
        by_cases hlen : avoid.length > 0
        · obtain ⟨h0, h1⟩ := hp hlen
          rw [if_pos hlen, if_neg (by omega), List.get?_eq_getElem?,
            List.getElem?_eq_getElem h1]
          simp only
          by_cases hu : avoid[symMove.toNat] > 0
          · rw [if_pos hu]; exact ⟨_, rfl⟩
          · rw [if_neg hu]; exact ⟨_, rfl⟩
        · rw [if_neg hlen]; exact ⟨_, rfl⟩
    obtain ⟨mid, hmid⟩ := hstep
    rw [hmid]
    exact hrest mid

/-- The expansion is one loop over the pairs of a record and a root symmetry. -/
theorem expandForSymmetries_eq (L : LocEncoding) (s : Search) (buf : List AnalysisData) :
    Search.expandForSymmetries L s buf
      = ((List.product buf s.rootSymmetries).foldl
          (fun acc p => Search.expandSymmetryStep L s p.1 acc p.2) (some ([], []))).map
          (fun r => r.1) := by
  unfold Search.expandForSymmetries
  rw [← foldl_product (fun acc d σ => Search.expandSymmetryStep L s d acc σ)]

/-- The numbering keeps the records and sets `order` to the index. -/
theorem assignOrder_getElem? (buf : List AnalysisData) (i : Nat) :
    (Search.assignOrder buf)[i]? = buf[i]?.map (fun d => { d with order := (i : Int) }) := by
  unfold Search.assignOrder
  rw [List.getElem?_map, List.getElem?_enum]
  cases buf[i]? <;> rfl

/-- The numbering keeps the moves. -/
theorem assignOrder_moves (buf : List AnalysisData) :
    (Search.assignOrder buf).map (fun r => r.move) = buf.map (fun r => r.move) := by
  apply List.ext_getElem?
  intro i
  rw [List.getElem?_map, assignOrder_getElem?, List.getElem?_map]
  cases buf[i]? <;> rfl

/-- C23: the symmetry expansion of `Search::getAnalysisData`. When it is performed
(`duplicateForSymmetries`, `rootSymmetryPruning` on, more than one root symmetry), the
returned records have pairwise distinct moves; the record at index `i` has order `i` and is
the copy of a record `d` of the sorted buffer through a root symmetry `σ`: its move is
`getSymLoc(d.move, σ)`, its PV is the PV of `d` mapped through `σ`, its symmetry is `σ`,
`isSymmetryOf` is `d.move` when `σ` is not 0 and is left as in `d` when `σ` is 0 (so it is
`NULL_LOC` when the records of the buffer carry `NULL_LOC`), and its move is not to be
avoided; every symmetric image of a record of the buffer that is not to be avoided is the
move of a returned record. The call returns when every read of `avoidMoveUntilByLoc` is in
range. -/
theorem getAnalysisData_symmetry_expansion (L : LocEncoding) (s : Search)
    (buf : List AnalysisData) (hprune : s.searchParams.rootSymmetryPruning = true)
    (hsize : s.rootSymmetries.length > 1) :
    (∀ out, Search.getAnalysisDataFinish L s true buf = some out →
      (out.map (fun r => r.move)).Nodup ∧
      (∀ (i : Nat) (r : AnalysisData), out[i]? = some r →
        r.order = (i : Int) ∧
        ∃ d ∈ buf, ∃ σ ∈ s.rootSymmetries,
          r = { Search.symmetricCopy L s d σ with order := (i : Int) } ∧
          r.symmetry = σ ∧
          r.move = SymmetryHelpers.getSymLocOfLocBoard L d.move s.rootBoard σ ∧
          r.pv = d.pv.map
            (fun loc => SymmetryHelpers.getSymLocOfLocBoard L loc s.rootBoard σ) ∧
          (σ ≠ 0 → r.isSymmetryOf = d.move) ∧
          (σ = 0 → r.isSymmetryOf = d.isSymmetryOf) ∧
          Search.avoidedUntil s r.move = false) ∧
      (∀ d ∈ buf, ∀ σ ∈ s.rootSymmetries,
        Search.avoidedUntil s (SymmetryHelpers.getSymLocOfLocBoard L d.move s.rootBoard σ)
          = false →
        ∃ r ∈ out, r.move = SymmetryHelpers.getSymLocOfLocBoard L d.move s.rootBoard σ) ∧
      ((∀ d ∈ buf, d.isSymmetryOf = L.NULL_LOC) →
        ∀ r ∈ out, r.symmetry = 0 → r.isSymmetryOf = L.NULL_LOC)) ∧
    ((∀ d ∈ buf, ∀ σ ∈ s.rootSymmetries, (Search.avoidMoveUntilByLoc s).length > 0 →
        0 ≤ SymmetryHelpers.getSymLocOfLocBoard L d.move s.rootBoard σ ∧
        (SymmetryHelpers.getSymLocOfLocBoard L d.move s.rootBoard σ).toNat
          < (Search.avoidMoveUntilByLoc s).length) →
      ∃ out, Search.getAnalysisDataFinish L s true buf = some out) := by
  have hfin : Search.getAnalysisDataFinish L s true buf
      = (((List.product buf s.rootSymmetries).foldl
          (fun acc p => Search.expandSymmetryStep L s p.1 acc p.2) (some ([], []))).map
          (fun r => r.1)).map Search.assignOrder := by
    unfold Search.getAnalysisDataFinish
    simp only
    rw [if_pos ⟨trivial, hprune, hsize⟩, expandForSymmetries_eq]
  rw [hfin]
  refine ⟨?_, ?_⟩
  · intro out hout
    cases hfold : (List.product buf s.rootSymmetries).foldl
        (fun acc p => Search.expandSymmetryStep L s p.1 acc p.2) (some ([], [])) with
    | none =>
      rw [hfold] at hout
      simp at hout
    | some res =>
      rw [hfold] at hout
      simp only [Option.map_some', Option.some.injEq] at hout
      subst hout
      obtain ⟨o1, o2, ⟨added, o3, o4⟩, o5⟩ :=
        expand_fold L s (List.product buf s.rootSymmetries) ([], []) res hfold rfl List.nodup_nil
      simp only [List.nil_append] at o3
      have hrec : ∀ (i : Nat) (r : AnalysisData), (Search.assignOrder res.1)[i]? = some r →
          ∃ d ∈ buf, ∃ σ ∈ s.rootSymmetries,
            Search.avoidedUntil s (SymmetryHelpers.getSymLocOfLocBoard L d.move s.rootBoard σ)
              = false ∧
            r = { Search.symmetricCopy L s d σ with order := (i : Int) } := by
        intro i r hr
        rw [assignOrder_getElem?, Option.map_eq_some'] at hr
        obtain ⟨r0, hr0, rfl⟩ := hr
        obtain ⟨p, hp, hav, rfl⟩ := o4 r0 (o3 ▸ List.getElem?_mem hr0)
        rw [List.pair_mem_product] at hp
        exact ⟨p.1, hp.1, p.2, hp.2, hav, rfl⟩
      refine ⟨?_, ?_, ?_, ?_⟩
      · rw [assignOrder_moves, ← o1]
        exact o2
      · intro i r hr
        obtain ⟨d, hd, σ, hσ, hav, rfl⟩ := hrec i r hr
        refine ⟨rfl, d, hd, σ, hσ, rfl, rfl, rfl, rfl, fun h => ?_, fun h => ?_, hav⟩
        · exact if_pos h
        · exact if_neg (fun hne => hne h)
      · intro d hd σ hσ hav
        rcases o5 (d, σ) (List.pair_mem_product.mpr ⟨hd, hσ⟩) with h | h
        · rw [o1, ← assignOrder_moves, List.mem_map] at h
          obtain ⟨r, hr, hrm⟩ := h
          exact ⟨r, hr, hrm⟩
        · rw [hav] at h
          exact absurd h (by decide)
      · intro hnull r hr hsym
        obtain ⟨i, hi⟩ := List.getElem?_of_mem hr
        obtain ⟨d, hd, σ, hσ, _, rfl⟩ := hrec i r hi
        have hσ0 : σ = 0 := hsym
        show (if σ ≠ 0 then d.move else d.isSymmetryOf) = L.NULL_LOC
        rw [if_neg (fun hne => hne hσ0)]
        exact hnull d hd
  · intro hin
    obtain ⟨res, hres⟩ := expand_fold_total L s (List.product buf s.rootSymmetries)
      (fun p hp => by
        rw [List.pair_mem_product] at hp
        exact hin p.1 hp.1 p.2 hp.2) ([], [])
    rw [hres]
    exact ⟨_, rfl⟩

/-- The expansion of two records on a 2x2 board with the four symmetries without
transpose: the corner move 4 gives the four corners, the pass (location 1) only itself. -/
theorem getAnalysisData_symmetry_expansion_witness :
    (Search.getAnalysisDataFinish borderedLoc Example.searchSym true
        [Example.record 4 [4, 5], Example.record 1 [1, 8]]).map
        (fun out => out.map Example.summary)
      = some [(4, 0, 0, [4, 5], 0), (7, 4, 1, [7, 8], 1), (5, 4, 2, [5, 4], 2),
          (8, 4, 3, [8, 7], 3), (1, 0, 0, [1, 8], 4)] ∧
    ∃ out, Search.getAnalysisDataFinish borderedLoc Example.searchSym true
        [Example.record 4 [4, 5], Example.record 1 [1, 8]] = some out :=
  ⟨rfl,
    (getAnalysisData_symmetry_expansion borderedLoc Example.searchSym
      [Example.record 4 [4, 5], Example.record 1 [1, 8]] rfl (by decide)).2
      (fun _ _ _ _ h => absurd h (by decide))⟩


/-! ### The self weights of the ownership traversal -/

mutual

/-- The traversal with any `accumulate` is the traversal that records the calls, followed
by the recorded calls of `accumulate`. -/
theorem traverse_calls (E : Externs) (minWeight : ℚ) :
    ∀ (node : SearchNode) (desiredWeight : ℚ),
      ∃ res : Option (ℚ × List ((Nat → ℚ) × ℚ)),
        ∀ (σ : Type) (accumulate : σ → (Nat → ℚ) → ℚ → σ) (init : σ),
          Search.traverseTreeWithOwnershipAndSelfWeight E accumulate minWeight desiredWeight
            node init
            = res.map (fun r => (r.1, r.2.foldl (fun a e => accumulate a e.1 e.2) init))
  | SearchNode.mk p l st nn children, desiredWeight => by
    cases nn with
    | none =>
      refine ⟨some (0, []), fun σ accumulate init => ?_⟩
      rw [Search.traverseTreeWithOwnershipAndSelfWeight]
      rfl
    | some nnOutput =>
      by_cases hg : (Search.childrenWeightSums minWeight children).2
          + E.computeWeightFromNNOutput nnOutput = 0
          ∧ children.any (Search.usesEvaluated minWeight) = true
      · refine ⟨none, fun σ accumulate init => ?_⟩
        rw [Search.traverseTreeWithOwnershipAndSelfWeight]
        simp only [if_pos hg]
        rfl
      · obtain ⟨resC, hC⟩ := traverseChildren_calls E minWeight children
          (Search.childrenWeightSums minWeight children).1
          (desiredWeight * (Search.childrenWeightSums minWeight children).2
            / ((Search.childrenWeightSums minWeight children).2
              + E.computeWeightFromNNOutput nnOutput)) 0
        refine ⟨resC.bind (fun r =>
          match nnOutput.whiteOwnerMap with
          | none => none
          | some ownerMap => some (desiredWeight, r.2 ++ [(ownerMap, desiredWeight - r.1)])),
          fun σ accumulate init => ?_⟩
        rw [Search.traverseTreeWithOwnershipAndSelfWeight]
        simp only [if_neg hg, hC σ accumulate init]
        cases resC with
        | none => rfl
        | some r =>
          cases hm : nnOutput.whiteOwnerMap with
          | none => simp [hm]
          | some ownerMap => simp [hm, List.foldl_append]

/-- The loop over the children with any `accumulate` is the loop that records the calls,
followed by the recorded calls of `accumulate`. -/
theorem traverseChildren_calls (E : Externs) (minWeight : ℚ) :
    ∀ (children : List SearchNode) (rel dfc actual : ℚ),
      ∃ res : Option (ℚ × List ((Nat → ℚ) × ℚ)),
        ∀ (σ : Type) (accumulate : σ → (Nat → ℚ) → ℚ → σ) (init : σ),
          Search.traverseChildren E accumulate minWeight rel dfc actual children init
            = res.map (fun r => (r.1, r.2.foldl (fun a e => accumulate a e.1 e.2) init))
  | [], rel, dfc, actual => by
    refine ⟨some (actual, []), fun σ accumulate init => ?_⟩
    rw [Search.traverseChildren]
    rfl
  | child :: rest, rel, dfc, actual => by
    by_cases hw : child.stats.weightSum < minWeight
    · obtain ⟨resR, hR⟩ := traverseChildren_calls E minWeight rest rel dfc actual
      refine ⟨resR, fun σ accumulate init => ?_⟩
      rw [Search.traverseChildren]
      simp only [if_pos hw]
      exact hR σ accumulate init
    · by_cases hg : rel = 0 ∧ child.getNNOutput.isSome = true
      · refine ⟨none, fun σ accumulate init => ?_⟩
        rw [Search.traverseChildren]
        simp only [if_neg hw, if_pos hg]
        rfl
      · obtain ⟨resN, hN⟩ := traverse_calls E minWeight child
          (child.stats.weightSum * child.stats.weightSum / rel * dfc)
        cases resN with
        | none =>
          refine ⟨none, fun σ accumulate init => ?_⟩
          rw [Search.traverseChildren]
          simp only [if_neg hw, if_neg hg, hN σ accumulate init]
          rfl
        | some rN =>
          obtain ⟨resR, hR⟩ := traverseChildren_calls E minWeight rest rel dfc (actual + rN.1)
          refine ⟨resR.map (fun r => (r.1, rN.2 ++ r.2)), fun σ accumulate init => ?_⟩
          rw [Search.traverseChildren]
          simp only [if_neg hw, if_neg hg, hN σ accumulate init, Option.map_some']
          rw [hR σ accumulate]
          cases resR with
          | none => rfl
          | some r => simp [List.foldl_append]

end

/-- The two sums of the helper, child by child. -/
theorem childrenWeightSums_eq (minWeight : ℚ) (children : List SearchNode) :
    Search.childrenWeightSums minWeight children
      = ((children.map (fun c => if c.stats.weightSum < minWeight then 0
            else c.stats.weightSum * c.stats.weightSum)).sum,
         (children.map (fun c => if c.stats.weightSum < minWeight then 0
            else c.stats.weightSum)).sum) := by
  have key : ∀ (l : List SearchNode) (a b : ℚ),
      l.foldl (fun acc child =>
          if child.stats.weightSum < minWeight then acc
          else (acc.1 + child.stats.weightSum * child.stats.weightSum,
                acc.2 + child.stats.weightSum)) (a, b)
        = (a + (l.map (fun c => if c.stats.weightSum < minWeight then 0
              else c.stats.weightSum * c.stats.weightSum)).sum,
           b + (l.map (fun c => if c.stats.weightSum < minWeight then 0
              else c.stats.weightSum)).sum) := by
    intro l
    induction l with
    | nil => intro a b; simp
    | cons c t ih =>
      intro a b
      simp only [List.foldl_cons, List.map_cons, List.sum_cons]
      by_cases hc : c.stats.weightSum < minWeight
      · simp only [if_pos hc, ih, zero_add]
      · simp only [if_neg hc, ih, add_assoc]
  have := key children 0 0
  simpa [Search.childrenWeightSums] using this

/-- The sums of the helper are not negative when `minWeight` is not. -/
theorem childrenWeightSums_nonneg (minWeight : ℚ) (hmin : 0 ≤ minWeight)
    (children : List SearchNode) :
    0 ≤ (Search.childrenWeightSums minWeight children).1 ∧
      0 ≤ (Search.childrenWeightSums minWeight children).2 := by
  rw [childrenWeightSums_eq]
  constructor
  · apply List.sum_nonneg
    intro x hx
    rw [List.mem_map] at hx
    obtain ⟨c, _, rfl⟩ := hx
    split_ifs
    · exact le_refl 0
    · exact mul_self_nonneg _
  · apply List.sum_nonneg
    intro x hx
    rw [List.mem_map] at hx
    obtain ⟨c, _, rfl⟩ := hx
    split_ifs with h
    · exact le_refl 0
    · exact le_trans hmin (not_lt.mp h)

/-- The weight desired from the children is between 0 and the desired weight. -/
theorem desiredWeightFromChildren_bounds (desiredWeight used thisNodeWeight : ℚ)
    (hD : 0 ≤ desiredWeight) (hu : 0 ≤ used) (ht : 0 < thisNodeWeight) :
    0 ≤ desiredWeight * used / (used + thisNodeWeight) ∧
      desiredWeight * used / (used + thisNodeWeight) ≤ desiredWeight := by
  have hpos : 0 < used + thisNodeWeight := by linarith
  constructor
  · exact div_nonneg (mul_nonneg hD hu) hpos.le
  · rw [div_le_iff₀ hpos]
    nlinarith

/-- The weight handed back by a child is not negative. -/
theorem childShare_nonneg (minWeight rel dfc : ℚ) (hrel : 0 ≤ rel) (hdfc : 0 ≤ dfc)
    (c : SearchNode) : 0 ≤ Search.childShare minWeight rel dfc c := by
  unfold Search.childShare
  split_ifs
  · exact le_refl 0
  · exact mul_nonneg (div_nonneg (mul_self_nonneg _) hrel) hdfc

/-- The weights handed back by the children sum to at most the weight desired from them. -/
theorem childShare_sum_le (minWeight dfc : ℚ) (hdfc : 0 ≤ dfc) (children : List SearchNode) :
    (children.map (Search.childShare minWeight
        (Search.childrenWeightSums minWeight children).1 dfc)).sum ≤ dfc := by
  set rel := (Search.childrenWeightSums minWeight children).1 with hrel
  have hrel0 : 0 ≤ rel := by
    rw [hrel, childrenWeightSums_eq]
    apply List.sum_nonneg
    intro x hx
    rw [List.mem_map] at hx
    obtain ⟨c, _, rfl⟩ := hx
    split_ifs
    · exact le_refl 0
    · exact mul_self_nonneg _
  have h1 : ∀ l : List SearchNode,
      (l.map (Search.childShare minWeight rel dfc)).sum
        ≤ (l.map (fun c => if c.stats.weightSum < minWeight then 0
              else c.stats.weightSum * c.stats.weightSum)).sum / rel * dfc := by
    intro l
    induction l with
    | nil => simp
    | cons c t ih =>
      simp only [List.map_cons, List.sum_cons]
      have hc : Search.childShare minWeight rel dfc c
          ≤ (if c.stats.weightSum < minWeight then 0
              else c.stats.weightSum * c.stats.weightSum) / rel * dfc := by
        unfold Search.childShare
        by_cases hw : c.stats.weightSum < minWeight
        · rw [if_pos (Or.inl hw), if_pos hw]
          simp
        · rw [if_neg hw]
          split_ifs
          · exact mul_nonneg (div_nonneg (mul_self_nonneg _) hrel0) hdfc
          · exact le_refl _
      rw [add_div, add_mul]
      exact add_le_add hc ih
  have h2 := h1 children
  have h3 : (children.map (fun c => if c.stats.weightSum < minWeight then 0
      else c.stats.weightSum * c.stats.weightSum)).sum = rel := by
    rw [hrel, childrenWeightSums_eq]
  rw [h3] at h2
  have h4 : rel / rel * dfc ≤ dfc := by
    have : rel / rel ≤ 1 := div_self_le_one rel
    nlinarith
  exact le_trans h2 h4

/-- A node belongs to its own subtree. -/
theorem SearchNode.mem_subtree_self (node : SearchNode) : node ∈ node.subtree := by
  cases node with
  | mk p l st nn children =>
    rw [SearchNode.subtree]
    exact List.mem_cons_self _ _

mutual

/-- The recorded calls of the traversal of a node, for `minWeight >= 0`, positive NN weights
and a desired weight that is not negative: the self weights are not negative and sum to
the returned weight, which is the desired weight for a node with NN output and 0 for one
without; each recorded map is the ownership map of a node of the subtree; and the last
call is for the node itself, with the desired weight less the weights handed back by the
children. -/
theorem traverse_log (E : Externs) (minWeight : ℚ) (hmin : 0 ≤ minWeight)
    (hE : ∀ o, 0 < E.computeWeightFromNNOutput o) :
    ∀ (node : SearchNode) (desiredWeight : ℚ), 0 ≤ desiredWeight →
      ∀ (log0 : List ((Nat → ℚ) × ℚ)) (w : ℚ) (log1 : List ((Nat → ℚ) × ℚ)),
        Search.traverseTreeWithOwnershipAndSelfWeight E Search.logAccumulate minWeight
          desiredWeight node log0 = some (w, log1) →
        ∃ added, log1 = log0 ++ added ∧ (∀ e ∈ added, 0 ≤ e.2) ∧
          (added.map (fun e => e.2)).sum = w ∧
          (∀ e ∈ added, ∃ n ∈ node.subtree, ∃ o,
            n.getNNOutput = some o ∧ o.whiteOwnerMap = some e.1) ∧
          (node.getNNOutput = none → w = 0 ∧ added = []) ∧
          (∀ o, node.getNNOutput = some o → w = desiredWeight ∧
            ∃ m pre, o.whiteOwnerMap = some m ∧
              added = pre ++ [(m, desiredWeight - (node.getChildren.map
                (Search.childShare minWeight (Search.relativeChildrenWeightSumOf minWeight node)
                  (Search.desiredWeightFromChildrenOf E minWeight desiredWeight node o))).sum)])
  | SearchNode.mk p l st nn children, desiredWeight, hD, log0, w, log1, h => by
    cases nn with
    | none =>
      rw [Search.traverseTreeWithOwnershipAndSelfWeight] at h
      simp only [Option.some.injEq, Prod.mk.injEq] at h
      obtain ⟨rfl, rfl⟩ := h
      refine ⟨[], by simp, fun e he => absurd he (List.not_mem_nil e), rfl,
        fun e he => absurd he (List.not_mem_nil e), fun _ => ⟨rfl, rfl⟩, fun o ho => ?_⟩
      simp [SearchNode.getNNOutput] at ho
    | some nnOutput =>
      rw [Search.traverseTreeWithOwnershipAndSelfWeight] at h
      simp only at h
      have hsums := childrenWeightSums_nonneg minWeight hmin children
      have hdfc := desiredWeightFromChildren_bounds desiredWeight
        (Search.childrenWeightSums minWeight children).2 (E.computeWeightFromNNOutput nnOutput)
        hD hsums.2 (hE nnOutput)
      have hg : ¬ ((Search.childrenWeightSums minWeight children).2
          + E.computeWeightFromNNOutput nnOutput = 0
          ∧ children.any (Search.usesEvaluated minWeight) = true) := by
        intro hg0
        have := hE nnOutput
        linarith [hsums.2, hg0.1]
      rw [if_neg hg] at h
      cases hc : Search.traverseChildren E Search.logAccumulate minWeight
          (Search.childrenWeightSums minWeight children).1
          (desiredWeight * (Search.childrenWeightSums minWeight children).2
            / ((Search.childrenWeightSums minWeight children).2
              + E.computeWeightFromNNOutput nnOutput)) 0 children log0 with
      | none =>
        rw [hc] at h
        simp at h
      | some r =>
        obtain ⟨a, acc1⟩ := r
        rw [hc] at h
        simp only at h
        cases hm : nnOutput.whiteOwnerMap with
        | none =>
          rw [hm] at h
          simp at h
        | some m =>
          rw [hm] at h
          simp only [Option.some.injEq, Prod.mk.injEq] at h
          obtain ⟨rfl, rfl⟩ := h
          obtain ⟨ha, added, hlog, hnn, hsum, hmaps⟩ := traverseChildren_log E minWeight hmin hE
            children _ _ hsums.1 hdfc.1 0 log0 a acc1 hc
          rw [zero_add] at ha
          have hle := childShare_sum_le minWeight _ hdfc.1 children
          rw [← ha] at hle
          refine ⟨added ++ [(m, desiredWeight - a)], ?_, ?_, ?_, ?_, ?_, ?_⟩
          · rw [Search.logAccumulate, hlog, List.append_assoc]
          · intro e he
            rcases List.mem_append.mp he with he | he
            · exact hnn e he
            · rw [List.mem_singleton] at he
              rw [he]
              show 0 ≤ desiredWeight - a
              linarith [hdfc.2]
          · rw [List.map_append, List.sum_append, hsum, ← ha]
            simp
          · intro e he
            rcases List.mem_append.mp he with he | he
            · obtain ⟨n, hn, o, ho⟩ := hmaps e he
              refine ⟨n, ?_, o, ho⟩
              rw [SearchNode.subtree]
              exact List.mem_cons_of_mem _ hn
            · rw [List.mem_singleton] at he
              rw [he]
              exact ⟨_, SearchNode.mem_subtree_self _, nnOutput, rfl, hm⟩
          · intro hnone
            simp [SearchNode.getNNOutput] at hnone
          · intro o ho
            simp only [SearchNode.getNNOutput, Option.some.injEq] at ho
            subst ho
            exact ⟨rfl, m, added, hm, by rw [ha]; rfl⟩

/-- The recorded calls of the loop over the children: the loop adds up the weights handed
back by the children, which is also the sum of the recorded self weights; these are not
negative, and each recorded map is the ownership map of a node below a child. -/
theorem traverseChildren_log (E : Externs) (minWeight : ℚ) (hmin : 0 ≤ minWeight)
    (hE : ∀ o, 0 < E.computeWeightFromNNOutput o) :
    ∀ (children : List SearchNode) (rel dfc : ℚ), 0 ≤ rel → 0 ≤ dfc →
      ∀ (actual : ℚ) (log0 : List ((Nat → ℚ) × ℚ)) (a : ℚ) (log1 : List ((Nat → ℚ) × ℚ)),
        Search.traverseChildren E Search.logAccumulate minWeight rel dfc actual children log0
          = some (a, log1) →
        a = actual + (children.map (Search.childShare minWeight rel dfc)).sum ∧
        ∃ added, log1 = log0 ++ added ∧ (∀ e ∈ added, 0 ≤ e.2) ∧
          (added.map (fun e => e.2)).sum
            = (children.map (Search.childShare minWeight rel dfc)).sum ∧
          (∀ e ∈ added, ∃ n ∈ SearchNode.subtreeOfList children, ∃ o,
            n.getNNOutput = some o ∧ o.whiteOwnerMap = some e.1)
  | [], rel, dfc, hrel, hdfc, actual, log0, a, log1, h => by
    rw [Search.traverseChildren] at h
    simp only [Option.some.injEq, Prod.mk.injEq] at h
    obtain ⟨rfl, rfl⟩ := h
    exact ⟨by simp, [], by simp, fun e he => absurd he (List.not_mem_nil e), rfl,
      fun e he => absurd he (List.not_mem_nil e)⟩
  | child :: rest, rel, dfc, hrel, hdfc, actual, log0, a, log1, h => by
    rw [Search.traverseChildren] at h
    by_cases hw : child.stats.weightSum < minWeight
    · simp only [if_pos hw] at h
      obtain ⟨ha, added, hlog, hnn, hsum, hmaps⟩ := traverseChildren_log E minWeight hmin hE
        rest rel dfc hrel hdfc actual log0 a log1 h
      have hshare : Search.childShare minWeight rel dfc child = 0 := by
        unfold Search.childShare
        exact if_pos (Or.inl hw)
      refine ⟨?_, added, hlog, hnn, ?_, fun e he => ?_⟩
      · rw [ha, List.map_cons, List.sum_cons, hshare, zero_add]
      · rw [hsum, List.map_cons, List.sum_cons, hshare, zero_add]
      · obtain ⟨n, hn, o, ho⟩ := hmaps e he
        refine ⟨n, ?_, o, ho⟩
        rw [SearchNode.subtreeOfList]
        exact List.mem_append_right _ hn
    · simp only [if_neg hw] at h
      have hg : ¬ (rel = 0 ∧ child.getNNOutput.isSome = true) := by
        intro hg0
        rw [if_pos hg0] at h
        simp at h
      rw [if_neg hg] at h
      have hdes : 0 ≤ child.stats.weightSum * child.stats.weightSum / rel * dfc :=
        mul_nonneg (div_nonneg (mul_self_nonneg _) hrel) hdfc
      cases hn : Search.traverseTreeWithOwnershipAndSelfWeight E Search.logAccumulate minWeight
          (child.stats.weightSum * child.stats.weightSum / rel * dfc) child log0 with
      | none =>
        rw [hn] at h
        simp at h
      | some r =>
        obtain ⟨w, acc1⟩ := r
        rw [hn] at h
        simp only at h
        obtain ⟨added1, hlog1, hnn1, hsum1, hmaps1, hnone1, hsome1⟩ :=
          traverse_log E minWeight hmin hE child _ hdes log0 w acc1 hn
        obtain ⟨ha, added2, hlog2, hnn2, hsum2, hmaps2⟩ := traverseChildren_log E minWeight hmin
          hE rest rel dfc hrel hdfc (actual + w) acc1 a log1 h
        have hshare : Search.childShare minWeight rel dfc child = w := by
          unfold Search.childShare
          cases ho : child.getNNOutput with
          | none =>
            rw [(hnone1 ho).1]
            simp
          | some o =>
            rw [(hsome1 o ho).1]
            simp [hw]
        refine ⟨?_, added1 ++ added2, ?_, ?_, ?_, fun e he => ?_⟩
        · rw [ha, List.map_cons, List.sum_cons, hshare, add_assoc]
        · rw [hlog2, hlog1, List.append_assoc]
        · intro e he
          rcases List.mem_append.mp he with he | he
          · exact hnn1 e he
          · exact hnn2 e he
        · rw [List.map_append, List.sum_append, hsum1, hsum2, List.map_cons, List.sum_cons,
            hshare]
        · rw [SearchNode.subtreeOfList]
          rcases List.mem_append.mp he with he | he
          · obtain ⟨n, hn, o, ho⟩ := hmaps1 e he
            exact ⟨n, List.mem_append_left _ hn, o, ho⟩
          · obtain ⟨n, hn, o, ho⟩ := hmaps2 e he
            exact ⟨n, List.mem_append_right _ hn, o, ho⟩

end

/-- A sum of terms that are not negative is positive when one of them is. -/
theorem list_sum_pos_of_mem (l : List ℚ) (hl : ∀ x ∈ l, 0 ≤ x) (y : ℚ) (hy : y ∈ l)
    (hpos : 0 < y) : 0 < l.sum :=
  lt_of_lt_of_le hpos (List.single_le_sum hl y hy)

/-- The divisor of line 1598 is positive when a child that is used has a positive
weight. -/
theorem relativeChildrenWeightSum_pos (minWeight : ℚ) (children : List SearchNode)
    (c : SearchNode) (hc : c ∈ children) (hused : ¬ c.stats.weightSum < minWeight)
    (hpos : 0 < c.stats.weightSum) :
    0 < (Search.childrenWeightSums minWeight children).1 := by
  rw [childrenWeightSums_eq]
  refine list_sum_pos_of_mem _ ?_ (c.stats.weightSum * c.stats.weightSum) ?_
    (mul_pos hpos hpos)
  · intro x hx
    rw [List.mem_map] at hx
    obtain ⟨d, _, rfl⟩ := hx
    split_ifs
    · exact le_refl 0
    · exact mul_self_nonneg _
  · rw [List.mem_map]
    exact ⟨c, hc, by rw [if_neg hused]⟩

mutual

/-- The traversal returns when every NN output in the subtree carries an ownership map
and every child with an NN output that the loop uses has a positive weight, for
`minWeight >= 0` and positive NN weights: no quotient then has the divisor 0. -/
theorem traverse_total {σ : Type} (E : Externs) (accumulate : σ → (Nat → ℚ) → ℚ → σ)
    (minWeight : ℚ) (hmin : 0 ≤ minWeight) (hE : ∀ o, 0 < E.computeWeightFromNNOutput o) :
    ∀ (node : SearchNode),
      (∀ n ∈ node.subtree, ∀ o, n.getNNOutput = some o → o.whiteOwnerMap ≠ none) →
      (∀ n ∈ node.subtree, ∀ c ∈ n.getChildren, minWeight ≤ c.stats.weightSum →
        c.getNNOutput ≠ none → 0 < c.stats.weightSum) →
      ∀ (desiredWeight : ℚ) (init : σ),
        ∃ r, Search.traverseTreeWithOwnershipAndSelfWeight E accumulate minWeight desiredWeight
          node init = some r
  | SearchNode.mk p l st nn children, hmaps, hposw, desiredWeight, init => by
    cases nn with
    | none =>
      rw [Search.traverseTreeWithOwnershipAndSelfWeight]
      exact ⟨_, rfl⟩
    | some nnOutput =>
      rw [Search.traverseTreeWithOwnershipAndSelfWeight]
      have hsub : ∀ n ∈ SearchNode.subtreeOfList children, ∀ o, n.getNNOutput = some o →
          o.whiteOwnerMap ≠ none := by
        intro n hn
        refine hmaps n ?_
        rw [SearchNode.subtree]
        exact List.mem_cons_of_mem _ hn
      have hsubw : ∀ n ∈ SearchNode.subtreeOfList children, ∀ c ∈ n.getChildren,
          minWeight ≤ c.stats.weightSum → c.getNNOutput ≠ none → 0 < c.stats.weightSum := by
        intro n hn
        refine hposw n ?_
        rw [SearchNode.subtree]
        exact List.mem_cons_of_mem _ hn
      have hrel : ∀ c ∈ children, ¬ c.stats.weightSum < minWeight →
          c.getNNOutput.isSome = true →
          (Search.childrenWeightSums minWeight children).1 ≠ 0 := by
        intro c hc hused hsome
        have hcpos : 0 < c.stats.weightSum :=
          hposw _ (SearchNode.mem_subtree_self _) c hc (not_lt.mp hused)
            (fun h0 => by rw [h0] at hsome; simp at hsome)
        exact ne_of_gt (relativeChildrenWeightSum_pos minWeight children c hc hused hcpos)
      have hsums := childrenWeightSums_nonneg minWeight hmin children
      have hg : ¬ ((Search.childrenWeightSums minWeight children).2
          + E.computeWeightFromNNOutput nnOutput = 0
          ∧ children.any (Search.usesEvaluated minWeight) = true) := by
        intro hg0
        have := hE nnOutput
        linarith [hsums.2, hg0.1]
      obtain ⟨r, hr⟩ := traverseChildren_total E accumulate minWeight hmin hE children hsub
        hsubw (Search.childrenWeightSums minWeight children).1 hrel
        (desiredWeight * (Search.childrenWeightSums minWeight children).2
          / ((Search.childrenWeightSums minWeight children).2
            + E.computeWeightFromNNOutput nnOutput)) 0 init
      simp only [if_neg hg, hr]
      have hm := hmaps _ (SearchNode.mem_subtree_self _) nnOutput rfl
      cases hmap : nnOutput.whiteOwnerMap with
      | none => exact absurd hmap hm
      | some m => exact ⟨_, rfl⟩

/-- The loop over the children returns when every NN output below them carries an
ownership map, no quotient below them has the divisor 0, and the divisor `rel` of the
loop is not 0 when a child with an NN output is used. -/
theorem traverseChildren_total {σ : Type} (E : Externs) (accumulate : σ → (Nat → ℚ) → ℚ → σ)
    (minWeight : ℚ) (hmin : 0 ≤ minWeight) (hE : ∀ o, 0 < E.computeWeightFromNNOutput o) :
    ∀ (children : List SearchNode),
      (∀ n ∈ SearchNode.subtreeOfList children, ∀ o, n.getNNOutput = some o →
        o.whiteOwnerMap ≠ none) →
      (∀ n ∈ SearchNode.subtreeOfList children, ∀ c ∈ n.getChildren,
        minWeight ≤ c.stats.weightSum → c.getNNOutput ≠ none → 0 < c.stats.weightSum) →
      ∀ (rel : ℚ),
        (∀ c ∈ children, ¬ c.stats.weightSum < minWeight → c.getNNOutput.isSome = true →
          rel ≠ 0) →
        ∀ (dfc actual : ℚ) (init : σ),
          ∃ r, Search.traverseChildren E accumulate minWeight rel dfc actual children init
            = some r
  | [], _, _, rel, _, dfc, actual, init => by
    rw [Search.traverseChildren]
    exact ⟨_, rfl⟩
  | child :: rest, hmaps, hposw, rel, hrel, dfc, actual, init => by
    rw [Search.traverseChildren]
    have hrest : ∀ n ∈ SearchNode.subtreeOfList rest, ∀ o, n.getNNOutput = some o →
        o.whiteOwnerMap ≠ none := by
      intro n hn
      refine hmaps n ?_
      rw [SearchNode.subtreeOfList]
      exact List.mem_append_right _ hn
    have hrestw : ∀ n ∈ SearchNode.subtreeOfList rest, ∀ c ∈ n.getChildren,
        minWeight ≤ c.stats.weightSum → c.getNNOutput ≠ none → 0 < c.stats.weightSum := by
      intro n hn
      refine hposw n ?_
      rw [SearchNode.subtreeOfList]
      exact List.mem_append_right _ hn
    have hrelrest : ∀ c ∈ rest, ¬ c.stats.weightSum < minWeight →
        c.getNNOutput.isSome = true → rel ≠ 0 :=
      fun c hc => hrel c (List.mem_cons_of_mem _ hc)
    by_cases hw : child.stats.weightSum < minWeight
    · simp only [if_pos hw]
      exact traverseChildren_total E accumulate minWeight hmin hE rest hrest hrestw rel
        hrelrest dfc actual init
    · simp only [if_neg hw]
      have hg : ¬ (rel = 0 ∧ child.getNNOutput.isSome = true) :=
        fun hg0 => hrel child (List.mem_cons_self _ _) hw hg0.2 hg0.1
      rw [if_neg hg]
      have hchild : ∀ n ∈ child.subtree, ∀ o, n.getNNOutput = some o →
          o.whiteOwnerMap ≠ none := by
        intro n hn
        refine hmaps n ?_
        rw [SearchNode.subtreeOfList]
        exact List.mem_append_left _ hn
      have hchildw : ∀ n ∈ child.subtree, ∀ c ∈ n.getChildren,
          minWeight ≤ c.stats.weightSum → c.getNNOutput ≠ none → 0 < c.stats.weightSum := by
        intro n hn
        refine hposw n ?_
        rw [SearchNode.subtreeOfList]
        exact List.mem_append_left _ hn
      obtain ⟨r, hr⟩ := traverse_total E accumulate minWeight hmin hE child hchild hchildw
        (child.stats.weightSum * child.stats.weightSum / rel * dfc) init
      simp only [hr]
      exact traverseChildren_total E accumulate minWeight hmin hE rest hrest hrestw rel
        hrelrest dfc _ _

end

/-- Replaying recorded calls into the record appends them. -/
theorem foldl_logAccumulate (log init : List ((Nat → ℚ) × ℚ)) :
    log.foldl (fun a e => Search.logAccumulate a e.1 e.2) init = init ++ log := by
  induction log generalizing init with
  | nil => simp
  | cons e t ih =>
    rw [List.foldl_cons, ih, Search.logAccumulate, List.append_assoc]
    rfl

/-- The traversal with any `accumulate` is `selfWeightLog` followed by the recorded calls
of `accumulate`. -/
theorem traverse_eq_selfWeightLog {σ : Type} (E : Externs)
    (accumulate : σ → (Nat → ℚ) → ℚ → σ) (minWeight desiredWeight : ℚ) (node : SearchNode)
    (init : σ) :
    Search.traverseTreeWithOwnershipAndSelfWeight E accumulate minWeight desiredWeight node init
      = (Search.selfWeightLog E minWeight desiredWeight node).map
          (fun r => (r.1, r.2.foldl (fun a e => accumulate a e.1 e.2) init)) := by
  obtain ⟨res, hres⟩ := traverse_calls E minWeight node desiredWeight
  have hlog : Search.selfWeightLog E minWeight desiredWeight node = res := by
    unfold Search.selfWeightLog
    rw [hres]
    cases res with
    | none => rfl
    | some r =>
      simp only [Option.map_some', foldl_logAccumulate, List.nil_append]
  rw [hlog]
  exact hres σ accumulate init

/-- The vector after replaying recorded calls of the `accumulate` of
`getAverageTreeOwnership`: each cell gets the sum of the self weights times the maps. -/
theorem foldl_accumulateOwnership (s : Search) (log : List ((Nat → ℚ) × ℚ)) (pos : Nat)
    (hpos : pos < s.nnXLen * s.nnYLen) :
    ∀ vec : Nat → ℚ,
      (log.foldl (fun a e => Search.accumulateOwnership s a e.1 e.2) vec) pos
        = vec pos + (log.map (fun e => e.2 * e.1 pos)).sum := by
  induction log with
  | nil => intro vec; simp
  | cons e t ih =>
    intro vec
    rw [List.foldl_cons, ih]
    simp only [Search.accumulateOwnership, if_pos hpos, List.map_cons, List.sum_cons, add_assoc]

/-- A sum with weights that are not negative lies between `lo` and `hi` times the sum of
the weights when every value lies between `lo` and `hi`. -/
theorem weighted_sum_bounds (log : List ((Nat → ℚ) × ℚ)) (pos : Nat) (lo hi : ℚ)
    (hw : ∀ e ∈ log, 0 ≤ e.2) (hb : ∀ e ∈ log, lo ≤ e.1 pos ∧ e.1 pos ≤ hi) :
    lo * (log.map (fun e => e.2)).sum ≤ (log.map (fun e => e.2 * e.1 pos)).sum ∧
      (log.map (fun e => e.2 * e.1 pos)).sum ≤ hi * (log.map (fun e => e.2)).sum := by
  induction log with
  | nil => simp
  | cons e t ih =>
    obtain ⟨i1, i2⟩ := ih (fun x hx => hw x (List.mem_cons_of_mem _ hx))
      (fun x hx => hb x (List.mem_cons_of_mem _ hx))
    have h0 := hw e (List.mem_cons_self _ _)
    obtain ⟨b1, b2⟩ := hb e (List.mem_cons_self _ _)
    simp only [List.map_cons, List.sum_cons]
    constructor
    · nlinarith
    · nlinarith

/-- C26, as stated, fails: the root `Example.rootOfUnweighted` has an NN output and one
child, which has an NN output and the weight 0. With `minWeight = 0` the child is used:
`relativeChildrenWeightSum = 0*0 = 0` and `usedChildrenWeightSum = 0` (lines 1579-1586),
`desiredWeightFromChildren = 1*0/(0+1) = 0` (line 1588), and the desired weight of the
child is `0*0/0*0` (line 1598), the quotient 0.0/0.0, which is not a number. The child's
traversal passes that to `accumulate` as its self weight and returns it, so the self
weight of the root, 1 less the returned weight, is not a number either: the self weights
are not non-negative numbers that sum to 1, and `getAverageTreeOwnership` has no
numerical result. -/
theorem traverseTreeWithOwnershipAndSelfWeight_partition_counterexample :
    Example.rootOfUnweighted.getNNOutput.isSome = true ∧
    Example.rootOfUnweighted.getChildren.map
        (fun c => (c.stats.weightSum, c.getNNOutput.isSome, c.getChildren.length))
      = [(0, true, 0)] ∧
    Search.childrenWeightSums 0 Example.rootOfUnweighted.getChildren = (0, 0) ∧
    (Search.selfWeightLog Example.externs 0 1 Example.rootOfUnweighted).isSome = false ∧
    (Search.getAverageTreeOwnership Example.externs
        (Example.search Example.rootOfUnweighted true) 0 none).cell 0
      = Search.Outcome.aborted := by
  decide!

/-- C26, amended: the ownership self weights partition the desired weight whenever no
quotient of the traversal divides by 0.0 for a child with an NN output. For
`minWeight >= 0`, positive NN weights, a desired weight that is not negative and a node
with NN output: the traversal with any `accumulate` makes the calls recorded by
`selfWeightLog`; when it has a result, it returns the desired weight, the recorded self
weights are not negative and sum to the desired weight, every recorded map is the
ownership map of a node of the tree, and the last call is for the node itself with the
desired weight less the weights handed back by the children (nothing for a child below
`minWeight` or without NN output, so such a child leaves its share with the parent); the
traversal has a result when every NN output of the tree carries an ownership map and
every child with an NN output whose weight reaches `minWeight` has a positive weight,
which is so for every tree when `minWeight > 0`; and every cell of the map returned by
`getAverageTreeOwnership` is the sum of the self weights times the recorded maps, which
lies between any two bounds of that cell over the recorded maps. -/
theorem traverseTreeWithOwnershipAndSelfWeight_partition (E : Externs)
    (minWeight desiredWeight : ℚ) (node : SearchNode) (nnOutput : NNOutput)
    (hmin : 0 ≤ minWeight) (hE : ∀ o, 0 < E.computeWeightFromNNOutput o)
    (hD : 0 ≤ desiredWeight) (hnn : node.getNNOutput = some nnOutput) :
    (∀ (σ : Type) (accumulate : σ → (Nat → ℚ) → ℚ → σ) (init : σ),
      Search.traverseTreeWithOwnershipAndSelfWeight E accumulate minWeight desiredWeight node
        init
        = (Search.selfWeightLog E minWeight desiredWeight node).map
            (fun r => (r.1, r.2.foldl (fun a e => accumulate a e.1 e.2) init))) ∧
    (∀ (w : ℚ) (log : List ((Nat → ℚ) × ℚ)),
      Search.selfWeightLog E minWeight desiredWeight node = some (w, log) →
      w = desiredWeight ∧ (∀ e ∈ log, 0 ≤ e.2) ∧
      (log.map (fun e => e.2)).sum = desiredWeight ∧
      (∀ e ∈ log, ∃ n ∈ node.subtree, ∃ o,
        n.getNNOutput = some o ∧ o.whiteOwnerMap = some e.1) ∧
      ∃ m pre, nnOutput.whiteOwnerMap = some m ∧
        log = pre ++ [(m, desiredWeight - (node.getChildren.map
          (Search.childShare minWeight (Search.relativeChildrenWeightSumOf minWeight node)
            (Search.desiredWeightFromChildrenOf E minWeight desiredWeight node nnOutput))).sum)]) ∧
    ((∀ n ∈ node.subtree, ∀ o, n.getNNOutput = some o → o.whiteOwnerMap ≠ none) →
      (∀ n ∈ node.subtree, ∀ c ∈ n.getChildren, minWeight ≤ c.stats.weightSum →
        c.getNNOutput ≠ none → 0 < c.stats.weightSum) →
      ∃ log, Search.selfWeightLog E minWeight desiredWeight node = some (desiredWeight, log)) ∧
    ((∀ n ∈ node.subtree, ∀ o, n.getNNOutput = some o → o.whiteOwnerMap ≠ none) →
      0 < minWeight →
      ∃ log, Search.selfWeightLog E minWeight desiredWeight node = some (desiredWeight, log)) ∧
    (∀ (s : Search) (vec : Nat → ℚ),
      Search.getAverageTreeOwnership E s minWeight (some node) = Search.Outcome.ok vec →
      ∃ log, Search.selfWeightLog E minWeight 1 node = some (1, log) ∧
        (∀ e ∈ log, 0 ≤ e.2) ∧ (log.map (fun e => e.2)).sum = 1 ∧
        ∀ pos, pos < s.nnXLen * s.nnYLen →
          vec pos = (log.map (fun e => e.2 * e.1 pos)).sum ∧
          ∀ lo hi : ℚ, (∀ e ∈ log, lo ≤ e.1 pos ∧ e.1 pos ≤ hi) →
            lo ≤ vec pos ∧ vec pos ≤ hi) := by
  have hpart : ∀ (D w : ℚ) (log : List ((Nat → ℚ) × ℚ)), 0 ≤ D →
      Search.selfWeightLog E minWeight D node = some (w, log) →
      w = D ∧ (∀ e ∈ log, 0 ≤ e.2) ∧ (log.map (fun e => e.2)).sum = D ∧
      (∀ e ∈ log, ∃ n ∈ node.subtree, ∃ o,
        n.getNNOutput = some o ∧ o.whiteOwnerMap = some e.1) ∧
      ∃ m pre, nnOutput.whiteOwnerMap = some m ∧
        log = pre ++ [(m, D - (node.getChildren.map
          (Search.childShare minWeight (Search.relativeChildrenWeightSumOf minWeight node)
            (Search.desiredWeightFromChildrenOf E minWeight D node nnOutput))).sum)] := by
    intro D w log hD0 hlog
    obtain ⟨added, h1, h2, h3, h4, _, h6⟩ :=
      traverse_log E minWeight hmin hE node D hD0 [] w log hlog
    rw [List.nil_append] at h1
    subst h1
    obtain ⟨hw, m, pre, hm, hpre⟩ := h6 nnOutput hnn
    exact ⟨hw, h2, hw ▸ h3, h4, m, pre, hm, hpre⟩
  have htotal : (∀ n ∈ node.subtree, ∀ o, n.getNNOutput = some o → o.whiteOwnerMap ≠ none) →
      (∀ n ∈ node.subtree, ∀ c ∈ n.getChildren, minWeight ≤ c.stats.weightSum →
        c.getNNOutput ≠ none → 0 < c.stats.weightSum) →
      ∃ log, Search.selfWeightLog E minWeight desiredWeight node
        = some (desiredWeight, log) := by
    intro hmaps hposw
    obtain ⟨r, hr⟩ := traverse_total E Search.logAccumulate minWeight hmin hE node hmaps
      hposw desiredWeight []
    obtain ⟨w, log⟩ := r
    have hw := (hpart desiredWeight w log hD hr).1
    subst hw
    exact ⟨log, hr⟩
  refine ⟨fun σ accumulate init =>
      traverse_eq_selfWeightLog E accumulate minWeight desiredWeight node init,
    fun w log hlog => hpart desiredWeight w log hD hlog, htotal, ?_, ?_⟩
  · intro hmaps hpos
    exact htotal hmaps (fun n _ c _ hc _ => lt_of_lt_of_le hpos hc)
  · intro s vec hvec
    unfold Search.getAverageTreeOwnership at hvec
    simp only at hvec
    split_ifs at hvec with hflag
    rw [traverse_eq_selfWeightLog] at hvec
    cases hlog : Search.selfWeightLog E minWeight 1 node with
    | none =>
      rw [hlog] at hvec
      simp at hvec
    | some r =>
      obtain ⟨w, log⟩ := r
      rw [hlog] at hvec
      simp only [Option.map_some', Search.Outcome.ok.injEq] at hvec
      obtain ⟨hw, hnonneg, hsum, _, _⟩ := hpart 1 w log zero_le_one hlog
      subst hw
      refine ⟨log, rfl, hnonneg, hsum, fun pos hpos => ?_⟩
      have hcell : vec pos = (log.map (fun e => e.2 * e.1 pos)).sum := by
        rw [← hvec, foldl_accumulateOwnership s log pos hpos, zero_add]
      refine ⟨hcell, fun lo hi hb => ?_⟩
      obtain ⟨b1, b2⟩ := weighted_sum_bounds log pos lo hi hnonneg hb
      rw [hsum, mul_one] at b1 b2
      rw [hcell]
      exact ⟨b1, b2⟩

/-- The self weights of the tree `Example.root2` (root weight 1, children of weights 3 and
1) for the desired weight 1: 18/25 and 2/25 for the children, 1/5 for the root. -/
theorem traverseTreeWithOwnershipAndSelfWeight_partition_witness :
    (Search.selfWeightLog Example.externs 0 1 Example.root2).map
        (fun r => (r.1, r.2.map (fun e => e.2)))
      = some (1, [18 / 25, 2 / 25, 1 / 5]) ∧
    ∀ (w : ℚ) (log : List ((Nat → ℚ) × ℚ)),
      Search.selfWeightLog Example.externs 0 1 Example.root2 = some (w, log) →
      w = 1 ∧ (∀ e ∈ log, 0 ≤ e.2) ∧ (log.map (fun e => e.2)).sum = 1 :=
  ⟨by decide!, fun w log h =>
    ⟨((traverseTreeWithOwnershipAndSelfWeight_partition Example.externs 0 1 Example.root2
        (Example.nnOutput 1) (le_refl 0) (fun _ => zero_lt_one) zero_le_one rfl).2.1
        w log h).1,
      ((traverseTreeWithOwnershipAndSelfWeight_partition Example.externs 0 1 Example.root2
        (Example.nnOutput 1) (le_refl 0) (fun _ => zero_lt_one) zero_le_one rfl).2.1
        w log h).2.1,
      ((traverseTreeWithOwnershipAndSelfWeight_partition Example.externs 0 1 Example.root2
        (Example.nnOutput 1) (le_refl 0) (fun _ => zero_lt_one) zero_le_one rfl).2.1
        w log h).2.2.1⟩⟩


/-! ### `NNPos`: positions and locations -/

/-- The position of an on-board cell splits back into its coordinates (truncating `%` and
`/`) and lies below the pass position. -/
theorem xyToPos_split (x y bx by_ nnXLen nnYLen : Int) (hx0 : 0 ≤ x) (hx : x < bx)
    (hy0 : 0 ≤ y) (hy : y < by_) (hbx : bx ≤ nnXLen) (hby : by_ ≤ nnYLen) :
    Int.tmod (y * nnXLen + x) nnXLen = x ∧ Int.tdiv (y * nnXLen + x) nnXLen = y ∧
      0 ≤ y * nnXLen + x ∧ y * nnXLen + x < nnXLen * nnYLen := by
  have hn : 0 < nnXLen := by omega
  have hpos : 0 ≤ y * nnXLen + x := by nlinarith
  have hlt : y * nnXLen + x < nnXLen * nnYLen := by nlinarith
  refine ⟨?_, ?_, hpos, hlt⟩
  · rw [Int.tmod_eq_emod hpos (le_of_lt hn), add_comm, Int.add_mul_emod_self]
    exact Int.emod_eq_of_lt hx0 (by omega)
  · rw [Int.tdiv_eq_ediv hpos (le_of_lt hn), add_comm, Int.add_mul_ediv_right _ _ (ne_of_gt hn),
      Int.ediv_eq_zero_of_lt hx0 (by omega), zero_add]

/-- C31: `NNPos::posToLoc` undoes `NNPos::locToPos`. For a board of positive width `bx`
and height `by` inside the net (`bx <= nnXLen`, `by <= nnYLen`): the round trip returns
`loc` for `PASS_LOC`, for `NULL_LOC` and for every on-board location; the position of an
on-board cell is `y * nnXLen + x`, below the pass position `nnXLen * nnYLen` and so distinct
from it; and every position other than the pass position that is not the position of an
on-board cell maps to `NULL_LOC`. -/
theorem posToLoc_locToPos (L : LocEncoding) (hL : L.Valid) (bx by_ nnXLen nnYLen : Int)
    (hbx0 : 0 < bx) (hbx : bx ≤ nnXLen) (hby : by_ ≤ nnYLen) :
    NNPos.posToLoc L (NNPos.locToPos L L.PASS_LOC bx nnXLen nnYLen) bx by_ nnXLen nnYLen
      = L.PASS_LOC ∧
    NNPos.posToLoc L (NNPos.locToPos L L.NULL_LOC bx nnXLen nnYLen) bx by_ nnXLen nnYLen
      = L.NULL_LOC ∧
    (∀ x y : Int, 0 ≤ x → x < bx → 0 ≤ y → y < by_ →
      NNPos.locToPos L (L.getLoc x y bx) bx nnXLen nnYLen = NNPos.xyToPos x y nnXLen ∧
      NNPos.xyToPos x y nnXLen < NNPos.getPassPos nnXLen nnYLen ∧
      NNPos.posToLoc L (NNPos.locToPos L (L.getLoc x y bx) bx nnXLen nnYLen) bx by_ nnXLen
        nnYLen = L.getLoc x y bx) ∧
    (∀ pos : Int, pos ≠ NNPos.getPassPos nnXLen nnYLen →
      (¬ ∃ x y : Int, 0 ≤ x ∧ x < bx ∧ 0 ≤ y ∧ y < by_ ∧ pos = NNPos.xyToPos x y nnXLen) →
      NNPos.posToLoc L pos bx by_ nnXLen nnYLen = L.NULL_LOC) := by
  have hn : 0 < nnXLen := by omega
  refine ⟨?_, ?_, ?_, ?_⟩
  · unfold NNPos.locToPos NNPos.posToLoc
    rw [if_pos rfl, if_pos rfl]
  · unfold NNPos.locToPos
    by_cases hpn : L.NULL_LOC = L.PASS_LOC
    · rw [if_pos hpn]
      unfold NNPos.posToLoc
      rw [if_pos rfl, hpn]
    · rw [if_neg hpn, if_pos rfl]
      unfold NNPos.posToLoc
      have hne : nnXLen * (nnYLen + 1) ≠ nnXLen * nnYLen := by
        intro h
        have : nnXLen * (nnYLen + 1) = nnXLen * nnYLen + nnXLen := by ring
        omega
      rw [if_neg hne]
      simp only
      have hy : Int.tdiv (nnXLen * (nnYLen + 1)) nnXLen = nnYLen + 1 := by
        rw [mul_comm]
        exact Int.mul_tdiv_cancel _ (ne_of_gt hn)
      rw [hy]
      exact if_pos (Or.inr (Or.inr (Or.inr (by omega))))
  · intro x y hx0 hx hy0 hy
    obtain ⟨hm, hd, hp0, hplt⟩ := xyToPos_split x y bx by_ nnXLen nnYLen hx0 hx hy0 hy hbx hby
    have hloc : NNPos.locToPos L (L.getLoc x y bx) bx nnXLen nnYLen
        = NNPos.xyToPos x y nnXLen := by
      unfold NNPos.locToPos NNPos.xyToPos
      rw [if_neg (hL.ne_pass x y bx hx0 hx hy0), if_neg (hL.ne_null x y bx hx0 hx hy0),
        hL.getX_getLoc x y bx hx0 hx hy0, hL.getY_getLoc x y bx hx0 hx hy0]
    refine ⟨hloc, hplt, ?_⟩
    rw [hloc]
    unfold NNPos.posToLoc NNPos.xyToPos
    rw [if_neg (ne_of_lt hplt)]
    simp only
    rw [hm, hd]
    exact if_neg (by omega)
  · intro pos hpass hnot
    unfold NNPos.getPassPos at hpass
    unfold NNPos.posToLoc
    rw [if_neg hpass]
    simp only
    by_contra hne
    have hin : ¬ (Int.tmod pos nnXLen < 0 ∨ Int.tmod pos nnXLen ≥ bx ∨ Int.tdiv pos nnXLen < 0
        ∨ Int.tdiv pos nnXLen ≥ by_) := by
      intro hc
      exact hne (if_pos hc)
    apply hnot
    refine ⟨Int.tmod pos nnXLen, Int.tdiv pos nnXLen, by omega, by omega, by omega, by omega, ?_⟩
    unfold NNPos.xyToPos
    have := Int.tmod_add_tdiv pos nnXLen
    linarith [mul_comm nnXLen (Int.tdiv pos nnXLen)]

/-- The round trip of C31 on a 2x2 board inside a 3x3 net, with the locations of
`borderedLoc`: the cell (1,1) is the location 8 and the position 4; the null location
goes to the position 12 and back. -/
theorem posToLoc_locToPos_witness :
    NNPos.locToPos borderedLoc 8 2 3 3 = 4 ∧ NNPos.posToLoc borderedLoc 4 2 2 3 3 = 8 ∧
    NNPos.locToPos borderedLoc borderedLoc.NULL_LOC 2 3 3 = 12 ∧
    NNPos.posToLoc borderedLoc (NNPos.locToPos borderedLoc borderedLoc.NULL_LOC 2 3 3) 2 2 3 3
      = borderedLoc.NULL_LOC :=
  ⟨by decide, by decide, by decide,
    (posToLoc_locToPos borderedLoc borderedLoc_valid 2 2 3 3 (by decide) (by decide)
      (by decide)).2.1⟩


/-! ### The effective sample size in `getSelfUtilityLCBAndRadius` -/

/-- C39: the bounds assertion in `ScoreValue::initTables` always holds. For every mean
radius `R` and stdev length `L`, `minSVSteps = -(10R + 5 + 50L)` and
`maxSVSteps = -minSVSteps`; for every `meanIdx` in `[0, 2R)`, `stdevIdx` in `[0, L)` and
integration step `i` in `[-50, 50]` the index `xSteps = (meanIdx - R)*10 - 5 + stdevIdx*i`
lies within `[minSVSteps, maxSVSteps]`, so the step of the integration does not fail from
any state; hence every entry is computed and `initTables` returns the table. -/
theorem initTables_assert_holds (M : Libm) (D : SVTableDims) :
    ScoreValue.minSVSteps D = -(10 * D.svTableMeanRadius + 5 + 50 * D.svTableStdevLen) ∧
    ScoreValue.maxSVSteps D = 10 * D.svTableMeanRadius + 5 + 50 * D.svTableStdevLen ∧
    (∀ meanIdx stdevIdx i : Int, 0 ≤ meanIdx → meanIdx < 2 * D.svTableMeanRadius →
      0 ≤ stdevIdx → stdevIdx < D.svTableStdevLen → -50 ≤ i → i ≤ 50 →
      (ScoreValue.minSVSteps D ≤ (meanIdx - D.svTableMeanRadius) * 10 - 5 + stdevIdx * i ∧
        (meanIdx - D.svTableMeanRadius) * 10 - 5 + stdevIdx * i ≤ ScoreValue.maxSVSteps D) ∧
      (∀ sums : ℚ × ℚ,
        (ScoreValue.integrateStep M D
          ((meanIdx - D.svTableMeanRadius) * ScoreValue.stepsPerUnit
            - ScoreValue.stepsPerUnit / 2) stdevIdx (some sums) i).isSome = true) ∧
      (ScoreValue.tableEntry M D meanIdx stdevIdx).isSome = true) ∧
    ∃ table, ScoreValue.initTables M D = some table := by
  have e1 : ScoreValue.stepsPerUnit = 10 := rfl
  have e2 : ScoreValue.boundStdevs = 5 := rfl
  have hmin : ScoreValue.minSVSteps D
      = -(10 * D.svTableMeanRadius + 5 + 50 * D.svTableStdevLen) := by
    unfold ScoreValue.minSVSteps
    rw [e1, e2]
    omega
  have hmax : ScoreValue.maxSVSteps D
      = 10 * D.svTableMeanRadius + 5 + 50 * D.svTableStdevLen := by
    unfold ScoreValue.maxSVSteps
    rw [hmin]
    omega
  refine ⟨hmin, hmax, ?_, ?_⟩
  · intro meanIdx stdevIdx i hm0 hm hs0 hs hi0 hi1
    have hlen : meanIdx < ScoreValue.svTableMeanLen D := by
      unfold ScoreValue.svTableMeanLen
      omega
    have hmem : i ∈ ScoreValue.intRange ScoreValue.minStdevSteps ScoreValue.maxStdevSteps := by
      rw [mem_intRange]
      have : ScoreValue.minStdevSteps = -50 := rfl
      have : ScoreValue.maxStdevSteps = 50 := rfl
      omega
    have hb := xSteps_in_bounds D meanIdx stdevIdx i hm0 hlen hs0 hs hmem
    have hb2 : ScoreValue.minSVSteps D ≤ (meanIdx - D.svTableMeanRadius) * 10 - 5 + stdevIdx * i ∧
        (meanIdx - D.svTableMeanRadius) * 10 - 5 + stdevIdx * i ≤ ScoreValue.maxSVSteps D := by
      rw [e1] at hb
      exact hb
    refine ⟨hb2, ?_, (tableEntry_spec M D meanIdx stdevIdx hm0 hlen hs0 hs).1⟩
    intro sums
    unfold ScoreValue.integrateStep
    simp only
    rw [if_pos ⟨hb.1, hb.2⟩]
    rfl
  · obtain ⟨table, ht, _⟩ := initTables_spec M D
    exact ⟨table, ht⟩

/-- The bounds of C39 for the dimensions `Example.dims` (`R = L = 2`): the steps run from
-125 to 125, and the index for the mean bucket 3 and the stdev bucket 1 at `i = 50` is 55. -/
theorem initTables_assert_holds_witness :
    ScoreValue.minSVSteps Example.dims = -125 ∧ ScoreValue.maxSVSteps Example.dims = 125 ∧
    ((3 : Int) - Example.dims.svTableMeanRadius) * 10 - 5 + 1 * 50 = 55 ∧
    (ScoreValue.minSVSteps Example.dims
        ≤ ((3 : Int) - Example.dims.svTableMeanRadius) * 10 - 5 + 1 * 50 ∧
      ((3 : Int) - Example.dims.svTableMeanRadius) * 10 - 5 + 1 * 50
        ≤ ScoreValue.maxSVSteps Example.dims) :=
  ⟨by decide, by decide, by decide,
    ((initTables_assert_holds Example.libm Example.dims).2.2.1 3 1 50 (by decide) (by decide)
      (by decide) (by decide) (by decide) (by decide)).1⟩


/-! ### The entries of the score-value table -/

/-- A weighted sum with positive weights of values strictly between -1 and 1 lies strictly
between minus the sum of the weights and the sum of the weights. -/
theorem weighted_sum_strict (w f : Int → ℚ) (l : List Int) (hne : l ≠ [])
    (hw : ∀ i ∈ l, 0 < w i) (hf : ∀ i ∈ l, -1 < f i ∧ f i < 1) :
    -(l.map w).sum < (l.map (fun i => w i * f i)).sum ∧
      (l.map (fun i => w i * f i)).sum < (l.map w).sum := by
  induction l with
  | nil => exact absurd rfl hne
  | cons a t ih =>
    have hwa := hw a (List.mem_cons_self _ _)
    obtain ⟨f1, f2⟩ := hf a (List.mem_cons_self _ _)
    simp only [List.map_cons, List.sum_cons]
    by_cases ht : t = []
    · subst ht
      simp only [List.map_nil, List.sum_nil, add_zero]
      constructor <;> nlinarith
    · obtain ⟨i1, i2⟩ := ih ht (fun i hi => hw i (List.mem_cons_of_mem _ hi))
        (fun i hi => hf i (List.mem_cons_of_mem _ hi))
      constructor <;> nlinarith

/-- Every entry computed by the integration lies strictly between -1 and 1 when `exp` is
positive and the smooth utility does. -/
theorem tableEntry_bounds (M : Libm) (D : SVTableDims) (hexp : ∀ x, 0 < M.exp x)
    (hatan : ∀ x, -1 < M.atan x * ScoreValue.twoOverPi ∧ M.atan x * ScoreValue.twoOverPi < 1)
    (meanIdx stdevIdx : Int) (hm0 : 0 ≤ meanIdx) (hm : meanIdx < ScoreValue.svTableMeanLen D)
    (hs0 : 0 ≤ stdevIdx) (hs : stdevIdx < D.svTableStdevLen) :
    ∃ v, ScoreValue.tableEntry M D meanIdx stdevIdx = some v ∧ -1 < v ∧ v < 1 := by
  have hfold := integrate_fold M D
    ((meanIdx - D.svTableMeanRadius) * ScoreValue.stepsPerUnit - ScoreValue.stepsPerUnit / 2)
    stdevIdx (ScoreValue.intRange ScoreValue.minStdevSteps ScoreValue.maxStdevSteps)
    (fun i hi => xSteps_in_bounds D meanIdx stdevIdx i hm0 hm hs0 hs hi) 0 0
  unfold ScoreValue.tableEntry
  simp only
  rw [hfold]
  simp only [Option.map_some', zero_add]
  have hne : ScoreValue.intRange ScoreValue.minStdevSteps ScoreValue.maxStdevSteps ≠ [] := by
    intro h
    have : (0 : Int) ∈ ScoreValue.intRange ScoreValue.minStdevSteps
        ScoreValue.maxStdevSteps := by
      rw [mem_intRange]
      decide
    rw [h] at this
    exact absurd this (List.not_mem_nil _)
  obtain ⟨b1, b2⟩ := weighted_sum_strict (ScoreValue.normalPDF M)
    (fun i => ScoreValue.svPrecomp M D
      ((meanIdx - D.svTableMeanRadius) * ScoreValue.stepsPerUnit - ScoreValue.stepsPerUnit / 2
        + stdevIdx * i))
    (ScoreValue.intRange ScoreValue.minStdevSteps ScoreValue.maxStdevSteps) hne
    (fun i _ => hexp _) (fun i _ => hatan _)
  have hW : 0 < ((ScoreValue.intRange ScoreValue.minStdevSteps ScoreValue.maxStdevSteps).map
      (ScoreValue.normalPDF M)).sum := by
    apply list_sum_pos _ _
    · intro x hx
      rw [List.mem_map] at hx
      obtain ⟨i, _, rfl⟩ := hx
      exact hexp _
    · intro h
      exact hne (List.map_eq_nil_iff.mp h)
  refine ⟨_, rfl, ?_, ?_⟩
  · rw [lt_div_iff₀ hW]
    linarith
  · rw [div_lt_iff₀ hW]
    linarith

/-- The lookup at `stdev = 0` for a mean inside the bucket domain: the interpolation
between the entries at stdev bucket 0 of the two mean buckets around the scaled mean. -/
theorem lookup_stdev_zero (D : SVTableDims) (hR : 0 < D.svTableMeanRadius)
    (hL : 0 < D.svTableStdevLen) (table : Int → ℚ) (mean center scale sqrtBoardArea : ℚ)
    (hlo : 0 ≤ cround (ScoreValue.meanScaledOf D mean center scale sqrtBoardArea)
      + D.svTableMeanRadius)
    (hhi : cround (ScoreValue.meanScaledOf D mean center scale sqrtBoardArea)
      + D.svTableMeanRadius + 1 < ScoreValue.svTableMeanLen D) :
    ScoreValue.expectedWhiteScoreValue D table mean 0 center scale sqrtBoardArea
      = some (table ((cround (ScoreValue.meanScaledOf D mean center scale sqrtBoardArea)
              + D.svTableMeanRadius) * D.svTableStdevLen + 0)
          + (ScoreValue.meanScaledOf D mean center scale sqrtBoardArea
              - (cround (ScoreValue.meanScaledOf D mean center scale sqrtBoardArea) : ℚ) + 1 / 2)
            * (table ((cround (ScoreValue.meanScaledOf D mean center scale sqrtBoardArea)
                  + D.svTableMeanRadius + 1) * D.svTableStdevLen + 0)
              - table ((cround (ScoreValue.meanScaledOf D mean center scale sqrtBoardArea)
                  + D.svTableMeanRadius) * D.svTableStdevLen + 0))) := by
  obtain ⟨_, _, _, hmb⟩ := meanBuckets_spec D hR
    (ScoreValue.meanScaledOf D mean center scale sqrtBoardArea)
  have hmb := hmb hlo hhi
  have hsb : ∃ j1 : Int, ScoreValue.stdevBuckets D 0 = some (0, j1) := by
    unfold ScoreValue.stdevBuckets
    simp only [Int.floor_zero]
    rw [if_neg (by omega)]
    by_cases h : (0 : Int) + 1 ≥ D.svTableStdevLen
    · rw [if_pos h]
      have : D.svTableStdevLen - 1 = 0 := by omega
      rw [this]
      exact ⟨0, rfl⟩
    · rw [if_neg h]
      exact ⟨_, rfl⟩
  obtain ⟨j1, hj1⟩ := hsb
  have hms : (mean - center) * ((D.svTableAssumedBSize : ℚ) / (scale * sqrtBoardArea))
      = ScoreValue.meanScaledOf D mean center scale sqrtBoardArea := rfl
  unfold ScoreValue.expectedWhiteScoreValue
  simp only [zero_mul, hms, hj1, hmb, Int.floor_zero, Int.cast_zero, sub_zero, add_zero]

/-- The stand-in `atan` of `Example.libm` keeps the smooth utility strictly between -1
and 1. -/
theorem Example.libm_atan_bounds (x : ℚ) :
    -1 < Example.libm.atan x * ScoreValue.twoOverPi ∧
      Example.libm.atan x * ScoreValue.twoOverPi < 1 := by
  have hpi0 : (0 : ℚ) < ScoreValue.twoOverPi := by
    unfold ScoreValue.twoOverPi
    norm_num
  have hpi1 : ScoreValue.twoOverPi < 1 := by
    unfold ScoreValue.twoOverPi
    norm_num
  have hx : 0 < 1 + |x| := by positivity
  have h1 : -1 < x / (1 + |x|) := by
    rw [lt_div_iff₀ hx]
    rcases abs_cases x with ⟨h1, _⟩ | ⟨h1, _⟩ <;> rw [h1] <;> linarith
  have h2 : x / (1 + |x|) < 1 := by
    rw [div_lt_iff₀ hx]
    rcases abs_cases x with ⟨h1, _⟩ | ⟨h1, _⟩ <;> rw [h1] <;> linarith
  show -1 < x / (1 + |x|) * ScoreValue.twoOverPi ∧ x / (1 + |x|) * ScoreValue.twoOverPi < 1
  constructor <;> nlinarith

/-! ### Shape and sign of the returned selection values -/

/-- Before the fallback and the normalization there is one visit count per child. -/
theorem selectionStateBeforeFallback_visits (E : Externs) (L : LocEncoding) (s : Search)
    (node : SearchNode) (isRootNode always never : Bool) (st2 : Search.PSVState)
    (h : Search.selectionStateBeforeFallback E L s node isRootNode always never = some st2) :
    st2.retVisitCounts.length = node.getChildren.length := by
  unfold Search.selectionStateBeforeFallback at h
  simp only [storeWeights_fold, List.nil_append] at h
  split at h
  · simp at h
  · rename_i st1 hst1
    have h1 : st1.retVisitCounts.length = node.getChildren.length := by
      split_ifs at hst1 with hc
      · rw [Option.map_eq_some'] at hst1
        obtain ⟨values, _, rfl⟩ := hst1
        simp
      · simp only [Option.some.injEq] at hst1
        rw [← hst1]
        simp
    split_ifs at h with hl
    · obtain ⟨_, e2, _⟩ := lcbStage_spec _ _ _ _ _ _ h
      rw [e2]
      exact h1
    · simp only [Option.some.injEq] at h
      rw [← h]
      exact h1

/-- The fallback pushes a location and a value together. -/
theorem policyFallback_lengths (E : Externs) (L : LocEncoding) (s : Search)
    (nnOutput : NNOutput) (st st3 : Search.PSVState)
    (h : Search.policyFallback E L s nnOutput st = some st3)
    (hlen : st.locs.length = st.playSelectionValues.length) :
    st3.locs.length = st3.playSelectionValues.length := by
  unfold Search.policyFallback at h
  split at h
  · simp at h
  · rename_i st1 h1
    have e1 := policyFallback_fold E L s nnOutput true _ st st1 h1
    have hlen1 : st1.locs.length = st1.playSelectionValues.length := by
      rw [e1]
      simp [hlen]
    split_ifs at h with h0
    · have e2 := policyFallback_fold E L s nnOutput false _ st1 st3 h
      rw [e2]
      simp [hlen1]
    · simp only [Option.some.injEq] at h
      rw [← h]
      exact hlen1

/-- When the normalization returns true every returned value is non-negative, whatever
`chosenMoveSubtract`, `chosenMovePrune` and the floor `scaleMaxToAtLeast` are. -/
theorem normalizeValues_nonneg (cs cp scale : ℚ) (values r : List ℚ)
    (h : Search.normalizeValues cs cp scale values = some (true, r)) : ∀ v ∈ r, 0 ≤ v := by
  unfold Search.normalizeValues at h
  simp only at h
  set M := values.foldl (fun m v => if v > m then v else m) 0 with hM
  have hclamp : ∀ v : ℚ, 0 ≤ (if v < min cp (M / 64) then (0 : ℚ)
      else if v - min cs (M / 64) ≤ 0 then 0 else v - min cs (M / 64)) := by
    intro v
    split_ifs with h1 h2
    · exact le_refl 0
    · exact le_refl 0
    · exact le_of_lt (not_le.mp h2)
  split_ifs at h with h1 h2 h3 h4
  · simp at h
  · simp only [Option.some.injEq, Prod.mk.injEq, true_and] at h
    rw [← h]
    intro v hv
    simp only [List.mem_map] at hv
    obtain ⟨a, ⟨b, _, rfl⟩, rfl⟩ := hv
    have hpos : 0 < M - min cs (M / 64) := h3
    have hsc : 0 < scale := lt_trans hpos h4
    exact mul_nonneg (hclamp b) (le_of_lt (div_pos hsc hpos))
  · simp only [Option.some.injEq, Prod.mk.injEq, true_and] at h
    rw [← h]
    intro v hv
    simp only [List.mem_map] at hv
    obtain ⟨b, _, rfl⟩ := hv
    exact hclamp b

/-- C33: whenever `getPlaySelectionValues` returns true, `locs` and `playSelectionValues`
have the same length, for a node with children `retVisitCounts` has that length too (the
number of children), and every returned selection value is non-negative, for every value
of `chosenMoveSubtract`, `chosenMovePrune` and the floor `scaleMaxToAtLeast`. -/
theorem getPlaySelectionValues_true_shape (E : Externs) (L : LocEncoding) (s : Search)
    (node : SearchNode) (isRootNode : Bool) (scaleMaxToAtLeast : ℚ)
    (allowDirectPolicyMoves alwaysComputeLcb neverUseLcb : Bool) (out : Search.PSVState)
    (h : Search.getPlaySelectionValues E L s node isRootNode scaleMaxToAtLeast
      allowDirectPolicyMoves alwaysComputeLcb neverUseLcb = some (true, out)) :
    out.locs.length = out.playSelectionValues.length ∧
    (node.getChildren ≠ [] →
      out.retVisitCounts.length = out.playSelectionValues.length ∧
      out.playSelectionValues.length = node.getChildren.length) ∧
    (∀ v ∈ out.playSelectionValues, 0 ≤ v) := by
  obtain ⟨values, hnorm⟩ := getPlaySelectionValues_true_normalized E L s node isRootNode
    scaleMaxToAtLeast allowDirectPolicyMoves alwaysComputeLcb neverUseLcb out h
  have hnonneg := normalizeValues_nonneg _ _ _ _ _ hnorm
  rw [getPlaySelectionValues_eq_stages] at h
  split at h
  · simp at h
  · rename_i st2 hst2
    obtain ⟨hlocs, hvals⟩ := selectionStateBeforeFallback_shape _ _ _ _ _ _ _ _ hst2
    have hvis := selectionStateBeforeFallback_visits _ _ _ _ _ _ _ _ hst2
    have hlen2 : st2.locs.length = st2.playSelectionValues.length := by
      rw [hlocs, List.length_map, hvals]
    by_cases h0 : node.getChildren.length = 0
    · rw [if_pos h0] at h
      have hnil : node.getChildren = [] := List.length_eq_zero.mp h0
      refine ⟨?_, fun hne => absurd hnil hne, hnonneg⟩
      split at h
      · simp at h
      · split_ifs at h
        · simp at h
        · split at h
          · simp at h
          · rename_i st3 hst3
            have hlen3 := policyFallback_lengths E L s _ st2 st3 hst3 hlen2
            rw [normalizeStage_locs _ _ _ _ _ h, normalizeStage_length _ _ _ _ _ h]
            exact hlen3
    · rw [if_neg h0] at h
      have hl := normalizeStage_locs _ _ _ _ _ h
      have hv := normalizeStage_length _ _ _ _ _ h
      have hr : out.retVisitCounts = st2.retVisitCounts := by
        unfold Search.normalizeStage at h
        split_ifs at h with hz
        · simp only [Option.some.injEq, Prod.mk.injEq] at h
          rw [← h.2]
        · split at h
          · simp at h
          · simp only [Option.some.injEq, Prod.mk.injEq] at h
            rw [← h.2]
      refine ⟨by rw [hl, hv]; exact hlen2, fun _ => ⟨?_, ?_⟩, hnonneg⟩
      · rw [hr, hv, hvis, hvals]
      · rw [hv, hvals]

/-- The shape of C33 on the root `Example.root3` with the floor 200: three locations, three
values and three visit counts, the values non-negative. -/
theorem getPlaySelectionValues_true_shape_witness :
    Search.getPlaySelectionValues Example.externs borderedLoc
        (Example.search Example.rootOnly true) Example.root3 false 200 true false false
      = some (true, ⟨[4, 5, 7], [200, 100, 20], [100, 50, 10], [], []⟩) ∧
    ([4, 5, 7] : List Int).length = ([200, 100, 20] : List ℚ).length ∧
    ∀ v ∈ ([200, 100, 20] : List ℚ), 0 ≤ v :=
  ⟨by decide!,
    (getPlaySelectionValues_true_shape Example.externs borderedLoc
      (Example.search Example.rootOnly true) Example.root3 false 200 true false false
      ⟨[4, 5, 7], [200, 100, 20], [100, 50, 10], [], []⟩ (by decide!)).1,
    (getPlaySelectionValues_true_shape Example.externs borderedLoc
      (Example.search Example.rootOnly true) Example.root3 false 200 true false false
      ⟨[4, 5, 7], [200, 100, 20], [100, 50, 10], [], []⟩ (by decide!)).2.2⟩


/-! ### The normalization preserves the order of the values -/

/-- The prune, subtract and clamp of lines 258-266 on one value. -/
theorem clampStep_mono (sub prune a b : ℚ) (hab : a ≤ b) :
    (if a < prune then (0 : ℚ) else if a - sub ≤ 0 then 0 else a - sub)
      ≤ (if b < prune then (0 : ℚ) else if b - sub ≤ 0 then 0 else b - sub) := by
  by_cases hb : b < prune
  · rw [if_pos hb, if_pos (lt_of_le_of_lt hab hb)]
  · rw [if_neg hb]
    have hb0 : (0 : ℚ) ≤ (if b - sub ≤ 0 then 0 else b - sub) := by
      split_ifs with h
      · exact le_refl 0
      · exact le_of_lt (not_le.mp h)
    by_cases ha : a < prune
    · rw [if_pos ha]
      exact hb0
    · rw [if_neg ha]
      by_cases ha2 : a - sub ≤ 0
      · rw [if_pos ha2]
        exact hb0
      · rw [if_neg ha2, if_neg (by linarith)]
        linarith

/-- C34: the normalization of `getPlaySelectionValues` (prune, subtract, clamp at zero,
rescale) preserves the order of the values. Whenever the stage returns, an entry that is
at most another entry before the stage is at most it afterwards; and when it returns true
(the stage has run), an entry that was a maximum before is a maximum afterwards and is
strictly positive. This holds for every `chosenMoveSubtract` and `chosenMovePrune`, in
particular for non-negative ones. -/
theorem normalizeValues_order (cs cp scale : ℚ) (values r : List ℚ) (b : Bool)
    (h : Search.normalizeValues cs cp scale values = some (b, r)) :
    (∀ (i j : Nat) (vi vj ri rj : ℚ), values[i]? = some vi → values[j]? = some vj →
      r[i]? = some ri → r[j]? = some rj → vi ≤ vj → ri ≤ rj) ∧
    (b = true → ∀ (i : Nat) (vi ri : ℚ), values[i]? = some vi → r[i]? = some ri →
      (∀ v ∈ values, v ≤ vi) → 0 < ri ∧ ∀ v ∈ r, v ≤ ri) := by
  have hlen := normalizeValues_length cs cp scale values r b h
  have hmono : ∀ (i j : Nat) (vi vj ri rj : ℚ), values[i]? = some vi → values[j]? = some vj →
      r[i]? = some ri → r[j]? = some rj → vi ≤ vj → ri ≤ rj := by
    unfold Search.normalizeValues at h
    simp only at h
    set M := values.foldl (fun m v => if v > m then v else m) 0 with hM
    intro i j vi vj ri rj hvi hvj hri hrj hle
    split_ifs at h with h1 h2 h3 h4
    · simp only [Option.some.injEq, Prod.mk.injEq] at h
      rw [← h.2, hvi] at hri
      rw [← h.2, hvj] at hrj
      rw [← Option.some.inj hri, ← Option.some.inj hrj]
      exact hle
    · simp only [Option.some.injEq, Prod.mk.injEq] at h
      rw [← h.2, List.getElem?_map, List.getElem?_map, hvi] at hri
      rw [← h.2, List.getElem?_map, List.getElem?_map, hvj] at hrj
      simp only [Option.map_some', Option.some.injEq] at hri hrj
      rw [← hri, ← hrj]
      have hpos : 0 < M - min cs (M / 64) := h3
      have hsc : 0 < scale := lt_trans hpos h4
      exact mul_le_mul_of_nonneg_right (clampStep_mono _ _ vi vj hle)
        (le_of_lt (div_pos hsc hpos))
    · simp only [Option.some.injEq, Prod.mk.injEq] at h
      rw [← h.2, List.getElem?_map, hvi] at hri
      rw [← h.2, List.getElem?_map, hvj] at hrj
      simp only [Option.map_some', Option.some.injEq] at hri hrj
      rw [← hri, ← hrj]
      exact clampStep_mono _ _ vi vj hle
  refine ⟨hmono, ?_⟩
  intro hb i vi ri hvi hri hmax
  subst hb
  have hmaxr : ∀ v ∈ r, v ≤ ri := by
    intro v hv
    obtain ⟨j, hj⟩ := List.getElem?_of_mem hv
    have hjlt : j < values.length := by
      rw [← hlen]
      rcases Nat.lt_or_ge j r.length with hlt | hge
      · exact hlt
      · rw [List.getElem?_eq_none hge] at hj
        simp at hj
    have hvj : values[j]? = some values[j] := List.getElem?_eq_getElem hjlt
    exact hmono j i _ vi v ri hvj hvi hj hri (hmax _ (List.getElem_mem _))
  refine ⟨?_, hmaxr⟩
  obtain ⟨m, hm, hmge, hmpos, _⟩ := normalizeValues_max cs cp scale values r h
  exact lt_of_lt_of_le hmpos (hmaxr m hm)

/-- The normalization of the values 100, 50, 10 with `chosenMoveSubtract = 1`,
`chosenMovePrune = 20` and the floor 200: the order 10 <= 50 <= 100 is kept and the maximum
becomes 200. -/
theorem normalizeValues_order_witness :
    Search.normalizeValues 1 20 200 [100, 50, 10] = some (true, [200, 9800 / 99, 1800 / 99]) ∧
    ∀ (i j : Nat) (vi vj ri rj : ℚ), ([100, 50, 10] : List ℚ)[i]? = some vi →
      ([100, 50, 10] : List ℚ)[j]? = some vj →
      ([200, 9800 / 99, 1800 / 99] : List ℚ)[i]? = some ri →
      ([200, 9800 / 99, 1800 / 99] : List ℚ)[j]? = some rj → vi ≤ vj → ri ≤ rj :=
  ⟨by decide!,
    (normalizeValues_order 1 20 200 [100, 50, 10] [200, 9800 / 99, 1800 / 99] true
      (by decide!)).1⟩


/-! ### The LCB boost is bounded -/

/-- The radius factor of line 186 lies in `[1, 5]` for a non-negative radius and a
non-negative excess value that are not both zero. -/
theorem radiusFactor_bounds (r e : ℚ) (hr : 0 ≤ r) (he : 0 ≤ e) (hne : ¬ (r = 0 ∧ e = 0)) :
    1 ≤ (r + e) / (r + (1 / 5 : ℚ) * e) ∧ (r + e) / (r + (1 / 5 : ℚ) * e) ≤ 5 := by
  have hpos : 0 < r + (1 / 5 : ℚ) * e := by
    rcases eq_or_lt_of_le hr with h | h
    · rcases eq_or_lt_of_le he with h2 | h2
      · exact absurd ⟨h.symm, h2.symm⟩ hne
      · linarith
    · linarith
  constructor
  · rw [le_div_iff₀ hpos]
    linarith
  · rw [div_le_iff₀ hpos]
    linarith

/-- The square of the radius factor is at most 25 for a non-negative radius and excess. -/
theorem radiusFactor_sq_le (r e : ℚ) (hr : 0 ≤ r) (he : 0 ≤ e) :
    0 ≤ (r + e) / (r + (1 / 5 : ℚ) * e) * ((r + e) / (r + (1 / 5 : ℚ) * e)) ∧
      (r + e) / (r + (1 / 5 : ℚ) * e) * ((r + e) / (r + (1 / 5 : ℚ) * e)) ≤ 25 := by
  refine ⟨mul_self_nonneg _, ?_⟩
  by_cases hne : r = 0 ∧ e = 0
  · rw [hne.1, hne.2]
    norm_num
  · obtain ⟨h1, h5⟩ := radiusFactor_bounds r e hr he hne
    nlinarith

/-- A fold whose step keeps the accumulator at or below `M` ends at or below `M`. -/
theorem foldl_step_le {α : Type} (f : ℚ → α → ℚ) (M : ℚ) (l : List α)
    (hstep : ∀ a, ∀ x ∈ l, a ≤ M → f a x ≤ M) : ∀ init : ℚ, init ≤ M → l.foldl f init ≤ M := by
  induction l with
  | nil => intro init h; exact h
  | cons x xs ih =>
    intro init h
    exact ih (fun a y hy => hstep a y (List.mem_cons_of_mem _ hy)) _
      (hstep init x (List.mem_cons_self _ _) h)

/-- The adjusted weight of lines 176-197 is at most any bound of the best child's own
value and of 25 times the value of every other child, for non-negative radii and values. -/
theorem lcbAdjustedWeight_le (bestLcb : ℚ) (b : Nat) (lb rb vs : List ℚ) (M : ℚ)
    (hrb : ∀ r ∈ rb, 0 ≤ r) (hvs : ∀ v ∈ vs, 0 ≤ v) (hown : vs.getD b 0 ≤ M)
    (hothers : ∀ (i : Nat) (v : ℚ), i ≠ b → vs[i]? = some v → 25 * v ≤ M) :
    Search.lcbAdjustedWeight bestLcb b lb rb vs ≤ M := by
  unfold Search.lcbAdjustedWeight
  apply foldl_step_le _ M _ _ _ hown
  rintro a ⟨i, l, r, v⟩ hx ha
  rw [List.mk_mem_enum_iff_getElem?, List.getElem?_zip_eq_some,
    List.getElem?_zip_eq_some] at hx
  obtain ⟨_, hr, hv⟩ := hx
  have hr0 := hrb r (List.getElem?_mem hr)
  have hv0 := hvs v (List.getElem?_mem hv)
  simp only
  by_cases hib : i ≠ b
  · rw [if_pos hib]
    by_cases he : bestLcb - l < 0
    · rw [if_pos he]
      exact ha
    · rw [if_neg he]
      split_ifs with h3
      · obtain ⟨_, h25⟩ := radiusFactor_sq_le r (bestLcb - l) hr0 (not_lt.mp he)
        have := hothers i v hib hv
        nlinarith
      · exact ha
  · rw [if_neg hib]
    exact ha

/-- C35: the LCB boost is bounded. For every non-negative radius and non-negative excess
value, not both zero, the radius factor `(radius + excess) / (radius + 0.20*excess)` lies
in `[1, 5]`. And when `getSelfUtilityLCBAndRadius` gives a non-negative radius for every
child and the selection values entering the LCB stage are not negative, every value after
the stage is at most any bound of its own previous value and of 25 times the previous
value of every other child: the boosted child's value never exceeds the larger of its own
previous value and 25 times the largest other child's value. (When a radius and the
excess are both zero the quotient is 0/0, which is 0 here, inside the bound as well.) -/
theorem lcbStage_boost_bounded (E : Externs) (s : Search) (node : SearchNode)
    (mostWeightedChildWeight : ℚ) (st out : Search.PSVState)
    (h : Search.lcbStage E s node mostWeightedChildWeight st = some out)
    (hrad : ∀ c ∈ node.getChildren, 0 ≤ Search.radiusOf E s node c)
    (hvs : ∀ v ∈ st.playSelectionValues, 0 ≤ v) :
    (∀ r e : ℚ, 0 ≤ r → 0 ≤ e → ¬ (r = 0 ∧ e = 0) →
      1 ≤ (r + e) / (r + (1 / 5 : ℚ) * e) ∧ (r + e) / (r + (1 / 5 : ℚ) * e) ≤ 5) ∧
    (∀ (i : Nat) (w a M : ℚ), st.playSelectionValues[i]? = some w →
      out.playSelectionValues[i]? = some a → w ≤ M →
      (∀ (j : Nat) (v : ℚ), j ≠ i → st.playSelectionValues[j]? = some v → 25 * v ≤ M) →
      a ≤ M) := by
  refine ⟨radiusFactor_bounds, ?_⟩
  intro i w a M hw ha hwM hothers
  obtain ⟨r, hr, hout⟩ := lcbStage_some E s node mostWeightedChildWeight st out h
  obtain ⟨_, f2, _, _, _⟩ := lcbLoop_fold E s node mostWeightedChildWeight _ _ _ _ _ r hr
  simp only [List.nil_append] at f2
  have hrb : ∀ x ∈ r.2.1, 0 ≤ x := by
    intro x hx
    rw [f2, List.mem_map] at hx
    obtain ⟨y, hy, rfl⟩ := hx
    obtain ⟨hc, _⟩ := (mem_enum_zip_iff _ _ _).mp hy
    exact hrad _ (List.getElem?_mem hc)
  by_cases hcond : s.searchParams.useLcbForSelection = true ∧ st.playSelectionValues.length > 0
      ∧ (if s.searchParams.useNonBuggyLcb = true then r.2.2.2 ≥ 0 else r.2.2.2 > 0)
  · rw [if_pos hcond] at hout
    subst hout
    simp only at ha
    by_cases hib : r.2.2.2.toNat = i
    · have hlt : i < st.playSelectionValues.length := by
        rcases Nat.lt_or_ge i st.playSelectionValues.length with hlt | hge
        · exact hlt
        · rw [List.getElem?_eq_none hge] at hw
          simp at hw
      rw [hib, List.getElem?_set_self hlt, Option.some.injEq] at ha
      rw [← ha]
      apply lcbAdjustedWeight_le _ _ _ _ _ M hrb hvs
      · rw [List.getD_eq_getElem?_getD, hw]
        exact hwM
      · exact hothers
    · rw [List.getElem?_set_ne hib, hw, Option.some.injEq] at ha
      rw [← ha]
      exact hwM
  · rw [if_neg hcond] at hout
    subst hout
    simp only at ha
    rw [hw, Option.some.injEq] at ha
    rw [← ha]
    exact hwM

/-- The bound of C35 at `Example.lcbParentFirst`: the first child (value 20) is raised to
about 185.95, which is below 25 times the value 100 of the other child. -/
theorem lcbStage_boost_bounded_witness :
    (Search.lcbStage Example.externs (Example.searchWith Example.paramsLcb Example.rootOnly)
        Example.lcbParentFirst 100 ⟨[4, 5], [20, 100], [20, 100], [], []⟩).map
        (fun out => out.playSelectionValues)
      = some [562499999775000000022500 / 3025000000110000000001, 100] ∧
    (562499999775000000022500 / 3025000000110000000001 : ℚ) ≤ 2500 :=
  ⟨by decide!,
    (lcbStage_boost_bounded Example.externs
      (Example.searchWith Example.paramsLcb Example.rootOnly) Example.lcbParentFirst 100
      ⟨[4, 5], [20, 100], [20, 100], [], []⟩
      ⟨[4, 5], [562499999775000000022500 / 3025000000110000000001, 100], [20, 100],
        [-1000000001 / 2000000000, -10000000001 / 10000000000],
        [2000000001 / 2000000000, 10000000001 / 10000000000]⟩
      (by decide!) (by decide!) (by decide!)).2 0 20
      (562499999775000000022500 / 3025000000110000000001) 2500 (by decide!) (by decide!)
      (by decide!)
      (fun j v hj hv => by
        have hj1 : j = 1 ∨ 2 ≤ j := by omega
        rcases hj1 with rfl | hj2
        · simp at hv
          rw [← hv]
          norm_num
        · rw [List.getElem?_eq_none (by simpa using hj2)] at hv
          simp at hv)⟩


/-! ### Records of moves without usable statistics -/

/-- `appendPV` on a null node appends nothing. -/
theorem appendPV_null (E : Externs) (L : LocEncoding) (s : Search) (P : ℚ)
    (buf visitsBuf : List Int) (isRootNode : Bool) (maxDepth : Int) :
    Search.appendPV E L s P buf visitsBuf none isRootNode maxDepth = some (buf, visitsBuf) :=
  rfl

/-- The win-loss value after the two clamps of lines 864-867 lies in `[-1, 1]`. -/
theorem clampedWinLoss_bounds (x : ℚ) :
    -1 ≤ (if (if x < -1 then (-1 : ℚ) else x) > 1 then (1 : ℚ) else (if x < -1 then -1 else x)) ∧
      (if (if x < -1 then (-1 : ℚ) else x) > 1 then (1 : ℚ) else (if x < -1 then -1 else x))
        ≤ 1 := by
  by_cases h1 : x < -1
  · simp only [if_pos h1]
    norm_num
  · simp only [if_neg h1]
    by_cases h2 : x > 1
    · simp only [if_pos h2]
      norm_num
    · simp only [if_neg h2]
      exact ⟨not_lt.mp h1, not_lt.mp h2⟩

/-- The record before its principal variation, for a move with no usable statistics. -/
theorem singleChildData_no_stats (A : AnalysisExterns) (s : Search)
    (child : Option SearchNode) (move : Int)
    (policyProb fpuValue parentUtility parentWinLossValue parentScoreMean parentScoreStdev
      parentLead : ℚ)
    (hif : (Search.childStatsOrZero child).visits ≤ 0 ∨
      (Search.childStatsOrZero child).weightSum ≤ 1 / 10 ^ 30 ∨
      (Search.childStatsOrZero child).weightSqSum ≤ 1 / 10 ^ 60) :
    (Search.singleChildData A s child move policyProb fpuValue parentUtility
        parentWinLossValue parentScoreMean parentScoreStdev parentLead).utility = fpuValue ∧
    (Search.singleChildData A s child move policyProb fpuValue parentUtility
        parentWinLossValue parentScoreMean parentScoreStdev parentLead).resultUtility
      + (Search.singleChildData A s child move policyProb fpuValue parentUtility
        parentWinLossValue parentScoreMean parentScoreStdev parentLead).scoreUtility
      = (Search.singleChildData A s child move policyProb fpuValue parentUtility
        parentWinLossValue parentScoreMean parentScoreStdev parentLead).utility ∧
    (Search.singleChildData A s child move policyProb fpuValue parentUtility
        parentWinLossValue parentScoreMean parentScoreStdev parentLead).scoreMean
      = parentScoreMean ∧
    (Search.singleChildData A s child move policyProb fpuValue parentUtility
        parentWinLossValue parentScoreMean parentScoreStdev parentLead).scoreStdev
      = parentScoreStdev ∧
    (Search.singleChildData A s child move policyProb fpuValue parentUtility
        parentWinLossValue parentScoreMean parentScoreStdev parentLead).lead = parentLead ∧
    (Search.singleChildData A s child move policyProb fpuValue parentUtility
        parentWinLossValue parentScoreMean parentScoreStdev parentLead).ess = 0 ∧
    (Search.singleChildData A s child move policyProb fpuValue parentUtility
        parentWinLossValue parentScoreMean parentScoreStdev parentLead).weightSum = 0 ∧
    (Search.singleChildData A s child move policyProb fpuValue parentUtility
        parentWinLossValue parentScoreMean parentScoreStdev parentLead).weightSqSum = 0 ∧
    -1 ≤ (Search.singleChildData A s child move policyProb fpuValue parentUtility
        parentWinLossValue parentScoreMean parentScoreStdev parentLead).winLossValue ∧
    (Search.singleChildData A s child move policyProb fpuValue parentUtility
        parentWinLossValue parentScoreMean parentScoreStdev parentLead).winLossValue ≤ 1 ∧
    (Search.singleChildData A s child move policyProb fpuValue parentUtility
        parentWinLossValue parentScoreMean parentScoreStdev parentLead).move = move ∧
    (Search.singleChildData A s child move policyProb fpuValue parentUtility
        parentWinLossValue parentScoreMean parentScoreStdev parentLead).policyPrior
      = policyProb := by
  unfold Search.singleChildData
  simp only [if_pos hif]
  refine ⟨trivial, ?_, trivial, trivial, trivial, trivial, trivial, trivial, ?_, ?_, trivial,
    trivial⟩
  · ring
  · exact (clampedWinLoss_bounds _).1
  · exact (clampedWinLoss_bounds _).2

/-- C36: the record that `Search::getAnalysisDataOfSingleChild` builds for a move with no
usable statistics (no child, or `numVisits <= 0`, `weightSum <= 1e-30` or
`weightSqSum <= 1e-60`). Every returned record has `utility = fpuValue` with
`resultUtility + scoreUtility = utility`, the score mean, the score stdev and the lead of
the parent, `ess = weightSum = weightSqSum = 0`, a `winLossValue` in `[-1, 1]`, the given
move and policy prior; and for a null child the call returns, with zero visits. -/
theorem getAnalysisDataOfSingleChild_no_stats (E : Externs) (A : AnalysisExterns)
    (L : LocEncoding) (s : Search) (child : Option SearchNode) (isRootNode : Bool) (move : Int)
    (policyProb fpuValue parentUtility parentWinLossValue parentScoreMean parentScoreStdev
      parentLead : ℚ) (maxPVDepth : Int) :
    ((child = none ∨ ∃ c, child = some c ∧
        (c.stats.visits ≤ 0 ∨ c.stats.weightSum ≤ 1 / 10 ^ 30
          ∨ c.stats.weightSqSum ≤ 1 / 10 ^ 60)) →
      ∀ data, Search.getAnalysisDataOfSingleChild E A L s child isRootNode move policyProb
          fpuValue parentUtility parentWinLossValue parentScoreMean parentScoreStdev parentLead
          maxPVDepth = some data →
        data.utility = fpuValue ∧ data.resultUtility + data.scoreUtility = data.utility ∧
        data.scoreMean = parentScoreMean ∧ data.scoreStdev = parentScoreStdev ∧
        data.lead = parentLead ∧ data.ess = 0 ∧ data.weightSum = 0 ∧ data.weightSqSum = 0 ∧
        -1 ≤ data.winLossValue ∧ data.winLossValue ≤ 1 ∧
        data.move = move ∧ data.policyPrior = policyProb) ∧
    (child = none →
      ∃ data, Search.getAnalysisDataOfSingleChild E A L s child isRootNode move policyProb
          fpuValue parentUtility parentWinLossValue parentScoreMean parentScoreStdev parentLead
          maxPVDepth = some data ∧ data.numVisits = 0 ∧ data.node = none) := by
  constructor
  · intro hcond data hdata
    have hif : (Search.childStatsOrZero child).visits ≤ 0 ∨
        (Search.childStatsOrZero child).weightSum ≤ 1 / 10 ^ 30 ∨
        (Search.childStatsOrZero child).weightSqSum ≤ 1 / 10 ^ 60 := by
      rcases hcond with rfl | ⟨c, rfl, hc⟩
      · exact Or.inl (le_refl 0)
      · exact hc
    have hrec := singleChildData_no_stats A s child move policyProb fpuValue parentUtility
      parentWinLossValue parentScoreMean parentScoreStdev parentLead hif
    unfold Search.getAnalysisDataOfSingleChild at hdata
    simp only at hdata
    split at hdata
    · simp at hdata
    · rename_i pv pvVisits hpv
      simp only [Option.some.injEq] at hdata
      subst hdata
      exact hrec
  · intro hnone
    subst hnone
    exact ⟨_, rfl, rfl, rfl⟩

/-- The record of C36 for the move 7 without child, with `fpuValue = 3/2`, parent utility
1/5, parent win-loss 1/10 and parent score mean 2: utility 3/2 = 13/10 + 1/5, and the
win-loss value 1/10 + 13/10 is clamped to 1. -/
theorem getAnalysisDataOfSingleChild_no_stats_witness :
    (Search.getAnalysisDataOfSingleChild Example.externs Example.analysisExterns borderedLoc
        (Example.search Example.pvRoot true) none false 7 (1 / 4) (3 / 2) (1 / 5) (1 / 10) 2 3 4
        5).map (fun d => d.resultUtility) = some (13 / 10) ∧
    (Search.getAnalysisDataOfSingleChild Example.externs Example.analysisExterns borderedLoc
        (Example.search Example.pvRoot true) none false 7 (1 / 4) (3 / 2) (1 / 5) (1 / 10) 2 3 4
        5).map (fun d => d.scoreUtility) = some (1 / 5) ∧
    (Search.getAnalysisDataOfSingleChild Example.externs Example.analysisExterns borderedLoc
        (Example.search Example.pvRoot true) none false 7 (1 / 4) (3 / 2) (1 / 5) (1 / 10) 2 3 4
        5).map (fun d => d.winLossValue) = some 1 ∧
    ∃ data, Search.getAnalysisDataOfSingleChild Example.externs Example.analysisExterns
        borderedLoc (Example.search Example.pvRoot true) none false 7 (1 / 4) (3 / 2) (1 / 5)
        (1 / 10) 2 3 4 5 = some data ∧ data.numVisits = 0 ∧ data.node = none ∧
      data.utility = 3 / 2 ∧ data.resultUtility + data.scoreUtility = data.utility ∧
      data.scoreMean = 2 ∧ data.scoreStdev = 3 ∧ data.lead = 4 ∧ data.ess = 0 ∧
      data.weightSum = 0 ∧ data.weightSqSum = 0 ∧ -1 ≤ data.winLossValue ∧
      data.winLossValue ≤ 1 ∧ data.move = 7 ∧ data.policyPrior = 1 / 4 :=
  ⟨by decide!, by decide!, by decide!,
    (getAnalysisDataOfSingleChild_no_stats Example.externs Example.analysisExterns borderedLoc
      (Example.search Example.pvRoot true) none false 7 (1 / 4) (3 / 2) (1 / 5) (1 / 10) 2 3 4
      5).2 rfl |>.elim fun data hd =>
        ⟨data, hd.1, hd.2.1, hd.2.2,
          (getAnalysisDataOfSingleChild_no_stats Example.externs Example.analysisExterns
            borderedLoc (Example.search Example.pvRoot true) none false 7 (1 / 4) (3 / 2)
            (1 / 5) (1 / 10) 2 3 4 5).1 (Or.inl rfl) data hd.1⟩⟩

/-! ### C38: the principal variation of a record -/

/-- The buffers returned by `appendPV` extend the given ones by the moves and the visits of
one chain of at most `maxDepth` nodes. -/
theorem appendPV_shape (E : Externs) (L : LocEncoding) (s : Search) (P : ℚ)
    (buf visitsBuf : List Int) (node : Option SearchNode) (isRootNode : Bool) (maxDepth : Int)
    (pv pvVisits : List Int)
    (h : Search.appendPV E L s P buf visitsBuf node isRootNode maxDepth = some (pv, pvVisits)) :
    ∃ chain : List SearchNode, chain.length ≤ maxDepth.toNat ∧
      pv = buf ++ chain.map (fun c => c.prevMoveLoc) ∧
      pvVisits = visitsBuf ++ chain.map (fun c => c.stats.visits) := by
  unfold Search.appendPV Search.appendPVForMove at h
  cases node with
  | none =>
    simp only [Option.some.injEq, Prod.mk.injEq] at h
    exact ⟨[], Nat.zero_le _, by simp [h.1], by simp [h.2]⟩
  | some node =>
    simp only at h
    obtain ⟨chain, -, hlen, hres, -⟩ :=
      appendPVFrom_spec E L s P L.NULL_LOC maxDepth.toNat 0 node isRootNode (buf, visitsBuf)
    rcases hres with hres | ⟨hres, -⟩
    · rw [hres] at h
      simp only [Option.some.injEq, Prod.mk.injEq] at h
      exact ⟨chain, hlen, h.1.symm, h.2.symm⟩
    · rw [hres] at h
      simp at h

/-- The move and the number of visits of the record before its principal variation. -/
theorem singleChildData_move_visits (A : AnalysisExterns) (s : Search)
    (child : Option SearchNode) (move : Int)
    (policyProb fpuValue parentUtility parentWinLossValue parentScoreMean parentScoreStdev
      parentLead : ℚ) :
    (Search.singleChildData A s child move policyProb fpuValue parentUtility
        parentWinLossValue parentScoreMean parentScoreStdev parentLead).move = move ∧
    (Search.singleChildData A s child move policyProb fpuValue parentUtility
        parentWinLossValue parentScoreMean parentScoreStdev parentLead).numVisits
      = (Search.childStatsOrZero child).visits := by
  unfold Search.singleChildData
  simp only
  split_ifs <;> exact ⟨rfl, rfl⟩

/-- C38: every record built by `Search::getAnalysisDataOfSingleChild` has `pv` and
`pvVisits` of the same length, at least 1 and at most `max(maxPVDepth, 0) + 1` (that is
`maxPVDepth + 1` for a depth that is not negative); `pv[0]` is the move of the record and
`pvVisits[0]` its number of visits. Hence the condition of
`assert(data.pvVisits.size() >= pvLen)` in `getAnalysisJson` is true for the record and for
each of its symmetric copies, with `pvLen` the length of the `pv`, or the result of
`getPVLenUpToPhaseEnd` when that is at most the length of the `pv`. -/
theorem getAnalysisDataOfSingleChild_pv_shape (E : Externs) (A : AnalysisExterns)
    (L : LocEncoding) (s : Search) (child : Option SearchNode) (isRootNode : Bool) (move : Int)
    (policyProb fpuValue parentUtility parentWinLossValue parentScoreMean parentScoreStdev
      parentLead : ℚ) (maxPVDepth : Int) (data : AnalysisData)
    (h : Search.getAnalysisDataOfSingleChild E A L s child isRootNode move policyProb fpuValue
      parentUtility parentWinLossValue parentScoreMean parentScoreStdev parentLead maxPVDepth
      = some data) :
    data.pv.length = data.pvVisits.length ∧ 1 ≤ data.pv.length ∧
    data.pv.length ≤ maxPVDepth.toNat + 1 ∧
    (0 ≤ maxPVDepth → (data.pv.length : Int) ≤ maxPVDepth + 1) ∧
    data.pv.head? = some data.move ∧ data.pvVisits.head? = some data.numVisits ∧
    data.move = move ∧
    (∀ (preventEncore pvContainsPass : Bool) (pvLenUpToPhaseEnd : Int) (symmetry : Nat),
      pvLenUpToPhaseEnd ≤ (data.pv.length : Int) →
      Search.pvVisitsAssertion data
        (Search.jsonPVLen preventEncore pvContainsPass pvLenUpToPhaseEnd data) = true ∧
      Search.pvVisitsAssertion (Search.symmetricCopy L s data symmetry)
        (Search.jsonPVLen preventEncore pvContainsPass pvLenUpToPhaseEnd
          (Search.symmetricCopy L s data symmetry)) = true) := by
  unfold Search.getAnalysisDataOfSingleChild at h
  simp only at h
  split at h
  · simp at h
  · rename_i pv pvVisits hpv
    obtain ⟨chain, hlen, hpvEq, hvisEq⟩ := appendPV_shape E L s _ _ _ child isRootNode
      maxPVDepth pv pvVisits hpv
    simp only [Option.some.injEq] at h
    subst h
    have e1 : pv.length = chain.length + 1 := by
      rw [hpvEq]; simp
    have e2 : pvVisits.length = chain.length + 1 := by
      rw [hvisEq]; simp
    have hlenEq : pv.length = pvVisits.length := by rw [e1, e2]
    refine ⟨hlenEq, ?_, ?_, ?_, ?_, ?_, ?_, ?_⟩
    · show 1 ≤ pv.length
      omega
    · show pv.length ≤ maxPVDepth.toNat + 1
      omega
    · intro h0
      show (pv.length : Int) ≤ maxPVDepth + 1
      have := Int.toNat_of_nonneg h0
      omega
    · show pv.head? = some (Search.singleChildData A s child move policyProb fpuValue
        parentUtility parentWinLossValue parentScoreMean parentScoreStdev parentLead).move
      rw [(singleChildData_move_visits A s child move policyProb fpuValue parentUtility
        parentWinLossValue parentScoreMean parentScoreStdev parentLead).1, hpvEq]
      rfl
    · show pvVisits.head? = some (Search.singleChildData A s child move policyProb fpuValue
        parentUtility parentWinLossValue parentScoreMean parentScoreStdev parentLead).numVisits
      rw [(singleChildData_move_visits A s child move policyProb fpuValue parentUtility
        parentWinLossValue parentScoreMean parentScoreStdev parentLead).2, hvisEq]
      rfl
    · exact (singleChildData_move_visits A s child move policyProb fpuValue parentUtility
        parentWinLossValue parentScoreMean parentScoreStdev parentLead).1
    · intro preventEncore pvContainsPass pvLenUpToPhaseEnd symmetry hle
      have hle2 : pvLenUpToPhaseEnd ≤ (pv.length : Int) := hle
      constructor
      · unfold Search.pvVisitsAssertion Search.jsonPVLen
        simp only [decide_eq_true_eq]
        show (pvVisits.length : Int) ≥ if _ then _ else (pv.length : Int)
        split_ifs <;> omega
      · unfold Search.pvVisitsAssertion Search.jsonPVLen Search.symmetricCopy
        simp only [decide_eq_true_eq, List.length_map]
        show (pvVisits.length : Int) ≥ if _ then _ else (pv.length : Int)
        split_ifs <;> omega

/-- The record of C38 for the root of `Example.pvRoot` with `maxPVDepth = 5`: the pv is the
root move 0, then the moves 4 and 5, with the visits 151, 100 and 60. -/
theorem getAnalysisDataOfSingleChild_pv_shape_witness :
    (Search.getAnalysisDataOfSingleChild Example.externs Example.analysisExterns borderedLoc
        (Example.search Example.pvRoot true) (some Example.pvRoot) true 0 (1 / 4) (3 / 2)
        (1 / 5) (1 / 10) 2 3 4 5).map (fun d => (d.pv, d.pvVisits))
      = some ([0, 4, 5], [151, 100, 60]) ∧
    ∃ data, Search.getAnalysisDataOfSingleChild Example.externs Example.analysisExterns
        borderedLoc (Example.search Example.pvRoot true) (some Example.pvRoot) true 0 (1 / 4)
        (3 / 2) (1 / 5) (1 / 10) 2 3 4 5 = some data ∧
      data.pv.length = data.pvVisits.length ∧ 1 ≤ data.pv.length ∧
      data.pv.length ≤ (5 : Int).toNat + 1 ∧
      data.pv.head? = some data.move ∧ data.pvVisits.head? = some data.numVisits :=
  ⟨by decide!,
    (Option.isSome_iff_exists.mp
      (show (Search.getAnalysisDataOfSingleChild Example.externs Example.analysisExterns
        borderedLoc (Example.search Example.pvRoot true) (some Example.pvRoot) true 0 (1 / 4)
        (3 / 2) (1 / 5) (1 / 10) 2 3 4 5).isSome = true from by decide!)).elim fun data hd =>
      ⟨data, hd,
        (getAnalysisDataOfSingleChild_pv_shape Example.externs Example.analysisExterns
          borderedLoc (Example.search Example.pvRoot true) (some Example.pvRoot) true 0 (1 / 4)
          (3 / 2) (1 / 5) (1 / 10) 2 3 4 5 data hd).1,
        (getAnalysisDataOfSingleChild_pv_shape Example.externs Example.analysisExterns
          borderedLoc (Example.search Example.pvRoot true) (some Example.pvRoot) true 0 (1 / 4)
          (3 / 2) (1 / 5) (1 / 10) 2 3 4 5 data hd).2.1,
        (getAnalysisDataOfSingleChild_pv_shape Example.externs Example.analysisExterns
          borderedLoc (Example.search Example.pvRoot true) (some Example.pvRoot) true 0 (1 / 4)
          (3 / 2) (1 / 5) (1 / 10) 2 3 4 5 data hd).2.2.1,
        (getAnalysisDataOfSingleChild_pv_shape Example.externs Example.analysisExterns
          borderedLoc (Example.search Example.pvRoot true) (some Example.pvRoot) true 0 (1 / 4)
          (3 / 2) (1 / 5) (1 / 10) 2 3 4 5 data hd).2.2.2.2.1,
        (getAnalysisDataOfSingleChild_pv_shape Example.externs Example.analysisExterns
          borderedLoc (Example.search Example.pvRoot true) (some Example.pvRoot) true 0 (1 / 4)
          (3 / 2) (1 / 5) (1 / 10) 2 3 4 5 data hd).2.2.2.2.2.1⟩⟩

/-! ### C37: the records padded from the raw policy -/

/-- The flag `alreadyUsed` of the padding scan is false exactly for an unused position. -/
theorem alreadyUsed_false_iff (A : AnalysisExterns) (buf : List AnalysisData) (pos : Nat) :
    buf.any (fun d => decide (A.getPos d.move = (pos : Int))) = false
      ↔ Search.posUnused A buf pos := by
  unfold Search.posUnused
  rw [List.any_eq_false]
  constructor
  · intro h e he
    have := h e he
    simpa using this
  · intro h e he
    simpa using h e he

/-- The invariant of the scan for the best unused position, after the positions below `n`. -/
theorem findBestUnusedPos_scan (A : AnalysisExterns) (policyProbs : Nat → ℚ)
    (buf : List AnalysisData) (n : Nat) :
    (((List.range n).foldl
        (fun (best : Int × ℚ) (pos : Nat) =>
          if policyProbs pos < best.2 then best
          else
            let alreadyUsed : Bool := buf.any (fun d => decide (A.getPos d.move = (pos : Int)))
            if alreadyUsed then best
            else ((pos : Int), policyProbs pos))
        (-1, -1) = (-1, -1)) ∨
      ∃ p : Nat, p < n ∧ Search.posUnused A buf p ∧
        (List.range n).foldl
          (fun (best : Int × ℚ) (pos : Nat) =>
            if policyProbs pos < best.2 then best
            else
              let alreadyUsed : Bool :=
                buf.any (fun d => decide (A.getPos d.move = (pos : Int)))
              if alreadyUsed then best
              else ((pos : Int), policyProbs pos))
          (-1, -1) = ((p : Int), policyProbs p)) ∧
    ∀ q, q < n → Search.posUnused A buf q →
      policyProbs q ≤ ((List.range n).foldl
        (fun (best : Int × ℚ) (pos : Nat) =>
          if policyProbs pos < best.2 then best
          else
            let alreadyUsed : Bool := buf.any (fun d => decide (A.getPos d.move = (pos : Int)))
            if alreadyUsed then best
            else ((pos : Int), policyProbs pos))
        (-1, -1)).2 := by
  induction n with
  | zero =>
    refine ⟨Or.inl rfl, fun q hq => absurd hq (Nat.not_lt_zero q)⟩
  | succ n ih =>
    rw [List.range_succ, List.foldl_append]
    generalize (List.range n).foldl
        (fun (best : Int × ℚ) (pos : Nat) =>
          if policyProbs pos < best.2 then best
          else
            let alreadyUsed : Bool := buf.any (fun d => decide (A.getPos d.move = (pos : Int)))
            if alreadyUsed then best
            else ((pos : Int), policyProbs pos))
        (-1, -1) = best at ih ⊢
    obtain ⟨ih1, ih2⟩ := ih
    simp only [List.foldl_cons, List.foldl_nil]
    by_cases hlt : policyProbs n < best.2
    · rw [if_pos hlt]
      refine ⟨?_, ?_⟩
      · rcases ih1 with h | ⟨p, hp, hu, he⟩
        · exact Or.inl h
        · exact Or.inr ⟨p, Nat.lt_succ_of_lt hp, hu, he⟩
      · intro q hq hu
        rcases Nat.lt_succ_iff_lt_or_eq.mp hq with h | h
        · exact ih2 q h hu
        · subst h
          exact le_of_lt hlt
    · rw [if_neg hlt]
      cases hused : buf.any (fun d => decide (A.getPos d.move = (n : Int))) with
      | true =>
        simp only [if_true]
        refine ⟨?_, ?_⟩
        · rcases ih1 with h | ⟨p, hp, hu, he⟩
          · exact Or.inl h
          · exact Or.inr ⟨p, Nat.lt_succ_of_lt hp, hu, he⟩
        · intro q hq hu
          rcases Nat.lt_succ_iff_lt_or_eq.mp hq with h | h
          · exact ih2 q h hu
          · subst h
            have := (alreadyUsed_false_iff A buf q).mpr hu
            rw [hused] at this
            exact absurd this (by decide)
      | false =>
        simp only [Bool.false_eq_true, if_false]
        refine ⟨Or.inr ⟨n, Nat.lt_succ_self n, (alreadyUsed_false_iff A buf n).mp hused, rfl⟩,
          ?_⟩
        intro q hq hu
        rcases Nat.lt_succ_iff_lt_or_eq.mp hq with h | h
        · exact le_trans (ih2 q h hu) (not_lt.mp hlt)
        · subst h
          exact le_refl _

/-- The result of the scan of lines 1042-1060: the initial `(-1, -1)` or an unused position
with its policy, and no unused position has a greater policy than `bestPolicy`. -/
theorem findBestUnusedPos_spec (A : AnalysisExterns) (policyProbs : Nat → ℚ)
    (buf : List AnalysisData) :
    (Search.findBestUnusedPos A policyProbs buf = (-1, -1) ∨
      ∃ p : Nat, p < A.MAX_NN_POLICY_SIZE ∧ Search.posUnused A buf p ∧
        Search.findBestUnusedPos A policyProbs buf = ((p : Int), policyProbs p)) ∧
    ∀ q, q < A.MAX_NN_POLICY_SIZE → Search.posUnused A buf q →
      policyProbs q ≤ (Search.findBestUnusedPos A policyProbs buf).2 :=
  findBestUnusedPos_scan A policyProbs buf A.MAX_NN_POLICY_SIZE

/-- The record of a move without child: the call returns, with zero visits, no node, the
given move and the given prior. -/
theorem getAnalysisDataOfSingleChild_null (E : Externs) (A : AnalysisExterns)
    (L : LocEncoding) (s : Search) (isRootNode : Bool) (move : Int)
    (policyProb fpuValue parentUtility parentWinLossValue parentScoreMean parentScoreStdev
      parentLead : ℚ) (maxPVDepth : Int) :
    ∃ data, Search.getAnalysisDataOfSingleChild E A L s none isRootNode move policyProb
        fpuValue parentUtility parentWinLossValue parentScoreMean parentScoreStdev parentLead
        maxPVDepth = some data ∧
      data.numVisits = 0 ∧ data.node = none ∧ data.move = move ∧
      data.policyPrior = policyProb :=
  ⟨_, rfl, rfl, rfl,
    (singleChildData_move_visits A s none move policyProb fpuValue parentUtility
      parentWinLossValue parentScoreMean parentScoreStdev parentLead).1,
    rfl⟩

/-- The padding loop with `remaining` iterations left: it returns `buf` followed by at most
`remaining` records, each of zero visits and of a prior that is not negative, built for an
unused position of greatest policy among the positions unused at that time; and when it
stops early, every unused position has a negative policy. -/
theorem padFromPolicyLoop_spec (E : Externs) (A : AnalysisExterns) (L : LocEncoding)
    (s : Search) (policyProbs : Nat → ℚ)
    (fpuValue parentUtility parentWinLossValue parentScoreMean parentScoreStdev parentLead : ℚ)
    (maxPVDepth : Int) :
    ∀ (remaining : Nat) (buf : List AnalysisData),
      ∃ padded : List AnalysisData,
        Search.padFromPolicyLoop E A L s policyProbs fpuValue parentUtility parentWinLossValue
          parentScoreMean parentScoreStdev parentLead maxPVDepth remaining buf
          = some (buf ++ padded) ∧
        padded.length ≤ remaining ∧
        (∀ d ∈ padded, d.numVisits = 0 ∧ 0 ≤ d.policyPrior ∧ d.node = none) ∧
        (∀ (k : Nat) (d : AnalysisData), padded[k]? = some d →
          ∃ pos : Nat, pos < A.MAX_NN_POLICY_SIZE ∧
            d.move = NNPos.posToLoc L (pos : Int) s.rootBoard.x_size s.rootBoard.y_size
              s.nnXLen s.nnYLen ∧
            d.policyPrior = policyProbs pos ∧
            Search.posUnused A (buf ++ padded.take k) pos ∧
            ∀ q, q < A.MAX_NN_POLICY_SIZE → Search.posUnused A (buf ++ padded.take k) q →
              policyProbs q ≤ d.policyPrior) ∧
        (padded.length < remaining →
          ∀ q, q < A.MAX_NN_POLICY_SIZE → Search.posUnused A (buf ++ padded) q →
            policyProbs q < 0) := by
  intro remaining
  induction remaining with
  | zero =>
    intro buf
    refine ⟨[], by simp [Search.padFromPolicyLoop], le_refl _, fun d hd => ?_,
      fun k d hd => ?_, fun h => absurd h (lt_irrefl _)⟩
    · simp at hd
    · simp at hd
  | succ remaining ih =>
    intro buf
    rw [Search.padFromPolicyLoop]
    obtain ⟨hbest, htop⟩ := findBestUnusedPos_spec A policyProbs buf
    generalize Search.findBestUnusedPos A policyProbs buf = best at hbest htop ⊢
    simp only
    by_cases hstop : best.1 < 0 ∨ best.2 < 0
    · rw [if_pos hstop]
      refine ⟨[], by simp, Nat.zero_le _, fun d hd => ?_, fun k d hd => ?_, fun _ q hq hu => ?_⟩
      · simp at hd
      · simp at hd
      · rw [List.append_nil] at hu
        have hle := htop q hq hu
        rcases hstop with h1 | h2
        · rcases hbest with h | ⟨p, -, -, h⟩
          · rw [h] at hle
            have : (-1 : ℚ) < 0 := by norm_num
            exact lt_of_le_of_lt hle this
          · rw [h] at h1
            have : (0 : Int) ≤ (p : Int) := Int.ofNat_nonneg p
            exact absurd h1 (not_lt.mpr this)
        · exact lt_of_le_of_lt hle h2
    · rw [if_neg hstop]
      have hpos0 : ¬ best.1 < 0 := fun h => hstop (Or.inl h)
      have hpol0 : 0 ≤ best.2 := not_lt.mp (fun h => hstop (Or.inr h))
      obtain ⟨p, hp, hpu, hpe⟩ : ∃ p : Nat, p < A.MAX_NN_POLICY_SIZE ∧
          Search.posUnused A buf p ∧ best = ((p : Int), policyProbs p) := by
        rcases hbest with h | h
        · rw [h] at hpos0
          exact absurd (by decide : (-1 : Int) < 0) hpos0
        · exact h
      obtain ⟨data, hdata, hvis, hnode, hmove, hprior⟩ :=
        getAnalysisDataOfSingleChild_null E A L s false
          (NNPos.posToLoc L best.1 s.rootBoard.x_size s.rootBoard.y_size s.nnXLen s.nnYLen)
          best.2 fpuValue parentUtility parentWinLossValue parentScoreMean parentScoreStdev
          parentLead maxPVDepth
      rw [hdata]
      simp only
      obtain ⟨padded, hres, hlen, hall, hidx, hearly⟩ := ih (buf ++ [data])
      rw [hres]
      have hb1 : best.1 = (p : Int) := by rw [hpe]
      have hb2 : best.2 = policyProbs p := by rw [hpe]
      refine ⟨data :: padded, by simp, by simp; omega, ?_, ?_, ?_⟩
      · intro d hd
        rcases List.mem_cons.mp hd with h | h
        · subst h
          exact ⟨hvis, by rw [hprior]; exact hpol0, hnode⟩
        · exact hall d h
      · intro k d hd
        cases k with
        | zero =>
          simp only [List.getElem?_cons_zero, Option.some.injEq] at hd
          subst hd
          refine ⟨p, hp, by rw [hmove, hb1], by rw [hprior, hb2], ?_, ?_⟩
          · simpa using hpu
          · intro q hq hu
            rw [hprior]
            apply htop q hq
            simpa using hu
        | succ k =>
          simp only [List.getElem?_cons_succ] at hd
          obtain ⟨pos, h1, h2, h3, h4, h5⟩ := hidx k d hd
          refine ⟨pos, h1, h2, h3, ?_, ?_⟩
          · simpa using h4
          · intro q hq hu
            apply h5 q hq
            simpa using hu
      · intro hlt q hq hu
        apply hearly (by simp at hlt; omega) q hq
        simpa using hu

/-- C37: the padding of `Search::getAnalysisData` from the raw policy (lines 1038-1071)
returns the records `buf` of the children followed by at most
`minMovesToTryToGet - numChildren` records (none when that is not positive). Each padded
record has zero visits, no node and a prior that is not negative; it is built for a
position `pos` that no earlier record uses and whose policy, the prior of the record, is
at least the policy of every position unused at that time, hence of every position unused
at the end. When fewer records than requested are added, every position left unused has a
negative policy. When `getPos` inverts `NNPos::posToLoc` on the positions whose policy is
not negative, the position of a padded record is used by no other record. -/
theorem padFromPolicy_top_k (E : Externs) (A : AnalysisExterns) (L : LocEncoding)
    (s : Search) (policyProbs : Nat → ℚ) (numChildren minMovesToTryToGet : Int)
    (fpuValue parentUtility parentWinLossValue parentScoreMean parentScoreStdev parentLead : ℚ)
    (maxPVDepth : Int) (buf : List AnalysisData) :
    ∃ padded : List AnalysisData,
      Search.padFromPolicy E A L s policyProbs numChildren minMovesToTryToGet fpuValue
        parentUtility parentWinLossValue parentScoreMean parentScoreStdev parentLead
        maxPVDepth buf = some (buf ++ padded) ∧
      (numChildren < minMovesToTryToGet →
        (padded.length : Int) ≤ minMovesToTryToGet - numChildren) ∧
      (¬ numChildren < minMovesToTryToGet → padded = []) ∧
      (∀ d ∈ padded, d.numVisits = 0 ∧ 0 ≤ d.policyPrior ∧ d.node = none) ∧
      (∀ (k : Nat) (d : AnalysisData), padded[k]? = some d →
        ∃ pos : Nat, pos < A.MAX_NN_POLICY_SIZE ∧
          d.move = NNPos.posToLoc L (pos : Int) s.rootBoard.x_size s.rootBoard.y_size
            s.nnXLen s.nnYLen ∧
          d.policyPrior = policyProbs pos ∧
          Search.posUnused A (buf ++ padded.take k) pos ∧
          (∀ q, q < A.MAX_NN_POLICY_SIZE → Search.posUnused A (buf ++ padded.take k) q →
            policyProbs q ≤ d.policyPrior) ∧
          (∀ q, q < A.MAX_NN_POLICY_SIZE → Search.posUnused A (buf ++ padded) q →
            policyProbs q ≤ d.policyPrior)) ∧
      ((padded.length : Int) < minMovesToTryToGet - numChildren →
        ∀ q, q < A.MAX_NN_POLICY_SIZE → Search.posUnused A (buf ++ padded) q →
          policyProbs q < 0) ∧
      ((∀ pos : Nat, pos < A.MAX_NN_POLICY_SIZE → 0 ≤ policyProbs pos →
          A.getPos (NNPos.posToLoc L (pos : Int) s.rootBoard.x_size s.rootBoard.y_size
            s.nnXLen s.nnYLen) = (pos : Int)) →
        ∀ (k : Nat) (d : AnalysisData), padded[k]? = some d →
          ∀ (j : Nat) (e : AnalysisData), (buf ++ padded)[j]? = some e →
            j ≠ buf.length + k → A.getPos e.move ≠ A.getPos d.move) := by
  unfold Search.padFromPolicy
  by_cases hlt : numChildren < minMovesToTryToGet
  · rw [if_pos hlt]
    obtain ⟨padded, hres, hlen, hall, hidx, hearly⟩ :=
      padFromPolicyLoop_spec E A L s policyProbs fpuValue parentUtility parentWinLossValue
        parentScoreMean parentScoreStdev parentLead maxPVDepth
        (minMovesToTryToGet - numChildren).toNat buf
    have htoNat : (((minMovesToTryToGet - numChildren).toNat : Nat) : Int)
        = minMovesToTryToGet - numChildren := Int.toNat_of_nonneg (by omega)
    -- the position of each padded record, under the round trip of `getPos`
    have hposOf : (∀ pos : Nat, pos < A.MAX_NN_POLICY_SIZE → 0 ≤ policyProbs pos →
          A.getPos (NNPos.posToLoc L (pos : Int) s.rootBoard.x_size s.rootBoard.y_size
            s.nnXLen s.nnYLen) = (pos : Int)) →
        ∀ (k : Nat) (d : AnalysisData), padded[k]? = some d →
          ∃ pos : Nat, A.getPos d.move = (pos : Int) ∧
            Search.posUnused A (buf ++ padded.take k) pos := by
      intro hround k d hd
      obtain ⟨pos, h1, h2, h3, h4, -⟩ := hidx k d hd
      have hnn : 0 ≤ policyProbs pos := by
        rw [← h3]
        exact (hall d (List.getElem?_mem hd)).2.1
      exact ⟨pos, by rw [h2]; exact hround pos h1 hnn, h4⟩
    refine ⟨padded, hres, fun _ => by omega, fun h => absurd hlt h, hall, ?_, ?_, ?_⟩
    · intro k d hd
      obtain ⟨pos, h1, h2, h3, h4, h5⟩ := hidx k d hd
      refine ⟨pos, h1, h2, h3, h4, h5, fun q hq hu => h5 q hq ?_⟩
      intro e he
      apply hu e
      rcases List.mem_append.mp he with h | h
      · exact List.mem_append_left _ h
      · exact List.mem_append_right _ (List.mem_of_mem_take h)
    · intro hshort
      exact hearly (by omega)
    · intro hround k d hd j e he hne
      obtain ⟨pos, hpd, hunused⟩ := hposOf hround k d hd
      have hk : k < padded.length := by
        by_contra hcon
        rw [List.getElem?_eq_none (not_lt.mp hcon)] at hd
        simp at hd
      by_cases hjk : j < buf.length + k
      · -- an earlier record: its position is not the one chosen for `d`
        have hmem : e ∈ buf ++ padded.take k := by
          by_cases hjb : j < buf.length
          · rw [List.getElem?_append_left hjb] at he
            exact List.mem_append_left _ (List.getElem?_mem he)
          · rw [List.getElem?_append_right (not_lt.mp hjb)] at he
            apply List.mem_append_right
            have : (padded.take k)[j - buf.length]? = some e := by
              rw [List.getElem?_take_of_lt (by omega)]
              exact he
            exact List.getElem?_mem this
        rw [hpd]
        exact hunused e hmem
      · -- a later padded record: `d` is among the records that its position avoids
        have hjb : ¬ j < buf.length := by omega
        rw [List.getElem?_append_right (not_lt.mp hjb)] at he
        obtain ⟨pos2, hpe, hunused2⟩ := hposOf hround (j - buf.length) e he
        have hmem : d ∈ buf ++ padded.take (j - buf.length) := by
          apply List.mem_append_right
          have : (padded.take (j - buf.length))[k]? = some d := by
            rw [List.getElem?_take_of_lt (by omega)]
            exact hd
          exact List.getElem?_mem this
        rw [hpe]
        exact fun h => hunused2 d hmem h.symm
  · rw [if_neg hlt]
    refine ⟨[], by simp, fun h => absurd h hlt, fun _ => rfl, fun d hd => ?_, fun k d hd => ?_,
      fun h => ?_, fun _ k d hd => ?_⟩
    · simp at hd
    · simp at hd
    · simp at h
      omega
    · simp at hd

/-- The padding of C37 on the 2x2 board, after the record of one child at the cell (1,0)
(location 5), up to 3 moves: the two records added are the cell (1,1) (location 8, policy
1/4) and the pass (location 1, policy 1/8, the later of two positions of equal policy).
Asked for 9 moves, the padding adds the cell (0,1) (location 7) and stops, the only
position left having a negative policy. -/
theorem padFromPolicy_top_k_witness :
    (Search.padFromPolicy Example.externs Example.analysisExterns borderedLoc
        (Example.search Example.pvRoot true) Example.rawPolicy 1 3 (3 / 2) (1 / 5) (1 / 10) 2 3
        4 5 [Example.record 5 [5]]).map
      (fun b => b.map (fun d => (d.move, d.numVisits, d.policyPrior)))
      = some [(5, 1, 0), (8, 0, 1 / 4), (1, 0, 1 / 8)] ∧
    (Search.padFromPolicy Example.externs Example.analysisExterns borderedLoc
        (Example.search Example.pvRoot true) Example.rawPolicy 1 9 (3 / 2) (1 / 5) (1 / 10) 2 3
        4 5 [Example.record 5 [5]]).map
      (fun b => b.map (fun d => (d.move, d.numVisits, d.policyPrior)))
      = some [(5, 1, 0), (8, 0, 1 / 4), (1, 0, 1 / 8), (7, 0, 1 / 8)] ∧
    ∃ padded : List AnalysisData,
      Search.padFromPolicy Example.externs Example.analysisExterns borderedLoc
        (Example.search Example.pvRoot true) Example.rawPolicy 1 3 (3 / 2) (1 / 5) (1 / 10) 2 3
        4 5 [Example.record 5 [5]] = some ([Example.record 5 [5]] ++ padded) ∧
      (padded.length : Int) ≤ 3 - 1 ∧
      (∀ d ∈ padded, d.numVisits = 0 ∧ 0 ≤ d.policyPrior ∧ d.node = none) ∧
      ∀ (k : Nat) (d : AnalysisData), padded[k]? = some d →
        ∀ (j : Nat) (e : AnalysisData), ([Example.record 5 [5]] ++ padded)[j]? = some e →
          j ≠ [Example.record 5 [5]].length + k →
          Example.analysisExterns.getPos e.move ≠ Example.analysisExterns.getPos d.move :=
  ⟨by decide!, by decide!,
    (padFromPolicy_top_k Example.externs Example.analysisExterns borderedLoc
      (Example.search Example.pvRoot true) Example.rawPolicy 1 3 (3 / 2) (1 / 5) (1 / 10) 2 3 4
      5 [Example.record 5 [5]]).elim fun padded h =>
        ⟨padded, h.1, h.2.1 (by decide), h.2.2.2.1,
          h.2.2.2.2.2.2 (by decide!)⟩⟩


/-! ### Rounding of `double` arithmetic -/

/-- Rounding to the nearest integer moves a number by at most 1/2. -/
theorem Binary64.roundHalfEven_error (y : ℚ) :
    |((Binary64.roundHalfEven y : Int) : ℚ) - y| ≤ 1 / 2 := by
  unfold Binary64.roundHalfEven
  have h1 : ((Int.floor y : Int) : ℚ) ≤ y := Int.floor_le y
  have h2 : y < ((Int.floor y : Int) : ℚ) + 1 := Int.lt_floor_add_one y
  simp only
  split_ifs with a b c
  · rw [abs_le]; constructor <;> linarith
  · rw [abs_le]; push_cast; constructor <;> linarith
  · rw [abs_le]; constructor <;> linarith
  · rw [abs_le]; push_cast; constructor <;> linarith

/-- The halvings of a number that is at least 1 give a power of two below it. -/
theorem Binary64.halvings_le (fuel : Nat) :
    ∀ x : ℚ, 1 ≤ x → (2 : ℚ) ^ (Binary64.halvings fuel x) ≤ x := by
  induction fuel with
  | zero => intro x hx; simpa [Binary64.halvings] using hx
  | succ fuel ih =>
    intro x hx
    rw [Binary64.halvings]
    split_ifs with h
    · have h2 := ih (x / 2) (by linarith)
      rw [pow_succ]
      linarith
    · simpa using hx

/-- With enough fuel, the doublings of a positive number bring it to at least 1. -/
theorem Binary64.doublings_ge (fuel : Nat) :
    ∀ x : ℚ, 0 < x → 1 ≤ x * (2 : ℚ) ^ fuel → 1 ≤ x * (2 : ℚ) ^ (Binary64.doublings fuel x) := by
  induction fuel with
  | zero => intro x _ hx; simpa [Binary64.doublings] using hx
  | succ fuel ih =>
    intro x hx0 hx
    rw [Binary64.doublings]
    split_ifs with h
    · have h2 := ih (x * 2) (by linarith) (by rw [pow_succ] at hx; linarith)
      rw [pow_succ]
      linarith
    · simpa using not_lt.mp h

/-- The power of two of the binary exponent of `x` is at most `|x|`. -/
theorem Binary64.exponent_le (x : ℚ) (hx : x ≠ 0) :
    (2 : ℚ) ^ (Binary64.exponent x) ≤ |x| := by
  have hpos : 0 < |x| := abs_pos.mpr hx
  unfold Binary64.exponent
  split_ifs with h
  · rw [zpow_natCast]
    exact Binary64.halvings_le _ _ h
  · rw [zpow_neg, zpow_natCast]
    have hden : (1 : ℚ) ≤ |x| * (2 : ℚ) ^ x.den := by
      have h1 : (x.den : ℚ) ≤ (2 : ℚ) ^ x.den := by
        exact_mod_cast (Nat.lt_two_pow x.den).le
      have h2 : (1 : ℚ) ≤ |x| * (x.den : ℚ) := by
        have hd : (0 : ℚ) < (x.den : ℚ) := by exact_mod_cast x.den_pos
        have hnum : (1 : ℚ) ≤ |(x.num : ℚ)| := by
          have : x.num ≠ 0 := Rat.num_ne_zero.mpr hx
          have h3 : (1 : Int) ≤ |x.num| := Int.one_le_abs this
          exact_mod_cast h3
        have hx' : |x| * (x.den : ℚ) = |(x.num : ℚ)| := by
          calc |x| * (x.den : ℚ) = |x| * |(x.den : ℚ)| := by rw [abs_of_pos hd]
            _ = |x * (x.den : ℚ)| := (abs_mul _ _).symm
            _ = |(x.num : ℚ)| := by rw [Rat.mul_den_eq_num]
        rw [hx']
        exact hnum
      calc (1 : ℚ) ≤ |x| * (x.den : ℚ) := h2
        _ ≤ |x| * (2 : ℚ) ^ x.den := mul_le_mul_of_nonneg_left h1 hpos.le
    have h3 := Binary64.doublings_ge x.den |x| hpos hden
    have hp : (0 : ℚ) < (2 : ℚ) ^ (Binary64.doublings x.den |x|) := by positivity
    rw [inv_eq_one_div, div_le_iff₀ hp]
    exact h3

/-- With enough fuel, the halvings of a number give a power of two whose double is above
it. -/
theorem Binary64.halvings_lt (fuel : Nat) :
    ∀ x : ℚ, x < (2 : ℚ) ^ (fuel + 1) → x < (2 : ℚ) ^ (Binary64.halvings fuel x + 1) := by
  induction fuel with
  | zero => intro x hx; simpa [Binary64.halvings] using hx
  | succ fuel ih =>
    intro x hx
    rw [Binary64.halvings]
    split_ifs with h
    · have h2 := ih (x / 2) (by rw [pow_succ] at hx; linarith)
      rw [pow_succ]
      linarith
    · simpa using not_le.mp h

/-- The doublings of a number below 2 keep it below 2. -/
theorem Binary64.doublings_lt (fuel : Nat) :
    ∀ x : ℚ, x < 2 → x * (2 : ℚ) ^ (Binary64.doublings fuel x) < 2 := by
  induction fuel with
  | zero => intro x hx; simpa [Binary64.doublings] using hx
  | succ fuel ih =>
    intro x hx
    rw [Binary64.doublings]
    split_ifs with h
    · have h2 := ih (x * 2) (by linarith)
      rw [pow_succ]
      linarith
    · simpa using hx

/-- The binary exponent `e` of `x ≠ 0` is the one with `|x| < 2^(e+1)` (and `2^e <= |x|`,
`Binary64.exponent_le`): `Binary64.round` keeps 53 significant bits. -/
theorem Binary64.lt_exponent (x : ℚ) (hx : x ≠ 0) :
    |x| < (2 : ℚ) ^ (Binary64.exponent x + 1) := by
  have hpos : 0 < |x| := abs_pos.mpr hx
  unfold Binary64.exponent
  split_ifs with h
  · have hd : (0 : ℚ) < (x.den : ℚ) := by exact_mod_cast x.den_pos
    have hnum : |x| ≤ (x.num.natAbs : ℚ) := by
      have hx' : |x| * (x.den : ℚ) = |(x.num : ℚ)| := by
        calc |x| * (x.den : ℚ) = |x| * |(x.den : ℚ)| := by rw [abs_of_pos hd]
          _ = |x * (x.den : ℚ)| := (abs_mul _ _).symm
          _ = |(x.num : ℚ)| := by rw [Rat.mul_den_eq_num]
      have h1 : (1 : ℚ) ≤ (x.den : ℚ) := by exact_mod_cast x.den_pos
      have h2 : |x| ≤ |x| * (x.den : ℚ) := le_mul_of_one_le_right hpos.le h1
      have h3 : |(x.num : ℚ)| = (x.num.natAbs : ℚ) := by
        rw [← Int.cast_abs, Int.abs_eq_natAbs, Int.cast_natCast]
      rw [hx', h3] at h2
      exact h2
    have hfuel : |x| < (2 : ℚ) ^ (x.num.natAbs + 1) := by
      have h1 : (x.num.natAbs : ℚ) < (2 : ℚ) ^ x.num.natAbs := by
        exact_mod_cast Nat.lt_two_pow x.num.natAbs
      have h2 : (2 : ℚ) ^ x.num.natAbs ≤ (2 : ℚ) ^ (x.num.natAbs + 1) :=
        pow_le_pow_right₀ (by norm_num) (Nat.le_succ _)
      linarith
    have h3 := Binary64.halvings_lt x.num.natAbs |x| hfuel
    have e : ((Binary64.halvings x.num.natAbs |x| : Nat) : Int) + 1
        = ((Binary64.halvings x.num.natAbs |x| + 1 : Nat) : Int) := by push_cast; ring
    rw [e, zpow_natCast]
    exact h3
  · have h1 : |x| < 2 := by linarith [not_le.mp h]
    have h3 := Binary64.doublings_lt x.den |x| h1
    have hp : (0 : ℚ) < (2 : ℚ) ^ (Binary64.doublings x.den |x|) := by positivity
    have e : (2 : ℚ) ^ (-((Binary64.doublings x.den |x| : Nat) : Int) + 1)
        = 2 / (2 : ℚ) ^ (Binary64.doublings x.den |x|) := by
      rw [zpow_add₀ (by norm_num : (2 : ℚ) ≠ 0), zpow_neg, zpow_natCast, zpow_one]
      field_simp
    rw [e, lt_div_iff₀ hp]
    exact h3

/-- The standard model of `double` arithmetic: `Binary64.round` moves a number by at most
the unit roundoff `2^-53` times its absolute value. -/
theorem Binary64.round_error (x : ℚ) :
    |Binary64.round x - x| ≤ Binary64.unitRoundoff * |x| := by
  unfold Binary64.round
  by_cases hx : x = 0
  · rw [if_pos hx, hx]
    simp
  · rw [if_neg hx]
    have hpos : 0 < |x| := abs_pos.mpr hx
    set e := Binary64.exponent x with he
    have hq : (0 : ℚ) < (2 : ℚ) ^ (e - 52) := zpow_pos (by norm_num) _
    have hle : (2 : ℚ) ^ e ≤ |x| := Binary64.exponent_le x hx
    have herr := Binary64.roundHalfEven_error (x / (2 : ℚ) ^ (e - 52))
    have hfac : ((Binary64.roundHalfEven (x / (2 : ℚ) ^ (e - 52)) : Int) : ℚ) * (2 : ℚ) ^ (e - 52)
        - x
        = (((Binary64.roundHalfEven (x / (2 : ℚ) ^ (e - 52)) : Int) : ℚ)
            - x / (2 : ℚ) ^ (e - 52)) * (2 : ℚ) ^ (e - 52) := by
      field_simp
    rw [hfac, abs_mul, abs_of_pos hq]
    have hsplit : (2 : ℚ) ^ (e - 52) = (2 : ℚ) ^ e * (1 / 2 ^ 52) := by
      rw [zpow_sub₀ (by norm_num : (2 : ℚ) ≠ 0)]
      norm_num
      ring
    calc |((Binary64.roundHalfEven (x / (2 : ℚ) ^ (e - 52)) : Int) : ℚ)
            - x / (2 : ℚ) ^ (e - 52)| * (2 : ℚ) ^ (e - 52)
        ≤ 1 / 2 * (2 : ℚ) ^ (e - 52) := mul_le_mul_of_nonneg_right herr hq.le
      _ = Binary64.unitRoundoff * (2 : ℚ) ^ e := by
          rw [hsplit]
          unfold Binary64.unitRoundoff
          ring
      _ ≤ Binary64.unitRoundoff * |x| :=
          mul_le_mul_of_nonneg_left hle (by unfold Binary64.unitRoundoff; positivity)

/-- The rounding of a number that is not negative is at least `1 - u` times it. -/
theorem rounded_ge (fl : ℚ → ℚ) (u : ℚ) (hfl : ∀ x, |fl x - x| ≤ u * |x|) (x : ℚ)
    (hx : 0 ≤ x) : x * (1 - u) ≤ fl x := by
  have h := (abs_le.mp (hfl x)).1
  rw [abs_of_nonneg hx] at h
  linarith

/-- The rounding of a number that is not negative is at most `1 + u` times it. -/
theorem rounded_le (fl : ℚ → ℚ) (u : ℚ) (hfl : ∀ x, |fl x - x| ≤ u * |x|) (x : ℚ)
    (hx : 0 ≤ x) : fl x ≤ x * (1 + u) := by
  have h := (abs_le.mp (hfl x)).2
  rw [abs_of_nonneg hx] at h
  linarith

/-- With exact arithmetic the rounded normalization is `normalizeValues`. -/
theorem normalizeValuesRounded_id (cs cp scale : ℚ) (values : List ℚ) :
    Search.normalizeValuesRounded id cs cp scale values
      = Search.normalizeValues cs cp scale values := by
  unfold Search.normalizeValuesRounded Search.normalizeValues
  simp only [id]

/-- With exact arithmetic the function with rounded normalization is
`getPlaySelectionValues`. -/
theorem getPlaySelectionValuesRounded_id (E : Externs) (L : LocEncoding) (s : Search)
    (node : SearchNode) (isRootNode : Bool) (scale : ℚ) (allow always never : Bool) :
    Search.getPlaySelectionValuesRounded id E L s node isRootNode scale allow always never
      = Search.getPlaySelectionValues E L s node isRootNode scale allow always never := by
  have hstage : ∀ st, Search.normalizeStageRounded id s scale st
      = Search.normalizeStage s scale st := by
    intro st
    unfold Search.normalizeStageRounded Search.normalizeStage
    rw [normalizeValuesRounded_id]
  unfold Search.getPlaySelectionValuesRounded Search.getPlaySelectionValues
  simp only [hstage]

/-- When the rounded normalization returns true, the returned vector has a maximum entry;
it is positive and at least the requested floor times `(1 - u)^2`, for a rounding of
relative error at most `u < 1`. -/
theorem normalizeValuesRounded_max (fl : ℚ → ℚ) (u : ℚ) (hu0 : 0 ≤ u) (hu1 : u < 1)
    (hfl : ∀ x, |fl x - x| ≤ u * |x|) (cs cp scale : ℚ) (values r : List ℚ)
    (h : Search.normalizeValuesRounded fl cs cp scale values = some (true, r)) :
    ∃ m ∈ r, (∀ v ∈ r, v ≤ m) ∧ 0 < m ∧ scale * (1 - u) ^ 2 ≤ m := by
  unfold Search.normalizeValuesRounded at h
  simp only at h
  set M := values.foldl (fun m v => if v > m then v else m) 0 with hM
  have hmem := foldl_runMax_mem values 0
  rw [← hM] at hmem
  have hu : 0 < 1 - u := by linarith
  -- an entry `b` of the result that is positive and at least the floor times `(1-u)^2`
  have key : ∃ b ∈ r, 0 < b ∧ scale * (1 - u) ^ 2 ≤ b := by
    split_ifs at h with h1 h2 h3 h4
    · simp at h
    · -- rescaled
      have hlit : 0 ≤ fl (1 / 10 ^ 50) :=
        le_trans (mul_nonneg (by positivity) hu.le) (rounded_ge fl u hfl _ (by positivity))
      have hMpos : 0 < M := lt_of_le_of_lt hlit (not_le.mp h1)
      have hMmem : M ∈ values := by
        rcases hmem with h0 | h0
        · exact absurd h0 (ne_of_gt hMpos)
        · exact h0
      have h64 : fl (M / 64) < M := by
        have := rounded_le fl u hfl (M / 64) (by positivity)
        nlinarith
      have hpr : ¬ M < min cp (fl (M / 64)) :=
        not_lt.mpr (le_trans (min_le_right _ _) h64.le)
      have hnew : 0 < fl (M - min cs (fl (M / 64))) := by push_neg at h3; exact h3
      simp only [Option.some.injEq, Prod.mk.injEq, true_and] at h
      have hf0 : 0 < scale / fl (M - min cs (fl (M / 64))) := div_pos (lt_trans hnew h4) hnew
      have hf : scale / fl (M - min cs (fl (M / 64))) * (1 - u)
          ≤ fl (scale / fl (M - min cs (fl (M / 64)))) := rounded_ge fl u hfl _ hf0.le
      have hfpos : 0 < fl (scale / fl (M - min cs (fl (M / 64)))) :=
        lt_of_lt_of_le (mul_pos hf0 hu) hf
      have hprod : fl (M - min cs (fl (M / 64))) * fl (scale / fl (M - min cs (fl (M / 64))))
          * (1 - u)
          ≤ fl (fl (M - min cs (fl (M / 64))) * fl (scale / fl (M - min cs (fl (M / 64))))) :=
        rounded_ge fl u hfl _ (mul_nonneg hnew.le hfpos.le)
      have hcancel : fl (M - min cs (fl (M / 64))) * (scale / fl (M - min cs (fl (M / 64))))
          = scale := by
        field_simp
      have hbound : scale * (1 - u) ^ 2
          ≤ fl (fl (M - min cs (fl (M / 64))) * fl (scale / fl (M - min cs (fl (M / 64))))) := by
        have h5 : scale * (1 - u)
            ≤ fl (M - min cs (fl (M / 64))) * fl (scale / fl (M - min cs (fl (M / 64)))) := by
          have := mul_le_mul_of_nonneg_left hf hnew.le
          rw [← mul_assoc, hcancel] at this
          exact this
        have h6 := mul_le_mul_of_nonneg_right h5 hu.le
        calc scale * (1 - u) ^ 2 = scale * (1 - u) * (1 - u) := by ring
          _ ≤ _ := h6
          _ ≤ _ := hprod
      have hscalepos : 0 < scale := lt_trans hnew h4
      refine ⟨fl (fl (M - min cs (fl (M / 64))) * fl (scale / fl (M - min cs (fl (M / 64))))),
        ?_, lt_of_lt_of_le (by positivity) hbound, hbound⟩
      rw [← h]
      simp only [List.mem_map]
      refine ⟨fl (M - min cs (fl (M / 64))), ⟨M, hMmem, ?_⟩, rfl⟩
      rw [if_neg hpr, if_neg (not_le.mpr hnew)]
    · -- not rescaled
      have hlit : 0 ≤ fl (1 / 10 ^ 50) :=
        le_trans (mul_nonneg (by positivity) hu.le) (rounded_ge fl u hfl _ (by positivity))
      have hMpos : 0 < M := lt_of_le_of_lt hlit (not_le.mp h1)
      have hMmem : M ∈ values := by
        rcases hmem with h0 | h0
        · exact absurd h0 (ne_of_gt hMpos)
        · exact h0
      have h64 : fl (M / 64) < M := by
        have := rounded_le fl u hfl (M / 64) (by positivity)
        nlinarith
      have hpr : ¬ M < min cp (fl (M / 64)) :=
        not_lt.mpr (le_trans (min_le_right _ _) h64.le)
      have hnew : 0 < fl (M - min cs (fl (M / 64))) := by push_neg at h3; exact h3
      simp only [Option.some.injEq, Prod.mk.injEq, true_and] at h
      have hge : scale ≤ fl (M - min cs (fl (M / 64))) := not_lt.mp h4
      have hbound : scale * (1 - u) ^ 2 ≤ fl (M - min cs (fl (M / 64))) := by
        by_cases hs : 0 ≤ scale
        · have h1u : (1 - u) ^ 2 ≤ 1 := by nlinarith
          calc scale * (1 - u) ^ 2 ≤ scale * 1 := mul_le_mul_of_nonneg_left h1u hs
            _ = scale := mul_one _
            _ ≤ _ := hge
        · have : scale * (1 - u) ^ 2 ≤ 0 :=
            mul_nonpos_of_nonpos_of_nonneg (le_of_lt (not_le.mp hs)) (by positivity)
          linarith
      refine ⟨fl (M - min cs (fl (M / 64))), ?_, hnew, hbound⟩
      rw [← h]
      simp only [List.mem_map]
      refine ⟨M, hMmem, ?_⟩
      rw [if_neg hpr, if_neg (not_le.mpr hnew)]
  obtain ⟨b, hb, hbpos, hbfloor⟩ := key
  have hge := foldl_runMax_ge r 0
  have hmemr := foldl_runMax_mem r 0
  have hmb : b ≤ r.foldl (fun m v => if v > m then v else m) 0 := hge.2 b hb
  have hmpos : 0 < r.foldl (fun m v => if v > m then v else m) 0 := lt_of_lt_of_le hbpos hmb
  refine ⟨r.foldl (fun m v => if v > m then v else m) 0, ?_, hge.2, hmpos,
    le_trans hbfloor hmb⟩
  rcases hmemr with h0 | h0
  · exact absurd h0 (ne_of_gt hmpos)
  · exact h0

/-- A true result of the rounded normalization stage is a true result of the rounded
normalization of the values. -/
theorem normalizeStageRounded_true (fl : ℚ → ℚ) (s : Search) (scale : ℚ)
    (st out : Search.PSVState)
    (h : Search.normalizeStageRounded fl s scale st = some (true, out)) :
    Search.normalizeValuesRounded fl s.searchParams.chosenMoveSubtract
      s.searchParams.chosenMovePrune scale st.playSelectionValues
      = some (true, out.playSelectionValues) := by
  unfold Search.normalizeStageRounded at h
  split_ifs at h with h0
  · simp at h
  · split at h
    · simp at h
    · rename_i ok values heq
      simp only [Option.some.injEq, Prod.mk.injEq] at h
      obtain ⟨h1, h2⟩ := h
      subst h1
      rw [heq, ← h2]

/-- Whenever the function with rounded normalization returns true, its values come out of
a successful rounded normalization of some intermediate vector. -/
theorem getPlaySelectionValuesRounded_true_normalized (fl : ℚ → ℚ) (E : Externs)
    (L : LocEncoding) (s : Search) (node : SearchNode) (isRootNode : Bool) (scale : ℚ)
    (allow always never : Bool) (out : Search.PSVState)
    (h : Search.getPlaySelectionValuesRounded fl E L s node isRootNode scale allow always never
          = some (true, out)) :
    ∃ values, Search.normalizeValuesRounded fl s.searchParams.chosenMoveSubtract
        s.searchParams.chosenMovePrune scale values = some (true, out.playSelectionValues) := by
  unfold Search.getPlaySelectionValuesRounded at h
  simp only at h
  split at h
  · simp at h
  · split at h
    · simp at h
    · rename_i st2 _
      split_ifs at h with h0 h1
      · split at h
        · simp at h
        · simp at h
      · split at h
        · simp at h
        · split at h
          · simp at h
          · rename_i st3 _
            exact ⟨_, normalizeStageRounded_true fl s scale st3 out h⟩
      · exact ⟨_, normalizeStageRounded_true fl s scale st2 out h⟩

/-- C1, as stated, fails in `double` arithmetic: the node `Example.root97` has one child,
of weight 97; with nothing subtracted or pruned and the floor 100, the normalization
multiplies 97 by the rounded quotient `100.0 / 97.0 = 290180388361501 / 2^48`, and the
rounded product is `100 - 2^-46 = 99.99999999999998579`, the greatest `double` below 100.
The call returns true with that single value, which is neither 0 nor at least the floor
100. -/
theorem getPlaySelectionValues_max_zero_or_floor_counterexample :
    Example.root97.getChildren.map (fun c => c.stats.weightSum) = [97] ∧
    Binary64.round (100 / 97) = 290180388361501 / 281474976710656 ∧
    Binary64.round (97 * (290180388361501 / 281474976710656))
      = 7036874417766399 / 70368744177664 ∧
    Search.getPlaySelectionValuesRounded Binary64.round Example.externs borderedLoc
        (Example.search Example.rootOnly true) Example.root97 false 100 true false false
      = some (true, ⟨[4], [7036874417766399 / 70368744177664], [97], [], []⟩) ∧
    (7036874417766399 / 70368744177664 : ℚ) ≠ 0 ∧
    ¬ ((100 : ℚ) ≤ 7036874417766399 / 70368744177664) := by
  decide!

/-- C1, amended: whenever `Search::getPlaySelectionValues` returns true (for any node, in
particular one with at least one child, and any floor `scaleMaxToAtLeast`), with the
arithmetic of the normalization rounded with relative error at most `u < 1` (`u = 2^-53`
for `double`s, `u = 0` for exact arithmetic), the returned `playSelectionValues` has a
maximum entry, and that entry is positive and at least `scaleMaxToAtLeast * (1 - u)^2`:
the floor up to the two roundings of the rescaling, and the floor itself in exact
arithmetic. -/
theorem getPlaySelectionValues_max_zero_or_floor (fl : ℚ → ℚ) (u : ℚ) (hu0 : 0 ≤ u)
    (hu1 : u < 1) (hfl : ∀ x, |fl x - x| ≤ u * |x|)
    (E : Externs) (L : LocEncoding) (s : Search)
    (node : SearchNode) (isRootNode : Bool) (scaleMaxToAtLeast : ℚ)
    (allowDirectPolicyMoves alwaysComputeLcb neverUseLcb : Bool) (out : Search.PSVState)
    (h : Search.getPlaySelectionValuesRounded fl E L s node isRootNode scaleMaxToAtLeast
          allowDirectPolicyMoves alwaysComputeLcb neverUseLcb = some (true, out)) :
    ∃ m ∈ out.playSelectionValues,
      (∀ v ∈ out.playSelectionValues, v ≤ m) ∧ 0 < m ∧
        scaleMaxToAtLeast * (1 - u) ^ 2 ≤ m := by
  obtain ⟨values, hv⟩ :=
    getPlaySelectionValuesRounded_true_normalized fl E L s node isRootNode scaleMaxToAtLeast
      allowDirectPolicyMoves alwaysComputeLcb neverUseLcb out h
  exact normalizeValuesRounded_max fl u hu0 hu1 hfl _ _ _ _ _ hv

/-- Witness for the amended C1 with the rounding of `double` arithmetic, `u = 2^-53`: the
node `Example.root97` and the floor 100; the call returns true with the value
`100 - 2^-46`, which is at least `100 * (1 - 2^-53)^2`. -/
theorem getPlaySelectionValues_max_zero_or_floor_witness :
    Search.getPlaySelectionValuesRounded Binary64.round Example.externs borderedLoc
        (Example.search Example.rootOnly true) Example.root97 false 100 true false false
      = some (true, ⟨[4], [7036874417766399 / 70368744177664], [97], [], []⟩) ∧
    ∃ m ∈ ([7036874417766399 / 70368744177664] : List ℚ),
      (∀ v ∈ ([7036874417766399 / 70368744177664] : List ℚ), v ≤ m) ∧ 0 < m ∧
        (100 : ℚ) * (1 - Binary64.unitRoundoff) ^ 2 ≤ m :=
  ⟨by decide!,
    getPlaySelectionValues_max_zero_or_floor Binary64.round Binary64.unitRoundoff
      (by decide!) (by decide!) Binary64.round_error Example.externs borderedLoc
      (Example.search Example.rootOnly true) Example.root97 false 100 true false false
      ⟨[4], [7036874417766399 / 70368744177664], [97], [], []⟩ (by decide!)⟩

/-! ### The score-value table in `double` arithmetic -/

/-- A rounding of relative error at most `u` multiplies by a factor `1 + δ`, `|δ| <= u`. -/
theorem rounded_factor (fl : ℚ → ℚ) (u : ℚ) (hu0 : 0 ≤ u) (hfl : ∀ x, |fl x - x| ≤ u * |x|)
    (x : ℚ) : ∃ δ : ℚ, |δ| ≤ u ∧ fl x = x * (1 + δ) := by
  by_cases hx : x = 0
  · refine ⟨0, by simpa using hu0, ?_⟩
    have h := hfl x
    rw [hx] at h ⊢
    simp only [sub_zero, abs_zero, mul_zero, abs_nonpos_iff] at h
    rw [h]
    ring
  · refine ⟨(fl x - x) / x, ?_, ?_⟩
    · rw [abs_div, div_le_iff₀ (abs_pos.mpr hx)]
      exact hfl x
    · field_simp

/-- With exact arithmetic the rounded table entry is `tableEntry`. -/
theorem tableEntryRounded_id (M : Libm) (D : SVTableDims) (meanIdx stdevIdx : Int) :
    ScoreValue.tableEntryRounded id M D meanIdx stdevIdx
      = ScoreValue.tableEntry M D meanIdx stdevIdx := by
  have hstep : ∀ meanSteps, ScoreValue.integrateStepRounded id M D meanSteps stdevIdx
      = ScoreValue.integrateStep M D meanSteps stdevIdx := by
    intro meanSteps
    funext acc i
    cases acc with
    | none => rfl
    | some p =>
      obtain ⟨a, b⟩ := p
      unfold ScoreValue.integrateStepRounded ScoreValue.integrateStep
        ScoreValue.normalPDFRounded ScoreValue.normalPDF ScoreValue.svPrecompRounded
        ScoreValue.svPrecomp ScoreValue.whiteScoreValueOfScoreSmoothNoDrawAdjustRounded
        ScoreValue.whiteScoreValueOfScoreSmoothNoDrawAdjust
      simp only [id]
  unfold ScoreValue.tableEntryRounded ScoreValue.tableEntry
  simp only [hstep, id]

/-- The rounded integration at stdev bucket 0, where every step adds the weight `w i` and
the product of `w i` and the one value `sv`: after `k` steps with the exact sum `A` of
the weights, `wSum` is within the factors `(1-u)^k` and `(1+u)^k` of `A`, and `wsvSum` is
`sv` times a number within the factors `(1-u)^(k+1)` and `(1+u)^(k+1)` of `A`. -/
theorem integrateRounded_fold (fl : ℚ → ℚ) (u : ℚ) (hu0 : 0 ≤ u) (hu1 : u < 1)
    (hfl : ∀ x, |fl x - x| ≤ u * |x|) (M : Libm) (D : SVTableDims)
    (hexp : ∀ x, 0 < M.exp x) (meanSteps : Int)
    (hb : meanSteps ≥ ScoreValue.minSVSteps D ∧ meanSteps ≤ ScoreValue.maxSVSteps D) :
    ∀ (l : List Int) (k : Nat) (A a X : ℚ), 0 ≤ A →
      A * (1 - u) ^ k ≤ a → a ≤ A * (1 + u) ^ k →
      A * (1 - u) ^ (k + 1) ≤ X → X ≤ A * (1 + u) ^ (k + 1) →
      ∃ a1 X1 : ℚ,
        l.foldl (ScoreValue.integrateStepRounded fl M D meanSteps 0)
            (some (a, ScoreValue.svPrecompRounded fl M D meanSteps * X))
          = some (a1, ScoreValue.svPrecompRounded fl M D meanSteps * X1) ∧
        (A + (l.map (ScoreValue.normalPDFRounded fl M)).sum) * (1 - u) ^ (k + l.length) ≤ a1 ∧
        a1 ≤ (A + (l.map (ScoreValue.normalPDFRounded fl M)).sum) * (1 + u) ^ (k + l.length) ∧
        (A + (l.map (ScoreValue.normalPDFRounded fl M)).sum) * (1 - u) ^ (k + l.length + 1)
          ≤ X1 ∧
        X1 ≤ (A + (l.map (ScoreValue.normalPDFRounded fl M)).sum)
          * (1 + u) ^ (k + l.length + 1) := by
  have hc0 : 0 < 1 - u := by linarith
  have hc1 : 1 - u ≤ 1 := by linarith
  have hd1 : 1 ≤ 1 + u := by linarith
  have hd0 : 0 < 1 + u := by linarith
  intro l
  induction l with
  | nil =>
    intro k A a X _ h1 h2 h3 h4
    refine ⟨a, X, rfl, ?_, ?_, ?_, ?_⟩ <;> simpa using ‹_›
  | cons i t ih =>
    intro k A a X hA h1 h2 h3 h4
    set w := ScoreValue.normalPDFRounded fl M i with hwdef
    set sv := ScoreValue.svPrecompRounded fl M D meanSteps with hsv
    have hw : 0 < w := hexp _
    have hck : (1 - u) ^ k ≤ 1 := pow_le_one₀ hc0.le hc1
    have hck0 : 0 < (1 - u) ^ k := pow_pos hc0 k
    have hdk : 1 ≤ (1 + u) ^ k := one_le_pow₀ hd1
    have ha0 : 0 ≤ a := le_trans (mul_nonneg hA hck0.le) h1
    have hX0 : 0 ≤ X := le_trans (mul_nonneg hA (pow_pos hc0 _).le) h3
    -- the new `wSum`
    have hal : (A + w) * (1 - u) ^ (k + 1) ≤ fl (a + w) := by
      have e : (A + w) * (1 - u) ^ (k + 1) = (A * (1 - u) ^ k + w * (1 - u) ^ k) * (1 - u) := by
        ring
      have h5 : w * (1 - u) ^ k ≤ w := mul_le_of_le_one_right hw.le hck
      have h6 : (A * (1 - u) ^ k + w * (1 - u) ^ k) * (1 - u) ≤ (a + w) * (1 - u) :=
        mul_le_mul_of_nonneg_right (add_le_add h1 h5) hc0.le
      rw [e]
      exact le_trans h6 (rounded_ge fl u hfl _ (by linarith))
    have hau : fl (a + w) ≤ (A + w) * (1 + u) ^ (k + 1) := by
      have e : (A + w) * (1 + u) ^ (k + 1) = (A * (1 + u) ^ k + w * (1 + u) ^ k) * (1 + u) := by
        ring
      have h5 : w ≤ w * (1 + u) ^ k := le_mul_of_one_le_right hw.le hdk
      have h6 : (a + w) * (1 + u) ≤ (A * (1 + u) ^ k + w * (1 + u) ^ k) * (1 + u) :=
        mul_le_mul_of_nonneg_right (add_le_add h2 h5) hd0.le
      rw [e]
      exact le_trans (rounded_le fl u hfl _ (by linarith)) h6
    -- the new `wsvSum`
    obtain ⟨δ1, hδ1, e1⟩ := rounded_factor fl u hu0 hfl (w * sv)
    obtain ⟨δ2, hδ2, e2⟩ := rounded_factor fl u hu0 hfl (sv * X + w * sv * (1 + δ1))
    have hδ1' := abs_le.mp hδ1
    have hδ2' := abs_le.mp hδ2
    have hp0 : 0 ≤ w * (1 + δ1) := mul_nonneg hw.le (by linarith)
    have hXl : (A + w) * (1 - u) ^ (k + 1 + 1) ≤ (X + w * (1 + δ1)) * (1 + δ2) := by
      have e : (A + w) * (1 - u) ^ (k + 1 + 1)
          = (A * (1 - u) ^ (k + 1) + w * (1 - u) ^ k * (1 - u)) * (1 - u) := by ring
      have h5 : w * (1 - u) ^ k * (1 - u) ≤ w * (1 + δ1) := by
        have h8 : w * (1 - u) ^ k * (1 - u) ≤ w * (1 - u) :=
          mul_le_mul_of_nonneg_right (mul_le_of_le_one_right hw.le hck) hc0.le
        have h9 : w * (1 - u) ≤ w * (1 + δ1) :=
          mul_le_mul_of_nonneg_left (by linarith) hw.le
        exact le_trans h8 h9
      have h6 : (A * (1 - u) ^ (k + 1) + w * (1 - u) ^ k * (1 - u)) * (1 - u)
          ≤ (X + w * (1 + δ1)) * (1 - u) :=
        mul_le_mul_of_nonneg_right (add_le_add h3 h5) hc0.le
      have h7 : (X + w * (1 + δ1)) * (1 - u) ≤ (X + w * (1 + δ1)) * (1 + δ2) :=
        mul_le_mul_of_nonneg_left (by linarith [hδ2'.1]) (add_nonneg hX0 hp0)
      rw [e]
      exact le_trans h6 h7
    have hXu : (X + w * (1 + δ1)) * (1 + δ2) ≤ (A + w) * (1 + u) ^ (k + 1 + 1) := by
      have e : (A + w) * (1 + u) ^ (k + 1 + 1)
          = (A * (1 + u) ^ (k + 1) + w * (1 + u) ^ k * (1 + u)) * (1 + u) := by ring
      have h5 : w * (1 + δ1) ≤ w * (1 + u) ^ k * (1 + u) := by
        have h8 : w * (1 + u) ≤ w * (1 + u) ^ k * (1 + u) :=
          mul_le_mul_of_nonneg_right (le_mul_of_one_le_right hw.le hdk) hd0.le
        have h9 : w * (1 + δ1) ≤ w * (1 + u) :=
          mul_le_mul_of_nonneg_left (by linarith) hw.le
        exact le_trans h9 h8
      have h6 : (X + w * (1 + δ1)) * (1 + u)
          ≤ (A * (1 + u) ^ (k + 1) + w * (1 + u) ^ k * (1 + u)) * (1 + u) :=
        mul_le_mul_of_nonneg_right (add_le_add h4 h5) hd0.le
      have h7 : (X + w * (1 + δ1)) * (1 + δ2) ≤ (X + w * (1 + δ1)) * (1 + u) :=
        mul_le_mul_of_nonneg_left (by linarith [hδ2'.2]) (add_nonneg hX0 hp0)
      rw [e]
      exact le_trans h7 h6
    have hstep : ScoreValue.integrateStepRounded fl M D meanSteps 0 (some (a, sv * X)) i
        = some (fl (a + w), sv * ((X + w * (1 + δ1)) * (1 + δ2))) := by
      unfold ScoreValue.integrateStepRounded
      simp only [zero_mul, add_zero]
      rw [if_pos hb, ← hwdef, ← hsv, e1, e2]
      congr 2
      ring
    obtain ⟨a1, X1, hfold, b1, b2, b3, b4⟩ := ih (k + 1) (A + w) (fl (a + w))
      ((X + w * (1 + δ1)) * (1 + δ2)) (by linarith) hal hau hXl hXu
    refine ⟨a1, X1, ?_, ?_, ?_, ?_, ?_⟩
    · rw [List.foldl_cons, hstep]
      exact hfold
    all_goals
      simp only [List.map_cons, List.sum_cons, List.length_cons, ← hwdef]
      have e3 : k + (t.length + 1) = k + 1 + t.length := by ring
      rw [e3, ← add_assoc]
      assumption

/-- The quotient of a numerator within the factors `c^(n+1)` and `d^(n+1)` of `S` by a
denominator within the factors `c^n` and `d^n` of `S`, times a factor between `c` and
`d`. -/
theorem quotient_bounds (S a X c d r : ℚ) (n : Nat) (hS : 0 < S) (hc : 0 < c) (hd : 0 < d)
    (b1 : S * c ^ n ≤ a) (b2 : a ≤ S * d ^ n) (b3 : S * c ^ (n + 1) ≤ X)
    (b4 : X ≤ S * d ^ (n + 1)) (hr1 : c ≤ r) (hr2 : r ≤ d) :
    c ^ (n + 2) / d ^ n ≤ X / a * r ∧ X / a * r ≤ d ^ (n + 2) / c ^ n := by
  have ha : 0 < a := lt_of_lt_of_le (mul_pos hS (pow_pos hc n)) b1
  have hX : 0 ≤ X := le_trans (mul_nonneg hS.le (pow_pos hc _).le) b3
  have hq : 0 ≤ X / a := div_nonneg hX ha.le
  have hcn : 0 < c ^ n := pow_pos hc n
  have hdn : 0 < d ^ n := pow_pos hd n
  constructor
  · have h1 : c ^ (n + 1) / d ^ n ≤ X / a := by
      rw [div_le_iff₀ hdn, div_mul_eq_mul_div, le_div_iff₀ ha]
      calc c ^ (n + 1) * a ≤ c ^ (n + 1) * (S * d ^ n) :=
            mul_le_mul_of_nonneg_left b2 (pow_pos hc _).le
        _ = S * c ^ (n + 1) * d ^ n := by ring
        _ ≤ X * d ^ n := mul_le_mul_of_nonneg_right b3 hdn.le
    have h2 : c ^ (n + 2) / d ^ n = c ^ (n + 1) / d ^ n * c := by
      rw [pow_succ c (n + 1)]
      ring
    rw [h2]
    exact le_trans (mul_le_mul_of_nonneg_right h1 hc.le) (mul_le_mul_of_nonneg_left hr1 hq)
  · have h1 : X / a ≤ d ^ (n + 1) / c ^ n := by
      rw [le_div_iff₀ hcn, div_mul_eq_mul_div, div_le_iff₀ ha]
      calc X * c ^ n ≤ S * d ^ (n + 1) * c ^ n := mul_le_mul_of_nonneg_right b4 hcn.le
        _ = d ^ (n + 1) * (S * c ^ n) := by ring
        _ ≤ d ^ (n + 1) * a := mul_le_mul_of_nonneg_left b1 (pow_pos hd _).le
    have h2 : d ^ (n + 2) / c ^ n = d ^ (n + 1) / c ^ n * d := by
      rw [pow_succ d (n + 1)]
      ring
    rw [h2]
    exact le_trans (mul_le_mul_of_nonneg_left hr2 hq) (mul_le_mul_of_nonneg_right h1 hd.le)

/-- The numeric integration of `initTables` has 101 steps. -/
theorem intRange_stdevSteps_length :
    (ScoreValue.intRange ScoreValue.minStdevSteps ScoreValue.maxStdevSteps).length = 101 := by
  decide

/-- In rounded arithmetic of relative error at most `u`, the entry of the table at stdev
bucket 0 is the stored smooth utility times a factor between `(1-u)^103 / (1+u)^101` and
`(1+u)^103 / (1-u)^101`. -/
theorem tableEntryRounded_stdev_zero (fl : ℚ → ℚ) (u : ℚ) (hu0 : 0 ≤ u) (hu1 : u < 1)
    (hfl : ∀ x, |fl x - x| ≤ u * |x|) (M : Libm) (D : SVTableDims)
    (hL : 0 < D.svTableStdevLen) (hexp : ∀ x, 0 < M.exp x) (meanIdx : Int)
    (hm0 : 0 ≤ meanIdx) (hm : meanIdx < ScoreValue.svTableMeanLen D) :
    ∃ ρ : ℚ,
      ScoreValue.tableEntryRounded fl M D meanIdx 0
        = some (ScoreValue.svPrecompRounded fl M D
            ((meanIdx - D.svTableMeanRadius) * ScoreValue.stepsPerUnit
              - ScoreValue.stepsPerUnit / 2) * ρ) ∧
      (1 - u) ^ 103 / (1 + u) ^ 101 ≤ ρ ∧ ρ ≤ (1 + u) ^ 103 / (1 - u) ^ 101 := by
  have hc0 : 0 < 1 - u := by linarith
  have hd0 : 0 < 1 + u := by linarith
  have hmem : (0 : Int) ∈ ScoreValue.intRange ScoreValue.minStdevSteps
      ScoreValue.maxStdevSteps := by decide
  have hb := xSteps_in_bounds D meanIdx 0 0 hm0 hm (le_refl 0) hL hmem
  simp only [zero_mul, add_zero] at hb
  obtain ⟨a1, X1, hfold, b1, b2, b3, b4⟩ := integrateRounded_fold fl u hu0 hu1 hfl M D hexp
    ((meanIdx - D.svTableMeanRadius) * ScoreValue.stepsPerUnit - ScoreValue.stepsPerUnit / 2)
    ⟨hb.1, hb.2⟩ (ScoreValue.intRange ScoreValue.minStdevSteps ScoreValue.maxStdevSteps)
    0 0 0 0 (le_refl 0) (by simp) (by simp) (by simp) (by simp)
  rw [intRange_stdevSteps_length] at b1 b2 b3 b4
  simp only [zero_add] at b1 b2 b3 b4
  set sv := ScoreValue.svPrecompRounded fl M D
    ((meanIdx - D.svTableMeanRadius) * ScoreValue.stepsPerUnit - ScoreValue.stepsPerUnit / 2)
    with hsv
  set S := ((ScoreValue.intRange ScoreValue.minStdevSteps ScoreValue.maxStdevSteps).map
    (ScoreValue.normalPDFRounded fl M)).sum with hS
  have hSpos : 0 < S := by
    apply list_sum_pos
    · intro h
      have := congrArg List.length h
      rw [List.length_map, intRange_stdevSteps_length] at this
      simp at this
    · intro x hx
      rw [List.mem_map] at hx
      obtain ⟨i, _, rfl⟩ := hx
      exact hexp _
  obtain ⟨δ, hδ, e⟩ := rounded_factor fl u hu0 hfl (sv * X1 / a1)
  have hδ' := abs_le.mp hδ
  have hq := quotient_bounds S a1 X1 (1 - u) (1 + u) (1 + δ) 101 hSpos hc0 hd0 b1 b2 b3 b4
    (by linarith [hδ'.1]) (by linarith [hδ'.2])
  refine ⟨X1 / a1 * (1 + δ), ?_, hq.1, hq.2⟩
  unfold ScoreValue.tableEntryRounded
  simp only
  rw [mul_zero] at hfold
  rw [hfold]
  simp only [Option.map_some', Option.some.injEq]
  rw [e]
  ring

/-- C40, as stated, fails in `double` arithmetic: for the table dimensions of the board
length 19 (mean radius and stdev length 421) and the values that `exp` and `atan` of the C
library return, the entry of the mean bucket 421 at stdev bucket 0 is computed as
`-1206913266045139 / 2^56 = -0.016749286208610756`, while the smooth utility at the
score `(421 - 421) - 1/2`, the one value that the 101 steps average, is
`-4827653064180555 / 2^58 = -0.016749286208610752`: the quotient of the rounded sums
`wsvSum` and `wSum` is one unit in the last place away from it. -/
theorem initTables_entries_counterexample :
    ScoreValue.svPrecompRounded Binary64.round Example.libm64 Example.dims19
        ((421 - Example.dims19.svTableMeanRadius) * ScoreValue.stepsPerUnit
          - ScoreValue.stepsPerUnit / 2)
      = -(4827653064180555 / 288230376151711744) ∧
    ScoreValue.tableEntryRounded Binary64.round Example.libm64 Example.dims19 421 0
      = some (-(1206913266045139 / 72057594037927936)) ∧
    (-(1206913266045139 / 72057594037927936) : ℚ)
      ≠ -(4827653064180555 / 288230376151711744) := by
  decide!

/-- C40, amended: the table built by `ScoreValue::initTables`, for a positive mean radius
and stdev length, a positive `exp` and an `atan` whose smooth utility
`atan(x) * twoOverPi` lies strictly between -1 and 1. Every entry at stdev bucket 0 is
the quotient of the sums `wsvSum` and `wSum` of 101 steps that all weigh the one smooth
utility at `score = (meanIdx - svTableMeanRadius) - 1/2`: computed with operations of
relative rounding error at most `u < 1` (`u = 2^-53` for `double`s) it is that stored
smooth utility times a factor between `(1-u)^103 / (1+u)^101` and
`(1+u)^103 / (1-u)^101`, and, the rounded computation with exact arithmetic being
`tableEntry`, in exact arithmetic it is exactly
`atan(score / svTableAssumedBSize) * twoOverPi`. In exact arithmetic every entry of the
table lies strictly between -1 and 1, and a lookup with `stdev = 0` for a mean inside the
bucket domain is the linear interpolation of the smooth utility between the half-integer
scaled scores `k - 1/2` and `k + 1/2`, `k` the rounding of the scaled mean. -/
theorem initTables_entries (fl : ℚ → ℚ) (u : ℚ) (hu0 : 0 ≤ u) (hu1 : u < 1)
    (hfl : ∀ x, |fl x - x| ≤ u * |x|)
    (M : Libm) (D : SVTableDims) (hR : 0 < D.svTableMeanRadius)
    (hL : 0 < D.svTableStdevLen) (hexp : ∀ x, 0 < M.exp x)
    (hatan : ∀ x, -1 < M.atan x * ScoreValue.twoOverPi ∧ M.atan x * ScoreValue.twoOverPi < 1)
    (table : Int → ℚ) (htable : ScoreValue.initTables M D = some table) :
    (∀ meanIdx : Int, 0 ≤ meanIdx → meanIdx < ScoreValue.svTableMeanLen D →
      ∃ ρ : ℚ,
        ScoreValue.tableEntryRounded fl M D meanIdx 0
          = some (ScoreValue.svPrecompRounded fl M D
              ((meanIdx - D.svTableMeanRadius) * ScoreValue.stepsPerUnit
                - ScoreValue.stepsPerUnit / 2) * ρ) ∧
        (1 - u) ^ 103 / (1 + u) ^ 101 ≤ ρ ∧ ρ ≤ (1 + u) ^ 103 / (1 - u) ^ 101) ∧
    (∀ meanIdx stdevIdx : Int,
      ScoreValue.tableEntryRounded id M D meanIdx stdevIdx
        = ScoreValue.tableEntry M D meanIdx stdevIdx) ∧
    (∀ meanIdx : Int, 0 ≤ meanIdx → meanIdx < ScoreValue.svTableMeanLen D →
      table (meanIdx * D.svTableStdevLen + 0)
        = M.atan ((((meanIdx - D.svTableMeanRadius : Int) : ℚ) - 1 / 2)
            / (D.svTableAssumedBSize : ℚ)) * ScoreValue.twoOverPi) ∧
    (∀ meanIdx stdevIdx : Int, 0 ≤ meanIdx → meanIdx < ScoreValue.svTableMeanLen D →
      0 ≤ stdevIdx → stdevIdx < D.svTableStdevLen →
      -1 < table (meanIdx * D.svTableStdevLen + stdevIdx) ∧
        table (meanIdx * D.svTableStdevLen + stdevIdx) < 1) ∧
    (∀ mean center scale sqrtBoardArea : ℚ,
      0 ≤ cround (ScoreValue.meanScaledOf D mean center scale sqrtBoardArea)
        + D.svTableMeanRadius →
      cround (ScoreValue.meanScaledOf D mean center scale sqrtBoardArea)
        + D.svTableMeanRadius + 1 < ScoreValue.svTableMeanLen D →
      ScoreValue.expectedWhiteScoreValue D table mean 0 center scale sqrtBoardArea
        = some (ScoreValue.smoothAtScaled M D
              ((cround (ScoreValue.meanScaledOf D mean center scale sqrtBoardArea) : ℚ) - 1 / 2)
            + (ScoreValue.meanScaledOf D mean center scale sqrtBoardArea
                - (cround (ScoreValue.meanScaledOf D mean center scale sqrtBoardArea) : ℚ)
                + 1 / 2)
              * (ScoreValue.smoothAtScaled M D
                  ((cround (ScoreValue.meanScaledOf D mean center scale sqrtBoardArea) : ℚ)
                    + 1 / 2)
                - ScoreValue.smoothAtScaled M D
                  ((cround (ScoreValue.meanScaledOf D mean center scale sqrtBoardArea) : ℚ)
                    - 1 / 2)))) := by
  obtain ⟨table2, ht2, hentries⟩ := initTables_spec M D
  rw [htable, Option.some.injEq] at ht2
  subst ht2
  refine ⟨fun meanIdx hm0 hm =>
      tableEntryRounded_stdev_zero fl u hu0 hu1 hfl M D hL hexp meanIdx hm0 hm,
    fun meanIdx stdevIdx => tableEntryRounded_id M D meanIdx stdevIdx, ?_, ?_, ?_⟩
  · intro meanIdx hm0 hm
    rw [table_stdev_zero M D hL hexp table htable meanIdx hm0 hm]
    show M.atan ((((meanIdx - D.svTableMeanRadius : Int) : ℚ) - 1 / 2 - 0)
        / (1 * (D.svTableAssumedBSize : ℚ))) * ScoreValue.twoOverPi = _
    rw [sub_zero, one_mul]
  · intro meanIdx stdevIdx hm0 hm hs0 hs
    obtain ⟨v, hv, b1, b2⟩ := tableEntry_bounds M D hexp hatan meanIdx stdevIdx hm0 hm hs0 hs
    have h := hentries meanIdx stdevIdx hm0 hm hs0 hs
    rw [hv, Option.some.injEq] at h
    rw [h]
    exact ⟨b1, b2⟩
  · intro mean center scale sqrtBoardArea hlo hhi
    rw [lookup_stdev_zero D hR hL table mean center scale sqrtBoardArea hlo hhi,
      table_stdev_zero M D hL hexp table htable _ hlo (by omega),
      table_stdev_zero M D hL hexp table htable _ (by omega) hhi]
    have ec0 : (((cround (ScoreValue.meanScaledOf D mean center scale sqrtBoardArea)
        + D.svTableMeanRadius - D.svTableMeanRadius : Int) : ℚ) - 1 / 2)
        = (cround (ScoreValue.meanScaledOf D mean center scale sqrtBoardArea) : ℚ) - 1 / 2 := by
      push_cast; ring
    have ec1 : (((cround (ScoreValue.meanScaledOf D mean center scale sqrtBoardArea)
        + D.svTableMeanRadius + 1 - D.svTableMeanRadius : Int) : ℚ) - 1 / 2)
        = (cround (ScoreValue.meanScaledOf D mean center scale sqrtBoardArea) : ℚ) + 1 / 2 := by
      push_cast; ring
    rw [ec0, ec1]

/-- Witness for the amended C40 with the rounding of `double` arithmetic, `u = 2^-53`, on
the table `Example.svTable` (mean radius 2, stdev length 2, board size 1, stand-in
`atan x = x / (1 + |x|)`): the entry of the mean bucket 3 at stdev bucket 0 is within the
rounding factors of the stored smooth utility, and in exact arithmetic it is the smooth
utility at the scaled score 1/2, that is `(1/3) * twoOverPi`. -/
theorem initTables_entries_witness :
    ScoreValue.initTables Example.libm Example.dims = some Example.svTable ∧
    (∃ ρ : ℚ,
      ScoreValue.tableEntryRounded Binary64.round Example.libm Example.dims 3 0
        = some (ScoreValue.svPrecompRounded Binary64.round Example.libm Example.dims
            ((3 - Example.dims.svTableMeanRadius) * ScoreValue.stepsPerUnit
              - ScoreValue.stepsPerUnit / 2) * ρ) ∧
      (1 - Binary64.unitRoundoff) ^ 103 / (1 + Binary64.unitRoundoff) ^ 101 ≤ ρ ∧
        ρ ≤ (1 + Binary64.unitRoundoff) ^ 103 / (1 - Binary64.unitRoundoff) ^ 101) ∧
    Example.svTable (3 * Example.dims.svTableStdevLen + 0)
      = Example.libm.atan ((((3 - Example.dims.svTableMeanRadius : Int) : ℚ) - 1 / 2)
          / (Example.dims.svTableAssumedBSize : ℚ)) * ScoreValue.twoOverPi ∧
    Example.libm.atan ((((3 - Example.dims.svTableMeanRadius : Int) : ℚ) - 1 / 2)
        / (Example.dims.svTableAssumedBSize : ℚ)) = 1 / 3 :=
  ⟨by rfl,
    (initTables_entries Binary64.round Binary64.unitRoundoff (by decide!) (by decide!)
      Binary64.round_error Example.libm Example.dims (by decide) (by decide)
      Example.libm_exp_pos Example.libm_atan_bounds Example.svTable (by rfl)).1 3 (by decide)
      (by decide),
    (initTables_entries Binary64.round Binary64.unitRoundoff (by decide!) (by decide!)
      Binary64.round_error Example.libm Example.dims (by decide) (by decide)
      Example.libm_exp_pos Example.libm_atan_bounds Example.svTable (by rfl)).2.2.1 3
      (by decide) (by decide),
    by decide!⟩

end KataGo
